import Mathlib

/-! # Kinetic path sampling: basin setup, sub-network extraction, graph transformation

A shallow embedding of `kps.cpp`.  Nodes and edges live in the arrays of their
network and are referred to by position.  The singly linked list that starts at
`top_from` and runs through `next_from` is the list of edge positions
`Node.top_from`; a pointer to a node or an edge is a `Ref`.  Floating point
numbers are exact rationals.  A run that dereferences a null pointer, indexes a
vector outside its size or calls `exit(EXIT_FAILURE)` ends in a `Fault`.
-/

namespace Discotress

/-- How a run ends when it does not return. -/
inductive Fault where
  /-- A null pointer was dereferenced. -/
  | null_deref
  /-- A vector was indexed outside its size, or a pointer led outside its network. -/
  | out_of_range
  /-- The count check at the end of `get_subnetwork` called `exit(EXIT_FAILURE)`. -/
  | subnetwork_mismatch
  /-- The count check at the end of `graph_transformation` called `exit(EXIT_FAILURE)`. -/
  | lost_track
  /-- The iteration bound of the model was used up (never reached on a finite map). -/
  | fuel
  /-- The statement `throw exception()` was executed. -/
  | thrown
  /-- A call of `vector::reserve` for more than `max_size()` elements threw
  `std::length_error`. -/
  | length_error
  deriving DecidableEq, Repr

deriving instance DecidableEq for Except

/-- A pointer to a node or an edge. -/
inductive Ref where
  /-- The value `nullptr`. -/
  | null
  /-- The object at position `i` of the network that holds the pointer. -/
  | own (i : Nat)
  /-- The object at position `i` of another network: what a pointer of a sub-network
  would be that still led into the network the sub-network was copied from. -/
  | outer (i : Nat)
  deriving DecidableEq, Repr

structure Node where
  node_id : Int
  comm_id : Int
  bin_id : Int
  aorb : Int
  udeg : Nat
  eliminated : Bool
  flag : Bool
  k_esc : ℚ
  t : ℚ
  pi : ℚ
  /-- Positions of the edges on the chain `top_from`, `next_from`, ... -/
  top_from : List Nat
  /-- Positions of the edges on the chain `top_to`, `next_to`, ... -/
  top_to : List Nat
  deriving DecidableEq, Repr

structure Edge where
  edge_pos : Nat
  k : ℚ
  t : ℚ
  deadts : Bool
  to_node : Ref
  from_node : Ref
  rev_edge : Ref
  deriving DecidableEq, Repr

structure Network where
  nodes : List Node
  edges : List Edge
  n_nodes : Nat
  n_edges : Nat
  deriving DecidableEq, Repr

/-- The members of class `KPS` that the functions of `kps.cpp` read or write. -/
structure KPS where
  nelim : Int
  n_abpaths : Int
  n_kpsmaxit : Int
  adaptivebins : Bool
  initcond : Bool
  debug : Bool
  basin_ids : List Nat
  N_c : Nat
  N : Nat
  N_B : Nat
  N_e : Nat
  /-- Position in the full network of the occupied node. -/
  epsilon : Option Nat
  alpha : Option Nat
  /-- Positions in `ktn_kps` of the eliminated nodes, in order of elimination. -/
  eliminated_nodes : List Nat
  /-- The `std::map<int,int>`, as its entries in ascending order of key. -/
  nodemap : List (Int × Nat)
  h : List Int
  ktn_kps : Option Network
  ktn_kps_orig : Option Network
  ktn_l : Option Network
  ktn_u : Option Network
  deriving DecidableEq, Repr

/-- Modelled from the spec: the value of a default-constructed `Node` (the
declaration of `Node` is in a header that is not part of the sources at hand):
no attribute set, not eliminated, no edge on its adjacency lists. -/
def Node.blank : Node :=
  { node_id := 0, comm_id := -1, bin_id := -1, aorb := 0, udeg := 0, eliminated := false,
    flag := false, k_esc := 0, t := 0, pi := 0, top_from := [], top_to := [] }

/-- Modelled from the spec: the value of a default-constructed `Edge` (the
declaration of `Edge` is in a header that is not part of the sources at hand):
not dead, all pointers null. -/
def Edge.blank : Edge :=
  { edge_pos := 0, k := 0, t := 0, deadts := false, to_node := Ref.null, from_node := Ref.null,
    rev_edge := Ref.null }

/-- Modelled from the spec: `Network::Network(nnodes, nedges)`, defined outside
the sources at hand: an array of `nnodes` nodes and an array with room for both
directions of `nedges` edges. -/
def Network.create (nnodes nedges : Nat) : Network :=
  { nodes := List.replicate nnodes Node.blank, edges := List.replicate (2 * nedges) Edge.blank,
    n_nodes := nnodes, n_edges := nedges }

/-- Modelled from the spec: assignment of a `Node` (`a = b`), declared outside
the sources at hand: every attribute of the node is preserved and the copy owns
no edge of the network it was copied from. -/
def Node.assign (src : Node) : Node :=
  { src with top_from := [], top_to := [] }

/-- `v[i]` on a vector, for an `int` index. -/
def vec_get {α : Type} (v : List α) (i : Int) : Except Fault α :=
  if i < 0 then Except.error Fault.out_of_range
  else match v[i.toNat]? with
    | some a => Except.ok a
    | none => Except.error Fault.out_of_range

/-- `v[i] = a` on a vector, for an `int` index. -/
def vec_set {α : Type} (v : List α) (i : Int) (a : α) : Except Fault (List α) :=
  if i < 0 then Except.error Fault.out_of_range
  else if i.toNat < v.length then Except.ok (v.set i.toNat a)
  else Except.error Fault.out_of_range

/-- `*p` for a pointer `p` to a node of `g`. -/
def Network.node_of (g : Network) : Ref → Except Fault Node
  | Ref.null => Except.error Fault.null_deref
  | Ref.own i => vec_get g.nodes i
  | Ref.outer _ => Except.error Fault.out_of_range

/-- `*p` for a pointer `p` to an edge of `g`. -/
def Network.edge_of (g : Network) : Ref → Except Fault Edge
  | Ref.null => Except.error Fault.null_deref
  | Ref.own i => vec_get g.edges i
  | Ref.outer _ => Except.error Fault.out_of_range

/-- The value `epsilon->comm_id`, read in the full network.  With `needed = false`
no statement that reads it is reached, and no read takes place. -/
def eps_comm_id (ktn : Network) (eps : Option Nat) (needed : Bool) : Except Fault Int :=
  if needed then
    match eps with
    | none => Except.error Fault.null_deref
    | some p =>
      match vec_get ktn.nodes p with
      | Except.error f => Except.error f
      | Except.ok en => Except.ok en.comm_id
  else Except.ok 0

/-- First loop of `setup_basin_sets` (lines 85-89), over the node positions `is`. -/
def basin_loop (ktn : Network) (c : Int) : List Nat → KPS → Except Fault KPS
  | [], st => Except.ok st
  | i :: is, st =>
    match vec_get ktn.nodes i with
    | Except.error f => Except.error f
    | Except.ok nd =>
      if nd.comm_id = c then
        match vec_set st.basin_ids i 3 with
        | Except.error f => Except.error f
        | Except.ok ids =>
          basin_loop ktn c is { st with basin_ids := ids, N_B := st.N_B + 1, N_e := st.N_e + nd.udeg }
      else basin_loop ktn c is st

/-- One pass of the `while (edgeptr!=nullptr)` loop of `setup_basin_sets` (lines
96-101), for the edge at position `x`. -/
def boundary_mark (ktn : Network) (c : Int) (st : KPS) (x : Nat) : Except Fault KPS :=
  match vec_get ktn.edges x with
  | Except.error f => Except.error f
  | Except.ok e =>
    if e.deadts then Except.ok st
    else
      match ktn.node_of e.to_node with
      | Except.error f => Except.error f
      | Except.ok tn =>
        if tn.comm_id ≠ c then
          match vec_get st.basin_ids (tn.node_id - 1) with
          | Except.error f => Except.error f
          | Except.ok lab =>
            if lab = 0 then
              match vec_set st.basin_ids (tn.node_id - 1) 1 with
              | Except.error f => Except.error f
              | Except.ok ids => Except.ok { st with basin_ids := ids, N_c := st.N_c + 1 }
            else Except.ok st
        else Except.ok st

/-- The `while (edgeptr!=nullptr)` loop of `setup_basin_sets` (lines 95-102), over
the chain `xs` of outgoing edges of one basin node. -/
def boundary_walk (ktn : Network) (c : Int) : List Nat → KPS → Except Fault KPS
  | [], st => Except.ok st
  | x :: xs, st =>
    match boundary_mark ktn c st x with
    | Except.error f => Except.error f
    | Except.ok st1 => boundary_walk ktn c xs st1

/-- Second loop of `setup_basin_sets` (lines 92-103), over the node positions `is`. -/
def boundary_loop (ktn : Network) (c : Int) : List Nat → KPS → Except Fault KPS
  | [], st => Except.ok st
  | i :: is, st =>
    match vec_get st.basin_ids i with
    | Except.error f => Except.error f
    | Except.ok lab =>
      if lab ≠ 3 then boundary_loop ktn c is st
      else
        match vec_get ktn.nodes i with
        | Except.error f => Except.error f
        | Except.ok nd =>
          match boundary_walk ktn c nd.top_from st with
          | Except.error f => Except.error f
          | Except.ok st1 => boundary_loop ktn c is st1

/-- Lines 49-79 of `setup_basin_sets`: the node `epsilon` points at afterwards.
The draw of a start node from set B (lines 50-73) is taken as its outcome `draw`:
the node it assigns to `epsilon`, if it assigns one. -/
def KPS.choose_epsilon (st : KPS) (draw : Option Nat) : Option Nat :=
  match st.alpha with
  | some a => some a
  | none =>
    if st.initcond then st.epsilon
    else
      match draw with
      | some d => some d
      | none => st.epsilon

/-- Lines 108-115 of `setup_basin_sets`: `eliminated_nodes` and `nodemap` are emptied
and room is reserved in `eliminated_nodes` for the least of `N_B` and `nelim`.  That
number is an `int` which the call converts to `size_t`: a negative one becomes a size
above `max_size()`, and `reserve` throws `std::length_error`.  With `debug` set,
`epsilon->comm_id` is then read for the message. -/
def KPS.reset_eliminated (ktn : Network) (st : KPS) : Except Fault KPS :=
  if (if ¬ ((st.N_B : Int) > st.nelim) then (st.N_B : Int) else st.nelim) < 0 then
    Except.error Fault.length_error
  else
    match eps_comm_id ktn st.epsilon st.debug with
    | Except.error f => Except.error f
    | Except.ok _ => Except.ok { st with eliminated_nodes := [], nodemap := [] }

/-- `KPS::setup_basin_sets`. -/
def KPS.setup_basin_sets (ktn : Network) (draw : Option Nat) (st : KPS) : Except Fault KPS :=
  let eps : Option Nat := st.choose_epsilon draw
  let st0 : KPS :=
    { st with N_c := 0, N := 0, N_B := 0, N_e := 0, epsilon := eps, alpha := none,
              basin_ids := List.replicate st.basin_ids.length 0 }
  if st.adaptivebins then st0.reset_eliminated ktn
  else
    match eps_comm_id ktn eps (decide (ktn.n_nodes ≠ 0)) with
    | Except.error f => Except.error f
    | Except.ok c =>
      match basin_loop ktn c (List.range ktn.n_nodes) st0 with
      | Except.error f => Except.error f
      | Except.ok st1 =>
        match boundary_loop ktn c (List.range ktn.n_nodes) st1 with
        | Except.error f => Except.error f
        | Except.ok st2 => st2.reset_eliminated ktn

/-! ## `std::map<int,int> nodemap` -/

/-- Lookup of a key (`find`). -/
def map_find : List (Int × Nat) → Int → Option Nat
  | [], _ => none
  | (k, v) :: m, key => if key = k then some v else map_find m key

/-- Store `v` under `key`, keeping the entries in ascending order of key. -/
def map_insert : List (Int × Nat) → Int → Nat → List (Int × Nat)
  | [], key, v => [(key, v)]
  | (k, w) :: m, key, v =>
    if key < k then (key, v) :: (k, w) :: m
    else if key = k then (k, v) :: m
    else (k, w) :: map_insert m key v

/-- Read access `m[key]` (`operator[]`): an absent key is first inserted with value 0. -/
def map_index (m : List (Int × Nat)) (key : Int) : Nat × List (Int × Nat) :=
  match map_find m key with
  | some v => (v, m)
  | none => (0, map_insert m key 0)

/-- The entries an iterator standing at `key` still has before it. -/
def map_after (m : List (Int × Nat)) (key : Int) : List (Int × Nat) :=
  m.filter (fun kv => decide (key < kv.1))

/-! ## `get_subnetwork` -/

/-- Local variables of `get_subnetwork`, with the member `nodemap`. -/
structure Extract where
  ktnptr : Network
  k : Nat
  n : Nat
  edgemask : List Bool
  nodemap : List (Int × Nat)
  deriving DecidableEq, Repr

/-- Modelled from the spec: assignment of an `Edge` (`a = b`), declared outside the
sources at hand: the copy has the properties of the edge it is copied from (position,
rate, probability, dead flag) and, like the copy of a node, no pointer into the network
it is copied from: a sub-network does not alias nodes or edges of its parent, and an
edge of a sub-network whose reverse edge is not copied has the reverse edge pointer
`nullptr` (comment of line 207). -/
def Edge.assign (src : Edge) : Edge :=
  { src with to_node := Ref.null, from_node := Ref.null, rev_edge := Ref.null }

/-- Modelled from the spec: `Network::add_from_edge(i, j)`, defined outside the
sources at hand: edge `j` is put at the head of the chain of outgoing edges of node `i`. -/
def Network.add_from_edge (g : Network) (i j : Nat) : Except Fault Network :=
  match g.nodes[i]? with
  | none => Except.error Fault.out_of_range
  | some nd => Except.ok { g with nodes := g.nodes.set i { nd with top_from := j :: nd.top_from } }

/-- Modelled from the spec: `Network::add_to_edge(i, j)`, defined outside the
sources at hand: edge `j` is put at the head of the chain of incoming edges of node `i`. -/
def Network.add_to_edge (g : Network) (i j : Nat) : Except Fault Network :=
  match g.nodes[i]? with
  | none => Except.error Fault.out_of_range
  | some nd => Except.ok { g with nodes := g.nodes.set i { nd with top_to := j :: nd.top_to } }

/-- The node loop of `get_subnetwork` (lines 183-187), over the node positions `is`,
with `j` the number of nodes copied so far. -/
def copy_nodes (ktn : Network) (basin_ids : List Nat) :
    List Nat → Nat → List (Int × Nat) → Network → Except Fault (Nat × List (Int × Nat) × Network)
  | [], j, nm, g => Except.ok (j, nm, g)
  | i :: is, j, nm, g =>
    match vec_get basin_ids i with
    | Except.error f => Except.error f
    | Except.ok lab =>
      if lab = 0 then copy_nodes ktn basin_ids is j nm g
      else
        match vec_get ktn.nodes i with
        | Except.error f => Except.error f
        | Except.ok nd =>
          if j < g.nodes.length then
            copy_nodes ktn basin_ids is (j + 1) (map_insert nm i j)
              { g with nodes := g.nodes.set j nd.assign }
          else Except.error Fault.out_of_range

/-- Lines 198-204 and again 208-213 of `get_subnetwork`: the edge `e` of the full
network is copied to position `k` of the sub-network and wired to its end nodes.
The two reads of `nodemap` per end node return the same value; each is made once. -/
def place_edge (ktn : Network) (e : Edge) (s : Extract) : Except Fault Extract :=
  if s.k < s.ktnptr.edges.length then
    match ktn.node_of e.from_node with
    | Except.error f => Except.error f
    | Except.ok fn =>
      match ktn.node_of e.to_node with
      | Except.error f => Except.error f
      | Except.ok tn =>
        let r1 := map_index s.nodemap (fn.node_id - 1)
        let r2 := map_index r1.2 (tn.node_id - 1)
        let copy : Edge :=
          { e.assign with edge_pos := s.k, from_node := Ref.own r1.1, to_node := Ref.own r2.1 }
        let g1 : Network := { s.ktnptr with edges := s.ktnptr.edges.set s.k copy }
        match g1.add_from_edge r1.1 s.k with
        | Except.error f => Except.error f
        | Except.ok g2 =>
          match g2.add_to_edge r2.1 s.k with
          | Except.error f => Except.error f
          | Except.ok g3 =>
            if e.edge_pos < s.edgemask.length then
              Except.ok { s with ktnptr := g3, k := s.k + 1, nodemap := r2.2,
                                 edgemask := s.edgemask.set e.edge_pos true }
            else Except.error Fault.out_of_range
  else Except.error Fault.out_of_range

/-- Lines 214-215 of `get_subnetwork`, run when `k` already counts the forward edge:
`edges[k-1]` and `edges[k]` become each other's `rev_edge`. -/
def pair_edges (g : Network) (k : Nat) : Except Fault Network :=
  match g.edges[k - 1]?, g.edges[k]? with
  | some a, some b =>
    Except.ok { g with edges := (g.edges.set (k - 1) { a with rev_edge := Ref.own k }).set k
                                  { b with rev_edge := Ref.own (k - 1) } }
  | _, _ => Except.error Fault.out_of_range

/-- One pass of the `while (edgeptr!=nullptr)` loop of `get_subnetwork` (lines
197-216), for the edge at position `x` of the full network. -/
def copy_edge (ktn : Network) (c : Int) (s : Extract) (x : Nat) : Except Fault Extract :=
  match vec_get ktn.edges x with
  | Except.error f => Except.error f
  | Except.ok e =>
    if e.deadts then Except.ok s
    else
      match vec_get s.edgemask e.edge_pos with
      | Except.error f => Except.error f
      | Except.ok true => Except.ok s
      | Except.ok false =>
        match place_edge ktn e s with
        | Except.error f => Except.error f
        | Except.ok s1 =>
          match ktn.edge_of e.rev_edge with
          | Except.error f => Except.error f
          | Except.ok r =>
            if r.deadts then Except.ok s1
            else
              match ktn.node_of r.from_node with
              | Except.error f => Except.error f
              | Except.ok rf =>
                if rf.comm_id ≠ c then Except.ok s1
                else
                  match vec_get s1.edgemask r.edge_pos with
                  | Except.error f => Except.error f
                  | Except.ok true => Except.ok s1
                  | Except.ok false =>
                    match place_edge ktn r s1 with
                    | Except.error f => Except.error f
                    | Except.ok s2 =>
                      match pair_edges s2.ktnptr (s2.k - 1) with
                      | Except.error f => Except.error f
                      | Except.ok g => Except.ok { s2 with ktnptr := g }

/-- The `while (edgeptr!=nullptr)` loop of `get_subnetwork` (lines 196-217), over the
chain `xs` of outgoing edges of one basin node. -/
def copy_edges (ktn : Network) (c : Int) : List Nat → Extract → Except Fault Extract
  | [], s => Except.ok s
  | x :: xs, s =>
    match copy_edge ktn c s x with
    | Except.error f => Except.error f
    | Except.ok s1 => copy_edges ktn c xs s1

/-- The loop over `nodemap` of `get_subnetwork` (lines 191-218).  `todo` holds the
entries the iterator has not reached yet; an entry that the body inserts behind the
iterator is visited in its turn.  `fuel` bounds the number of visits. -/
def wire_loop (ktn : Network) (c : Int) : Nat → List (Int × Nat) → Extract → Except Fault Extract
  | _, [], s => Except.ok s
  | 0, _ :: _, _ => Except.error Fault.fuel
  | fuel + 1, (key, _) :: _, s =>
    match vec_get ktn.nodes key with
    | Except.error f => Except.error f
    | Except.ok nd =>
      if nd.comm_id ≠ c then
        wire_loop ktn c fuel (map_after s.nodemap key) { s with n := s.n + 1 }
      else
        match copy_edges ktn c nd.top_from { s with n := s.n + 1 } with
        | Except.error f => Except.error f
        | Except.ok s1 => wire_loop ktn c fuel (map_after s1.nodemap key) s1

/-- Lines 180-218 of `get_subnetwork`: the local variables when the loops are done. -/
def KPS.extract (ktn : Network) (st : KPS) : Except Fault Extract :=
  let g0 : Network := { Network.create (st.N_B + st.N_c) st.N_e with
                        edges := List.replicate st.N_e Edge.blank }
  match copy_nodes ktn st.basin_ids (List.range ktn.n_nodes) 0 st.nodemap g0 with
  | Except.error f => Except.error f
  | Except.ok (_, nm, g1) =>
    match eps_comm_id ktn st.epsilon (decide (nm ≠ [])) with
    | Except.error f => Except.error f
    | Except.ok c =>
      wire_loop ktn c (nm.length + ktn.nodes.length + 1) nm
        { ktnptr := g1, k := 0, n := 0, edgemask := List.replicate (2 * ktn.n_edges) false,
          nodemap := nm }

/-- `KPS::get_subnetwork`: the sub-network returned and the state with the updated `nodemap`. -/
def KPS.get_subnetwork (ktn : Network) (st : KPS) : Except Fault (Network × KPS) :=
  match st.extract ktn with
  | Except.error f => Except.error f
  | Except.ok s =>
    if s.n ≠ st.N_B + st.N_c ∨ s.k ≠ st.N_e then Except.error Fault.subnetwork_mismatch
    else Except.ok (s.ktnptr, { st with nodemap := s.nodemap })

/-! ## `gt_iteration` and `graph_transformation` -/

/-- A read through an edge pointer of the sub-network `g` (`p->k`, `p->t`): the
pointer must not be null and must point at an edge of `g`; no copy that
`get_subnetwork` makes holds a pointer into the full network `ktn`, and one that did
would be read there. -/
def touch_edge (ktn g : Network) : Ref → Except Fault Unit
  | Ref.null => Except.error Fault.null_deref
  | Ref.own i => if i < g.edges.length then Except.ok () else Except.error Fault.out_of_range
  | Ref.outer i => if i < ktn.edges.length then Except.ok () else Except.error Fault.out_of_range

/-- Lines 230-232 of `gt_iteration`: the values printed are read through `top_from`
and, when the first edge leads to a basin node, through its `rev_edge`. -/
def gt_report (ktn g : Network) (c : Int) (nd : Node) : Except Fault Unit :=
  match nd.top_from with
  | [] => Except.error Fault.null_deref
  | x :: _ =>
    match vec_get g.edges x with
    | Except.error f => Except.error f
    | Except.ok e =>
      match g.node_of e.to_node with
      | Except.error f => Except.error f
      | Except.ok tn => if tn.comm_id = c then touch_edge ktn g e.rev_edge else Except.ok ()

/-- The summation loop of `gt_iteration` (lines 235-239), over the chain `xs`. -/
def factor_sum (g : Network) : List Nat → ℚ → Except Fault ℚ
  | [], acc => Except.ok acc
  | x :: xs, acc =>
    match vec_get g.edges x with
    | Except.error f => Except.error f
    | Except.ok e =>
      if e.deadts then factor_sum g xs acc
      else
        match g.node_of e.to_node with
        | Except.error f => Except.error f
        | Except.ok tn =>
          if tn.eliminated then factor_sum g xs acc else factor_sum g xs (acc + e.t)

/-- Lines 233-240 of `gt_iteration`: the value of `factor` for the node `nd` of `g`. -/
def gt_factor (g : Network) (nd : Node) : Except Fault ℚ :=
  if nd.t > 999 / 1000 then factor_sum g nd.top_from 0 else Except.ok (1 - nd.t)

/-- One pass of the update loop of `gt_iteration` (lines 253-263), for the edge at
position `x` of the chain of the node at position `n`.  The entries written to
`nodes_nbrs` and `nbrnode_map` are read by no statement that is compiled; of them
only the read through `rev_edge` is kept. -/
def boost_edge (ktn : Network) (c : Int) (n : Nat) (factor : ℚ) (g : Network) (x : Nat) :
    Except Fault Network :=
  match vec_get g.edges x with
  | Except.error f => Except.error f
  | Except.ok e =>
    if e.deadts then Except.ok g
    else
      match e.to_node with
      | Ref.null => Except.error Fault.null_deref
      | Ref.outer _ => Except.error Fault.out_of_range
      | Ref.own j =>
        match g.nodes[j]? with
        | none => Except.error Fault.out_of_range
        | some tn =>
          if tn.eliminated then Except.ok g
          else
            let g1 : Network := { g with nodes := g.nodes.set j { tn with flag := true } }
            match (if tn.comm_id = c then touch_edge ktn g1 e.rev_edge else Except.ok ()) with
            | Except.error f => Except.error f
            | Except.ok _ =>
              match g1.nodes[n]? with
              | none => Except.error Fault.out_of_range
              | some ne =>
                Except.ok { g1 with edges := g1.edges.set x { e with t := e.t + e.t * ne.t * factor } }

/-- The update loop of `gt_iteration` (lines 251-264) for the node at position `n`,
over the chain `xs`. -/
def boost_edges (ktn : Network) (c : Int) (n : Nat) (factor : ℚ) :
    List Nat → Network → Except Fault Network
  | [], g => Except.ok g
  | x :: xs, g =>
    match boost_edge ktn c n factor g x with
    | Except.error f => Except.error f
    | Except.ok g1 => boost_edges ktn c n factor xs g1

/-- `KPS::gt_iteration` on the working sub-network `g`, for the node at position `n`
of `g`; `c` is `epsilon->comm_id`. -/
def gt_iteration (ktn : Network) (c : Int) (g : Network) (n : Nat) : Except Fault Network :=
  match vec_get g.nodes n with
  | Except.error f => Except.error f
  | Except.ok nd =>
    match gt_report ktn g c nd with
    | Except.error f => Except.error f
    | Except.ok _ =>
      match gt_factor g nd with
      | Except.error f => Except.error f
      | Except.ok factor =>
        match boost_edges ktn c n factor nd.top_from g with
        | Except.error f => Except.error f
        | Except.ok g1 =>
          match g1.nodes[n]? with
          | none => Except.error Fault.out_of_range
          | some ne => Except.ok { g1 with nodes := g1.nodes.set n { ne with eliminated := true } }

/-- The out-degree the comparison of the priority queue reads through a node pointer. -/
def udeg_at (g : Network) (i : Nat) : Nat :=
  match g.nodes[i]? with
  | some nd => nd.udeg
  | none => 0

/-- The contract of `top()` of the `std::priority_queue` of line 158.  `top g q` stands
for the node that `gt_pq.top()` returns when the queue holds the nodes `q`, listed in
the order in which they were pushed, and the working sub-network is `g`: a node of the
queue that no other precedes, which under the comparison `l->udeg >= r->udeg` is a node
of least out-degree.  Which of several nodes of least out-degree is served is a matter
of the heap of the library, and is left open. -/
def pq_contract (top : Network → List Nat → Nat) : Prop :=
  ∀ (g : Network) (q : List Nat), q ≠ [] →
    top g q ∈ q ∧ ∀ b ∈ q, udeg_at g (top g q) ≤ udeg_at g b

/-- A priority queue that meets `pq_contract`: of the queued nodes of least out-degree
it serves the one pushed last. -/
def pq_top (g : Network) : List Nat → Nat
  | [] => 0
  | [i] => i
  | i :: j :: q => if udeg_at g i < udeg_at g (pq_top g (j :: q)) then i else pq_top g (j :: q)

/-- The loop that fills the priority queue (lines 159-162), over the node positions `is`. -/
def pq_fill (g : Network) (c : Int) : List Nat → List Nat
  | [] => []
  | i :: is =>
    match g.nodes[i]? with
    | some nd => if nd.comm_id ≠ c then pq_fill g c is else i :: pq_fill g c is
    | none => pq_fill g c is

/-- The elimination loop of `graph_transformation` (lines 164-171); `top` is the
`top()` of the priority queue, `q` the nodes the queue holds.  Each pass removes a node
from the queue; `fuel` bounds the number of passes. -/
def gt_loop (top : Network → List Nat → Nat) (ktn : Network) (c : Int) (nelim : Int) :
    Nat → List Nat → Network → List Nat → Nat → Except Fault (Network × List Nat × Nat)
  | 0, q, g, elim, N =>
    if q ≠ [] ∧ (N : Int) < nelim then Except.error Fault.fuel else Except.ok (g, elim, N)
  | fuel + 1, q, g, elim, N =>
    if q ≠ [] ∧ (N : Int) < nelim then
      match gt_iteration ktn c g (top g q) with
      | Except.error f => Except.error f
      | Except.ok g1 =>
        gt_loop top ktn c nelim fuel (q.erase (top g q)) g1 (elim ++ [top g q]) (N + 1)
    else Except.ok (g, elim, N)

/-- The loop of lines 152-156 of `graph_transformation`, over the node positions `is`:
`L` and `U` receive the nodes of the working sub-network `g` with `t` set to zero. -/
def undo_nodes (g : Network) : List Nat → Network → Network → Except Fault (Network × Network)
  | [], l, u => Except.ok (l, u)
  | i :: is, l, u =>
    match g.nodes[i]? with
    | none => Except.error Fault.out_of_range
    | some nd =>
      if i < l.nodes.length ∧ i < u.nodes.length then
        undo_nodes g is { l with nodes := l.nodes.set i { nd.assign with t := 0 } }
          { u with nodes := u.nodes.set i { nd.assign with t := 0 } }
      else Except.error Fault.out_of_range

/-- `KPS::graph_transformation`; `top` is the `top()` of the priority queue. -/
def KPS.graph_transformation (top : Network → List Nat → Nat) (ktn : Network) (st : KPS) :
    Except Fault KPS :=
  match st.get_subnetwork ktn with
  | Except.error f => Except.error f
  | Except.ok (kps, st1) =>
    match st1.get_subnetwork ktn with
    | Except.error f => Except.error f
    | Except.ok (orig, st2) =>
      match undo_nodes kps (List.range kps.n_nodes) (Network.create (st2.N_B + st2.N_c) 0)
          (Network.create (st2.N_B + st2.N_c) 0) with
      | Except.error f => Except.error f
      | Except.ok (l, u) =>
        match eps_comm_id ktn st2.epsilon (decide (kps.nodes ≠ [])) with
        | Except.error f => Except.error f
        | Except.ok c =>
          let gt_pq := pq_fill kps c (List.range kps.nodes.length)
          match gt_loop top ktn c st2.nelim gt_pq.length gt_pq kps st2.eliminated_nodes st2.N with
          | Except.error f => Except.error f
          | Except.ok (g, elim, N) =>
            if (N : Int) ≠ (if ¬ ((st2.N_B : Int) > st2.nelim) then (st2.N_B : Int) else st2.nelim) then
              Except.error Fault.lost_track
            else
              Except.ok { st2 with ktn_kps := some g, ktn_kps_orig := some orig, ktn_l := some l,
                                   ktn_u := some u, eliminated_nodes := elim, N := N,
                                   h := List.replicate gt_pq.length 0 }

/-! ## Views of a network -/

/-- The chain of outgoing edges of the node at position `i`. -/
def Network.chain (g : Network) (i : Nat) : List Nat :=
  match g.nodes[i]? with
  | some nd => nd.top_from
  | none => []

/-- Whether there is an edge at position `x` that is not dead. -/
def Network.live (g : Network) (x : Nat) : Bool :=
  match g.edges[x]? with
  | some e => !e.deadts
  | none => false

/-- The position of the node the edge at `x` leads to, when `to_node` points at a node of `g`. -/
def Network.target (g : Network) (x : Nat) : Option Nat :=
  match g.edges[x]? with
  | some e =>
    match e.to_node with
    | Ref.own j => if j < g.nodes.length then some j else none
    | _ => none
  | none => none

/-- The position of the node the edge at `x` leaves, when `from_node` points at a node of `g`. -/
def Network.source (g : Network) (x : Nat) : Option Nat :=
  match g.edges[x]? with
  | some e =>
    match e.from_node with
    | Ref.own j => if j < g.nodes.length then some j else none
    | _ => none
  | none => none

/-- The transition probability `t` of the edge at `x`. -/
def Network.prob (g : Network) (x : Nat) : ℚ :=
  match g.edges[x]? with
  | some e => e.t
  | none => 0

/-- The community of the node at `i`. -/
def Network.comm (g : Network) (i : Nat) : Option Int :=
  match g.nodes[i]? with
  | some nd => some nd.comm_id
  | none => none

/-- Whether the node at `i` is flagged `eliminated`. -/
def Network.elim (g : Network) (i : Nat) : Bool :=
  match g.nodes[i]? with
  | some nd => nd.eliminated
  | none => false

/-- Whether the edge at `x` leads to a node flagged `eliminated`. -/
def Network.to_elim (g : Network) (x : Nat) : Bool :=
  match g.target x with
  | some j => g.elim j
  | none => false

/-- The sum of the probabilities of the live edges among `xs`. -/
def Network.live_sum (g : Network) (xs : List Nat) : ℚ :=
  ((xs.filter (fun x => g.live x)).map g.prob).sum

/-- The sum of the probabilities of the live edges among `xs` that lead to a node
not flagged `eliminated`. -/
def Network.escape_sum (g : Network) (xs : List Nat) : ℚ :=
  ((xs.filter (fun x => g.live x && !g.to_elim x)).map g.prob).sum

/-- The self-transition probability `t` of the node at `i`. -/
def Network.self_prob (g : Network) (i : Nat) : ℚ :=
  match g.nodes[i]? with
  | some nd => nd.t
  | none => 0

/-- An edge without its transition probability. -/
def Edge.frame (e : Edge) : Edge := { e with t := 0 }

/-- A node without its marks `flag` and `eliminated`. -/
def Node.frame (nd : Node) : Node := { nd with flag := false, eliminated := false }

/-- `g'` has the nodes and edges of `g`, up to the probabilities of edges and the
marks `flag` and `eliminated` of nodes. -/
structure Network.same_shape (g g' : Network) : Prop where
  n_nodes : g'.n_nodes = g.n_nodes
  n_edges : g'.n_edges = g.n_edges
  nodes_length : g'.nodes.length = g.nodes.length
  edges_length : g'.edges.length = g.edges.length
  edges : ∀ x : Nat, (g'.edges[x]?).map Edge.frame = (g.edges[x]?).map Edge.frame
  nodes : ∀ j : Nat, (g'.nodes[j]?).map Node.frame = (g.nodes[j]?).map Node.frame

/-- Whether a read through the edge pointer `r` held in `g` succeeds. -/
def touchable (ktn g : Network) : Ref → Bool
  | Ref.null => false
  | Ref.own i => decide (i < g.edges.length)
  | Ref.outer i => decide (i < ktn.edges.length)

/-- Whether the loops of `gt_iteration` can pass over the edge at `x`: the edge
exists, its `to_node` points at a node of `g`, and its `rev_edge` can be read
through when that node is of community `c`. -/
def Network.edge_ready (g ktn : Network) (c : Int) (x : Nat) : Bool :=
  match g.edges[x]? with
  | none => false
  | some e =>
    match e.to_node with
    | Ref.own j =>
      match g.nodes[j]? with
      | none => false
      | some tn => decide (tn.comm_id ≠ c) || touchable ktn g e.rev_edge
    | _ => false

/-- The value `gt_iteration` gives to `factor` for the node at position `n`, in the
words of its description: one minus the self-transition probability, or, above the
threshold, the sum of the probabilities of the live edges to nodes still present. -/
def Network.factor_of (g : Network) (n : Nat) : ℚ :=
  if g.self_prob n > 999 / 1000 then g.escape_sum (g.chain n) else 1 - g.self_prob n

/-! ## A small network -/

/-- A node that is neither eliminated nor flagged, with the given id, community,
out-degree, self-transition probability and chain of outgoing edges. -/
def mk_node (id c : Int) (u : Nat) (t : ℚ) (fr : List Nat) : Node :=
  { node_id := id, comm_id := c, bin_id := 0, aorb := 0, udeg := u, eliminated := false,
    flag := false, k_esc := 0, t := t, pi := 0, top_from := fr, top_to := [] }

/-- A live edge at position `p` from node `f` to node `tn` with probability `t` and
reverse edge `r`. -/
def mk_edge (p : Nat) (t : ℚ) (f tn : Nat) (r : Ref) : Edge :=
  { edge_pos := p, k := 0, t := t, deadts := false, to_node := Ref.own tn, from_node := Ref.own f,
    rev_edge := r }

/-- A network of four nodes: nodes 0 and 1 form community 0, node 2 is their only
neighbour outside, node 3 is a neighbour of node 2 alone.  Every edge has its
reverse edge. -/
def demo_ktn : Network :=
  { nodes := [mk_node 1 0 2 0 [0, 2], mk_node 2 0 1 0 [1], mk_node 3 1 2 0 [3, 4],
              mk_node 4 2 1 0 [5]],
    edges := [mk_edge 0 (1/2) 0 1 (Ref.own 1), mk_edge 1 1 1 0 (Ref.own 0),
              mk_edge 2 (1/2) 0 2 (Ref.own 3), mk_edge 3 (1/2) 2 0 (Ref.own 2),
              mk_edge 4 (1/2) 2 3 (Ref.own 5), mk_edge 5 1 3 2 (Ref.own 4)],
    n_nodes := 4, n_edges := 3 }

/-- A state of the sampler as its constructor leaves it for `demo_ktn`, with the
cap `nelim` on the number of eliminated nodes. -/
def demo_kps (nelim : Int) : KPS :=
  { nelim := nelim, n_abpaths := 1, n_kpsmaxit := 1, adaptivebins := false, initcond := false,
    debug := false, basin_ids := [0, 0, 0, 0], N_c := 0, N := 0, N_B := 0, N_e := 0,
    epsilon := none, alpha := none, eliminated_nodes := [], nodemap := [], h := [],
    ktn_kps := none, ktn_kps_orig := none, ktn_l := none, ktn_u := none }

/-- The sub-network `get_subnetwork` returns for the basin of node 0 of `demo_ktn`. -/
def demo_sub : Network :=
  { nodes := [{ mk_node 1 0 2 0 [2, 0] with top_to := [1] }, { mk_node 2 0 1 0 [1] with top_to := [0] },
              { mk_node 3 1 2 0 [] with top_to := [2] }],
    edges := [mk_edge 0 (1/2) 0 1 (Ref.own 1), mk_edge 1 1 1 0 (Ref.own 0),
              mk_edge 2 (1/2) 0 2 Ref.null],
    n_nodes := 3, n_edges := 3 }

/-- A network of three nodes: nodes 0 and 1 form community 0 and node 2 is their only
neighbour outside.  Node 0 has the self-transition probability 0.9995, above the
threshold of `gt_iteration`, and the edges of probabilities 0.0003 to node 1 and 0.0002
to node 2.  Every edge has its reverse edge. -/
def demo_trap : Network :=
  { nodes := [mk_node 1 0 2 (9995/10000) [0, 2], mk_node 2 0 1 0 [1], mk_node 3 1 1 0 [3]],
    edges := [mk_edge 0 (3/10000) 0 1 (Ref.own 1), mk_edge 1 1 1 0 (Ref.own 0),
              mk_edge 2 (2/10000) 0 2 (Ref.own 3), mk_edge 3 1 2 0 (Ref.own 2)],
    n_nodes := 3, n_edges := 2 }

/-- The sub-network `get_subnetwork` returns for the basin of node 0 of `demo_trap`. -/
def demo_trap_sub : Network :=
  { nodes := [{ mk_node 1 0 2 (9995/10000) [2, 0] with top_to := [1] },
              { mk_node 2 0 1 0 [1] with top_to := [0] },
              { mk_node 3 1 1 0 [] with top_to := [2] }],
    edges := [mk_edge 0 (3/10000) 0 1 (Ref.own 1), mk_edge 1 1 1 0 (Ref.own 0),
              mk_edge 2 (2/10000) 0 2 Ref.null],
    n_nodes := 3, n_edges := 3 }

/-- The sub-network `demo_trap_sub` after `gt_iteration` for node 1: node 1 is flagged
`eliminated`, and node 0, the target of its edge, has its `flag` set. -/
def demo_trap_mid : Network :=
  { demo_trap_sub with
    nodes := [{ mk_node 1 0 2 (9995/10000) [2, 0] with top_to := [1], flag := true },
              { mk_node 2 0 1 0 [1] with top_to := [0], eliminated := true },
              { mk_node 3 1 1 0 [] with top_to := [2] }] }

/-- A network of two nodes: node 0 is community 0 and has the self-transition
probability 0.9995 and one edge, of probability 0.0005, to node 1 outside. -/
def demo_peak : Network :=
  { nodes := [mk_node 1 0 1 (9995/10000) [0], mk_node 2 1 1 0 [1]],
    edges := [mk_edge 0 (5/10000) 0 1 (Ref.own 1), mk_edge 1 1 1 0 (Ref.own 0)],
    n_nodes := 2, n_edges := 1 }

/-- The sub-network `get_subnetwork` returns for the basin of node 0 of `demo_peak`. -/
def demo_peak_sub : Network :=
  { nodes := [mk_node 1 0 1 (9995/10000) [0], { mk_node 2 1 1 0 [] with top_to := [0] }],
    edges := [mk_edge 0 (5/10000) 0 1 Ref.null],
    n_nodes := 2, n_edges := 1 }

/-- The node ids of `g` are the positions of the nodes counted from 1. -/
def Network.ids_ok (g : Network) : Prop :=
  ∀ i, i < g.nodes.length → (g.nodes[i]?).map Node.node_id = some ((i : Int) + 1)

/-- Every edge on a chain of `g` is an edge of `g`, and when it is live its `to_node`
points at a node of `g`. -/
def Network.chains_ok (g : Network) : Prop :=
  ∀ i, i < g.nodes.length → ∀ x ∈ g.chain i,
    x < g.edges.length ∧ (g.live x = true → (g.target x).isSome)

instance (g : Network) : Decidable g.ids_ok := by
  unfold Network.ids_ok
  infer_instance

instance (g : Network) : Decidable g.chains_ok := by
  unfold Network.chains_ok
  infer_instance

/-- The label of the node at position `i`. -/
def KPS.label (st : KPS) (i : Nat) : Option Nat := st.basin_ids[i]?

/-- Node `i` is the target of a live edge on the chain of one of the nodes `js`. -/
def Network.reached (g : Network) (js : List Nat) (i : Nat) : Prop :=
  ∃ j ∈ js, ∃ x ∈ g.chain j, g.live x = true ∧ g.target x = some i

instance (g : Network) (js : List Nat) (i : Nat) : Decidable (g.reached js i) := by
  unfold Network.reached
  infer_instance

/-- The state without the labels and the counts that `setup_basin_sets` computes. -/
def KPS.rest (st : KPS) : KPS :=
  { st with basin_ids := [], N_B := 0, N_c := 0, N_e := 0 }

/-- The positions of the nodes of community `c`. -/
def Network.basin_nodes (g : Network) (c : Int) : List Nat :=
  (List.range g.nodes.length).filter (fun i => decide (g.comm i = some c))

/-- The label the basin of community `c` gives to the node at position `i`: 3 for a
node of the community, 1 for a node outside it that is the target of a live edge on
the chain of a node of the community, 0 for any other node. -/
def Network.basin_label (g : Network) (c : Int) (i : Nat) : Nat :=
  if g.comm i = some c then 3
  else if g.reached (g.basin_nodes c) i then 1
  else 0

/-- What `setup_basin_sets` leaves behind for the occupied node `p` of community `c`. -/
structure SetupPost (ktn : Network) (c : Int) (p : Nat) (st st' : KPS) : Prop where
  labels : ∀ i, i < ktn.nodes.length → st'.label i = some (ktn.basin_label c i)
  length : st'.basin_ids.length = ktn.nodes.length
  count_B : st'.N_B = (ktn.basin_nodes c).length
  count_e : st'.N_e = ((ktn.basin_nodes c).map (udeg_at ktn)).sum
  count_c : st'.N_c = st'.basin_ids.count 1
  count_N : st'.N = 0
  eps : st'.epsilon = some p
  alpha : st'.alpha = none
  nodemap : st'.nodemap = []
  eliminated : st'.eliminated_nodes = []
  nelim : st'.nelim = st.nelim
  adaptive : st'.adaptivebins = false

/-- The entries `(i, a), (i', a+1), ...` for the node positions `is` in turn. -/
def pairs_from : List Nat → Nat → List (Int × Nat)
  | [], _ => []
  | i :: is, a => ((i : Int), a) :: pairs_from is (a + 1)

/-- The positions of the nodes with a non-zero label, in ascending order. -/
def KPS.marked (st : KPS) : List Nat :=
  (List.range st.basin_ids.length).filter (fun i => decide (st.basin_ids[i]? ≠ some 0))

/-- The entries of a map are in strictly ascending order of key. -/
def map_sorted (m : List (Int × Nat)) : Prop :=
  m.Pairwise (fun p q => p.1 < q.1)
/-- The map after the entries `ps` have been stored in turn. -/
def map_store (m : List (Int × Nat)) (ps : List (Int × Nat)) : List (Int × Nat) :=
  ps.foldl (fun m kv => map_insert m kv.1 kv.2) m

/-- The value of `edge_pos` of the edge at `x`. -/
def Network.pos (g : Network) (x : Nat) : Option Nat :=
  match g.edges[x]? with
  | some e => some e.edge_pos
  | none => none

/-- The position of the reverse edge of the edge at `x`, when `rev_edge` points at
an edge of `g`. -/
def Network.rev (g : Network) (x : Nat) : Option Nat :=
  match g.edges[x]? with
  | some e =>
    match e.rev_edge with
    | Ref.own y => if y < g.edges.length then some y else none
    | _ => none
  | none => none

/-- Every edge on the chain of a node has that node as its `from_node`. -/
def Network.owner_ok (g : Network) : Prop :=
  ∀ i, i < g.nodes.length → ∀ x ∈ g.chain i, g.source x = some i

/-- Every live edge is on the chain of the node its `from_node` points at. -/
def Network.listed_ok (g : Network) : Prop :=
  ∀ y, y < g.edges.length → g.live y = true →
    ∃ i, i < g.nodes.length ∧ g.source y = some i ∧ y ∈ g.chain i

/-- No chain holds an edge twice. -/
def Network.nodup_ok (g : Network) : Prop :=
  ∀ i, i < g.nodes.length → (g.chain i).Nodup

/-- The value of `edge_pos` of every edge is below `2 * n_edges`, the size of the
mask of `get_subnetwork`. -/
def Network.pos_ok (g : Network) : Prop :=
  ∀ x, x < g.edges.length → ∃ q, q < 2 * g.n_edges ∧ g.pos x = some q

/-- The values of `edge_pos` are pairwise distinct. -/
def Network.pos_distinct (g : Network) : Prop :=
  ∀ x, x < g.edges.length → ∀ y, y < g.edges.length → g.pos x = g.pos y → x = y

/-- Every live edge on the chain of a node of community `c` has its `rev_edge` set. -/
def Network.rev_ok (g : Network) (c : Int) : Prop :=
  ∀ i, i < g.nodes.length → g.comm i = some c →
    ∀ x ∈ g.chain i, g.live x = true → (g.rev x).isSome

/-- The out-degree of every node of community `c` is the number of live edges on its chain. -/
def Network.udeg_ok (g : Network) (c : Int) : Prop :=
  ∀ i, i < g.nodes.length → g.comm i = some c →
    udeg_at g i = ((g.chain i).filter (fun x => g.live x)).length

/-- The network is built as a loader builds it: the node count is the size of the
node array, node ids are positions counted from 1, and the chains of outgoing edges
are consistent with the edges. -/
def Network.sound (g : Network) : Prop :=
  g.n_nodes = g.nodes.length ∧ g.ids_ok ∧ g.chains_ok ∧ g.owner_ok ∧ g.listed_ok ∧
    g.nodup_ok ∧ g.pos_ok

instance (g : Network) : Decidable g.owner_ok := by
  unfold Network.owner_ok
  infer_instance

instance (g : Network) : Decidable g.listed_ok := by
  unfold Network.listed_ok
  infer_instance

instance (g : Network) : Decidable g.nodup_ok := by
  unfold Network.nodup_ok
  infer_instance

instance (g : Network) : Decidable g.pos_ok := by
  unfold Network.pos_ok
  infer_instance

instance (g : Network) : Decidable g.pos_distinct := by
  unfold Network.pos_distinct
  infer_instance

instance (g : Network) (c : Int) : Decidable (g.rev_ok c) := by
  unfold Network.rev_ok
  infer_instance

instance (g : Network) (c : Int) : Decidable (g.udeg_ok c) := by
  unfold Network.udeg_ok
  infer_instance

instance (g : Network) : Decidable g.sound := by
  unfold Network.sound
  infer_instance

/-- The reverse edge of the edge at `x`, an edge on the chain of the node at `i`, is
another edge `y` that runs the opposite way, from the target of `x` to `i`; when `x`
leads to a node of community `c`, `y` is live and has `x` as its reverse edge. -/
def Network.rev_pair_at (g : Network) (c : Int) (i x : Nat) : Prop :=
  ∃ y, y < g.edges.length ∧ g.rev x = some y ∧ y ≠ x ∧ g.source y = g.target x ∧
    g.target y = some i ∧
    (∀ j, j < g.nodes.length → g.target x = some j → g.comm j = some c →
      g.live y = true ∧ g.rev y = some x)

instance (g : Network) (c : Int) (i x : Nat) : Decidable (g.rev_pair_at c i x) := by
  unfold Network.rev_pair_at
  infer_instance

/-- The live edges on the chains of the nodes of community `c` come in pairs: each has
a reverse edge that runs the opposite way, and a live edge between two nodes of the
community and its reverse edge are live and each other's reverse edge. -/
def Network.rev_pairs_ok (g : Network) (c : Int) : Prop :=
  ∀ i, i < g.nodes.length → g.comm i = some c →
    ∀ x ∈ g.chain i, g.live x = true → g.rev_pair_at c i x

instance (g : Network) (c : Int) : Decidable (g.rev_pairs_ok c) := by
  unfold Network.rev_pairs_ok
  infer_instance

/-- The live edges on the chains of the nodes of community `c`. -/
def Network.basin_edges (g : Network) (c : Int) : List Nat :=
  (g.basin_nodes c).flatMap (fun i => (g.chain i).filter (fun x => g.live x))

/-- The edge at position `j` of the sub-network `g` is the copy of the edge at
position `x` of the full network: same rate and probability, end nodes mapped by the
node map `P`, `edge_pos` equal to `j`, and a `rev_edge` that is null or points at an
edge of `g`. -/
def copied (ktn : Network) (P : List (Int × Nat)) (g : Network) (x j : Nat) : Prop :=
  ∃ e e' i i' a b, ktn.edges[x]? = some e ∧ g.edges[j]? = some e' ∧
    ktn.source x = some i ∧ ktn.target x = some i' ∧
    map_find P i = some a ∧ map_find P i' = some b ∧
    e'.from_node = Ref.own a ∧ e'.to_node = Ref.own b ∧ e'.edge_pos = j ∧
    e'.k = e.k ∧ e'.t = e.t ∧ e'.deadts = false ∧
    (e'.rev_edge = Ref.null ∨ ∃ y, e'.rev_edge = Ref.own y ∧ y < g.edges.length)

/-- What holds of the local variables of `get_subnetwork` after every single copy of
an edge: `O` lists the edges of the full network copied so far, in the order of their
positions in the sub-network.  The `rev_edge` of a copy is null, or the two copies are
each other's `rev_edge` and one is the copy of the reverse edge of the other. -/
structure XCore (ktn : Network) (c : Int) (P : List (Int × Nat)) (g1 : Network) (N_e : Nat)
    (s : Extract) (O : List Nat) : Prop where
  nodemap : s.nodemap = P
  mask_len : s.edgemask.length = 2 * ktn.n_edges
  mask : ∀ q, s.edgemask[q]? = some true ↔ ∃ x ∈ O, ktn.pos x = some q
  k : s.k = O.length
  nodup : O.Nodup
  sub : ∀ x ∈ O, x ∈ ktn.basin_edges c
  n_nodes : s.ktnptr.n_nodes = g1.n_nodes
  n_edges : s.ktnptr.n_edges = g1.n_edges
  nodes_length : s.ktnptr.nodes.length = g1.nodes.length
  edges_length : s.ktnptr.edges.length = N_e
  nodes : ∀ a : Nat, (s.ktnptr.nodes[a]?).map Node.assign = (g1.nodes[a]?).map Node.assign
  chain_mem : ∀ a j, j ∈ s.ktnptr.chain a ↔
    (j < O.length ∧ (s.ktnptr.edges[j]?).map Edge.from_node = some (Ref.own a))
  chain_nodup : ∀ a, (s.ktnptr.chain a).Nodup
  edges : ∀ j x, O[j]? = some x → copied ktn P s.ktnptr x j
  revs : ∀ (j : Nat) (e' : Edge), j < O.length → s.ktnptr.edges[j]? = some e' →
    e'.rev_edge = Ref.null ∨
    ∃ k x y, k < O.length ∧ e'.rev_edge = Ref.own k ∧
      (s.ktnptr.edges[k]?).map Edge.rev_edge = some (Ref.own j) ∧
      O[j]? = some x ∧ O[k]? = some y ∧ (ktn.rev x = some y ∨ ktn.rev y = some x)

/-- What holds of the local variables of `get_subnetwork` between the passes of the
loop over the edges of a node: in addition, when the live edges of the basin come in
pairs, the copy of an edge that leads to a node of the basin has its `rev_edge` set. -/
structure XInv (ktn : Network) (c : Int) (P : List (Int × Nat)) (g1 : Network) (N_e : Nat)
    (s : Extract) (O : List Nat) extends XCore ktn c P g1 N_e s O : Prop where
  paired : ktn.rev_pairs_ok c → ∀ (j x i' : Nat), O[j]? = some x → ktn.target x = some i' →
    ktn.comm i' = some c → ∃ k, (s.ktnptr.edges[j]?).map Edge.rev_edge = some (Ref.own k)

/-- What the copying of edges relies on: the full network is sound with distinct
values of `edge_pos` and reverse edges set in the basin; the node map `P` is in
ascending order of key and gives every node of the basin and of its boundary a
position in the sub-network `g1`; `N_e` is the number of live edges of the basin. -/
structure XCtx (ktn : Network) (c : Int) (P : List (Int × Nat)) (g1 : Network) (N_e : Nat) : Prop where
  sound : ktn.sound
  dist : ktn.pos_distinct
  revs : ktn.rev_ok c
  sorted : map_sorted P
  find : ∀ i : Nat, (ktn.comm i = some c ∨ ktn.reached (ktn.basin_nodes c) i) →
    ∃ a, map_find P (i : Int) = some a ∧ a < g1.nodes.length
  count : (ktn.basin_edges c).length = N_e

/-- When the edge at `x` leads to a node of community `c`, it has a live reverse edge. -/
def Network.rev_live_at (g : Network) (c : Int) (x : Nat) : Prop :=
  ∀ j, j < g.nodes.length → g.target x = some j → g.comm j = some c →
    ∃ y, y < g.edges.length ∧ g.rev x = some y ∧ g.live y = true

instance (g : Network) (c : Int) (x : Nat) : Decidable (g.rev_live_at c x) := by
  unfold Network.rev_live_at
  infer_instance

/-- Every live edge from a node of community `c` to a node of community `c` has a
live reverse edge. -/
def Network.rev_live_ok (g : Network) (c : Int) : Prop :=
  ∀ i, i < g.nodes.length → g.comm i = some c →
    ∀ x ∈ g.chain i, g.live x = true → g.rev_live_at c x

instance (g : Network) (c : Int) : Decidable (g.rev_live_ok c) := by
  unfold Network.rev_live_ok
  infer_instance

/-- A network of two nodes of different communities joined by one edge that has no
reverse edge. -/
def demo_norev : Network :=
  { nodes := [mk_node 1 0 1 0 [0], mk_node 2 1 0 0 []],
    edges := [mk_edge 0 1 0 1 Ref.null],
    n_nodes := 2, n_edges := 1 }

/-- Every node of community `c` of the sub-network `g` can be handed to
`gt_iteration`: it has an outgoing edge, its chain holds no edge twice, and the loops
can pass over every edge of the chain. -/
def Network.sub_ready (g ktn : Network) (c : Int) : Prop :=
  ∀ a, a < g.nodes.length → g.comm a = some c →
    g.chain a ≠ [] ∧ (g.chain a).Nodup ∧ ∀ j ∈ g.chain a, g.edge_ready ktn c j = true

/-- Every node of community `c` has a live edge on its chain. -/
def Network.out_ok (g : Network) (c : Int) : Prop :=
  ∀ i, i < g.nodes.length → g.comm i = some c → ∃ x ∈ g.chain i, g.live x = true

/-- No node is flagged `eliminated`. -/
def Network.fresh (g : Network) : Prop :=
  ∀ i, i < g.nodes.length → g.elim i = false

instance (g : Network) (c : Int) : Decidable (g.out_ok c) := by
  unfold Network.out_ok
  infer_instance

instance (g : Network) : Decidable g.fresh := by
  unfold Network.fresh
  infer_instance

/-- A network of two nodes of different communities joined by a pair of live edges and
a pair of dead edges; the out-degree of node 0 counts its dead edge as well. -/
def demo_dead : Network :=
  { nodes := [mk_node 1 0 2 0 [0, 2], mk_node 2 1 2 0 [1, 3]],
    edges := [mk_edge 0 1 0 1 (Ref.own 1), mk_edge 1 1 1 0 (Ref.own 0),
              { mk_edge 2 0 0 1 (Ref.own 3) with deadts := true },
              { mk_edge 3 0 1 0 (Ref.own 2) with deadts := true }],
    n_nodes := 2, n_edges := 2 }

/-- The positions that `basin_ids` labels `v`. -/
def KPS.labelled (st : KPS) (v : Nat) : List Nat :=
  (List.range st.basin_ids.length).filter (fun i => decide (st.basin_ids[i]? = some v))

/-- A state that holds the counts, labels, node map and eliminated nodes of an earlier
cycle on `demo_ktn`. -/
def demo_stale : KPS :=
  { demo_kps 5 with
    N_B := 7, N_c := 7, N_e := 7, N := 7, basin_ids := [3, 1, 3, 1],
    eliminated_nodes := [0, 1], nodemap := [(0, 0), (3, 1)] }

/-- What `graph_transformation` leaves behind: both calls of `get_subnetwork` return
the sub-network `kps0`, which is kept as `ktn_kps_orig`; `ktn_kps` is the network `g`
that the elimination of the nodes `E`, in this order, makes of `kps0`. -/
structure GTPost (top : Network → List Nat → Nat) (ktn : Network) (c : Int) (st' st'' : KPS)
    (kps0 g : Network) (E : List Nat) : Prop where
  first : st'.get_subnetwork ktn
    = Except.ok (kps0, { st' with nodemap := pairs_from st'.marked 0 })
  second : KPS.get_subnetwork ktn { st' with nodemap := pairs_from st'.marked 0 }
    = Except.ok (kps0, { st' with nodemap := pairs_from st'.marked 0 })
  run : st'.graph_transformation top ktn = Except.ok st''
  kps : st''.ktn_kps = some g
  orig : st''.ktn_kps_orig = some kps0
  undo : ∃ l u, undo_nodes kps0 (List.range kps0.n_nodes) (Network.create (st'.N_B + st'.N_c) 0)
      (Network.create (st'.N_B + st'.N_c) 0) = Except.ok (l, u) ∧
    st''.ktn_l = some l ∧ st''.ktn_u = some u
  elim_nodes : st''.eliminated_nodes = E
  count : st''.N = E.length
  shape : kps0.same_shape g
  ready : kps0.sub_ready ktn c
  nodes_length : kps0.nodes.length = st'.N_B + st'.N_c
  n_nodes : kps0.n_nodes = st'.N_B + st'.N_c
  edges_length : kps0.edges.length = st'.N_e
  view : ∀ a, a < kps0.nodes.length → ∃ i, st'.marked[a]? = some i ∧ i < ktn.nodes.length ∧
    kps0.comm a = ktn.comm i ∧ udeg_at kps0 a = udeg_at ktn i ∧ kps0.elim a = ktn.elim i
  edges : ∀ (j : Nat) (e : Edge), kps0.edges[j]? = some e →
    ∃ a b, e.from_node = Ref.own a ∧ e.to_node = Ref.own b ∧ a < kps0.nodes.length ∧
      b < kps0.nodes.length ∧ kps0.comm a = some c ∧ e.deadts = false
  len : (E.length : Int) = min (st'.N_B : Int) st'.nelim
  nodup : E.Nodup
  mem : ∀ a ∈ E, a < kps0.nodes.length ∧ kps0.comm a = some c
  flags : ∀ j, g.elim j = (kps0.elim j || decide (j ∈ E))
  basin_count : ((List.range kps0.nodes.length).filter
    (fun a => decide (kps0.comm a = some c))).length = st'.N_B
  order : ∀ (k a : Nat), E[k]? = some a → ∀ b, b < kps0.nodes.length → kps0.comm b = some c →
    b ∉ E.take k → udeg_at kps0 a ≤ udeg_at kps0 b

/-- Calls of `gt_iteration` on the working sub-network `g`, for the nodes `ns` in turn. -/
def gt_steps (ktn : Network) (c : Int) : List Nat → Network → Except Fault Network
  | [], g => Except.ok g
  | n :: ns, g =>
    match gt_iteration ktn c g n with
    | Except.error f => Except.error f
    | Except.ok g1 => gt_steps ktn c ns g1

/-! ## The start node, `sample_absorbing_node` and `run_enhanced_kmc` -/

/-- The value `exp(pi)` of the node that a pointer of set B points at; `ex` stands for
the exponential function. -/
def weight_at (ktn : Network) (ex : ℚ → ℚ) (i : Nat) : ℚ :=
  match ktn.nodes[i]? with
  | some nd => ex nd.pi
  | none => 0

/-- The value of `exp(pi_B)` after the loop of lines 58-60 of `setup_basin_sets` over
set B, whose nodes are `nodesB` in the order of iteration. -/
def weight_B (ktn : Network) (ex : ℚ → ℚ) (nodesB : List Nat) : ℚ :=
  (nodesB.map (weight_at ktn ex)).sum

/-- The entries the loop of lines 64-67 appends to `eps_probs`, `cum` being the value
of `cum_prob` so far.  In exact arithmetic `exp(pi - pi_B)` is `exp(pi) / exp(pi_B)`,
here `weight_at ktn ex i / W`. -/
def eps_cum (ktn : Network) (ex : ℚ → ℚ) (W : ℚ) : List Nat → ℚ → List (Option Nat × ℚ)
  | [], _ => []
  | i :: is, cum =>
    (some i, cum + weight_at ktn ex i / W) :: eps_cum ktn ex W is (cum + weight_at ktn ex i / W)

/-- The vector `eps_probs` before the scan of line 69: it is created with one entry
`(nullptr, 0.)` per node of B (line 61), and the loop appends one entry per node. -/
def eps_probs (ktn : Network) (ex : ℚ → ℚ) (nodesB : List Nat) : List (Option Nat × ℚ) :=
  List.replicate nodesB.length (none, 0) ++ eps_cum ktn ex (weight_B ktn ex nodesB) nodesB 0

/-- The scan of lines 69-72; `r` is what has been assigned to `epsilon` so far
(`none`: nothing yet, `some none`: the null pointer). -/
def eps_scan (rand_no : ℚ) : List (Option Nat × ℚ) → Option (Option Nat) → Option (Option Nat)
  | [], r => r
  | e :: es, r => eps_scan rand_no es (if e.2 ≥ rand_no then some e.1 else r)

/-- Lines 51-73 of `setup_basin_sets`, the draw of a start node from set B with the
uniform random number `rand_no`: what is assigned to `epsilon` (`none`: nothing). -/
def start_draw (ktn : Network) (ex : ℚ → ℚ) (nodesB : List Nat) (rand_no : ℚ) :
    Option (Option Nat) :=
  if nodesB.length = 1000 then some nodesB.head?
  else eps_scan rand_no (eps_probs ktn ex nodesB) none

/-- The node that the claim puts in `epsilon`: the first node of B, in the order of
iteration, whose cumulative normalised weight is at least `u`. -/
def first_reaching (ktn : Network) (ex : ℚ → ℚ) (nodesB : List Nat) (u : ℚ) : Option Nat :=
  ((eps_cum ktn ex (weight_B ktn ex nodesB) nodesB 0).find? (fun e => decide (e.2 ≥ u))).bind
    Prod.fst

/-- `KPS::sample_absorbing_node` (lines 134-139): `epsilon->node_id` is read for the
message, and the null pointer is returned. -/
def KPS.sample_absorbing_node (ktn : Network) (st : KPS) : Except Fault (Option Nat) :=
  match st.epsilon with
  | none => Except.error Fault.null_deref
  | some p =>
    match vec_get ktn.nodes p with
    | Except.error f => Except.error f
    | Except.ok _ => Except.ok none

/-- `KPS::gamma_distribn`. -/
def gamma_distribn (_a : Int) (_b : ℚ) : ℚ := 1

/-- `KPS::iterative_reverse_randomisation`: the body of its loop is empty. -/
def KPS.iterative_reverse_randomisation (_st : KPS) : ℚ := gamma_distribn 0 0

/-- One pass of the loop of `run_enhanced_kmc` (lines 32-39); `draw` is the outcome of
the draw of a start node, should `setup_basin_sets` make one.  The value of
`iterative_reverse_randomisation` is dropped, and the four networks are deleted. -/
def KPS.cycle (top : Network → List Nat → Nat) (ktn : Network) (draw : Option Nat) (st : KPS) :
    Except Fault KPS :=
  match st.setup_basin_sets ktn draw with
  | Except.error f => Except.error f
  | Except.ok st1 =>
    match st1.graph_transformation top ktn with
    | Except.error f => Except.error f
    | Except.ok st2 =>
      match st2.sample_absorbing_node ktn with
      | Except.error f => Except.error f
      | Except.ok a =>
        Except.ok { st2 with alpha := a, ktn_kps := none, ktn_kps_orig := none, ktn_l := none,
                             ktn_u := none }

/-- The loop of `run_enhanced_kmc` (lines 31-40); `draws i` is the outcome of the draw
of a start node in pass `i`.  Every pass adds one to `n_kpsit`; `fuel` bounds the
number of passes. -/
def run_loop (top : Network → List Nat → Nat) (ktn : Network) (draws : Nat → Option Nat) :
    Nat → Int → Int → KPS → Except Fault KPS
  | 0, n_ab, n_kpsit, st =>
    if n_ab < st.n_abpaths ∧ n_kpsit < st.n_kpsmaxit then Except.error Fault.fuel
    else Except.ok st
  | fuel + 1, n_ab, n_kpsit, st =>
    if n_ab < st.n_abpaths ∧ n_kpsit < st.n_kpsmaxit then
      match st.cycle top ktn (draws n_kpsit.toNat) with
      | Except.error f => Except.error f
      | Except.ok st1 => run_loop top ktn draws fuel n_ab (n_kpsit + 1) st1
    else Except.ok st

/-- `KPS::run_enhanced_kmc`. -/
def KPS.run_enhanced_kmc (top : Network → List Nat → Nat) (ktn : Network)
    (draws : Nat → Option Nat) (st : KPS) : Except Fault KPS :=
  run_loop top ktn draws st.n_kpsmaxit.toNat 0 0 st

/-- The local variables of `get_subnetwork` on `demo_norev`, for the basin of node 0,
when the loop over `nodemap` has reached node 0 and none of its edges. -/
def demo_norev_start : Extract :=
  { ktnptr := { nodes := [(mk_node 1 0 1 0 [0]).assign, (mk_node 2 1 0 0 []).assign],
                edges := [Edge.blank], n_nodes := 2, n_edges := 1 },
    k := 0, n := 1, edgemask := [false, false], nodemap := [(0, 0), (1, 1)] }

/-- The local variables of `get_subnetwork` on `demo_ktn`, for the basin of node 2 (with
the boundary nodes 0 and 3), when the loop over `nodemap` has reached node 2 and none
of its edges. -/
def demo_mid : Extract :=
  { ktnptr := { nodes := [(mk_node 1 0 2 0 [0, 2]).assign, (mk_node 3 1 2 0 [3, 4]).assign,
                          (mk_node 4 2 1 0 [5]).assign],
                edges := [Edge.blank, Edge.blank], n_nodes := 3, n_edges := 2 },
    k := 0, n := 2, edgemask := [false, false, false, false, false, false],
    nodemap := [(0, 0), (2, 1), (3, 2)] }

/-- The state `demo_mid` after the copy of the edge at position 3 of `demo_ktn`, from
node 2 to node 0, to position 0 of the sub-network. -/
def demo_mid_placed : Extract :=
  { ktnptr := { nodes := [{ (mk_node 1 0 2 0 []) with top_to := [0] },
                          mk_node 3 1 2 0 [0], mk_node 4 2 1 0 []],
                edges := [mk_edge 0 (1/2) 1 0 Ref.null, Edge.blank], n_nodes := 3, n_edges := 2 },
    k := 1, n := 2, edgemask := [false, false, false, true, false, false],
    nodemap := [(0, 0), (2, 1), (3, 2)] }

/-! ## The sampling routines of `kps.cpp` and the functions of `kmc_methods.cpp` -/

/-- `KPS::binomial_distribn` (lines 331-340). -/
def binomial_distribn (h : Int) (p : ℚ) : Except Fault Int :=
  if ¬ (h ≥ 0 ∨ (p ≥ 0 ∧ p ≤ 1)) then Except.error Fault.thrown
  else if h = 0 then Except.ok 0
  else if p = 1 then Except.ok h
  else Except.ok 1

/-- `KPS::negbinomial_distribn` (lines 342-350). -/
def negbinomial_distribn (r : Int) (p : ℚ) : Except Fault Int :=
  if ¬ (r ≥ 0 ∨ (p > 0 ∧ p ≤ 1)) then Except.error Fault.thrown
  else if r = 0 ∨ p = 1 then Except.ok 0
  else Except.ok 1

/-- The members of class `Walker` that the functions of `kmc_methods.cpp` read or write. -/
structure Walker where
  /-- Position in the network of the node the walker is at. -/
  curr_node : Option Nat
  k : Int
  p : ℚ
  t : ℚ
  s : ℚ
  visited : List Bool
  accumprobs : Bool
  path_no : Int
  deriving DecidableEq, Repr

/-- The value that a signed integer of `bits` bits holds after an operation whose exact
result is `x`: the number congruent to `x` modulo `2^bits` in the range from
`-2^(bits-1)` to `2^(bits-1) - 1`. -/
def wrap (bits : Nat) (x : Int) : Int :=
  (x + 2 ^ (bits - 1)) % 2 ^ bits - 2 ^ (bits - 1)

/-- The counters and vectors of class `Wrapper_Method`.  The counters `n_traj` and `n_ab`
and the entries of `ab_successes` and `ab_failures` are signed integers of the machine,
whose number of bits, fixed by declarations outside the sources at hand, is the
parameter `bits` of the functions that increment them. -/
structure Wrapper_Method where
  n_traj : Int
  n_ab : Int
  ab_successes : List Int
  ab_failures : List Int
  committors : List ℚ
  tp_densities : List ℚ
  deriving DecidableEq, Repr

/-- The loop over `walker.visited` of `update_tp_stats` (lines 151-157); `i` is the bin
reached and `bs` the flags from there on. -/
def tally (bits : Nat) (abpath : Bool) :
    List Bool → Nat → Wrapper_Method → Except Fault Wrapper_Method
  | [], _, wm => Except.ok wm
  | b :: bs, i, wm =>
    if b then
      if abpath then
        match vec_get wm.ab_successes i with
        | Except.error f => Except.error f
        | Except.ok a =>
          match vec_set wm.ab_successes i (wrap bits (a + 1)) with
          | Except.error f => Except.error f
          | Except.ok v => tally bits abpath bs (i + 1) { wm with ab_successes := v }
      else
        match vec_get wm.ab_failures i with
        | Except.error f => Except.error f
        | Except.ok a =>
          match vec_set wm.ab_failures i (wrap bits (a + 1)) with
          | Except.error f => Except.error f
          | Except.ok v => tally bits abpath bs (i + 1) { wm with ab_failures := v }
    else tally bits abpath bs (i + 1) wm

/-- `Wrapper_Method::update_tp_stats`, for counters of `bits` bits. -/
def Wrapper_Method.update_tp_stats (bits : Nat) (wm : Wrapper_Method) (walker : Walker)
    (abpath update : Bool) : Except Fault (Wrapper_Method × Walker) :=
  let wm1 : Wrapper_Method :=
    { wm with n_traj := wrap bits (wm.n_traj + 1),
              n_ab := if abpath then wrap bits (wm.n_ab + 1) else wm.n_ab }
  if !update then Except.ok (wm1, walker)
  else
    match tally bits abpath walker.visited 0 wm1 with
    | Except.error f => Except.error f
    | Except.ok wm2 =>
      Except.ok (wm2, { walker with visited := List.replicate walker.visited.length false })

/-- The loop of `Wrapper_Method::calc_tp_stats` (lines 164-167), over the bins `is`.
The sum `ab_successes[i]+ab_failures[i]` is formed in the integers of the machine; the
quotients are those of exact arithmetic, and where a divisor is zero the value kept here
is 0. -/
def calc_loop (bits : Nat) : List Nat → Wrapper_Method → Except Fault Wrapper_Method
  | [], wm => Except.ok wm
  | i :: is, wm =>
    match vec_get wm.ab_successes i, vec_get wm.ab_failures i with
    | Except.ok a, Except.ok b =>
      match vec_set wm.committors i ((a : ℚ) / (wrap bits (a + b) : ℚ)),
            vec_set wm.tp_densities i ((a : ℚ) / (wm.n_ab : ℚ)) with
      | Except.ok cs, Except.ok ds =>
        calc_loop bits is { wm with committors := cs, tp_densities := ds }
      | _, _ => Except.error Fault.out_of_range
    | _, _ => Except.error Fault.out_of_range

/-- `Wrapper_Method::calc_tp_stats`, without the writing of the file, for counters of
`bits` bits. -/
def Wrapper_Method.calc_tp_stats (bits : Nat) (wm : Wrapper_Method) (nbins : Nat) :
    Except Fault Wrapper_Method :=
  calc_loop bits (List.range nbins) wm

/-- Calls of `update_tp_stats` with `update = true`, one for each entry of `calls`: the
flags `walker.visited` holds when the call is made, and the argument `abpath`. -/
def tp_calls (bits : Nat) : List (List Bool × Bool) → Wrapper_Method → Walker →
    Except Fault (Wrapper_Method × Walker)
  | [], wm, w => Except.ok (wm, w)
  | c :: cs, wm, w =>
    match wm.update_tp_stats bits { w with visited := c.1 } c.2 true with
    | Except.error f => Except.error f
    | Except.ok r => tp_calls bits cs r.1 r.2

/-- The counters of `STD_KMC` as its constructor and the start of `run_enhanced_kmc`
leave them for `nbins` bins. -/
def Wrapper_Method.fresh (nbins : Nat) : Wrapper_Method :=
  { n_traj := 0, n_ab := 0, ab_successes := List.replicate nbins 0,
    ab_failures := List.replicate nbins 0, committors := List.replicate nbins 0,
    tp_densities := List.replicate nbins 0 }

/-- What a call of `update_tp_stats` adds to the count of bin `j` in the vector chosen
by `sel`, when the flags from bin `i` on are `bs`. -/
def bump (bs : List Bool) (i j : Nat) (sel : Bool) : Int :=
  if i ≤ j ∧ bs[j - i]? = some true ∧ sel = true then 1 else 0

/-- The counters are consistent for `nbins` bins: the four vectors have `nbins` entries,
`0 ≤ n_ab ≤ n_traj`, and in every bin the successes are at most `n_ab` and successes and
failures together at most `n_traj`. -/
def Wrapper_Method.tp_ok (wm : Wrapper_Method) (nbins : Nat) : Prop :=
  wm.ab_successes.length = nbins ∧ wm.ab_failures.length = nbins ∧
  wm.committors.length = nbins ∧ wm.tp_densities.length = nbins ∧
  0 ≤ wm.n_ab ∧ wm.n_ab ≤ wm.n_traj ∧
  ∀ i, i < nbins → ∃ a b, wm.ab_successes[i]? = some a ∧ wm.ab_failures[i]? = some b ∧
    0 ≤ a ∧ 0 ≤ b ∧ a ≤ wm.n_ab ∧ a + b ≤ wm.n_traj

/-- The quotient `calc_tp_stats` stores in `committors[i]`. -/
def Wrapper_Method.committor_of (bits : Nat) (wm : Wrapper_Method) (i : Nat) : ℚ :=
  ((wm.ab_successes[i]?.getD 0 : Int) : ℚ) /
    (wrap bits (wm.ab_successes[i]?.getD 0 + wm.ab_failures[i]?.getD 0) : ℚ)

/-- The quotient `calc_tp_stats` stores in `tp_densities[i]`. -/
def Wrapper_Method.density_of (wm : Wrapper_Method) (i : Nat) : ℚ :=
  ((wm.ab_successes[i]?.getD 0 : Int) : ℚ) / (wm.n_ab : ℚ)

/-- A walker at no node, with `nbins` flags, none of them set. -/
def demo_walker (nbins : Nat) : Walker :=
  { curr_node := none, k := 0, p := 0, t := 0, s := 0, visited := List.replicate nbins false,
    accumprobs := false, path_no := 0 }

/-- Two calls for two bins: a path that reached A after visiting bin 0, and a path that
returned to B after visiting both bins. -/
def demo_calls : List (List Bool × Bool) :=
  [([true, false], true), ([true, true], false)]

/-- The node a pointer of the full network points at, as a value of `curr_node`. -/
def Ref.node : Ref → Option Nat
  | Ref.own i => some i
  | _ => none

/-- The loop of `BKL::bkl` (lines 294-303) over the chain `xs`, `prev` being the value
of `prev_cum_p`: the position of the edge at which the loop breaks together with the
value of `p`, or `none` when the end of the chain is reached. -/
def bkl_scan (g : Network) (accumprobs : Bool) (rand_no : ℚ) :
    List Nat → ℚ → Except Fault (Option (Nat × ℚ))
  | [], _ => Except.ok none
  | x :: xs, prev =>
    match vec_get g.edges x with
    | Except.error f => Except.error f
    | Except.ok e =>
      if accumprobs then
        if e.t > rand_no then Except.ok (some (x, e.t - prev))
        else bkl_scan g accumprobs rand_no xs e.t
      else
        if e.t + prev > rand_no then Except.ok (some (x, e.t))
        else bkl_scan g accumprobs rand_no xs (prev + e.t)

/-- Lines 289-307 of `BKL::bkl`: the walker when the trajectory has been advanced and
`k`, `p` and `t` have been updated, and the edge taken.  `rand_no` and `rand_t` are
the two random numbers drawn; `lg` and `ex` stand for the logarithm and the
exponential function. -/
def bkl_advance (g : Network) (lg ex : ℚ → ℚ) (rand_no rand_t : ℚ) (walker : Walker) :
    Except Fault (Walker × Edge) :=
  match walker.curr_node with
  | none => Except.error Fault.null_deref
  | some n =>
    match vec_get g.nodes n with
    | Except.error f => Except.error f
    | Except.ok old_node =>
      match bkl_scan g walker.accumprobs rand_no old_node.top_from 0 with
      | Except.error f => Except.error f
      | Except.ok none => Except.error Fault.null_deref
      | Except.ok (some (x, p)) =>
        match vec_get g.edges x with
        | Except.error f => Except.error f
        | Except.ok e =>
          Except.ok ({ walker with curr_node := e.to_node.node, k := walker.k + 1,
                                   p := walker.p + lg p,
                                   t := walker.t + -(1 / ex old_node.k_esc) * lg rand_t }, e)

/-- `BKL::bkl`: after the advance, the entropy flow is read through `rev_edge` (line 309). -/
def bkl (g : Network) (lg ex : ℚ → ℚ) (rand_no rand_t : ℚ) (walker : Walker) :
    Except Fault Walker :=
  match bkl_advance g lg ex rand_no rand_t walker with
  | Except.error f => Except.error f
  | Except.ok (w1, e) =>
    match g.edge_of e.rev_edge with
    | Except.error f => Except.error f
    | Except.ok r => Except.ok { w1 with s := w1.s + (r.k - e.k) }

/-- The network `demo_ktn` with the probabilities of the edges of node 0 stored as
cumulative sums. -/
def demo_cum : Network :=
  { demo_ktn with edges := demo_ktn.edges.set 2 (mk_edge 2 1 0 2 (Ref.own 3)) }

/-- A walker at node 0 of `demo_ktn`, in the mode of probabilities that are not cumulative. -/
def demo_walker_at : Walker :=
  { demo_walker 0 with curr_node := some 0 }

/-- The entries the loop of lines 88-92 of `get_initial_node` appends to `b_probs`,
for a configured initial condition: `i` is the index into `init_probs`, `cum` the value
of `cum_prob` so far. -/
def init_cum (init_probs : List ℚ) : List Nat → Nat → ℚ → Except Fault (List (Option Nat × ℚ))
  | [], _, _ => Except.ok []
  | b :: bs, i, cum =>
    match vec_get init_probs i with
    | Except.error f => Except.error f
    | Except.ok q =>
      match init_cum init_probs bs (i + 1) (cum + q) with
      | Except.error f => Except.error f
      | Except.ok es => Except.ok ((some b, cum + q) :: es)

/-- The scan of lines 96-100 of `get_initial_node`: what `node_b` is given at the entry
the loop breaks at, or `none` when the end of `b_probs` is reached. -/
def b_scan (rand_no : ℚ) : List (Option Nat × ℚ) → Option (Option Nat)
  | [] => none
  | e :: es => if e.2 ≥ rand_no then some e.1 else b_scan rand_no es

/-- `Wrapper_Method::get_initial_node` (lines 66-107): the node returned and the walker.
Set B is `nodesB`, in the order of iteration; `initcond`, `init_probs` and `nbins` are
the members of the network of these names; `rand_no` is the random number drawn; `ex`
and `lg` stand for the exponential function and the logarithm, so that `pi_B` of lines
76-78 is `lg (weight_B ktn ex nodesB)`.  Like `eps_probs`, `b_probs` is created with one
entry `(nullptr, 0.)` per node of B, and the entries of the nodes are appended. -/
def get_initial_node (ktn : Network) (ex lg : ℚ → ℚ) (nodesB : List Nat) (initcond : Bool)
    (init_probs : List ℚ) (nbins : Int) (rand_no : ℚ) (walker : Walker) :
    Except Fault (Nat × Walker) :=
  let blank : List (Option Nat × ℚ) := List.replicate nodesB.length (none, 0)
  let built : Except Fault (Option Nat × ℚ × List (Option Nat × ℚ)) :=
    match nodesB with
    | [b] =>
      match vec_get ktn.nodes b with
      | Except.error f => Except.error f
      | Except.ok nd => Except.ok (some b, nd.pi, blank)
    | _ =>
      if !initcond then
        Except.ok (none, lg (weight_B ktn ex nodesB),
          blank ++ eps_cum ktn ex (weight_B ktn ex nodesB) nodesB 0)
      else
        match init_cum init_probs nodesB 0 0 with
        | Except.error f => Except.error f
        | Except.ok es => Except.ok (none, 0, blank ++ es)
  match built with
  | Except.error f => Except.error f
  | Except.ok (node_b, pi_B, b_probs) =>
    let drawn : Except Fault (Option Nat) :=
      match node_b with
      | some b => Except.ok (some b)
      | none =>
        match b_scan rand_no b_probs with
        | some r => Except.ok r
        | none => Except.error Fault.out_of_range
    match drawn with
    | Except.error f => Except.error f
    | Except.ok none => Except.error Fault.thrown
    | Except.ok (some b) =>
      match vec_get ktn.nodes b with
      | Except.error f => Except.error f
      | Except.ok nd =>
        let w1 : Walker := { walker with curr_node := some b, p := nd.pi - pi_B }
        if nbins > 0 then
          match vec_set w1.visited nd.bin_id true with
          | Except.error f => Except.error f
          | Except.ok v => Except.ok (b, { w1 with visited := v })
        else Except.ok (b, w1)

/-- The two bounds of the loop of `run_enhanced_kmc`. -/
def KPS.caps (st : KPS) : Int × Int := (st.n_abpaths, st.n_kpsmaxit)

/-- Passes of the loop of `run_enhanced_kmc`, `m` of them, the first being pass `i`. -/
def cycles (top : Network → List Nat → Nat) (ktn : Network) (draws : Nat → Option Nat) :
    Nat → Nat → KPS → Except Fault KPS
  | 0, _, st => Except.ok st
  | m + 1, i, st =>
    match st.cycle top ktn (draws i) with
    | Except.error f => Except.error f
    | Except.ok st1 => cycles top ktn draws m (i + 1) st1

/-- Whether the pointer `a` points at a node of macrostate A (`aorb == -1`). -/
def in_A (ktn : Network) (a : Option Nat) : Bool :=
  match a with
  | none => false
  | some i =>
    match ktn.nodes[i]? with
    | some nd => decide (nd.aorb = -1)
    | none => false

/-- The vector `nodes_in_comm` and the queue `nbr_queue` of `find_comm_onthefly`. -/
structure CommState where
  labels : List Int
  queue : List Int
  deriving DecidableEq, Repr

/-- One pass of the `while (edgeptr!=nullptr)` loop of `find_comm_onthefly` (lines
128-139), for the edge at position `x`; `ex` stands for the exponential function. -/
def comm_mark (ktn : Network) (ex : ℚ → ℚ) (adaptminrate : ℚ) (s : CommState) (x : Nat) :
    Except Fault CommState :=
  match vec_get ktn.edges x with
  | Except.error f => Except.error f
  | Except.ok e =>
    if e.deadts then Except.ok s
    else
      match ktn.node_of e.to_node with
      | Except.error f => Except.error f
      | Except.ok tn =>
        match vec_get s.labels (tn.node_id - 1) with
        | Except.error f => Except.error f
        | Except.ok lab =>
          if lab = 2 then Except.ok s
          else
            let q : List Int :=
              if ex e.k > adaptminrate ∧ tn.aorb ≠ -1 then
                if lab = 0 then s.queue ++ [tn.node_id] else s.queue
              else s.queue
            match vec_set s.labels (tn.node_id - 1) 3 with
            | Except.error f => Except.error f
            | Except.ok ls => Except.ok { labels := ls, queue := q }

/-- The `while (edgeptr!=nullptr)` loop of `find_comm_onthefly` over the chain `xs`. -/
def comm_walk (ktn : Network) (ex : ℚ → ℚ) (adaptminrate : ℚ) :
    List Nat → CommState → Except Fault CommState
  | [], s => Except.ok s
  | x :: xs, s =>
    match comm_mark ktn ex adaptminrate s x with
    | Except.error f => Except.error f
    | Except.ok s1 => comm_walk ktn ex adaptminrate xs s1

/-- The outer loop of `find_comm_onthefly` (lines 122-141); `nv` counts the passes and
`fuel` bounds their number. -/
def comm_loop (ktn : Network) (ex : ℚ → ℚ) (adaptminrate : ℚ) (maxsz : Int) :
    Nat → CommState → Int → Except Fault (List Int)
  | 0, s, nv =>
    match s.queue with
    | [] => Except.ok s.labels
    | _ :: _ => if nv < maxsz then Except.error Fault.fuel else Except.ok s.labels
  | fuel + 1, s, nv =>
    match s.queue with
    | [] => Except.ok s.labels
    | curr_node_id :: q =>
      if nv < maxsz then
        match vec_set s.labels (curr_node_id - 1) 2 with
        | Except.error f => Except.error f
        | Except.ok ls =>
          match vec_get ktn.nodes (curr_node_id - 1) with
          | Except.error f => Except.error f
          | Except.ok nd =>
            match comm_walk ktn ex adaptminrate nd.top_from { labels := ls, queue := q } with
            | Except.error f => Except.error f
            | Except.ok s1 => comm_loop ktn ex adaptminrate maxsz fuel s1 (nv + 1)
      else Except.ok s.labels

/-- `Wrapper_Method::find_comm_onthefly`. -/
def find_comm_onthefly (ktn : Network) (ex : ℚ → ℚ) (init_node : Option Nat)
    (adaptminrate : ℚ) (maxsz : Int) : Except Fault (List Int) :=
  match init_node with
  | none => Except.error Fault.null_deref
  | some p =>
    match vec_get ktn.nodes p with
    | Except.error f => Except.error f
    | Except.ok nd =>
      comm_loop ktn ex adaptminrate maxsz maxsz.toNat
        { labels := List.replicate ktn.n_nodes 0, queue := [nd.node_id] } 0

/-- What the loop over the edges `xs` makes of `nodes_in_comm` and of the queue: a
label changes only from a value other than 2 to 3, at the target of a live edge among
`xs`; the ids queued are ids of nodes; the target of every live edge among `xs` ends
with label 2 or 3. -/
structure Grown (ktn : Network) (xs : List Nat) (s s' : CommState) : Prop where
  length : s'.labels.length = s.labels.length
  queue : ∀ id ∈ s'.queue, id ∈ s.queue ∨ ∃ j, j < ktn.nodes.length ∧ id = (j : Int) + 1
  labels : ∀ k : Nat, s'.labels[k]? = s.labels[k]? ∨
    (s.labels[k]? ≠ some 2 ∧ s'.labels[k]? = some 3 ∧
      ∃ x ∈ xs, ktn.live x = true ∧ ktn.target x = some k)
  done : ∀ x ∈ xs, ktn.live x = true →
    ∃ j, ktn.target x = some j ∧ (s'.labels[j]? = some 2 ∨ s'.labels[j]? = some 3)

/-- What holds of `nodes_in_comm` and of the queue between the passes of the outer loop
of `find_comm_onthefly`: every label is 0, 2 or 3; the ids queued are ids of nodes; the
target of every live edge of a node labelled 2 is labelled 2 or 3; every node labelled
3 is the target of a live edge of a node labelled 2. -/
structure CInv (ktn : Network) (s : CommState) : Prop where
  length : s.labels.length = ktn.nodes.length
  vals : ∀ (k : Nat) (v : Int), s.labels[k]? = some v → v = 0 ∨ v = 2 ∨ v = 3
  queue : ∀ id ∈ s.queue, ∃ j, j < ktn.nodes.length ∧ id = (j : Int) + 1
  closed : ∀ i, s.labels[i]? = some 2 → ∀ x ∈ ktn.chain i, ktn.live x = true →
    ∃ j, ktn.target x = some j ∧ (s.labels[j]? = some 2 ∨ s.labels[j]? = some 3)
  edge : ∀ j, s.labels[j]? = some 3 →
    ∃ i, s.labels[i]? = some 2 ∧ ∃ x ∈ ktn.chain i, ktn.live x = true ∧ ktn.target x = some j

/-- The values `curr_node_id` takes in the passes of the outer loop of
`find_comm_onthefly` (line 123), in order: the ids taken from the queue.  The recursion
is that of `comm_loop`. -/
def comm_taken (ktn : Network) (ex : ℚ → ℚ) (adaptminrate : ℚ) (maxsz : Int) :
    Nat → CommState → Int → List Int
  | 0, _, _ => []
  | fuel + 1, s, nv =>
    match s.queue with
    | [] => []
    | curr_node_id :: q =>
      if nv < maxsz then
        match vec_set s.labels (curr_node_id - 1) 2 with
        | Except.error _ => [curr_node_id]
        | Except.ok ls =>
          match vec_get ktn.nodes (curr_node_id - 1) with
          | Except.error _ => [curr_node_id]
          | Except.ok nd =>
            match comm_walk ktn ex adaptminrate nd.top_from { labels := ls, queue := q } with
            | Except.error _ => [curr_node_id]
            | Except.ok s1 =>
              curr_node_id :: comm_taken ktn ex adaptminrate maxsz fuel s1 (nv + 1)
      else []

/-- The ids that a call of `find_comm_onthefly` takes from its queue, in order. -/
def find_comm_taken (ktn : Network) (ex : ℚ → ℚ) (init_node : Option Nat)
    (adaptminrate : ℚ) (maxsz : Int) : List Int :=
  match init_node with
  | none => []
  | some p =>
    match vec_get ktn.nodes p with
    | Except.error _ => []
    | Except.ok nd =>
      comm_taken ktn ex adaptminrate maxsz maxsz.toNat
        { labels := List.replicate ktn.n_nodes 0, queue := [nd.node_id] } 0

/-- The network `demo_ktn` with node 2, the only neighbour of community 0, in macrostate
A (`aorb = -1`). -/
def demo_A : Network :=
  { demo_ktn with nodes := demo_ktn.nodes.set 2 { mk_node 3 1 2 0 [3, 4] with aorb := -1 } }

/-! # Properties -/

theorem vec_get_some {α : Type} (v : List α) (i : Nat) (a : α) (h : v[i]? = some a) :
    vec_get v (i : Int) = Except.ok a := by
  have h0 : ¬ ((i : Int) < 0) := by omega
  simp [vec_get, h0, h]

theorem vec_get_none {α : Type} (v : List α) (i : Nat) (h : v[i]? = none) :
    vec_get v (i : Int) = Except.error Fault.out_of_range := by
  have h0 : ¬ ((i : Int) < 0) := by omega
  simp [vec_get, h0, h]

theorem factor_sum_eq (g : Network) (xs : List Nat) (acc : ℚ)
    (hch : ∀ x ∈ xs, x < g.edges.length ∧ (g.live x = true → (g.target x).isSome)) :
    factor_sum g xs acc = Except.ok (acc + g.escape_sum xs) := by
  induction xs generalizing acc with
  | nil => simp [factor_sum, Network.escape_sum]
  | cons x xs ih =>
    have hx := hch x (List.mem_cons_self _ _)
    have ih' := fun a => ih a (fun y hy => hch y (List.mem_cons_of_mem _ hy))
    obtain ⟨hlt, htg⟩ := hx
    have hsome : g.edges[x]? = some g.edges[x] := List.getElem?_eq_getElem hlt
    unfold factor_sum
    rw [vec_get_some _ _ _ hsome]
    simp only
    by_cases hd : (g.edges[x]).deadts = true
    · have hl : g.live x = false := by simp [Network.live, hsome, hd]
      simp [hd, ih', Network.escape_sum, List.filter_cons, hl]
    · have hl : g.live x = true := by simp [Network.live, hsome, hd]
      have ht := htg hl
      simp only [hd]
      rw [Network.target, hsome] at ht
      simp only at ht
      cases hto : (g.edges[x]).to_node with
      | null => simp [hto] at ht
      | outer j => simp [hto] at ht
      | own j =>
        simp only [hto] at ht
        have hj : j < g.nodes.length := by
          by_contra hcon
          simp [hcon] at ht
        have hjs : g.nodes[j]? = some g.nodes[j] := List.getElem?_eq_getElem hj
        have htgt : g.target x = some j := by simp [Network.target, hsome, hto, hj]
        simp only [Network.node_of, vec_get_some _ _ _ hjs]
        by_cases he : (g.nodes[j]).eliminated = true
        · have hte : g.to_elim x = true := by simp [Network.to_elim, htgt, Network.elim, hjs, he]
          simp [he, ih', Network.escape_sum, List.filter_cons, hl, hte]
        · have hte : g.to_elim x = false := by simp [Network.to_elim, htgt, Network.elim, hjs, he]
          have hp : g.prob x = (g.edges[x]).t := by simp [Network.prob, hsome]
          simp [he, ih', Network.escape_sum, List.filter_cons, hl, hte, hp]
          ring

theorem same_shape_refl (g : Network) : g.same_shape g :=
  ⟨rfl, rfl, rfl, rfl, fun _ => rfl, fun _ => rfl⟩

theorem same_shape_trans {g g1 g2 : Network} (h1 : g.same_shape g1) (h2 : g1.same_shape g2) :
    g.same_shape g2 := by
  exact ⟨h2.n_nodes.trans h1.n_nodes, h2.n_edges.trans h1.n_edges,
    h2.nodes_length.trans h1.nodes_length, h2.edges_length.trans h1.edges_length,
    fun x => (h2.edges x).trans (h1.edges x), fun j => (h2.nodes j).trans (h1.nodes j)⟩

theorem same_shape_edge {g g' : Network} (h : g.same_shape g') (x : Nat) (e : Edge)
    (he : g.edges[x]? = some e) :
    ∃ e', g'.edges[x]? = some e' ∧ e'.frame = e.frame := by
  have hx := h.edges x
  rw [he] at hx
  cases h' : g'.edges[x]? with
  | none => simp [h'] at hx
  | some e' => exact ⟨e', rfl, by simpa [h'] using hx⟩

theorem same_shape_node {g g' : Network} (h : g.same_shape g') (j : Nat) (nd : Node)
    (hn : g.nodes[j]? = some nd) :
    ∃ nd', g'.nodes[j]? = some nd' ∧ nd'.frame = nd.frame := by
  have hj := h.nodes j
  rw [hn] at hj
  cases h' : g'.nodes[j]? with
  | none => simp [h'] at hj
  | some nd' => exact ⟨nd', rfl, by simpa [h'] using hj⟩

theorem same_shape_symm {g g' : Network} (h : g.same_shape g') : g'.same_shape g := by
  exact ⟨h.n_nodes.symm, h.n_edges.symm, h.nodes_length.symm, h.edges_length.symm,
    fun x => (h.edges x).symm, fun j => (h.nodes j).symm⟩

theorem edge_frame_fields {e e' : Edge} (h : e'.frame = e.frame) :
    e'.edge_pos = e.edge_pos ∧ e'.k = e.k ∧ e'.deadts = e.deadts ∧ e'.to_node = e.to_node ∧
    e'.from_node = e.from_node ∧ e'.rev_edge = e.rev_edge := by
  cases e; cases e'
  simp only [Edge.frame, Edge.mk.injEq] at h
  simp [h]

theorem node_frame_fields {m m' : Node} (h : m'.frame = m.frame) :
    m'.node_id = m.node_id ∧ m'.comm_id = m.comm_id ∧ m'.bin_id = m.bin_id ∧ m'.aorb = m.aorb ∧
    m'.udeg = m.udeg ∧ m'.k_esc = m.k_esc ∧ m'.t = m.t ∧ m'.pi = m.pi ∧
    m'.top_from = m.top_from ∧ m'.top_to = m.top_to := by
  cases m; cases m'
  simp only [Node.frame, Node.mk.injEq] at h
  simp [h]

theorem same_shape_live {g g' : Network} (h : g.same_shape g') (x : Nat) : g'.live x = g.live x := by
  unfold Network.live
  cases he : g.edges[x]? with
  | none =>
    have hx := h.edges x
    rw [he] at hx
    cases h' : g'.edges[x]? with
    | none => rfl
    | some e' => simp [h'] at hx
  | some e =>
    obtain ⟨e', h1, h2⟩ := same_shape_edge h x e he
    simp [h1, (edge_frame_fields h2).2.2.1]

theorem same_shape_target {g g' : Network} (h : g.same_shape g') (x : Nat) :
    g'.target x = g.target x := by
  unfold Network.target
  cases he : g.edges[x]? with
  | none =>
    have hx := h.edges x
    rw [he] at hx
    cases h' : g'.edges[x]? with
    | none => rfl
    | some e' => simp [h'] at hx
  | some e =>
    obtain ⟨e', h1, h2⟩ := same_shape_edge h x e he
    simp [h1, (edge_frame_fields h2).2.2.2.1, h.nodes_length]

theorem same_shape_chain {g g' : Network} (h : g.same_shape g') (j : Nat) :
    g'.chain j = g.chain j := by
  unfold Network.chain
  cases hn : g.nodes[j]? with
  | none =>
    have hj := h.nodes j
    rw [hn] at hj
    cases h' : g'.nodes[j]? with
    | none => rfl
    | some nd' => simp [h'] at hj
  | some nd =>
    obtain ⟨nd', h1, h2⟩ := same_shape_node h j nd hn
    simp [h1, (node_frame_fields h2).2.2.2.2.2.2.2.2.1]

theorem same_shape_comm {g g' : Network} (h : g.same_shape g') (j : Nat) :
    g'.comm j = g.comm j := by
  unfold Network.comm
  cases hn : g.nodes[j]? with
  | none =>
    have hj := h.nodes j
    rw [hn] at hj
    cases h' : g'.nodes[j]? with
    | none => rfl
    | some nd' => simp [h'] at hj
  | some nd =>
    obtain ⟨nd', h1, h2⟩ := same_shape_node h j nd hn
    simp [h1, (node_frame_fields h2).2.1]

theorem same_shape_self_prob {g g' : Network} (h : g.same_shape g') (j : Nat) :
    g'.self_prob j = g.self_prob j := by
  unfold Network.self_prob
  cases hn : g.nodes[j]? with
  | none =>
    have hj := h.nodes j
    rw [hn] at hj
    cases h' : g'.nodes[j]? with
    | none => rfl
    | some nd' => simp [h'] at hj
  | some nd =>
    obtain ⟨nd', h1, h2⟩ := same_shape_node h j nd hn
    simp [h1, (node_frame_fields h2).2.2.2.2.2.2.1]

theorem same_shape_udeg {g g' : Network} (h : g.same_shape g') (j : Nat) :
    udeg_at g' j = udeg_at g j := by
  unfold udeg_at
  cases hn : g.nodes[j]? with
  | none =>
    have hj := h.nodes j
    rw [hn] at hj
    cases h' : g'.nodes[j]? with
    | none => rfl
    | some nd' => simp [h'] at hj
  | some nd =>
    obtain ⟨nd', h1, h2⟩ := same_shape_node h j nd hn
    simp [h1, (node_frame_fields h2).2.2.2.2.1]

theorem same_shape_touchable {g g' : Network} (h : g.same_shape g') (ktn : Network) (r : Ref) :
    touchable ktn g' r = touchable ktn g r := by
  cases r <;> simp [touchable, h.edges_length]

theorem same_shape_edge_ready {g g' : Network} (h : g.same_shape g') (ktn : Network) (c : Int)
    (x : Nat) : g'.edge_ready ktn c x = g.edge_ready ktn c x := by
  unfold Network.edge_ready
  cases he : g.edges[x]? with
  | none =>
    have hx := h.edges x
    rw [he] at hx
    cases h' : g'.edges[x]? with
    | none => rfl
    | some e' => simp [h'] at hx
  | some e =>
    obtain ⟨e', h1, h2⟩ := same_shape_edge h x e he
    obtain ⟨-, -, -, f4, -, f6⟩ := edge_frame_fields h2
    simp only [h1, f4, f6, same_shape_touchable h]
    cases e.to_node with
    | null => rfl
    | outer j => rfl
    | own j =>
      simp only
      cases hn : g.nodes[j]? with
      | none =>
        have hj := h.nodes j
        rw [hn] at hj
        cases h' : g'.nodes[j]? with
        | none => rfl
        | some nd' => simp [h'] at hj
      | some nd =>
        obtain ⟨nd', h3, h4⟩ := same_shape_node h j nd hn
        simp [h3, (node_frame_fields h4).2.1]

theorem to_elim_congr {g g' : Network} (h : g.same_shape g') (hel : ∀ j, g'.elim j = g.elim j)
    (x : Nat) : g'.to_elim x = g.to_elim x := by
  unfold Network.to_elim
  rw [same_shape_target h x]
  cases g.target x with
  | none => rfl
  | some j => exact hel j

theorem touch_edge_ok {ktn g : Network} {r : Ref} (h : touchable ktn g r = true) :
    touch_edge ktn g r = Except.ok () := by
  cases r <;> simp_all [touchable, touch_edge]

theorem boost_step (g : Network) (x j : Nat) (e e' : Edge) (tn tn' : Node)
    (he : g.edges[x]? = some e) (hj : g.nodes[j]? = some tn)
    (hef : e'.frame = e.frame) (hnf : tn'.frame = tn.frame) (hne : tn'.eliminated = tn.eliminated)
    (g2 : Network)
    (hg2 : g2 = { nodes := g.nodes.set j tn', edges := g.edges.set x e',
                  n_nodes := g.n_nodes, n_edges := g.n_edges }) :
    g.same_shape g2 ∧ (∀ i, g2.elim i = g.elim i) ∧
      (∀ y, g2.prob y = if y = x then e'.t else g.prob y) := by
  subst hg2
  have hx : x < g.edges.length := (List.getElem?_eq_some.mp he).1
  have hjl : j < g.nodes.length := (List.getElem?_eq_some.mp hj).1
  refine ⟨⟨rfl, rfl, by simp, by simp, ?_, ?_⟩, ?_, ?_⟩
  · intro y
    by_cases hxy : x = y
    · subst hxy
      simp [List.getElem?_set, hx, he, hef]
    · simp [List.getElem?_set_ne hxy]
  · intro i
    by_cases hji : j = i
    · subst hji
      simp [List.getElem?_set, hjl, hj, hnf]
    · simp [List.getElem?_set_ne hji]
  · intro i
    by_cases hji : j = i
    · subst hji
      simp [Network.elim, List.getElem?_set, hjl, hj, hne]
    · simp [Network.elim, List.getElem?_set_ne hji]
  · intro y
    by_cases hxy : x = y
    · subst hxy
      simp [Network.prob, List.getElem?_set, hx]
    · have hyx : ¬ y = x := fun h => hxy h.symm
      simp [Network.prob, List.getElem?_set_ne hxy, hyx]

theorem boost_edge_spec (ktn : Network) (c : Int) (n : Nat) (tnn factor : ℚ) (g : Network) (x : Nat)
    (hr : g.edge_ready ktn c x = true) (hn : n < g.nodes.length) (ht : g.self_prob n = tnn) :
    ∃ g', boost_edge ktn c n factor g x = Except.ok g' ∧ g.same_shape g' ∧
      (∀ j, g'.elim j = g.elim j) ∧
      ∀ y, g'.prob y = if y = x ∧ g.live x = true ∧ g.to_elim x = false
                        then g.prob x + g.prob x * tnn * factor else g.prob y := by
  unfold Network.edge_ready at hr
  cases he : g.edges[x]? with
  | none => simp [he] at hr
  | some e =>
    simp only [he] at hr
    obtain ⟨epos, ek, et, edead, eto, efrom, erev⟩ := e
    cases eto with
    | null => simp at hr
    | outer j => simp at hr
    | own j =>
      simp only at hr
      cases hj : g.nodes[j]? with
      | none => simp [hj] at hr
      | some tn =>
        simp only [hj] at hr
        obtain ⟨nid, ncomm, nbin, naorb, nudeg, nelim, nflag, nk, nt, npi, nfrom, nto⟩ := tn
        have hjl : j < g.nodes.length := (List.getElem?_eq_some.mp hj).1
        have hprob : g.prob x = et := by simp [Network.prob, he]
        have htgt : g.target x = some j := by simp [Network.target, he, hjl]
        unfold boost_edge
        rw [vec_get_some _ _ _ he]
        cases edead with
        | true =>
          have hl : g.live x = false := by simp [Network.live, he]
          exact ⟨g, by simp, same_shape_refl g, fun _ => rfl, fun y => by simp [hl]⟩
        | false =>
          have hl : g.live x = true := by simp [Network.live, he]
          cases nelim with
          | true =>
            have hte : g.to_elim x = true := by simp [Network.to_elim, htgt, Network.elim, hj]
            exact ⟨g, by simp [hj], same_shape_refl g, fun _ => rfl, fun y => by simp [hte]⟩
          | false =>
            have hte : g.to_elim x = false := by simp [Network.to_elim, htgt, Network.elim, hj]
            have htouch : ncomm = c → ∀ nn : List Node, ∀ a b : Nat,
                touch_edge ktn ⟨nn, g.edges, a, b⟩ erev = Except.ok () := by
              intro hc nn a b
              apply touch_edge_ok
              have : touchable ktn g erev = true := by simpa [hc] using hr
              cases erev <;> simp_all [touchable]
            have hnt : ∀ tn' : Node, tn'.t = nt →
                ∃ ne, (g.nodes.set j tn')[n]? = some ne ∧ ne.t = tnn := by
              intro tn' htn'
              by_cases hjn : j = n
              · subst hjn
                refine ⟨tn', by simp [List.getElem?_set, hjl], ?_⟩
                rw [← ht, htn']
                simp [Network.self_prob, hj]
              · refine ⟨g.nodes[n], by simp [List.getElem?_set_ne hjn, List.getElem?_eq_getElem hn], ?_⟩
                rw [← ht]
                simp [Network.self_prob, List.getElem?_eq_getElem hn]
            obtain ⟨ne, hne1, hne2⟩ := hnt ⟨nid, ncomm, nbin, naorb, nudeg, false, true, nk, nt, npi, nfrom, nto⟩ rfl
            obtain ⟨hs, hel2, hp2⟩ := boost_step g x j _ ⟨epos, ek, et + et * tnn * factor, false, Ref.own j, efrom, erev⟩ _
              ⟨nid, ncomm, nbin, naorb, nudeg, false, true, nk, nt, npi, nfrom, nto⟩ he hj rfl rfl rfl _ rfl
            refine ⟨_, ?_, hs, hel2, fun y => ?_⟩
            · simp only [hj, Bool.false_eq_true, if_false]
              by_cases hc : ncomm = c
              · subst hc
                simp only [if_true]
                rw [htouch rfl]
                simp only [hne1, hne2]
              · simp only [hc, if_false, hne1, hne2]
            · rw [hp2 y]
              by_cases hy : y = x
              · subst hy
                simp [hl, hte, hprob]
              · simp [hy]

theorem boost_edges_spec (ktn : Network) (c : Int) (n : Nat) (tnn factor : ℚ) :
    ∀ (xs : List Nat) (g : Network), xs.Nodup → (∀ x ∈ xs, g.edge_ready ktn c x = true) →
      n < g.nodes.length → g.self_prob n = tnn →
      ∃ g', boost_edges ktn c n factor xs g = Except.ok g' ∧ g.same_shape g' ∧
        (∀ j, g'.elim j = g.elim j) ∧
        ∀ x, g'.prob x = if x ∈ xs ∧ g.live x = true ∧ g.to_elim x = false
                          then g.prob x + g.prob x * tnn * factor else g.prob x := by
  intro xs
  induction xs with
  | nil =>
    intro g _ _ _ _
    exact ⟨g, rfl, same_shape_refl g, fun _ => rfl, fun x => by simp⟩
  | cons x xs ih =>
    intro g hnd hr hn ht
    have hxs : x ∉ xs := (List.nodup_cons.mp hnd).1
    have hnd' : xs.Nodup := (List.nodup_cons.mp hnd).2
    obtain ⟨g1, h1, hs1, hel1, hp1⟩ :=
      boost_edge_spec ktn c n tnn factor g x (hr x (List.mem_cons_self _ _)) hn ht
    have hr1 : ∀ y ∈ xs, g1.edge_ready ktn c y = true := fun y hy => by
      rw [same_shape_edge_ready hs1]
      exact hr y (List.mem_cons_of_mem _ hy)
    have hn1 : n < g1.nodes.length := by rw [hs1.nodes_length]; exact hn
    have ht1 := (same_shape_self_prob hs1 n).trans ht
    obtain ⟨g', h2, hs2, hel2, hp2⟩ := ih g1 hnd' hr1 hn1 ht1
    refine ⟨g', ?_, same_shape_trans hs1 hs2, fun i => (hel2 i).trans (hel1 i), fun y => ?_⟩
    · unfold boost_edges
      rw [h1]
      exact h2
    · rw [hp2 y, same_shape_live hs1, to_elim_congr hs1 hel1, hp1 y]
      by_cases hy : y = x
      · subst hy
        simp [hxs]
      · simp [hy]

theorem edge_ready_target {ktn g : Network} {c : Int} {x : Nat} (h : g.edge_ready ktn c x = true) :
    x < g.edges.length ∧ (g.target x).isSome := by
  unfold Network.edge_ready at h
  cases he : g.edges[x]? with
  | none => simp [he] at h
  | some e =>
    simp only [he] at h
    refine ⟨(List.getElem?_eq_some.mp he).1, ?_⟩
    cases hto : e.to_node with
    | null => simp [hto] at h
    | outer j => simp [hto] at h
    | own j =>
      simp only [hto] at h
      cases hj : g.nodes[j]? with
      | none => simp [hj] at h
      | some tn =>
        have hjl : j < g.nodes.length := (List.getElem?_eq_some.mp hj).1
        simp [Network.target, he, hto, hjl]

theorem gt_report_ok (ktn g : Network) (c : Int) (nd : Node) (hne : nd.top_from ≠ [])
    (hr : ∀ x ∈ nd.top_from, g.edge_ready ktn c x = true) :
    gt_report ktn g c nd = Except.ok () := by
  unfold gt_report
  cases hch : nd.top_from with
  | nil => exact absurd hch hne
  | cons x xs =>
    have h := hr x (by simp [hch])
    unfold Network.edge_ready at h
    cases he : g.edges[x]? with
    | none => simp [he] at h
    | some e =>
      simp only [he] at h
      simp only [vec_get_some _ _ _ he]
      cases hto : e.to_node with
      | null => simp [hto] at h
      | outer j => simp [hto] at h
      | own j =>
        simp only [hto] at h
        cases hj : g.nodes[j]? with
        | none => simp [hj] at h
        | some tn =>
          simp only [hj] at h
          simp only [Network.node_of, vec_get_some _ _ _ hj]
          by_cases hc : tn.comm_id = c
          · simp only [hc, if_true]
            apply touch_edge_ok
            simpa [hc] using h
          · simp [hc]

theorem gt_iteration_spec (ktn : Network) (c : Int) (g : Network) (n : Nat)
    (hn : n < g.nodes.length) (hne : g.chain n ≠ []) (hnd : (g.chain n).Nodup)
    (hr : ∀ x ∈ g.chain n, g.edge_ready ktn c x = true) :
    ∃ g', gt_iteration ktn c g n = Except.ok g' ∧ g.same_shape g' ∧
      (∀ j, g'.elim j = (g.elim j || decide (j = n))) ∧
      (∀ x, g'.prob x = if x ∈ g.chain n ∧ g.live x = true ∧ g.to_elim x = false
                        then g.prob x + g.prob x * g.self_prob n * g.factor_of n else g.prob x) ∧
      ∃ nd, g.nodes[n]? = some nd ∧ gt_factor g nd = Except.ok (g.factor_of n) := by
  have hns : g.nodes[n]? = some g.nodes[n] := List.getElem?_eq_getElem hn
  have hch : g.chain n = (g.nodes[n]).top_from := by simp [Network.chain, hns]
  have hsp : g.self_prob n = (g.nodes[n]).t := by simp [Network.self_prob, hns]
  rw [hch] at hne hnd hr
  have hfac : gt_factor g g.nodes[n] = Except.ok (g.factor_of n) := by
    unfold gt_factor Network.factor_of
    rw [hsp, hch]
    by_cases hgt : (g.nodes[n]).t > 999 / 1000
    · simp only [hgt, if_true]
      rw [factor_sum_eq g _ 0 (fun x hx => ⟨(edge_ready_target (hr x hx)).1,
        fun _ => (edge_ready_target (hr x hx)).2⟩)]
      simp
    · simp only [hgt, if_false]
  obtain ⟨g1, h1, hs1, hel1, hp1⟩ :=
    boost_edges_spec ktn c n (g.self_prob n) (g.factor_of n) _ g hnd hr hn rfl
  have hn1 : n < g1.nodes.length := by rw [hs1.nodes_length]; exact hn
  have hns1 : g1.nodes[n]? = some g1.nodes[n] := List.getElem?_eq_getElem hn1
  have hs2 : g1.same_shape { g1 with nodes := g1.nodes.set n { g1.nodes[n] with eliminated := true } } := by
    refine ⟨rfl, rfl, by simp, rfl, fun _ => rfl, fun j => ?_⟩
    by_cases hnj : n = j
    · subst hnj
      simp [List.getElem?_set, hn1, Node.frame]
    · simp [List.getElem?_set_ne hnj]
  refine ⟨_, ?_, same_shape_trans hs1 hs2, fun j => ?_, fun x => ?_, _, hns, hfac⟩
  · unfold gt_iteration
    rw [vec_get_some _ _ _ hns]
    simp only [gt_report_ok ktn g c _ hne hr, hfac, h1, hns1]
  · rw [← hel1 j]
    by_cases hnj : n = j
    · subst hnj
      simp [Network.elim, List.getElem?_set, hn1]
    · have hjn : ¬ j = n := fun h => hnj h.symm
      simp [Network.elim, List.getElem?_set_ne hnj, hjn]
  · rw [hch, ← hp1 x]
    rfl

theorem demo_sub_eq :
    (match (demo_kps 5).setup_basin_sets demo_ktn (some 0) with
     | Except.ok st => (match st.get_subnetwork demo_ktn with
        | Except.ok r => some r.1
        | Except.error _ => none)
     | Except.error _ => none) = some demo_sub := by
  decide!

/-- C10, as the claim states it, fails.  For the basin of node 0 of `demo_trap`,
`get_subnetwork` returns `demo_trap_sub`, and `graph_transformation` eliminates node 1,
of the least out-degree, first (whatever the order of the queue among equal
out-degrees) and node 0 second.  When `gt_iteration` is called for node 0 the
sub-network is `demo_trap_mid`: the self-transition probability 0.9995 of node 0 and
the probabilities 0.0002 and 0.0003 of its two live outgoing edges sum to 1; the edge
of probability 0.0003 leads to node 1, eliminated earlier, and the summation of the
high-self-probability path returns 0.0002, not `1 - 0.9995`. -/
theorem C10_counterexample :
    ((({ demo_kps 5 with basin_ids := [0, 0, 0] } : KPS).setup_basin_sets demo_trap (some 0)).toOption.bind
      fun st' => (st'.get_subnetwork demo_trap).toOption.map Prod.fst) = some demo_trap_sub ∧
    pq_fill demo_trap_sub 0 (List.range demo_trap_sub.nodes.length) = [0, 1] ∧
    (∀ top : Network → List Nat → Nat, pq_contract top → top demo_trap_sub [0, 1] = 1) ∧
    gt_iteration demo_trap 0 demo_trap_sub 1 = Except.ok demo_trap_mid ∧
    ((({ demo_kps 5 with basin_ids := [0, 0, 0] } : KPS).setup_basin_sets demo_trap (some 0)).toOption.bind
      fun st' => (st'.graph_transformation pq_top demo_trap).toOption.map
        KPS.eliminated_nodes) = some [1, 0] ∧
    demo_trap_mid.self_prob 0 + demo_trap_mid.live_sum (demo_trap_mid.chain 0) = 1 ∧
    (demo_trap_mid.nodes[0]?).map (gt_factor demo_trap_mid) = some (Except.ok (2 / 10000)) ∧
    1 - demo_trap_mid.self_prob 0 = 5 / 10000 := by
  refine ⟨by decide!, by decide, ?_, by decide!, by decide!, by decide!, by decide!, by decide!⟩
  intro top htop
  obtain ⟨hm, hle⟩ := htop demo_trap_sub [0, 1] (by decide)
  have h1 := hle 1 (by decide)
  simp only [List.mem_cons, List.mem_singleton, List.not_mem_nil, or_false] at hm
  rcases hm with h | h
  · rw [h] at h1
    exact absurd h1 (by decide)
  · exact h

/-- C10, amended: for a node whose self-transition probability plus the
probabilities of its live outgoing edges to nodes not yet eliminated is exactly 1,
the summation of the high-self-probability path of `gt_iteration` returns
`1 - t_nn`, the value of the ordinary path, so that `factor` is `1 - t_nn` on
either side of the threshold. -/
theorem C10_factor_paths_agree (g : Network) (nd : Node)
    (hch : ∀ x ∈ nd.top_from, x < g.edges.length ∧ (g.live x = true → (g.target x).isSome))
    (hsum : nd.t + g.escape_sum nd.top_from = 1) :
    factor_sum g nd.top_from 0 = Except.ok (1 - nd.t) ∧ gt_factor g nd = Except.ok (1 - nd.t) := by
  have h : factor_sum g nd.top_from 0 = Except.ok (1 - nd.t) := by
    rw [factor_sum_eq g nd.top_from 0 hch]
    congr 1
    linarith
  refine ⟨h, ?_⟩
  unfold gt_factor
  split
  · exact h
  · rfl

/-- C10 at a state that `graph_transformation` reaches: for the basin of node 0 of
`demo_peak`, `get_subnetwork` returns `demo_peak_sub`, in which node 0, the first node
eliminated, has the self-transition probability 0.9995 and one live edge, of
probability 0.0005, to a node not eliminated. -/
theorem C10_factor_paths_agree_witness :
    ((({ demo_kps 5 with basin_ids := [0, 0] } : KPS).setup_basin_sets demo_peak (some 0)).toOption.bind
      fun st' => (st'.get_subnetwork demo_peak).toOption.map Prod.fst) = some demo_peak_sub ∧
    ((({ demo_kps 5 with basin_ids := [0, 0] } : KPS).setup_basin_sets demo_peak (some 0)).toOption.bind
      fun st' => (st'.graph_transformation pq_top demo_peak).toOption.map
        KPS.eliminated_nodes) = some [0] ∧
    factor_sum demo_peak_sub (mk_node 1 0 1 (9995/10000) [0]).top_from 0
      = Except.ok (1 - (mk_node 1 0 1 (9995/10000) [0]).t) ∧
    gt_factor demo_peak_sub (mk_node 1 0 1 (9995/10000) [0])
      = Except.ok (1 - (mk_node 1 0 1 (9995/10000) [0]).t) :=
  ⟨by decide!, by decide!,
    C10_factor_paths_agree demo_peak_sub (mk_node 1 0 1 (9995/10000) [0]) (by decide) (by decide!)⟩

/-- C7: when `gt_iteration` is run for the node at position `n` of the working
sub-network `g` (a node with at least one outgoing edge, whose chain holds no edge
twice and only edges the loops can pass over), it returns, and with `factor` the
value computed at the start of the step: every live edge of `n` to a node not
eliminated ends with probability `t + t * t_nn * factor`; every edge of `n` that is
dead or leads to an eliminated node keeps its probability; the self-transition
probability of `n` is unchanged; `n` is flagged `eliminated` and the flag of every
other node is as before. -/
theorem C7_gt_iteration_own_edges (ktn : Network) (c : Int) (g : Network) (n : Nat)
    (hn : n < g.nodes.length) (hne : g.chain n ≠ []) (hnd : (g.chain n).Nodup)
    (hr : ∀ x ∈ g.chain n, g.edge_ready ktn c x = true) :
    ∃ g' factor nd, g.nodes[n]? = some nd ∧ gt_factor g nd = Except.ok factor ∧
      gt_iteration ktn c g n = Except.ok g' ∧
      (∀ x ∈ g.chain n, g.live x = true → g.to_elim x = false →
        g'.prob x = g.prob x + g.prob x * nd.t * factor) ∧
      (∀ x ∈ g.chain n, (g.live x = false ∨ g.to_elim x = true) → g'.prob x = g.prob x) ∧
      g'.self_prob n = nd.t ∧ g'.elim n = true ∧ ∀ j, j ≠ n → g'.elim j = g.elim j := by
  obtain ⟨g', h1, hs, hel, hp, nd, hnd', hfac⟩ := gt_iteration_spec ktn c g n hn hne hnd hr
  have hsp : g.self_prob n = nd.t := by simp [Network.self_prob, hnd']
  refine ⟨g', g.factor_of n, nd, hnd', hfac, h1, ?_, ?_, ?_, ?_, ?_⟩
  · intro x hx hl he
    rw [hp x, ← hsp]
    simp [hx, hl, he]
  · intro x _ h
    rw [hp x]
    rcases h with h | h <;> simp [h]
  · rw [same_shape_self_prob hs, hsp]
  · rw [hel n]
    simp
  · intro j hj
    rw [hel j]
    simp [hj]

/-- C7 at the node at position 0 of `demo_sub`. -/
theorem C7_gt_iteration_own_edges_witness :
    ∃ g' factor nd, demo_sub.nodes[0]? = some nd ∧ gt_factor demo_sub nd = Except.ok factor ∧
      gt_iteration demo_ktn 0 demo_sub 0 = Except.ok g' ∧
      (∀ x ∈ demo_sub.chain 0, demo_sub.live x = true → demo_sub.to_elim x = false →
        g'.prob x = demo_sub.prob x + demo_sub.prob x * nd.t * factor) ∧
      (∀ x ∈ demo_sub.chain 0, (demo_sub.live x = false ∨ demo_sub.to_elim x = true) →
        g'.prob x = demo_sub.prob x) ∧
      g'.self_prob 0 = nd.t ∧ g'.elim 0 = true ∧ ∀ j, j ≠ 0 → g'.elim j = demo_sub.elim j :=
  C7_gt_iteration_own_edges demo_ktn 0 demo_sub 0 (by decide) (by decide) (by decide) (by decide)

/-- C6 fails on the code: in `demo_sub` every basin node has self-transition
probability and probabilities of live outgoing edges summing to 1; `gt_iteration` for
the node at position 1 returns, and afterwards the surviving basin node at position 0
has self-transition probability plus probabilities of live edges to nodes still
present equal to 1/2. -/
theorem C6_stochasticity_lost :
    (∀ i ∈ ([0, 1] : List Nat), demo_sub.self_prob i + demo_sub.live_sum (demo_sub.chain i) = 1) ∧
    ((gt_iteration demo_ktn 0 demo_sub 1).toOption.map fun g' =>
      (g'.elim 1, g'.elim 0, g'.self_prob 0 + g'.escape_sum (g'.chain 0)))
      = some (true, false, 1 / 2) := by
  decide!

/-- C8 fails on the code: the node at position 0 of `demo_sub` has the basin node 1
and the boundary node 2 as neighbours still present, and no edge leads from node 1 to
node 2; after `gt_iteration` for node 0 the sub-network has as many edges as before
and still no edge from node 1 to node 2. -/
theorem C8_no_fill_in :
    (∀ x ∈ ([0, 1, 2] : List Nat), ¬ (demo_sub.source x = some 1 ∧ demo_sub.target x = some 2)) ∧
    ((gt_iteration demo_ktn 0 demo_sub 0).toOption.map fun g' =>
      (g'.edges.length, g'.n_edges,
        decide (∀ x ∈ ([0, 1, 2] : List Nat), ¬ (g'.source x = some 1 ∧ g'.target x = some 2))))
      = some (3, 3, true) := by
  decide!

theorem vec_set_nat {α : Type} (v : List α) (i : Nat) (a : α) (h : i < v.length) :
    vec_set v (i : Int) a = Except.ok (v.set i a) := by
  have h0 : ¬ ((i : Int) < 0) := by omega
  simp [vec_set, h0, h]

theorem basin_loop_spec (ktn : Network) (c : Int) :
    ∀ (is : List Nat) (st : KPS), (∀ i ∈ is, i < ktn.nodes.length ∧ i < st.basin_ids.length) →
      ∃ st', basin_loop ktn c is st = Except.ok st' ∧
        st'.basin_ids.length = st.basin_ids.length ∧
        (∀ i, st'.label i = if i ∈ is ∧ ktn.comm i = some c ∧ i < st.basin_ids.length
                              then some 3 else st.label i) ∧
        st'.N_B = st.N_B + (is.filter (fun i => decide (ktn.comm i = some c))).length ∧
        st'.N_e = st.N_e + ((is.filter (fun i => decide (ktn.comm i = some c))).map (udeg_at ktn)).sum ∧
        st'.N_c = st.N_c ∧ st'.rest = st.rest := by
  intro is
  induction is with
  | nil =>
    intro st _
    exact ⟨st, rfl, rfl, fun i => by simp, by simp, by simp, rfl, rfl⟩
  | cons i is ih =>
    intro st h
    obtain ⟨hi1, hi2⟩ := h i (List.mem_cons_self _ _)
    have h' : ∀ j ∈ is, j < ktn.nodes.length ∧ j < st.basin_ids.length :=
      fun j hj => h j (List.mem_cons_of_mem _ hj)
    have hns : ktn.nodes[i]? = some ktn.nodes[i] := List.getElem?_eq_getElem hi1
    have hcomm : ktn.comm i = some (ktn.nodes[i]).comm_id := by simp [Network.comm, hns]
    have hud : udeg_at ktn i = (ktn.nodes[i]).udeg := by simp [udeg_at, hns]
    unfold basin_loop
    rw [vec_get_some _ _ _ hns]
    by_cases hc : (ktn.nodes[i]).comm_id = c
    · simp only [hc, if_true]
      rw [vec_set_nat _ _ _ hi2]
      simp only
      obtain ⟨st', h1, h2, h3, h4, h5, h6⟩ := ih
        { st with basin_ids := st.basin_ids.set i 3, N_B := st.N_B + 1,
                  N_e := st.N_e + (ktn.nodes[i]).udeg } (by simpa using h')
      have hci : ktn.comm i = some c := by rw [hcomm, hc]
      refine ⟨st', h1, by simpa using h2, fun j => ?_, ?_, ?_, ?_⟩
      · rw [h3 j]
        simp only [KPS.label, List.length_set]
        by_cases hji : j = i
        · subst hji
          simp [hci, hi2, List.getElem?_set]
        · have hij : ¬ i = j := fun h => hji h.symm
          simp [hji, List.getElem?_set_ne hij]
      · rw [h4]
        simp [List.filter_cons, hci]
        omega
      · rw [h5]
        simp [List.filter_cons, hci, hud]
        omega
      · exact h6
    · simp only [hc, if_false]
      obtain ⟨st', h1, h2, h3, h4, h5, h6⟩ := ih st h'
      have hci : ¬ ktn.comm i = some c := by rw [hcomm]; simpa using hc
      refine ⟨st', h1, h2, fun j => ?_, ?_, ?_, h6⟩
      · rw [h3 j]
        by_cases hji : j = i
        · subst hji
          simp [hci]
        · simp [hji]
      · rw [h4]
        simp [List.filter_cons, hci]
      · rw [h5]
        simp [List.filter_cons, hci]

theorem target_some {g : Network} {x i : Nat} (h : g.target x = some i) :
    ∃ e, g.edges[x]? = some e ∧ e.to_node = Ref.own i ∧ i < g.nodes.length := by
  unfold Network.target at h
  cases he : g.edges[x]? with
  | none => simp [he] at h
  | some e =>
    simp only [he] at h
    cases hto : e.to_node with
    | null => simp [hto] at h
    | outer j => simp [hto] at h
    | own j =>
      simp only [hto] at h
      by_cases hj : j < g.nodes.length
      · simp only [hj, if_true, Option.some.injEq] at h
        cases h
        exact ⟨e, rfl, hto, hj⟩
      · simp [hj] at h

theorem boundary_mark_spec (ktn : Network) (c : Int) (hids : ktn.ids_ok) (st : KPS) (x : Nat)
    (hlen : st.basin_ids.length = ktn.nodes.length)
    (hx : x < ktn.edges.length ∧ (ktn.live x = true → (ktn.target x).isSome)) :
    ∃ st', boundary_mark ktn c st x = Except.ok st' ∧
      st'.basin_ids.length = st.basin_ids.length ∧
      (∀ i, st'.label i = if st.label i = some 0 ∧ ktn.comm i ≠ some c ∧
                              (ktn.live x = true ∧ ktn.target x = some i)
                            then some 1 else st.label i) ∧
      st'.N_c + st.basin_ids.count 1 = st.N_c + st'.basin_ids.count 1 ∧
      (st'.N_B = st.N_B ∧ st'.N_e = st.N_e ∧ st'.rest = st.rest) := by
  obtain ⟨hx1, hx2⟩ := hx
  have he : ktn.edges[x]? = some ktn.edges[x] := List.getElem?_eq_getElem hx1
  unfold boundary_mark
  rw [vec_get_some _ _ _ he]
  by_cases hd : (ktn.edges[x]).deadts = true
  · have hl : ktn.live x = false := by simp [Network.live, he, hd]
    exact ⟨st, by simp [hd], rfl, fun i => by simp [hl], rfl, rfl, rfl, rfl⟩
  · have hl : ktn.live x = true := by simp [Network.live, he, hd]
    have ht := hx2 hl
    cases htg : ktn.target x with
    | none => simp [htg] at ht
    | some j =>
      obtain ⟨e, he', hto, hj⟩ := target_some htg
      rw [he] at he'
      have hee : ktn.edges[x] = e := by simpa using he'
      subst hee
      have hns : ktn.nodes[j]? = some ktn.nodes[j] := List.getElem?_eq_getElem hj
      have hid : (ktn.nodes[j]).node_id = (j : Int) + 1 := by
        have := hids j hj
        simpa [hns] using this
      have hcomm : ktn.comm j = some (ktn.nodes[j]).comm_id := by simp [Network.comm, hns]
      have hkey : (ktn.nodes[j]).node_id - 1 = (j : Int) := by omega
      have hjl : j < st.basin_ids.length := by omega
      have hls : st.basin_ids[j]? = some st.basin_ids[j] := List.getElem?_eq_getElem hjl
      simp only [hd, hto, Network.node_of, vec_get_some _ _ _ hns, hkey,
        vec_get_some _ _ _ hls, vec_set_nat _ _ _ hjl]
      by_cases hc : (ktn.nodes[j]).comm_id = c
      · have hcj : ktn.comm j = some c := by rw [hcomm, hc]
        refine ⟨st, by simp [hc], rfl, fun i => ?_, rfl, rfl, rfl, rfl⟩
        by_cases hij : i = j
        · subst hij
          simp [hcj]
        · have : ¬ j = i := fun h => hij h.symm
          simp [this]
      · have hcj : ¬ ktn.comm j = some c := by rw [hcomm]; simpa using hc
        by_cases h0 : st.basin_ids[j] = 0
        · refine ⟨{ st with basin_ids := st.basin_ids.set j 1, N_c := st.N_c + 1 },
            by simp [hc, h0], by simp, fun i => ?_, ?_, rfl, rfl, rfl⟩
          · simp only [KPS.label]
            by_cases hij : i = j
            · subst hij
              simp [hcj, hl, hls, h0, List.getElem?_set, hjl]
            · have hji : ¬ j = i := fun h => hij h.symm
              simp [hji, List.getElem?_set_ne hji]
          · simp only
            rw [List.count_set _ _ _ _ hjl]
            simp [h0]
            omega
        · refine ⟨st, by simp [hc, h0], rfl, fun i => ?_, rfl, rfl, rfl, rfl⟩
          by_cases hij : i = j
          · subst hij
            simp [KPS.label, hls, h0]
          · have : ¬ j = i := fun h => hij h.symm
            simp [this]

theorem label_step (L : Option Nat) (B X R R' : Prop) [Decidable B] [Decidable X] [Decidable R]
    [Decidable R'] (hR : R' ↔ X ∨ R) :
    (if (if L = some 0 ∧ B ∧ X then some 1 else L) = some 0 ∧ B ∧ R then some 1
      else (if L = some 0 ∧ B ∧ X then some 1 else L))
    = if L = some 0 ∧ B ∧ R' then some 1 else L := by
  by_cases hL : L = some 0 <;> by_cases hB : B <;> by_cases hX : X <;> by_cases hR0 : R <;>
    simp [hL, hB, hX, hR0, hR]

theorem boundary_walk_spec (ktn : Network) (c : Int) (hids : ktn.ids_ok) :
    ∀ (xs : List Nat) (st : KPS), st.basin_ids.length = ktn.nodes.length →
      (∀ x ∈ xs, x < ktn.edges.length ∧ (ktn.live x = true → (ktn.target x).isSome)) →
      ∃ st', boundary_walk ktn c xs st = Except.ok st' ∧
        st'.basin_ids.length = st.basin_ids.length ∧
        (∀ i, st'.label i = if st.label i = some 0 ∧ ktn.comm i ≠ some c ∧
                                (∃ x ∈ xs, ktn.live x = true ∧ ktn.target x = some i)
                              then some 1 else st.label i) ∧
        st'.N_c + st.basin_ids.count 1 = st.N_c + st'.basin_ids.count 1 ∧
        (st'.N_B = st.N_B ∧ st'.N_e = st.N_e ∧ st'.rest = st.rest) := by
  intro xs
  induction xs with
  | nil =>
    intro st _ _
    exact ⟨st, rfl, rfl, fun i => by simp, rfl, rfl, rfl, rfl⟩
  | cons x xs ih =>
    intro st hlen hxs
    obtain ⟨st1, h1, h2, h3, h4, h5⟩ :=
      boundary_mark_spec ktn c hids st x hlen (hxs x (List.mem_cons_self _ _))
    obtain ⟨st', k1, k2, k3, k4, k5⟩ := ih st1 (h2.trans hlen)
      (fun y hy => hxs y (List.mem_cons_of_mem _ hy))
    refine ⟨st', ?_, k2.trans h2, fun i => ?_, by omega, ?_⟩
    · unfold boundary_walk
      rw [h1]
      exact k1
    · rw [k3 i, h3 i]
      apply label_step
      constructor
      · rintro ⟨y, hy, hy'⟩
        rcases List.mem_cons.mp hy with rfl | hy
        · exact Or.inl hy'
        · exact Or.inr ⟨y, hy, hy'⟩
      · rintro (h | ⟨y, hy, hy'⟩)
        · exact ⟨x, List.mem_cons_self _ _, h⟩
        · exact ⟨y, List.mem_cons_of_mem _ hy, hy'⟩
    · exact ⟨k5.1.trans h5.1, k5.2.1.trans h5.2.1, k5.2.2.trans h5.2.2⟩

theorem boundary_loop_spec (ktn : Network) (c : Int) (hids : ktn.ids_ok) (hch : ktn.chains_ok) :
    ∀ (is : List Nat) (st : KPS), st.basin_ids.length = ktn.nodes.length →
      (∀ i ∈ is, i < ktn.nodes.length) →
      ∃ st', boundary_loop ktn c is st = Except.ok st' ∧
        st'.basin_ids.length = st.basin_ids.length ∧
        (∀ i, st'.label i = if st.label i = some 0 ∧ ktn.comm i ≠ some c ∧
                ktn.reached (is.filter (fun j => decide (st.label j = some 3))) i
              then some 1 else st.label i) ∧
        st'.N_c + st.basin_ids.count 1 = st.N_c + st'.basin_ids.count 1 ∧
        (st'.N_B = st.N_B ∧ st'.N_e = st.N_e ∧ st'.rest = st.rest) := by
  intro is
  induction is with
  | nil =>
    intro st _ _
    exact ⟨st, rfl, rfl, fun i => by simp [Network.reached], rfl, rfl, rfl, rfl⟩
  | cons j is ih =>
    intro st hlen his
    have hj : j < ktn.nodes.length := his j (List.mem_cons_self _ _)
    have his' : ∀ i ∈ is, i < ktn.nodes.length := fun i hi => his i (List.mem_cons_of_mem _ hi)
    have hjl : j < st.basin_ids.length := by omega
    have hls : st.basin_ids[j]? = some st.basin_ids[j] := List.getElem?_eq_getElem hjl
    have hns : ktn.nodes[j]? = some ktn.nodes[j] := List.getElem?_eq_getElem hj
    have hchain : ktn.chain j = (ktn.nodes[j]).top_from := by simp [Network.chain, hns]
    unfold boundary_loop
    rw [vec_get_some _ _ _ hls]
    by_cases h3 : st.basin_ids[j] = 3
    · have hlab : st.label j = some 3 := by simp [KPS.label, hls, h3]
      simp only [h3, ne_eq, not_true_eq_false, if_false, vec_get_some _ _ _ hns]
      obtain ⟨st1, h1, h2, h4, h5, h6⟩ := boundary_walk_spec ktn c hids (ktn.nodes[j]).top_from st hlen
        (fun x hx => hch j hj x (by rw [hchain]; exact hx))
      obtain ⟨st', k1, k2, k3, k4, k5⟩ := ih st1 (h2.trans hlen) his'
      have hsame3 : ∀ i, (st1.label i = some 3 ↔ st.label i = some 3) := by
        intro i
        rw [h4 i]
        split
        · rename_i hh
          simp [hh.1]
        · rfl
      have hfilt : is.filter (fun i => decide (st1.label i = some 3))
          = is.filter (fun i => decide (st.label i = some 3)) := by
        apply List.filter_congr
        intro i _
        simp [hsame3 i]
      refine ⟨st', ?_, k2.trans h2, fun i => ?_, by omega, ?_⟩
      · simp only [h1]
        exact k1
      · rw [k3 i, h4 i, hfilt]
        simp only [List.filter_cons, hlab, decide_True, if_true]
        apply label_step
        constructor
        · rintro ⟨j', hj', hj''⟩
          rcases List.mem_cons.mp hj' with rfl | hj'
          · rw [hchain] at hj''
            exact Or.inl hj''
          · exact Or.inr ⟨j', hj', hj''⟩
        · rintro (h | ⟨j', hj', hj''⟩)
          · exact ⟨j, List.mem_cons_self _ _, by rw [hchain]; exact h⟩
          · exact ⟨j', List.mem_cons_of_mem _ hj', hj''⟩
      · exact ⟨k5.1.trans h6.1, k5.2.1.trans h6.2.1, k5.2.2.trans h6.2.2⟩
    · have hlab : ¬ st.label j = some 3 := by simp [KPS.label, hls, h3]
      simp only [h3, ne_eq, not_false_eq_true, if_true]
      obtain ⟨st', k1, k2, k3, k4, k5⟩ := ih st hlen his'
      refine ⟨st', k1, k2, fun i => ?_, k4, k5⟩
      rw [k3 i]
      simp [List.filter_cons, hlab]

theorem rest_fields {st st' : KPS} (h : st'.rest = st.rest) :
    st'.nelim = st.nelim ∧ st'.adaptivebins = st.adaptivebins ∧ st'.N = st.N ∧
    st'.epsilon = st.epsilon ∧ st'.alpha = st.alpha ∧
    st'.eliminated_nodes = st.eliminated_nodes ∧ st'.nodemap = st.nodemap := by
  have e1 := congrArg KPS.nelim h
  have e2 := congrArg KPS.adaptivebins h
  have e3 := congrArg KPS.N h
  have e4 := congrArg KPS.epsilon h
  have e5 := congrArg KPS.alpha h
  have e6 := congrArg KPS.eliminated_nodes h
  have e7 := congrArg KPS.nodemap h
  exact ⟨e1, e2, e3, e4, e5, e6, e7⟩

theorem setup_basin_sets_spec (ktn : Network) (st : KPS) (draw : Option Nat) (p : Nat)
    (hsize : ktn.n_nodes = ktn.nodes.length) (hids : ktn.ids_ok) (hch : ktn.chains_ok)
    (hlen : st.basin_ids.length = ktn.n_nodes) (had : st.adaptivebins = false)
    (heps : st.choose_epsilon draw = some p) (hp : p < ktn.nodes.length)
    (hnelim : 0 ≤ st.nelim) :
    ∃ st' c, ktn.comm p = some c ∧ st.setup_basin_sets ktn draw = Except.ok st' ∧
      SetupPost ktn c p st st' := by
  have hps : ktn.nodes[p]? = some ktn.nodes[p] := List.getElem?_eq_getElem hp
  have hn0 : ktn.n_nodes ≠ 0 := by omega
  have hcomm : ktn.comm p = some (ktn.nodes[p]).comm_id := by simp [Network.comm, hps]
  obtain ⟨st1, h1, h2, h3, h4, h5, h6, h7⟩ := basin_loop_spec ktn (ktn.nodes[p]).comm_id
    (List.range ktn.n_nodes)
    { st with N_c := 0, N := 0, N_B := 0, N_e := 0, epsilon := some p, alpha := none,
              basin_ids := List.replicate st.basin_ids.length 0 }
    (fun i hi => by
      have := List.mem_range.mp hi
      simp only [List.length_replicate]
      omega)
  dsimp only at h2 h3 h4 h5
  simp only [List.length_replicate] at h2 h3
  obtain ⟨st2, k1, k2, k3, k4, k5⟩ := boundary_loop_spec ktn (ktn.nodes[p]).comm_id hids hch
    (List.range ktn.n_nodes) st1 (by omega) (fun i hi => by
      have := List.mem_range.mp hi
      omega)
  have hlab1 : ∀ i, i < ktn.nodes.length →
      st1.label i = if ktn.comm i = some (ktn.nodes[p]).comm_id then some 3 else some 0 := by
    intro i hi
    rw [h3 i]
    have hin : i ∈ List.range ktn.n_nodes := List.mem_range.mpr (by omega)
    have hil : i < st.basin_ids.length := by omega
    simp [hin, hil, KPS.label, List.getElem?_replicate]
  have hlab1' : ∀ i, ktn.nodes.length ≤ i → st1.label i = none := by
    intro i hi
    simp only [KPS.label]
    apply List.getElem?_eq_none
    omega
  have hfilt : (List.range ktn.n_nodes).filter (fun j => decide (st1.label j = some 3))
      = ktn.basin_nodes (ktn.nodes[p]).comm_id := by
    unfold Network.basin_nodes
    rw [hsize]
    apply List.filter_congr
    intro i hi
    have := List.mem_range.mp hi
    rw [hlab1 i this]
    by_cases hc : ktn.comm i = some (ktn.nodes[p]).comm_id <;> simp [hc]
  have hcount1 : st1.basin_ids.count 1 = 0 := by
    rw [List.count_eq_zero]
    intro hmem
    obtain ⟨i, hi, hi'⟩ := List.getElem_of_mem hmem
    have hi2 : i < ktn.nodes.length := by omega
    have := hlab1 i hi2
    simp only [KPS.label, List.getElem?_eq_getElem hi, hi'] at this
    by_cases hc : ktn.comm i = some (ktn.nodes[p]).comm_id <;> simp [hc] at this
  have hst1 : st1.N_c = 0 ∧ st1.epsilon = some p ∧ st1.alpha = none ∧ st1.nelim = st.nelim ∧
      st1.adaptivebins = st.adaptivebins ∧ st1.N = 0 := by
    obtain ⟨e1, e2, e3, e4, e5, -, -⟩ := rest_fields h7
    exact ⟨h6, e4, e5, e1, e2, e3⟩
  have hst2 : st2.N_c = st2.basin_ids.count 1 ∧ st2.epsilon = some p ∧ st2.alpha = none ∧
      st2.nelim = st.nelim ∧ st2.adaptivebins = st.adaptivebins ∧ st2.N = 0 ∧ st2.N_B = st1.N_B ∧
      st2.N_e = st1.N_e := by
    obtain ⟨a1, a2, a3, a4, a5, a6⟩ := hst1
    have hNc : st2.N_c = st2.basin_ids.count 1 := by omega
    obtain ⟨e1, e2, e3, e4, e5, -, -⟩ := rest_fields k5.2.2
    exact ⟨hNc, e4.trans a2, e5.trans a3, e1.trans a4, e2.trans a5, e3.trans a6, k5.1, k5.2.1⟩
  refine ⟨{ st2 with eliminated_nodes := [], nodemap := [] }, (ktn.nodes[p]).comm_id, hcomm, ?_, ?_⟩
  · unfold KPS.setup_basin_sets
    simp only [heps]
    rw [if_neg (by simp [had])]
    simp only [eps_comm_id, hn0, ne_eq, not_false_eq_true,
      decide_True, if_true, vec_get_some _ _ _ hps, h1, k1]
    unfold KPS.reset_eliminated
    have hres : ¬ (if ¬ ((st2.N_B : Int) > st2.nelim) then (st2.N_B : Int) else st2.nelim) < 0 := by
      rw [hst2.2.2.2.1]
      split_ifs <;> omega
    rw [if_neg hres, hst2.2.1]
    cases st2.debug <;> simp [eps_comm_id, vec_get_some _ _ _ hps]
  · obtain ⟨b1, b2, b3, b4, b5, b6, b7, b8⟩ := hst2
    refine ⟨fun i hi => ?_, by simp only; omega, by simp only; rw [b7, h4, hsize]; simp [Network.basin_nodes],
      by simp only; rw [b8, h5, hsize]; simp [Network.basin_nodes], b1, b6, b2, b3, rfl, rfl, b4,
      by simp only; rw [b5, had]⟩
    show st2.label i = _
    rw [k3 i, hfilt, hlab1 i hi]
    unfold Network.basin_label
    by_cases hc : ktn.comm i = some (ktn.nodes[p]).comm_id
    · simp [hc]
    · by_cases hr : ktn.reached (ktn.basin_nodes (ktn.nodes[p]).comm_id) i
      · simp [hc, hr]
      · simp [hc, hr]

theorem mem_basin_nodes {g : Network} {c : Int} {i : Nat} :
    i ∈ g.basin_nodes c ↔ g.comm i = some c := by
  unfold Network.basin_nodes
  simp only [List.mem_filter, List.mem_range, decide_eq_true_eq]
  constructor
  · exact fun h => h.2
  · intro h
    refine ⟨?_, h⟩
    unfold Network.comm at h
    cases hn : g.nodes[i]? with
    | none => simp [hn] at h
    | some nd => exact (List.getElem?_eq_some.mp hn).1

theorem comm_lt {g : Network} {c : Int} {i : Nat} (h : g.comm i = some c) : i < g.nodes.length := by
  unfold Network.comm at h
  cases hn : g.nodes[i]? with
  | none => simp [hn] at h
  | some nd => exact (List.getElem?_eq_some.mp hn).1

theorem SetupPost.label_three {ktn : Network} {c : Int} {p : Nat} {st st' : KPS}
    (h : SetupPost ktn c p st st') (i : Nat) : st'.label i = some 3 ↔ ktn.comm i = some c := by
  by_cases hi : i < ktn.nodes.length
  · rw [h.labels i hi]
    unfold Network.basin_label
    by_cases hc : ktn.comm i = some c
    · simp [hc]
    · by_cases hr : ktn.reached (ktn.basin_nodes c) i <;> simp [hc, hr]
  · have h1 : st'.label i = none := by
      simp only [KPS.label]
      apply List.getElem?_eq_none
      have := h.length
      omega
    have h2 : ¬ ktn.comm i = some c := fun hc => hi (comm_lt hc)
    simp [h1, h2]

theorem SetupPost.reached_iff {ktn : Network} {c : Int} {p : Nat} {st st' : KPS}
    (h : SetupPost ktn c p st st') (i : Nat) :
    ktn.reached (ktn.basin_nodes c) i ↔
      ∃ j, st'.basin_ids[j]? = some 3 ∧ ∃ x ∈ ktn.chain j, ktn.live x = true ∧ ktn.target x = some i := by
  constructor
  · rintro ⟨j, hj, hx⟩
    exact ⟨j, (h.label_three j).mpr (mem_basin_nodes.mp hj), hx⟩
  · rintro ⟨j, hj, hx⟩
    exact ⟨j, mem_basin_nodes.mpr ((h.label_three j).mp hj), hx⟩

/-- C2: for every network whose node at position `i` has id `i+1` (and whose chains
hold edges of the network with live edges pointing at nodes of the network), every
occupied node `p`, every cap `nelim ≥ 0` (line 109 reserves `min(N_B, nelim)` places,
which throws for a negative number) and whatever `basin_ids` held before,
`setup_basin_sets` in non-adaptive mode returns with: label 3 exactly on the nodes of the community of
`p`; label 1 exactly on the nodes of another community that are the target of a live
edge on the chain of a node labelled 3; label 0 on every other node.  Hence the
target of every live edge on the chain of a node labelled 3 is labelled 1 or 3. -/
theorem C2_basin_labels (ktn : Network) (st : KPS) (draw : Option Nat) (p : Nat)
    (hsize : ktn.n_nodes = ktn.nodes.length) (hids : ktn.ids_ok) (hch : ktn.chains_ok)
    (hlen : st.basin_ids.length = ktn.n_nodes) (had : st.adaptivebins = false)
    (heps : st.choose_epsilon draw = some p) (hp : p < ktn.nodes.length)
    (hnelim : 0 ≤ st.nelim) :
    ∃ st' c, ktn.comm p = some c ∧ st.setup_basin_sets ktn draw = Except.ok st' ∧
      st'.epsilon = some p ∧
      (∀ i, i < ktn.nodes.length →
        (st'.basin_ids[i]? = some 3 ↔ ktn.comm i = some c) ∧
        (st'.basin_ids[i]? = some 1 ↔ ktn.comm i ≠ some c ∧
          ∃ j, st'.basin_ids[j]? = some 3 ∧
            ∃ x ∈ ktn.chain j, ktn.live x = true ∧ ktn.target x = some i) ∧
        (st'.basin_ids[i]? = some 0 ↔ ktn.comm i ≠ some c ∧
          ¬ ∃ j, st'.basin_ids[j]? = some 3 ∧
            ∃ x ∈ ktn.chain j, ktn.live x = true ∧ ktn.target x = some i)) ∧
      (∀ j x, st'.basin_ids[j]? = some 3 → x ∈ ktn.chain j → ktn.live x = true →
        ∃ i, ktn.target x = some i ∧
          (st'.basin_ids[i]? = some 1 ∨ st'.basin_ids[i]? = some 3)) := by
  obtain ⟨st', c, hc, hrun, hpost⟩ :=
    setup_basin_sets_spec ktn st draw p hsize hids hch hlen had heps hp hnelim
  have hlab : ∀ i, i < ktn.nodes.length →
      (st'.basin_ids[i]? = some 3 ↔ ktn.comm i = some c) ∧
      (st'.basin_ids[i]? = some 1 ↔ ktn.comm i ≠ some c ∧
        ∃ j, st'.basin_ids[j]? = some 3 ∧
          ∃ x ∈ ktn.chain j, ktn.live x = true ∧ ktn.target x = some i) ∧
      (st'.basin_ids[i]? = some 0 ↔ ktn.comm i ≠ some c ∧
        ¬ ∃ j, st'.basin_ids[j]? = some 3 ∧
          ∃ x ∈ ktn.chain j, ktn.live x = true ∧ ktn.target x = some i) := by
    intro i hi
    have hl := hpost.labels i hi
    rw [← hpost.reached_iff i]
    simp only [KPS.label] at hl
    rw [hl]
    unfold Network.basin_label
    by_cases hci : ktn.comm i = some c
    · simp [hci]
    · by_cases hr : ktn.reached (ktn.basin_nodes c) i <;> simp [hci, hr]
  refine ⟨st', c, hc, hrun, hpost.eps, hlab, ?_⟩
  intro j x hj hx hl
  have hjc : ktn.comm j = some c := (hpost.label_three j).mp hj
  have hjn := comm_lt hjc
  have ht := (hch j hjn x hx).2 hl
  cases htg : ktn.target x with
  | none => simp [htg] at ht
  | some i =>
    obtain ⟨_, _, _, hi⟩ := target_some htg
    refine ⟨i, rfl, ?_⟩
    by_cases hci : ktn.comm i = some c
    · exact Or.inr ((hlab i hi).1.mpr hci)
    · exact Or.inl ((hlab i hi).2.1.mpr ⟨hci, j, hj, x, hx, hl, htg⟩)

/-- C2 on `demo_ktn`, with stale labels and counts in the state before the call. -/
theorem C2_basin_labels_witness :
    ∃ st' c, demo_ktn.comm 0 = some c ∧
      ({ demo_kps 5 with basin_ids := [7, 1, 3, 1], N_c := 9 } : KPS).setup_basin_sets demo_ktn (some 0)
        = Except.ok st' ∧
      st'.epsilon = some 0 ∧
      (∀ i, i < demo_ktn.nodes.length →
        (st'.basin_ids[i]? = some 3 ↔ demo_ktn.comm i = some c) ∧
        (st'.basin_ids[i]? = some 1 ↔ demo_ktn.comm i ≠ some c ∧
          ∃ j, st'.basin_ids[j]? = some 3 ∧
            ∃ x ∈ demo_ktn.chain j, demo_ktn.live x = true ∧ demo_ktn.target x = some i) ∧
        (st'.basin_ids[i]? = some 0 ↔ demo_ktn.comm i ≠ some c ∧
          ¬ ∃ j, st'.basin_ids[j]? = some 3 ∧
            ∃ x ∈ demo_ktn.chain j, demo_ktn.live x = true ∧ demo_ktn.target x = some i)) ∧
      (∀ j x, st'.basin_ids[j]? = some 3 → x ∈ demo_ktn.chain j → demo_ktn.live x = true →
        ∃ i, demo_ktn.target x = some i ∧
          (st'.basin_ids[i]? = some 1 ∨ st'.basin_ids[i]? = some 3)) :=
  C2_basin_labels demo_ktn { demo_kps 5 with basin_ids := [7, 1, 3, 1], N_c := 9 } (some 0) 0
    (by decide) (by decide) (by decide) (by decide) (by decide) (by decide) (by decide) (by decide)

theorem map_find_of_mem {m : List (Int × Nat)} (hs : map_sorted m) {k : Int} {v : Nat}
    (h : (k, v) ∈ m) : map_find m k = some v := by
  induction m with
  | nil => simp at h
  | cons p m ih =>
    obtain ⟨k', v'⟩ := p
    unfold map_find
    have hs' := List.pairwise_cons.mp hs
    rcases List.mem_cons.mp h with heq | hmem
    · cases heq
      simp
    · have hlt : k' < k := hs'.1 (k, v) hmem
      have hne : ¬ k = k' := by omega
      simp only [hne, if_false]
      exact ih hs'.2 hmem

theorem map_find_mem {m : List (Int × Nat)} {k : Int} {v : Nat}
    (h : map_find m k = some v) : (k, v) ∈ m := by
  induction m with
  | nil => simp [map_find] at h
  | cons p m ih =>
    obtain ⟨k', v'⟩ := p
    unfold map_find at h
    by_cases hk : k = k'
    · simp only [hk, if_true, Option.some.injEq] at h
      subst hk
      subst h
      exact List.mem_cons_self _ _
    · simp only [hk, if_false] at h
      exact List.mem_cons_of_mem _ (ih h)

theorem map_index_of_mem {m : List (Int × Nat)} (hs : map_sorted m) {k : Int} {v : Nat}
    (h : (k, v) ∈ m) : map_index m k = (v, m) := by
  unfold map_index
  rw [map_find_of_mem hs h]

theorem map_insert_same {m : List (Int × Nat)} (hs : map_sorted m) {k : Int} {v : Nat}
    (h : (k, v) ∈ m) : map_insert m k v = m := by
  induction m with
  | nil => simp at h
  | cons p m ih =>
    obtain ⟨k', v'⟩ := p
    unfold map_insert
    have hs' := List.pairwise_cons.mp hs
    rcases List.mem_cons.mp h with heq | hmem
    · cases heq
      simp
    · have hlt : k' < k := hs'.1 (k, v) hmem
      have h1 : ¬ k < k' := by omega
      have h2 : ¬ k = k' := by omega
      simp only [h1, h2, if_false]
      rw [ih hs'.2 hmem]

theorem map_insert_last {m : List (Int × Nat)} {k : Int} {v : Nat}
    (h : ∀ p ∈ m, p.1 < k) : map_insert m k v = m ++ [(k, v)] := by
  induction m with
  | nil => rfl
  | cons p m ih =>
    obtain ⟨k', v'⟩ := p
    unfold map_insert
    have hlt : k' < k := h (k', v') (List.mem_cons_self _ _)
    have h1 : ¬ k < k' := by omega
    have h2 : ¬ k = k' := by omega
    simp only [h1, h2, if_false]
    rw [ih (fun q hq => h q (List.mem_cons_of_mem _ hq))]
    rfl

theorem map_after_split {pre rest : List (Int × Nat)} {k : Int} {v : Nat}
    (hs : map_sorted (pre ++ (k, v) :: rest)) : map_after (pre ++ (k, v) :: rest) k = rest := by
  unfold map_after
  have h := List.pairwise_append.mp hs
  have h2 := List.pairwise_cons.mp h.2.1
  rw [List.filter_append, List.filter_cons]
  have hpre : pre.filter (fun kv => decide (k < kv.1)) = [] := by
    rw [List.filter_eq_nil_iff]
    intro p hp
    have := h.2.2 p hp (k, v) (List.mem_cons_self _ _)
    simp only [decide_eq_true_eq]
    omega
  have hrest : rest.filter (fun kv => decide (k < kv.1)) = rest := by
    rw [List.filter_eq_self]
    intro p hp
    have := h2.1 p hp
    simpa using this
  simp [hpre, hrest]

theorem mem_pairs_from {is : List Nat} {a : Nat} {k : Int} {v : Nat} :
    (k, v) ∈ pairs_from is a ↔ ∃ j, j < is.length ∧ (is[j]? = some k.toNat ∧ 0 ≤ k) ∧ v = a + j := by
  induction is generalizing a with
  | nil => simp [pairs_from]
  | cons i is ih =>
    simp only [pairs_from, List.mem_cons, Prod.mk.injEq, ih, List.length_cons]
    constructor
    · rintro (⟨h1, h2⟩ | ⟨j, hj, hj', hv⟩)
      · exact ⟨0, by omega, by simp [h1], by omega⟩
      · exact ⟨j + 1, by omega, by simpa using hj', by omega⟩
    · rintro ⟨j, hj, hj', hv⟩
      cases j with
      | zero =>
        left
        simp only [List.getElem?_cons_zero, Option.some.injEq] at hj'
        exact ⟨by omega, by omega⟩
      | succ j =>
        right
        exact ⟨j, by omega, by simpa using hj', by omega⟩

theorem pairs_from_length (is : List Nat) (a : Nat) : (pairs_from is a).length = is.length := by
  induction is generalizing a with
  | nil => rfl
  | cons i is ih => simp [pairs_from, ih]

theorem pairs_from_sorted {is : List Nat} (h : is.Pairwise (· < ·)) (a : Nat) :
    map_sorted (pairs_from is a) := by
  induction is generalizing a with
  | nil => exact List.Pairwise.nil
  | cons i is ih =>
    have h' := List.pairwise_cons.mp h
    unfold pairs_from
    apply List.Pairwise.cons
    · rintro ⟨k, v⟩ hp
      obtain ⟨j, hj, ⟨hj1, hj2⟩, -⟩ := mem_pairs_from.mp hp
      have hmem : k.toNat ∈ is := List.getElem?_mem hj1
      have := h'.1 _ hmem
      simp only
      omega
    · exact ih h'.2 (a + 1)

theorem pairs_from_append (is js : List Nat) (a : Nat) :
    pairs_from (is ++ js) a = pairs_from is a ++ pairs_from js (a + is.length) := by
  induction is generalizing a with
  | nil => simp [pairs_from]
  | cons i is ih =>
    have h : a + 1 + is.length = a + (is.length + 1) := by omega
    show pairs_from (i :: (is ++ js)) a = _
    simp only [pairs_from, ih, List.length_cons, h, List.cons_append]

theorem copy_nodes_spec (ktn : Network) (ids : List Nat) :
    ∀ (is : List Nat) (j : Nat) (nm : List (Int × Nat)) (g : Network),
      (∀ i ∈ is, i < ids.length ∧ i < ktn.nodes.length) →
      j + (is.filter (fun i => decide (ids[i]? ≠ some 0))).length ≤ g.nodes.length →
      ∃ g', copy_nodes ktn ids is j nm g
          = Except.ok (j + (is.filter (fun i => decide (ids[i]? ≠ some 0))).length,
              map_store nm (pairs_from (is.filter (fun i => decide (ids[i]? ≠ some 0))) j), g') ∧
        g'.edges = g.edges ∧ g'.n_nodes = g.n_nodes ∧ g'.n_edges = g.n_edges ∧
        g'.nodes.length = g.nodes.length ∧
        (∀ a, g'.nodes[j + a]? =
          match (is.filter (fun i => decide (ids[i]? ≠ some 0)))[a]? with
          | some i => (ktn.nodes[i]?).map Node.assign
          | none => g.nodes[j + a]?) ∧
        (∀ a, a < j → g'.nodes[a]? = g.nodes[a]?) := by
  intro is
  induction is with
  | nil =>
    intro j nm g _ _
    exact ⟨g, rfl, rfl, rfl, rfl, rfl, fun a => by simp, fun a _ => rfl⟩
  | cons i is ih =>
    intro j nm g hin hlen
    obtain ⟨hi1, hi2⟩ := hin i (List.mem_cons_self _ _)
    have hin' : ∀ i' ∈ is, i' < ids.length ∧ i' < ktn.nodes.length :=
      fun i' h => hin i' (List.mem_cons_of_mem _ h)
    have hls : ids[i]? = some ids[i] := List.getElem?_eq_getElem hi1
    have hns : ktn.nodes[i]? = some ktn.nodes[i] := List.getElem?_eq_getElem hi2
    unfold copy_nodes
    rw [vec_get_some _ _ _ hls]
    by_cases h0 : ids[i] = 0
    · have hf : (i :: is).filter (fun i => decide (ids[i]? ≠ some 0))
          = is.filter (fun i => decide (ids[i]? ≠ some 0)) := by
        simp [List.filter_cons, hls, h0]
      rw [hf] at hlen ⊢
      simp only [h0, if_true]
      exact ih j nm g hin' hlen
    · have hf : (i :: is).filter (fun i => decide (ids[i]? ≠ some 0))
          = i :: is.filter (fun i => decide (ids[i]? ≠ some 0)) := by
        simp [List.filter_cons, hls, h0]
      rw [hf] at hlen ⊢
      simp only [List.length_cons] at hlen ⊢
      have hj : j < g.nodes.length := by omega
      simp only [h0, if_false, vec_get_some _ _ _ hns, hj, if_true]
      obtain ⟨g', h1, h2, h3, h4, h5, h6, h7⟩ := ih (j + 1) (map_insert nm i j)
        { g with nodes := g.nodes.set j (ktn.nodes[i]).assign } hin' (by simp only [List.length_set]; omega)
      refine ⟨g', ?_, h2, h3, h4, by simpa using h5, fun a => ?_, fun a ha => ?_⟩
      · rw [h1]
        have e1 : j + 1 + (is.filter (fun i => decide (ids[i]? ≠ some 0))).length
            = j + ((is.filter (fun i => decide (ids[i]? ≠ some 0))).length + 1) := by omega
        rw [e1]
        rfl
      · cases a with
        | zero =>
          have := h7 j (by omega)
          simp only [Nat.add_zero, List.getElem?_cons_zero]
          rw [this]
          simp [List.getElem?_set, hj, hns]
        | succ a =>
          have := h6 a
          have e1 : j + (a + 1) = j + 1 + a := by omega
          rw [e1, this]
          simp only [List.getElem?_cons_succ]
          cases (is.filter (fun i => decide (ids[i]? ≠ some 0)))[a]? with
          | some i' => rfl
          | none =>
            simp only
            apply List.getElem?_set_ne
            omega
      · rw [h7 a (by omega)]
        simp only
        apply List.getElem?_set_ne
        omega

theorem map_store_sorted {m : List (Int × Nat)} {is : List Nat} (a : Nat)
    (hs : is.Pairwise (· < ·)) (hlt : ∀ p ∈ m, ∀ i ∈ is, p.1 < (i : Int)) :
    map_store m (pairs_from is a) = m ++ pairs_from is a := by
  induction is generalizing m a with
  | nil => simp [map_store, pairs_from]
  | cons i is ih =>
    have hs' := List.pairwise_cons.mp hs
    unfold pairs_from map_store
    simp only [List.foldl_cons]
    rw [map_insert_last (fun p hp => hlt p hp i (List.mem_cons_self _ _))]
    have := ih (m := m ++ [((i : Int), a)]) (a + 1) hs'.2 (by
      intro p hp i' hi'
      rcases List.mem_append.mp hp with hp | hp
      · exact hlt p hp i' (List.mem_cons_of_mem _ hi')
      · simp only [List.mem_singleton] at hp
        subst hp
        have := hs'.1 i' hi'
        simp only
        omega)
    unfold map_store at this
    rw [this]
    simp

theorem map_store_same {m : List (Int × Nat)} (hs : map_sorted m) (ps : List (Int × Nat))
    (h : ∀ p ∈ ps, p ∈ m) : map_store m ps = m := by
  induction ps with
  | nil => rfl
  | cons p ps ih =>
    unfold map_store
    simp only [List.foldl_cons]
    rw [map_insert_same hs (h p (List.mem_cons_self _ _))]
    exact ih (fun q hq => h q (List.mem_cons_of_mem _ hq))

theorem marked_sorted (st : KPS) : st.marked.Pairwise (· < ·) :=
  List.Pairwise.filter _ (List.pairwise_lt_range _)

theorem place_edge_effect (ktn : Network) (e : Edge) (s : Extract) (fn tn : Node) (a b : Nat)
    (hk : s.k < s.ktnptr.edges.length)
    (hfn : ktn.node_of e.from_node = Except.ok fn) (htn : ktn.node_of e.to_node = Except.ok tn)
    (ha : map_index s.nodemap (fn.node_id - 1) = (a, s.nodemap))
    (hb : map_index s.nodemap (tn.node_id - 1) = (b, s.nodemap))
    (hal : a < s.ktnptr.nodes.length) (hbl : b < s.ktnptr.nodes.length)
    (hp : e.edge_pos < s.edgemask.length) :
    ∃ s1, place_edge ktn e s = Except.ok s1 ∧ s1.k = s.k + 1 ∧ s1.n = s.n ∧
      s1.nodemap = s.nodemap ∧ s1.edgemask = s.edgemask.set e.edge_pos true ∧
      s1.ktnptr.n_nodes = s.ktnptr.n_nodes ∧ s1.ktnptr.n_edges = s.ktnptr.n_edges ∧
      s1.ktnptr.edges = s.ktnptr.edges.set s.k
        { e.assign with edge_pos := s.k, from_node := Ref.own a, to_node := Ref.own b } ∧
      s1.ktnptr.nodes.length = s.ktnptr.nodes.length ∧
      (∀ a' : Nat, (s1.ktnptr.nodes[a']?).map Node.assign = (s.ktnptr.nodes[a']?).map Node.assign) ∧
      (∀ a', s1.ktnptr.chain a' = if a' = a then s.k :: s.ktnptr.chain a' else s.ktnptr.chain a') := by
  have has : s.ktnptr.nodes[a]? = some s.ktnptr.nodes[a] := List.getElem?_eq_getElem hal
  unfold place_edge
  simp only [hk, if_true, hfn, htn, ha, hb, Network.add_from_edge, has]
  have hbl2 : b < (s.ktnptr.nodes.set a
      { s.ktnptr.nodes[a] with top_from := s.k :: (s.ktnptr.nodes[a]).top_from }).length := by
    simpa using hbl
  have hbs := List.getElem?_eq_getElem hbl2
  simp only [Network.add_to_edge, hbs, hp, if_true]
  refine ⟨_, rfl, rfl, rfl, rfl, rfl, rfl, rfl, rfl, by simp, fun a' => ?_, fun a' => ?_⟩
  · simp only
    by_cases hba : b = a'
    · subst hba
      simp only [List.getElem?_set, hbl2, if_true, List.length_set, hbl]
      by_cases hab : a = b
      · subst hab
        simp [List.getElem_set, has, Node.assign]
      · simp [List.getElem_set, hab, List.getElem?_eq_getElem hbl, Node.assign]
    · rw [List.getElem?_set_ne hba]
      by_cases haa : a = a'
      · subst haa
        simp [List.getElem?_set, hal, has, Node.assign]
      · rw [List.getElem?_set_ne haa]
  · simp only [Network.chain]
    by_cases hba : b = a'
    · subst hba
      simp only [List.getElem?_set, hbl2, if_true, List.length_set, hbl]
      by_cases hab : a = b
      · subst hab
        simp [List.getElem_set, has]
      · have hba' : ¬ b = a := fun h => hab h.symm
        simp [List.getElem_set, hab, hba', List.getElem?_eq_getElem hbl]
    · rw [List.getElem?_set_ne hba]
      by_cases haa : a = a'
      · subst haa
        simp [List.getElem?_set, hal, has]
      · have haa' : ¬ a' = a := fun h => haa h.symm
        rw [List.getElem?_set_ne haa]
        simp [haa']

theorem mem_basin_edges {g : Network} {c : Int} {x : Nat} :
    x ∈ g.basin_edges c ↔ ∃ i, g.comm i = some c ∧ x ∈ g.chain i ∧ g.live x = true := by
  unfold Network.basin_edges
  simp only [List.mem_flatMap, List.mem_filter, mem_basin_nodes]

theorem source_some {g : Network} {x i : Nat} (h : g.source x = some i) :
    ∃ e, g.edges[x]? = some e ∧ e.from_node = Ref.own i ∧ i < g.nodes.length := by
  unfold Network.source at h
  cases he : g.edges[x]? with
  | none => simp [he] at h
  | some e =>
    simp only [he] at h
    cases hto : e.from_node with
    | null => simp [hto] at h
    | outer j => simp [hto] at h
    | own j =>
      simp only [hto] at h
      by_cases hj : j < g.nodes.length
      · simp only [hj, if_true, Option.some.injEq] at h
        cases h
        exact ⟨e, rfl, hto, hj⟩
      · simp [hj] at h

theorem rev_some {g : Network} {x y : Nat} (h : g.rev x = some y) :
    ∃ e, g.edges[x]? = some e ∧ e.rev_edge = Ref.own y ∧ y < g.edges.length := by
  unfold Network.rev at h
  cases he : g.edges[x]? with
  | none => simp [he] at h
  | some e =>
    simp only [he] at h
    cases hto : e.rev_edge with
    | null => simp [hto] at h
    | outer j => simp [hto] at h
    | own j =>
      simp only [hto] at h
      by_cases hj : j < g.edges.length
      · simp only [hj, if_true, Option.some.injEq] at h
        cases h
        exact ⟨e, rfl, hto, hj⟩
      · simp [hj] at h

theorem node_key {ktn : Network} (hids : ktn.ids_ok) {i : Nat} (hi : i < ktn.nodes.length) :
    ktn.node_of (Ref.own i) = Except.ok ktn.nodes[i] ∧ (ktn.nodes[i]).node_id - 1 = (i : Int) := by
  have hns : ktn.nodes[i]? = some ktn.nodes[i] := List.getElem?_eq_getElem hi
  refine ⟨by simp [Network.node_of, vec_get_some _ _ _ hns], ?_⟩
  have := hids i hi
  simp only [hns, Option.map_some', Option.some.injEq] at this
  omega

theorem copied_congr {ktn : Network} {P : List (Int × Nat)} {g g' : Network} {x j : Nat}
    (he : g'.edges[j]? = g.edges[j]?) (hl : g'.edges.length = g.edges.length)
    (h : copied ktn P g x j) : copied ktn P g' x j := by
  obtain ⟨e, e', i, i', a, b, h1, h2, h3, h4, h5, h6, h7, h8, h9, h10, h11, h12, h13⟩ := h
  refine ⟨e, e', i, i', a, b, h1, he.trans h2, h3, h4, h5, h6, h7, h8, h9, h10, h11, h12, ?_⟩
  rcases h13 with h | ⟨y, hy, hyl⟩
  · exact Or.inl h
  · exact Or.inr ⟨y, hy, by rw [hl]; exact hyl⟩

theorem place_edge_inv {ktn : Network} {c : Int} {P : List (Int × Nat)} {g1 : Network} {N_e : Nat}
    (ctx : XCtx ktn c P g1 N_e) {s : Extract} {O : List Nat} (inv : XCore ktn c P g1 N_e s O)
    {x : Nat} {e : Edge} (hx : x ∈ ktn.basin_edges c) (hxO : x ∉ O) (he : ktn.edges[x]? = some e) :
    ∃ s1, place_edge ktn e s = Except.ok s1 ∧ XCore ktn c P g1 N_e s1 (O ++ [x]) ∧ s1.n = s.n ∧
      (∀ j, j ≠ O.length → s1.ktnptr.edges[j]? = s.ktnptr.edges[j]?) ∧
      (s1.ktnptr.edges[O.length]?).map Edge.rev_edge = some Ref.null := by
  obtain ⟨hsize, hids, hchains, hown, hlisted, hnd, hpos⟩ := ctx.sound
  obtain ⟨i, hci, hxi, hlive⟩ := mem_basin_edges.mp hx
  have hi := comm_lt hci
  have hsrc := hown i hi x hxi
  obtain ⟨e1, he1, hfrom, -⟩ := source_some hsrc
  have hxl := (hchains i hi x hxi).1
  have htg := (hchains i hi x hxi).2 hlive
  cases htgt : ktn.target x with
  | none => simp [htgt] at htg
  | some i' =>
    obtain ⟨e2, he2, hto, hi'⟩ := target_some htgt
    rw [he] at he1 he2
    cases he1
    cases he2
    obtain ⟨hn1, hk1⟩ := node_key hids hi
    obtain ⟨hn2, hk2⟩ := node_key hids hi'
    obtain ⟨a, hfa, hal⟩ := ctx.find i (Or.inl hci)
    obtain ⟨b, hfb, hbl⟩ := ctx.find i' (Or.inr ⟨i, mem_basin_nodes.mpr hci, x, hxi, hlive, htgt⟩)
    obtain ⟨q, hq, hpq⟩ := hpos x hxl
    have heq : e.edge_pos = q := by simpa [Network.pos, he] using hpq
    have hnodup' : (O ++ [x]).Nodup := by
      rw [List.nodup_append]
      refine ⟨inv.nodup, List.nodup_singleton x, ?_⟩
      intro y hy hy'
      simp only [List.mem_singleton] at hy'
      subst hy'
      exact hxO hy
    have hsub' : ∀ y ∈ O ++ [x], y ∈ ktn.basin_edges c := by
      intro y hy
      rcases List.mem_append.mp hy with hy | hy
      · exact inv.sub y hy
      · simp only [List.mem_singleton] at hy
        subst hy
        exact hx
    have hlen : O.length + 1 ≤ N_e := by
      have := (List.subperm_of_subset hnodup' hsub').length_le
      rw [ctx.count] at this
      simpa using this
    have hdead : e.deadts = false := by simpa [Network.live, he] using hlive
    obtain ⟨s1, h1, h2, h3, h4, h5, h6, h7, h8, h9, h10, h11⟩ := place_edge_effect ktn e s
      ktn.nodes[i] ktn.nodes[i'] a b
      (by rw [inv.k, inv.edges_length]; omega)
      (by rw [hfrom]; exact hn1) (by rw [hto]; exact hn2)
      (by rw [hk1, inv.nodemap]; simp [map_index, hfa])
      (by rw [hk2, inv.nodemap]; simp [map_index, hfb])
      (by rw [inv.nodes_length]; exact hal) (by rw [inv.nodes_length]; exact hbl)
      (by rw [inv.mask_len, heq]; exact hq)
    have hkl : s.k < s.ktnptr.edges.length := by rw [inv.k, inv.edges_length]; omega
    have hedge : ∀ j, s1.ktnptr.edges[j]? = if j = s.k then
        some { e.assign with edge_pos := s.k, from_node := Ref.own a, to_node := Ref.own b }
        else s.ktnptr.edges[j]? := by
      intro j
      rw [h8]
      by_cases hj : j = s.k
      · subst hj
        simp [List.getElem?_set, hkl]
      · have : ¬ s.k = j := fun h => hj h.symm
        simp [hj, List.getElem?_set_ne this]
    have hel : s1.ktnptr.edges.length = s.ktnptr.edges.length := by rw [h8]; simp
    refine ⟨s1, h1, ?_, h3, fun j hj => by rw [hedge j, inv.k]; simp [hj],
      by rw [hedge, inv.k]; simp [Edge.assign]⟩
    refine ⟨h4.trans inv.nodemap, by rw [h5]; simpa using inv.mask_len, ?_, by rw [h2, inv.k]; simp,
      hnodup', hsub', h6.trans inv.n_nodes, h7.trans inv.n_edges, h9.trans inv.nodes_length,
      hel.trans inv.edges_length, fun a' => (h10 a').trans (inv.nodes a'), ?_, ?_, ?_, ?_⟩
    · intro q'
      rw [h5, heq]
      by_cases hqq : q = q'
      · subst hqq
        have hql : q < s.edgemask.length := by rw [inv.mask_len]; exact hq
        simp only [List.getElem?_set, hql, if_true, true_iff]
        exact ⟨x, by simp, hpq⟩
      · rw [List.getElem?_set_ne hqq, inv.mask q']
        constructor
        · rintro ⟨y, hy, hy'⟩
          exact ⟨y, List.mem_append_left _ hy, hy'⟩
        · rintro ⟨y, hy, hy'⟩
          rcases List.mem_append.mp hy with hy | hy
          · exact ⟨y, hy, hy'⟩
          · simp only [List.mem_singleton] at hy
            subst hy
            rw [hpq] at hy'
            simp only [Option.some.injEq] at hy'
            exact absurd hy' hqq
    · intro a' j
      rw [h11 a', hedge j]
      simp only [List.length_append, List.length_singleton]
      by_cases hj : j = s.k
      · subst hj
        have hnot : s.k ∉ s.ktnptr.chain a' := by
          intro hmem
          have := ((inv.chain_mem a' s.k).mp hmem).1
          rw [inv.k] at this
          omega
        by_cases haa : a' = a
        · subst haa
          simp [inv.k]
        · have : ¬ a = a' := fun h => haa h.symm
          simp [haa, hnot, this]
      · have hiff := inv.chain_mem a' j
        by_cases haa : a' = a
        · subst haa
          simp only [if_true, List.mem_cons, hj, false_or, if_false, hiff]
          constructor
          · rintro ⟨h, h'⟩
            exact ⟨by omega, h'⟩
          · rintro ⟨h, h'⟩
            rw [inv.k] at hj
            exact ⟨by omega, h'⟩
        · simp only [haa, if_false, hj, hiff]
          constructor
          · rintro ⟨h, h'⟩
            exact ⟨by omega, h'⟩
          · rintro ⟨h, h'⟩
            rw [inv.k] at hj
            exact ⟨by omega, h'⟩
    · intro a'
      rw [h11 a']
      by_cases haa : a' = a
      · subst haa
        simp only [if_true, List.nodup_cons]
        refine ⟨?_, inv.chain_nodup a'⟩
        intro hmem
        have := ((inv.chain_mem a' s.k).mp hmem).1
        rw [inv.k] at this
        omega
      · simp only [haa, if_false]
        exact inv.chain_nodup a'
    · intro j y hj
      by_cases hjl : j < O.length
      · rw [List.getElem?_append_left hjl] at hj
        have hne : ¬ j = s.k := by rw [inv.k]; omega
        exact copied_congr (by rw [hedge j]; simp [hne]) hel (inv.edges j y hj)
      · have hjk : j = O.length := by
          have := (List.getElem?_eq_some.mp hj).1
          simp only [List.length_append, List.length_singleton] at this
          omega
        subst hjk
        simp only [List.getElem?_concat_length, Option.some.injEq] at hj
        subst hj
        exact ⟨e, { e.assign with edge_pos := s.k, from_node := Ref.own a, to_node := Ref.own b },
          i, i', a, b, he, by rw [hedge, inv.k]; simp, hsrc, htgt, hfa, hfb,
          rfl, rfl, inv.k, rfl, rfl, hdead, Or.inl rfl⟩
    · intro j e' hj he'
      by_cases hjl : j < O.length
      · have hne : ¬ j = s.k := by rw [inv.k]; omega
        rw [hedge j, if_neg hne] at he'
        rcases inv.revs j e' hjl he' with h | ⟨k, x', y', hk, hr, hm, hOj, hOk, hxy⟩
        · exact Or.inl h
        · have hnk : ¬ k = s.k := by rw [inv.k]; omega
          refine Or.inr ⟨k, x', y', by simp only [List.length_append, List.length_singleton]; omega,
            hr, by rw [hedge k, if_neg hnk]; exact hm, ?_, ?_, hxy⟩
          · rw [List.getElem?_append_left hjl]
            exact hOj
          · rw [List.getElem?_append_left hk]
            exact hOk
      · have hjk : j = s.k := by
          simp only [List.length_append, List.length_singleton] at hj
          rw [inv.k]
          omega
        subst hjk
        rw [hedge] at he'
        simp only [if_true, Option.some.injEq] at he'
        subst he'
        exact Or.inl rfl

theorem pair_edges_effect (g : Network) (k : Nat) (hk : k < g.edges.length) :
    ∃ g', pair_edges g k = Except.ok g' ∧ g'.nodes = g.nodes ∧ g'.n_nodes = g.n_nodes ∧
      g'.n_edges = g.n_edges ∧ g'.edges.length = g.edges.length ∧
      ∀ j : Nat, ∃ r : Ref,
        g'.edges[j]? = (g.edges[j]?).map (fun e : Edge => { e with rev_edge := r }) ∧
        (r = Ref.own (k - 1) ∨ r = Ref.own k ∨ ∀ e, g.edges[j]? = some e → r = e.rev_edge) := by
  have h1 : k - 1 < g.edges.length := by omega
  have e1 := List.getElem?_eq_getElem h1
  have e2 := List.getElem?_eq_getElem hk
  unfold pair_edges
  simp only [e1, e2]
  refine ⟨_, rfl, rfl, rfl, rfl, by simp, fun j => ?_⟩
  by_cases hj1 : j = k
  · subst hj1
    exact ⟨Ref.own (j - 1), by simp [List.getElem?_set, hk, e2], Or.inl rfl⟩
  · have hj1' : ¬ k = j := fun h => hj1 h.symm
    simp only
    rw [List.getElem?_set_ne hj1']
    by_cases hj2 : j = k - 1
    · subst hj2
      exact ⟨Ref.own k, by simp [List.getElem?_set, h1, e1], Or.inr (Or.inl rfl)⟩
    · have hj2' : ¬ k - 1 = j := fun h => hj2 h.symm
      rw [List.getElem?_set_ne hj2']
      cases hej : g.edges[j]? with
      | none => exact ⟨Ref.null, rfl, Or.inr (Or.inr (fun e he => by simp at he))⟩
      | some e =>
        refine ⟨e.rev_edge, by simp, Or.inr (Or.inr (fun e' he' => ?_))⟩
        simp only [Option.some.injEq] at he'
        subst he'
        rfl

theorem pair_edges_exact (g : Network) (k : Nat) (hk : k < g.edges.length) (h1 : 1 ≤ k) :
    ∃ g', pair_edges g k = Except.ok g' ∧
      (∀ j, j ≠ k - 1 → j ≠ k → g'.edges[j]? = g.edges[j]?) ∧
      (g'.edges[k - 1]?).map Edge.rev_edge = some (Ref.own k) ∧
      (g'.edges[k]?).map Edge.rev_edge = some (Ref.own (k - 1)) := by
  have hk1 : k - 1 < g.edges.length := by omega
  have e1 := List.getElem?_eq_getElem hk1
  have e2 := List.getElem?_eq_getElem hk
  have hne : ¬ k = k - 1 := by omega
  unfold pair_edges
  simp only [e1, e2]
  refine ⟨_, rfl, fun j hj1 hj2 => ?_, ?_, ?_⟩
  · have a1 : ¬ k = j := fun h => hj2 h.symm
    have a2 : ¬ k - 1 = j := fun h => hj1 h.symm
    simp only
    rw [List.getElem?_set_ne a1, List.getElem?_set_ne a2]
  · simp only
    rw [List.getElem?_set_ne hne]
    simp [List.getElem?_set, hk1]
  · simp [List.getElem?_set, hk]

theorem pair_edges_inv {ktn : Network} {c : Int} {P : List (Int × Nat)} {g1 : Network} {N_e : Nat}
    {s : Extract} {O O0 : List Nat} {x y : Nat} (inv : XCore ktn c P g1 N_e s O)
    (hO : O = O0 ++ [x] ++ [y]) (hle : O.length ≤ N_e) (hrev : ktn.rev x = some y)
    (hn1 : (s.ktnptr.edges[O0.length]?).map Edge.rev_edge = some Ref.null)
    (hn2 : (s.ktnptr.edges[O0.length + 1]?).map Edge.rev_edge = some Ref.null) :
    ∃ g, pair_edges s.ktnptr (s.k - 1) = Except.ok g ∧
      XCore ktn c P g1 N_e { s with ktnptr := g } O ∧
      (∀ j, j < O0.length → g.edges[j]? = s.ktnptr.edges[j]?) ∧
      (g.edges[O0.length]?).map Edge.rev_edge = some (Ref.own (O0.length + 1)) ∧
      (g.edges[O0.length + 1]?).map Edge.rev_edge = some (Ref.own O0.length) := by
  have hk := inv.k
  have hl := inv.edges_length
  have hOl : O.length = O0.length + 2 := by rw [hO]; simp
  have hsk : s.k - 1 = O0.length + 1 := by omega
  obtain ⟨g, p, q1, q2, q3, q4, q5⟩ := pair_edges_effect s.ktnptr (s.k - 1) (by omega)
  obtain ⟨g', p', x1, x2, x3⟩ := pair_edges_exact s.ktnptr (s.k - 1) (by omega) (by omega)
  have hgg : g' = g := Except.ok.inj (p'.symm.trans p)
  subst hgg
  rw [hsk] at x1 x2 x3
  simp only [Nat.add_sub_cancel] at x1 x2 x3
  have hOx : O[O0.length]? = some x := by
    rw [hO, List.append_assoc, List.getElem?_append_right (Nat.le_refl _)]
    simp
  have hOy : O[O0.length + 1]? = some y := by
    rw [hO, List.getElem?_append_right (by simp)]
    simp
  refine ⟨g', p, ?_, fun j hj => x1 j (by omega) (by omega), x2, x3⟩
  refine ⟨inv.nodemap, inv.mask_len, inv.mask, inv.k, inv.nodup, inv.sub, q2.trans inv.n_nodes,
    q3.trans inv.n_edges, by simp only [q1]; exact inv.nodes_length, q4.trans inv.edges_length,
    by simp only [q1]; exact inv.nodes, ?_, ?_, ?_, ?_⟩
  · intro a j
    have := inv.chain_mem a j
    simp only [Network.chain, q1] at this ⊢
    rw [this]
    obtain ⟨r, hr, -⟩ := q5 j
    rw [hr]
    cases s.ktnptr.edges[j]? <;> simp
  · intro a
    have := inv.chain_nodup a
    simp only [Network.chain, q1] at this ⊢
    exact this
  · intro j x' hj
    obtain ⟨e, e', i, i', a, b, c1, c2, c3, c4, c5, c6, c7, c8, c9, c10, c11, c12, c13⟩ :=
      inv.edges j x' hj
    obtain ⟨r, hr, hr'⟩ := q5 j
    refine ⟨e, { e' with rev_edge := r }, i, i', a, b, c1, ?_, c3, c4, c5, c6, c7, c8, c9, c10,
      c11, c12, ?_⟩
    · simp only at hr ⊢
      rw [hr, c2]
      rfl
    · simp only
      rcases hr' with h | h | h
      · subst h
        exact Or.inr ⟨_, rfl, by rw [q4]; omega⟩
      · subst h
        exact Or.inr ⟨_, rfl, by rw [q4]; omega⟩
      · rw [h e' c2]
        rcases c13 with h' | ⟨z, hz, hzl⟩
        · exact Or.inl h'
        · exact Or.inr ⟨z, hz, by rw [q4]; exact hzl⟩
  · intro j e' hj he'
    simp only at he'
    by_cases hj1 : j = O0.length
    · subst hj1
      rw [he'] at x2
      simp only [Option.map_some', Option.some.injEq] at x2
      exact Or.inr ⟨O0.length + 1, x, y, by omega, x2, x3, hOx, hOy, Or.inl hrev⟩
    · by_cases hj2 : j = O0.length + 1
      · subst hj2
        rw [he'] at x3
        simp only [Option.map_some', Option.some.injEq] at x3
        exact Or.inr ⟨O0.length, y, x, by omega, x3, x2, hOy, hOx, Or.inr hrev⟩
      · rw [x1 j hj1 hj2] at he'
        rcases inv.revs j e' hj he' with h | ⟨k, x', y', hk', hr, hm, hOj, hOk, hxy⟩
        · exact Or.inl h
        · have hk1 : k ≠ O0.length := by
            intro h
            rw [h, hn1] at hm
            simp at hm
          have hk2 : k ≠ O0.length + 1 := by
            intro h
            rw [h, hn2] at hm
            simp at hm
          exact Or.inr ⟨k, x', y', hk', hr, by simp only; rw [x1 k hk1 hk2]; exact hm, hOj, hOk, hxy⟩

theorem mem_basin_edges_lt {ktn : Network} (hs : ktn.sound) {c : Int} {x : Nat}
    (h : x ∈ ktn.basin_edges c) : x < ktn.edges.length := by
  obtain ⟨i, hci, hxi, -⟩ := mem_basin_edges.mp h
  exact (hs.2.2.1 i (comm_lt hci) x hxi).1

theorem mask_false_not_mem {ktn : Network} {c : Int} {P : List (Int × Nat)} {g1 : Network}
    {N_e : Nat} {s : Extract} {O : List Nat} (inv : XCore ktn c P g1 N_e s O) {x q : Nat}
    (hp : ktn.pos x = some q) (hm : s.edgemask[q]? = some false) : x ∉ O := by
  intro hx
  have := (inv.mask q).mpr ⟨x, hx, hp⟩
  rw [hm] at this
  simp at this

theorem mask_true_mem {ktn : Network} {c : Int} {P : List (Int × Nat)} {g1 : Network}
    {N_e : Nat} (ctx : XCtx ktn c P g1 N_e) {s : Extract} {O : List Nat}
    (inv : XCore ktn c P g1 N_e s O) {x q : Nat} (hxl : x < ktn.edges.length)
    (hp : ktn.pos x = some q) (hm : s.edgemask[q]? = some true) : x ∈ O := by
  obtain ⟨y, hy, hy'⟩ := (inv.mask q).mp hm
  have hyl := mem_basin_edges_lt ctx.sound (inv.sub y hy)
  have := ctx.dist x hxl y hyl (hp.trans hy'.symm)
  rw [this]
  exact hy

theorem paired_snoc {ktn : Network} {c : Int} {s s1 : Extract} {O : List Nat} {x : Nat}
    (hold : ∀ (j x i' : Nat), O[j]? = some x → ktn.target x = some i' → ktn.comm i' = some c →
      ∃ k, (s.ktnptr.edges[j]?).map Edge.rev_edge = some (Ref.own k))
    (hframe : ∀ j, j ≠ O.length → s1.ktnptr.edges[j]? = s.ktnptr.edges[j]?)
    (hx : ∀ i', ktn.target x = some i' → ktn.comm i' = some c → False) :
    ∀ (j x' i' : Nat), (O ++ [x])[j]? = some x' → ktn.target x' = some i' →
      ktn.comm i' = some c → ∃ k, (s1.ktnptr.edges[j]?).map Edge.rev_edge = some (Ref.own k) := by
  intro j x' i' hj ht hc
  by_cases hjl : j < O.length
  · rw [List.getElem?_append_left hjl] at hj
    rw [hframe j (by omega)]
    exact hold j x' i' hj ht hc
  · have hjk : j = O.length := by
      have := (List.getElem?_eq_some.mp hj).1
      simp only [List.length_append, List.length_singleton] at this
      omega
    subst hjk
    simp only [List.getElem?_concat_length, Option.some.injEq] at hj
    subst hj
    exact absurd (hx i' ht hc) id

theorem target_lt {g : Network} {x i : Nat} (h : g.target x = some i) : i < g.nodes.length := by
  obtain ⟨_, _, _, hi⟩ := target_some h
  exact hi

theorem copy_edge_inv {ktn : Network} {c : Int} {P : List (Int × Nat)} {g1 : Network} {N_e : Nat}
    (ctx : XCtx ktn c P g1 N_e) {s : Extract} {O : List Nat} (inv : XInv ktn c P g1 N_e s O)
    {i x : Nat} (hci : ktn.comm i = some c) (hxi : x ∈ ktn.chain i) :
    ∃ s' O', copy_edge ktn c s x = Except.ok s' ∧ XInv ktn c P g1 N_e s' O' ∧ s'.n = s.n ∧
      (∀ y ∈ O, y ∈ O') ∧ (ktn.live x = true → x ∈ O') := by
  obtain ⟨hsize, hids, hchains, hown, hlisted, hnd, hpos⟩ := ctx.sound
  have hi := comm_lt hci
  have hxl := (hchains i hi x hxi).1
  have he : ktn.edges[x]? = some ktn.edges[x] := List.getElem?_eq_getElem hxl
  unfold copy_edge
  rw [vec_get_some _ _ _ he]
  by_cases hd : (ktn.edges[x]).deadts = true
  · have hl : ktn.live x = false := by simp [Network.live, he, hd]
    exact ⟨s, O, by simp [hd], inv, rfl, fun _ h => h, by simp [hl]⟩
  · have hl : ktn.live x = true := by simp [Network.live, he, hd]
    have hxT : x ∈ ktn.basin_edges c := mem_basin_edges.mpr ⟨i, hci, hxi, hl⟩
    obtain ⟨q, hq, hpq⟩ := hpos x hxl
    have heq : (ktn.edges[x]).edge_pos = q := by simpa [Network.pos, he] using hpq
    have hql : q < s.edgemask.length := by rw [inv.mask_len]; exact hq
    have hms : s.edgemask[q]? = some s.edgemask[q] := List.getElem?_eq_getElem hql
    simp only [hd, heq, vec_get_some _ _ _ hms]
    cases hm : s.edgemask[q] with
    | true =>
      rw [hm] at hms
      exact ⟨s, O, by simp, inv, rfl, fun _ h => h,
        fun _ => mask_true_mem ctx inv.toXCore hxl hpq hms⟩
    | false =>
      rw [hm] at hms
      have hxO := mask_false_not_mem inv.toXCore hpq hms
      obtain ⟨s1, p1, inv1, n1, f1, z1⟩ := place_edge_inv ctx inv.toXCore hxT hxO he
      have hmem1 : ∀ y ∈ O, y ∈ O ++ [x] := fun y hy => List.mem_append_left _ hy
      have hx1 : x ∈ O ++ [x] := by simp
      simp only [Bool.false_eq_true, if_false, p1]
      have hrev := ctx.revs i hi hci x hxi hl
      cases hrv : ktn.rev x with
      | none => simp [hrv] at hrev
      | some y =>
        obtain ⟨e3, he3, hr3, hy⟩ := rev_some hrv
        rw [he] at he3
        simp only [Option.some.injEq] at he3
        subst he3
        have hys : ktn.edges[y]? = some ktn.edges[y] := List.getElem?_eq_getElem hy
        simp only [hr3, Network.edge_of, vec_get_some _ _ _ hys]
        by_cases hdy : (ktn.edges[y]).deadts = true
        · refine ⟨s1, O ++ [x], by simp [hdy], ⟨inv1, fun hp => ?_⟩, n1, hmem1, fun _ => hx1⟩
          refine paired_snoc (inv.paired hp) f1 (fun i' ht hc' => ?_)
          obtain ⟨y', -, hry, -, -, -, hinv⟩ := hp i hi hci x hxi hl
          have hyy : y' = y := Option.some.inj (hry.symm.trans hrv)
          subst hyy
          have := (hinv i' (target_lt ht) ht hc').1
          simp [Network.live, hys, hdy] at this
        · have hly : ktn.live y = true := by simp [Network.live, hys, hdy]
          obtain ⟨i2, hi2, hsrc2, hch2⟩ := hlisted y hy hly
          obtain ⟨e4, he4, hfrom4, -⟩ := source_some hsrc2
          rw [hys] at he4
          simp only [Option.some.injEq] at he4
          subst he4
          obtain ⟨hn2, -⟩ := node_key hids hi2
          simp only [hdy, hfrom4, hn2]
          have hcomm2 : ktn.comm i2 = some (ktn.nodes[i2]).comm_id := by
            simp [Network.comm, List.getElem?_eq_getElem hi2]
          by_cases hc2 : (ktn.nodes[i2]).comm_id = c
          · have hci2 : ktn.comm i2 = some c := by rw [hcomm2, hc2]
            have hyT : y ∈ ktn.basin_edges c := mem_basin_edges.mpr ⟨i2, hci2, hch2, hly⟩
            obtain ⟨q2, hq2, hpq2⟩ := hpos y hy
            have heq2 : (ktn.edges[y]).edge_pos = q2 := by simpa [Network.pos, hys] using hpq2
            have hql2 : q2 < s1.edgemask.length := by rw [inv1.mask_len]; exact hq2
            have hms2 : s1.edgemask[q2]? = some s1.edgemask[q2] := List.getElem?_eq_getElem hql2
            simp only [hc2, ne_eq, not_true_eq_false, if_false, heq2, vec_get_some _ _ _ hms2]
            cases hm2 : s1.edgemask[q2] with
            | true =>
              rw [hm2] at hms2
              refine ⟨s1, O ++ [x], by simp, ⟨inv1, fun hp => ?_⟩, n1, hmem1, fun _ => hx1⟩
              refine paired_snoc (inv.paired hp) f1 (fun i' ht hc' => ?_)
              obtain ⟨y', -, hry, hne, hsy, hty, hinv⟩ := hp i hi hci x hxi hl
              have hyy : y' = y := Option.some.inj (hry.symm.trans hrv)
              subst hyy
              have hryx := (hinv i' (target_lt ht) ht hc').2
              have hyO1 := mask_true_mem ctx inv1 hy hpq2 hms2
              have hyO : y' ∈ O := by
                rcases List.mem_append.mp hyO1 with h | h
                · exact h
                · simp only [List.mem_singleton] at h
                  exact absurd h hne
              obtain ⟨j', hj', hjy⟩ := List.getElem_of_mem hyO
              have hOj' : O[j']? = some y' := by rw [List.getElem?_eq_getElem hj', hjy]
              obtain ⟨k', hk'⟩ := inv.paired hp j' y' i hOj' hty hci
              cases hej : s.ktnptr.edges[j']? with
              | none => simp [hej] at hk'
              | some e'' =>
                simp only [hej, Option.map_some', Option.some.injEq] at hk'
                rcases inv.revs j' e'' hj' hej with h | ⟨k, x', z, hk, hr, hmk, hOj, hOk, hxy⟩
                · rw [h] at hk'
                  cases hk'
                · have hx' : x' = y' := Option.some.inj (hOj.symm.trans hOj')
                  subst hx'
                  have hzO : z ∈ O := List.getElem?_mem hOk
                  rcases hxy with h | h
                  · have : z = x := Option.some.inj (h.symm.trans hryx)
                    rw [this] at hzO
                    exact hxO hzO
                  · obtain ⟨i3, hci3, hz3, hlz⟩ := mem_basin_edges.mp (inv.sub z hzO)
                    obtain ⟨w, -, hrw, -, hsw, -, hinvz⟩ := hp i3 (comm_lt hci3) hci3 z hz3 hlz
                    have hwy : w = x' := Option.some.inj (hrw.symm.trans h)
                    subst hwy
                    have htz : ktn.target z = some i' := by rw [← hsw, hsy, ht]
                    have := (hinvz i' (target_lt ht) htz hc').2
                    have hzx : z = x := Option.some.inj (this.symm.trans hryx)
                    rw [hzx] at hzO
                    exact hxO hzO
            | false =>
              rw [hm2] at hms2
              have hyO := mask_false_not_mem inv1 hpq2 hms2
              obtain ⟨s2, p2, inv2, n2, f2, z2⟩ := place_edge_inv ctx inv1 hyT hyO hys
              have hle : (O ++ [x] ++ [y]).length ≤ N_e := by
                have := (List.subperm_of_subset inv2.nodup inv2.sub).length_le
                rw [ctx.count] at this
                exact this
              have hl1 : (O ++ [x]).length = O.length + 1 := by simp
              rw [hl1] at z2
              have hn1 : (s2.ktnptr.edges[O.length]?).map Edge.rev_edge = some Ref.null := by
                rw [f2 O.length (by rw [hl1]; omega)]
                exact z1
              obtain ⟨g, p3, inv3, f3, w1, w2⟩ := pair_edges_inv inv2 rfl hle hrv hn1 z2
              refine ⟨{ s2 with ktnptr := g }, O ++ [x] ++ [y], by simp [p2, p3],
                ⟨inv3, fun hp j x' i' hOj ht hc' => ?_⟩, n2.trans n1, fun z hz => ?_, fun _ => ?_⟩
              · simp only
                by_cases hjl : j < O.length
                · rw [f3 j hjl, f2 j (by rw [hl1]; omega), f1 j (by omega)]
                  rw [List.append_assoc, List.getElem?_append_left hjl] at hOj
                  exact inv.paired hp j x' i' hOj ht hc'
                · have hjl2 := (List.getElem?_eq_some.mp hOj).1
                  simp only [List.length_append, List.length_singleton] at hjl2
                  by_cases hj1 : j = O.length
                  · subst hj1
                    exact ⟨_, w1⟩
                  · have hj2 : j = O.length + 1 := by omega
                    subst hj2
                    exact ⟨_, w2⟩
              · exact List.mem_append_left _ (hmem1 z hz)
              · exact List.mem_append_left _ hx1
          · refine ⟨s1, O ++ [x], by simp [hc2], ⟨inv1, fun hp => ?_⟩, n1, hmem1, fun _ => hx1⟩
            refine paired_snoc (inv.paired hp) f1 (fun i' ht hc' => ?_)
            obtain ⟨y', -, hry, -, hsy, -, -⟩ := hp i hi hci x hxi hl
            have hyy : y' = y := Option.some.inj (hry.symm.trans hrv)
            subst hyy
            have hii : i2 = i' := Option.some.inj (hsrc2.symm.trans (hsy.trans ht))
            subst hii
            rw [hcomm2] at hc'
            exact hc2 (Option.some.inj hc')

theorem copy_edges_inv {ktn : Network} {c : Int} {P : List (Int × Nat)} {g1 : Network} {N_e : Nat}
    (ctx : XCtx ktn c P g1 N_e) {i : Nat} (hci : ktn.comm i = some c) :
    ∀ (xs : List Nat) (s : Extract) (O : List Nat), XInv ktn c P g1 N_e s O →
      (∀ x ∈ xs, x ∈ ktn.chain i) →
      ∃ s' O', copy_edges ktn c xs s = Except.ok s' ∧ XInv ktn c P g1 N_e s' O' ∧ s'.n = s.n ∧
        (∀ y ∈ O, y ∈ O') ∧ (∀ x ∈ xs, ktn.live x = true → x ∈ O') := by
  intro xs
  induction xs with
  | nil =>
    intro s O inv _
    exact ⟨s, O, rfl, inv, rfl, fun _ h => h, fun _ h => by simp at h⟩
  | cons x xs ih =>
    intro s O inv hxs
    obtain ⟨s1, O1, p1, inv1, n1, m1, l1⟩ :=
      copy_edge_inv ctx inv hci (hxs x (List.mem_cons_self _ _))
    obtain ⟨s2, O2, p2, inv2, n2, m2, l2⟩ := ih s1 O1 inv1
      (fun y hy => hxs y (List.mem_cons_of_mem _ hy))
    refine ⟨s2, O2, ?_, inv2, n2.trans n1, fun y hy => m2 y (m1 y hy), fun y hy hl => ?_⟩
    · unfold copy_edges
      rw [p1]
      exact p2
    · rcases List.mem_cons.mp hy with rfl | hy
      · exact m2 _ (l1 hl)
      · exact l2 y hy hl

theorem XInv.bump {ktn : Network} {c : Int} {P : List (Int × Nat)} {g1 : Network} {N_e : Nat}
    {s : Extract} {O : List Nat} (inv : XInv ktn c P g1 N_e s O) (n : Nat) :
    XInv ktn c P g1 N_e { s with n := n } O :=
  ⟨⟨inv.nodemap, inv.mask_len, inv.mask, inv.k, inv.nodup, inv.sub, inv.n_nodes, inv.n_edges,
    inv.nodes_length, inv.edges_length, inv.nodes, inv.chain_mem, inv.chain_nodup, inv.edges,
    inv.revs⟩, inv.paired⟩

theorem wire_loop_inv {ktn : Network} {c : Int} {P : List (Int × Nat)} {g1 : Network} {N_e : Nat}
    (ctx : XCtx ktn c P g1 N_e)
    (hkeys : ∀ p ∈ P, ∃ i : Nat, p.1 = (i : Int) ∧ i < ktn.nodes.length) :
    ∀ (todo pre : List (Int × Nat)) (fuel : Nat) (s : Extract) (O : List Nat),
      P = pre ++ todo → todo.length ≤ fuel → XInv ktn c P g1 N_e s O →
      ∃ s' O', wire_loop ktn c fuel todo s = Except.ok s' ∧ XInv ktn c P g1 N_e s' O' ∧
        s'.n = s.n + todo.length ∧ (∀ y ∈ O, y ∈ O') ∧
        (∀ p ∈ todo, ∀ i : Nat, p.1 = (i : Int) → ktn.comm i = some c →
          ∀ x ∈ ktn.chain i, ktn.live x = true → x ∈ O') := by
  intro todo
  induction todo with
  | nil =>
    intro pre fuel s O _ _ inv
    refine ⟨s, O, ?_, inv, rfl, fun _ h => h, fun p hp => by simp at hp⟩
    cases fuel <;> rfl
  | cons p rest ih =>
    intro pre fuel s O hP hfuel inv
    obtain ⟨key, v⟩ := p
    cases fuel with
    | zero => simp at hfuel
    | succ f =>
      have hf : rest.length ≤ f := by simpa using hfuel
      have hmem : (key, v) ∈ P := by rw [hP]; simp
      obtain ⟨i, hki, hi⟩ := hkeys (key, v) hmem
      simp only at hki
      subst hki
      have hns : ktn.nodes[i]? = some ktn.nodes[i] := List.getElem?_eq_getElem hi
      have hcomm : ktn.comm i = some (ktn.nodes[i]).comm_id := by simp [Network.comm, hns]
      have hchain : ktn.chain i = (ktn.nodes[i]).top_from := by simp [Network.chain, hns]
      have hsorted : map_sorted (pre ++ ((i : Int), v) :: rest) := by rw [← hP]; exact ctx.sorted
      have hP' : P = (pre ++ [((i : Int), v)]) ++ rest := by rw [hP]; simp
      unfold wire_loop
      rw [vec_get_some _ _ _ hns]
      by_cases hc : (ktn.nodes[i]).comm_id = c
      · have hci : ktn.comm i = some c := by rw [hcomm, hc]
        obtain ⟨s1, O1, p1, inv1, n1, m1, l1⟩ := copy_edges_inv ctx hci (ktn.nodes[i]).top_from
          { s with n := s.n + 1 } O (inv.bump _) (fun x hx => by rw [hchain]; exact hx)
        have hafter : map_after s1.nodemap (i : Int) = rest := by
          rw [inv1.nodemap, hP]
          exact map_after_split hsorted
        obtain ⟨s2, O2, p2, inv2, n2, m2, l2⟩ := ih (pre ++ [((i : Int), v)]) f s1 O1 hP' hf inv1
        refine ⟨s2, O2, ?_, inv2, ?_, fun y hy => m2 y (m1 y hy), ?_⟩
        · simp only [hc, ne_eq, not_true_eq_false, if_false, p1, hafter]
          exact p2
        · rw [n2, n1]
          simp only [List.length_cons]
          omega
        · intro q hq j hj hcj x hx hl
          rcases List.mem_cons.mp hq with rfl | hq
          · simp only at hj
            have : j = i := by omega
            subst this
            rw [hchain] at hx
            exact m2 x (l1 x hx hl)
          · exact l2 q hq j hj hcj x hx hl
      · have hci : ¬ ktn.comm i = some c := by rw [hcomm]; simpa using hc
        have hafter : map_after s.nodemap (i : Int) = rest := by
          rw [inv.nodemap, hP]
          exact map_after_split hsorted
        obtain ⟨s2, O2, p2, inv2, n2, m2, l2⟩ := ih (pre ++ [((i : Int), v)]) f
          { s with n := s.n + 1 } O hP' hf (inv.bump _)
        refine ⟨s2, O2, ?_, inv2, ?_, m2, ?_⟩
        · simp only [hc, ne_eq, not_false_eq_true, if_true, hafter]
          exact p2
        · rw [n2]
          simp only [List.length_cons]
          omega
        · intro q hq j hj hcj x hx hl
          rcases List.mem_cons.mp hq with rfl | hq
          · simp only at hj
            have : j = i := by omega
            subst this
            exact absurd hcj hci
          · exact l2 q hq j hj hcj x hx hl

theorem index_filter_length (l : List Nat) (p : Nat → Bool) :
    ((List.range l.length).filter (fun i =>
      match l[i]? with
      | some v => p v
      | none => false)).length = l.countP p := by
  induction l using List.reverseRecOn with
  | nil => rfl
  | append_singleton l a ih =>
    rw [List.length_append, List.length_singleton, List.range_succ, List.filter_append,
      List.length_append, List.countP_append]
    congr 1
    · rw [← ih]
      congr 1
      apply List.filter_congr
      intro i hi
      have := List.mem_range.mp hi
      rw [List.getElem?_append_left this]
    · simp only [List.filter_cons, List.countP_cons, List.getElem?_concat_length, List.filter_nil,
        List.countP_nil]
      cases p a <;> simp

theorem countP_split (l : List Nat) (h : ∀ v ∈ l, v = 0 ∨ v = 1 ∨ v = 3) :
    l.countP (fun v => decide (v ≠ 0)) = l.countP (fun v => decide (v = 3)) + l.count 1 := by
  induction l with
  | nil => rfl
  | cons a l ih =>
    have ih' := ih (fun v hv => h v (List.mem_cons_of_mem _ hv))
    rcases h a (List.mem_cons_self _ _) with rfl | rfl | rfl
    · simp only [List.countP_cons, List.count_cons, ih']
      simp
    · simp only [List.countP_cons, List.count_cons, ih']
      simp
      omega
    · simp only [List.countP_cons, List.count_cons, ih']
      simp
      omega

theorem length_flatMap_sum {α β : Type} (l : List α) (f : α → List β) :
    (l.flatMap f).length = (l.map (fun a => (f a).length)).sum := by
  induction l with
  | nil => rfl
  | cons a l ih => simp [List.flatMap_cons, ih]

theorem basin_nodes_nodup (g : Network) (c : Int) : (g.basin_nodes c).Nodup :=
  List.Nodup.filter _ (List.nodup_range _)

theorem basin_edges_nodup {ktn : Network} (hs : ktn.sound) (c : Int) :
    (ktn.basin_edges c).Nodup := by
  obtain ⟨-, -, -, hown, -, hnd, -⟩ := hs
  unfold Network.basin_edges
  rw [List.nodup_flatMap]
  constructor
  · intro i hi
    exact List.Nodup.filter _ (hnd i (comm_lt (mem_basin_nodes.mp hi)))
  · have hnodup := basin_nodes_nodup ktn c
    refine List.Pairwise.imp_of_mem ?_ hnodup
    intro i j hi hj hij
    simp only [Function.onFun]
    rw [List.disjoint_left]
    intro x hx hx'
    have h1 := hown i (comm_lt (mem_basin_nodes.mp hi)) x (List.mem_filter.mp hx).1
    have h2 := hown j (comm_lt (mem_basin_nodes.mp hj)) x (List.mem_filter.mp hx').1
    rw [h1] at h2
    simp only [Option.some.injEq] at h2
    exact hij h2

theorem basin_edges_length {ktn : Network} {c : Int} (hu : ktn.udeg_ok c) :
    (ktn.basin_edges c).length = ((ktn.basin_nodes c).map (udeg_at ktn)).sum := by
  unfold Network.basin_edges
  rw [length_flatMap_sum]
  congr 1
  apply List.map_congr_left
  intro i hi
  have hci := mem_basin_nodes.mp hi
  exact (hu i (comm_lt hci) hci).symm

theorem basin_label_cases (g : Network) (c : Int) (i : Nat) :
    g.basin_label c i = 0 ∨ g.basin_label c i = 1 ∨ g.basin_label c i = 3 := by
  unfold Network.basin_label
  by_cases h1 : g.comm i = some c
  · simp [h1]
  · by_cases h2 : g.reached (g.basin_nodes c) i <;> simp [h1, h2]

theorem SetupPost.marked_length {ktn : Network} {c : Int} {p : Nat} {st st' : KPS}
    (h : SetupPost ktn c p st st') : st'.marked.length = st'.N_B + st'.N_c := by
  have hvals : ∀ v ∈ st'.basin_ids, v = 0 ∨ v = 1 ∨ v = 3 := by
    intro v hv
    obtain ⟨i, hi, hi'⟩ := List.getElem_of_mem hv
    have := h.labels i (by rw [← h.length]; exact hi)
    simp only [KPS.label, List.getElem?_eq_getElem hi, hi', Option.some.injEq] at this
    rw [this]
    exact basin_label_cases ktn c i
  have h1 : st'.marked.length = st'.basin_ids.countP (fun v => decide (v ≠ 0)) := by
    rw [← index_filter_length]
    unfold KPS.marked
    congr 1
    apply List.filter_congr
    intro i hi
    have := List.mem_range.mp hi
    simp [List.getElem?_eq_getElem this]
  have h2 : st'.N_B = st'.basin_ids.countP (fun v => decide (v = 3)) := by
    rw [h.count_B, ← index_filter_length]
    unfold Network.basin_nodes
    rw [h.length]
    congr 1
    apply List.filter_congr
    intro i hi
    have hi' := List.mem_range.mp hi
    have hl := (h.label_three i)
    simp only [KPS.label] at hl
    have hil : i < st'.basin_ids.length := by rw [h.length]; exact hi'
    rw [List.getElem?_eq_getElem hil] at hl ⊢
    simp only [Option.some.injEq] at hl
    simp only
    by_cases hc : ktn.comm i = some c
    · simp [hc, hl.mpr hc]
    · have : ¬ st'.basin_ids[i] = 3 := fun h3 => hc (hl.mp h3)
      simp [hc, this]
  rw [h1, h2, h.count_c]
  exact countP_split _ hvals

theorem SetupPost.mem_marked {ktn : Network} {c : Int} {p : Nat} {st st' : KPS}
    (h : SetupPost ktn c p st st') {i : Nat} :
    i ∈ st'.marked ↔ (ktn.comm i = some c ∨ ktn.reached (ktn.basin_nodes c) i) ∧
      i < ktn.nodes.length := by
  unfold KPS.marked
  simp only [List.mem_filter, List.mem_range, h.length, decide_eq_true_eq]
  constructor
  · rintro ⟨hi, hne⟩
    have hl := h.labels i hi
    simp only [KPS.label] at hl
    rw [hl] at hne
    unfold Network.basin_label at hne
    refine ⟨?_, hi⟩
    by_cases hc : ktn.comm i = some c
    · exact Or.inl hc
    · by_cases hr : ktn.reached (ktn.basin_nodes c) i
      · exact Or.inr hr
      · simp [hc, hr] at hne
  · rintro ⟨hor, hi⟩
    refine ⟨hi, ?_⟩
    have hl := h.labels i hi
    simp only [KPS.label] at hl
    rw [hl]
    unfold Network.basin_label
    by_cases hc : ktn.comm i = some c
    · simp [hc]
    · rcases hor with hc' | hr
      · exact absurd hc' hc
      · simp [hc, hr]

theorem reached_lt {ktn : Network} {js : List Nat} {i : Nat} (h : ktn.reached js i) :
    i < ktn.nodes.length := by
  obtain ⟨j, -, x, -, -, ht⟩ := h
  obtain ⟨_, _, _, hi⟩ := target_some ht
  exact hi

theorem mem_pairs_from_nat {is : List Nat} {a i v : Nat} :
    ((i : Int), v) ∈ pairs_from is a ↔ ∃ j, is[j]? = some i ∧ v = a + j := by
  rw [mem_pairs_from]
  constructor
  · rintro ⟨j, -, ⟨hj, -⟩, hv⟩
    exact ⟨j, by simpa using hj, hv⟩
  · rintro ⟨j, hj, hv⟩
    exact ⟨j, (List.getElem?_eq_some.mp hj).1, ⟨by simpa using hj, by omega⟩, hv⟩

theorem extract_spec {ktn : Network} {c : Int} {p : Nat} {st0 st' : KPS}
    (hs : ktn.sound) (hd : ktn.pos_distinct) (hr : ktn.rev_ok c) (hu : ktn.udeg_ok c)
    (hpost : SetupPost ktn c p st0 st') (hpc : ktn.comm p = some c)
    (nm : List (Int × Nat)) (hnm : nm = [] ∨ nm = pairs_from st'.marked 0) :
    ∃ s O g1, KPS.extract ktn { st' with nodemap := nm } = Except.ok s ∧
      XInv ktn c (pairs_from st'.marked 0) g1 st'.N_e s O ∧
      s.n = st'.N_B + st'.N_c ∧ O.length = st'.N_e ∧
      (∀ x, x ∈ O ↔ x ∈ ktn.basin_edges c) ∧
      g1.nodes.length = st'.marked.length ∧ g1.n_nodes = st'.N_B + st'.N_c ∧
      g1.n_edges = st'.N_e ∧
      (∀ a : Nat, g1.nodes[a]? =
        match st'.marked[a]? with
        | some i => (ktn.nodes[i]?).map Node.assign
        | none => none) ∧
      copy_nodes ktn st'.basin_ids (List.range ktn.n_nodes) 0 nm
          { Network.create (st'.N_B + st'.N_c) st'.N_e with
            edges := List.replicate st'.N_e Edge.blank }
        = Except.ok (st'.marked.length, pairs_from st'.marked 0, g1) := by
  obtain ⟨hsize, hids, hchains, hown, hlisted, hnd, hpos⟩ := hs
  have hsound : ktn.sound := ⟨hsize, hids, hchains, hown, hlisted, hnd, hpos⟩
  have hp := comm_lt hpc
  have hmlen := hpost.marked_length
  have hfilt : (List.range ktn.n_nodes).filter (fun i => decide (st'.basin_ids[i]? ≠ some 0))
      = st'.marked := by
    unfold KPS.marked
    rw [hsize, hpost.length]
  have hsorted := pairs_from_sorted (marked_sorted st') 0
  obtain ⟨g1, h1, h2, h3, h4, h5, h6, -⟩ := copy_nodes_spec ktn st'.basin_ids
    (List.range ktn.n_nodes) 0 nm
    { Network.create (st'.N_B + st'.N_c) st'.N_e with edges := List.replicate st'.N_e Edge.blank }
    (fun i hi => by
      have := List.mem_range.mp hi
      rw [hpost.length]
      omega)
    (by rw [hfilt, hmlen]; simp [Network.create])
  rw [hfilt] at h1 h6
  simp only [Nat.zero_add] at h1 h6
  have hstore : map_store nm (pairs_from st'.marked 0) = pairs_from st'.marked 0 := by
    rcases hnm with rfl | rfl
    · have := map_store_sorted (m := []) 0 (marked_sorted st') (by simp)
      simpa using this
    · exact map_store_same hsorted _ (fun _ h => h)
  rw [hstore] at h1
  have hg1len : g1.nodes.length = st'.marked.length := by
    rw [h5, hmlen]
    simp [Network.create]
  have hg1nodes : ∀ a : Nat, g1.nodes[a]? =
      match st'.marked[a]? with
      | some i => (ktn.nodes[i]?).map Node.assign
      | none => none := by
    intro a
    rw [h6 a]
    cases hm : st'.marked[a]? with
    | some i => rfl
    | none =>
      simp only
      apply List.getElem?_eq_none
      have := List.getElem?_eq_none_iff.mp hm
      simp only [Network.create, List.length_replicate]
      omega
  have hchain0 : ∀ a, g1.chain a = [] := by
    intro a
    unfold Network.chain
    rw [hg1nodes a]
    cases hm : st'.marked[a]? with
    | none => rfl
    | some i =>
      cases hn : ktn.nodes[i]? with
      | none => simp only [hn]; rfl
      | some nd => simp only [hn]; rfl
  have hpm : p ∈ st'.marked := hpost.mem_marked.mpr ⟨Or.inl hpc, hp⟩
  have hne : pairs_from st'.marked 0 ≠ [] := by
    intro h0
    have := pairs_from_length st'.marked 0
    rw [h0] at this
    have h00 : st'.marked = [] := by
      apply List.eq_nil_of_length_eq_zero
      simpa using this.symm
    rw [h00] at hpm
    simp at hpm
  have hps : ktn.nodes[p]? = some ktn.nodes[p] := List.getElem?_eq_getElem hp
  have hcp : (ktn.nodes[p]).comm_id = c := by
    simpa [Network.comm, hps] using hpc
  have ctx : XCtx ktn c (pairs_from st'.marked 0) g1 st'.N_e := by
    refine ⟨hsound, hd, hr, hsorted, ?_, ?_⟩
    · intro i hi
      have him : i ∈ st'.marked := hpost.mem_marked.mpr ⟨hi, by
        rcases hi with h | h
        · exact comm_lt h
        · exact reached_lt h⟩
      obtain ⟨j, hj, hj'⟩ := List.getElem_of_mem him
      have hmem : ((i : Int), j) ∈ pairs_from st'.marked 0 :=
        mem_pairs_from_nat.mpr ⟨j, by rw [List.getElem?_eq_getElem hj, hj'], by omega⟩
      exact ⟨j, map_find_of_mem hsorted hmem, by rw [hg1len]; exact hj⟩
    · rw [basin_edges_length hu, hpost.count_e]
  have hkeys : ∀ q ∈ pairs_from st'.marked 0, ∃ i : Nat, q.1 = (i : Int) ∧ i < ktn.nodes.length := by
    rintro ⟨k, v⟩ hq
    obtain ⟨j, hj, ⟨hj1, hj2⟩, -⟩ := mem_pairs_from.mp hq
    have := (hpost.mem_marked.mp (List.getElem?_mem hj1)).2
    exact ⟨k.toNat, by simp only; omega, this⟩
  have inv0 : XInv ktn c (pairs_from st'.marked 0) g1 st'.N_e
      { ktnptr := g1, k := 0, n := 0, edgemask := List.replicate (2 * ktn.n_edges) false,
        nodemap := pairs_from st'.marked 0 } [] := by
    refine ⟨⟨rfl, by simp, fun q => ?_, rfl, List.nodup_nil, fun x hx => by simp at hx, rfl, rfl, rfl,
      by rw [h2]; simp, fun _ => rfl, fun a j => ?_, fun a => by rw [hchain0 a]; exact List.nodup_nil,
      fun j x hj => by simp at hj, fun j e' hj => by simp at hj⟩,
      fun _ j x i' hj => by simp at hj⟩
    · simp [List.getElem?_replicate]
    · simp only
      rw [hchain0 a]
      simp
  obtain ⟨s, O, w1, w2, w3, w4, w5⟩ := wire_loop_inv ctx hkeys (pairs_from st'.marked 0) []
    ((pairs_from st'.marked 0).length + ktn.nodes.length + 1) _ [] (by simp) (by omega) inv0
  have hOsub : ∀ x, x ∈ ktn.basin_edges c → x ∈ O := by
    intro x hx
    obtain ⟨i, hci, hxi, hl⟩ := mem_basin_edges.mp hx
    have him : i ∈ st'.marked := hpost.mem_marked.mpr ⟨Or.inl hci, comm_lt hci⟩
    obtain ⟨j, hj, hj'⟩ := List.getElem_of_mem him
    have hmem : ((i : Int), j) ∈ pairs_from st'.marked 0 :=
      mem_pairs_from_nat.mpr ⟨j, by rw [List.getElem?_eq_getElem hj, hj'], by omega⟩
    exact w5 _ hmem i rfl hci x hxi hl
  have hOlen : O.length = st'.N_e := by
    have l1 := (List.subperm_of_subset w2.nodup w2.sub).length_le
    have l2 := (List.subperm_of_subset (basin_edges_nodup hsound c) hOsub).length_le
    rw [ctx.count] at l1 l2
    omega
  refine ⟨s, O, g1, ?_, w2, ?_, hOlen, fun x => ⟨w2.sub x, hOsub x⟩, hg1len, ?_, ?_, hg1nodes, h1⟩
  · unfold KPS.extract
    simp only [h1, eps_comm_id, hne, ne_eq, not_false_eq_true, decide_True, if_true, hpost.eps,
      vec_get_some _ _ _ hps, hcp]
    exact w1
  · rw [w3]
    simp only [Nat.zero_add, pairs_from_length, hmlen]
  · rw [h3]
    rfl
  · rw [h4]
    rfl

theorem get_subnetwork_spec {ktn : Network} {c : Int} {p : Nat} {st0 st' : KPS}
    (hs : ktn.sound) (hd : ktn.pos_distinct) (hr : ktn.rev_ok c) (hu : ktn.udeg_ok c)
    (hpost : SetupPost ktn c p st0 st') (hpc : ktn.comm p = some c)
    (nm : List (Int × Nat)) (hnm : nm = [] ∨ nm = pairs_from st'.marked 0) :
    ∃ s O g1, KPS.extract ktn { st' with nodemap := nm } = Except.ok s ∧
      KPS.get_subnetwork ktn { st' with nodemap := nm }
        = Except.ok (s.ktnptr, { st' with nodemap := pairs_from st'.marked 0 }) ∧
      XInv ktn c (pairs_from st'.marked 0) g1 st'.N_e s O ∧
      s.n = st'.N_B + st'.N_c ∧ O.length = st'.N_e ∧
      (∀ x, x ∈ O ↔ x ∈ ktn.basin_edges c) ∧
      g1.nodes.length = st'.marked.length ∧ g1.n_nodes = st'.N_B + st'.N_c ∧
      g1.n_edges = st'.N_e ∧
      (∀ a : Nat, g1.nodes[a]? =
        match st'.marked[a]? with
        | some i => (ktn.nodes[i]?).map Node.assign
        | none => none) ∧
      copy_nodes ktn st'.basin_ids (List.range ktn.n_nodes) 0 nm
          { Network.create (st'.N_B + st'.N_c) st'.N_e with
            edges := List.replicate st'.N_e Edge.blank }
        = Except.ok (st'.marked.length, pairs_from st'.marked 0, g1) := by
  obtain ⟨s, O, g1, h1, h2, h3, h4, h5, h6, h7, h8, h9, h10⟩ :=
    extract_spec hs hd hr hu hpost hpc nm hnm
  refine ⟨s, O, g1, h1, ?_, h2, h3, h4, h5, h6, h7, h8, h9, h10⟩
  unfold KPS.get_subnetwork
  rw [h1]
  have hk : s.k = st'.N_e := by rw [h2.k, h4]
  simp only [h3, hk, ne_eq, not_true_eq_false, or_self, if_false, h2.nodemap]

theorem state_eta (st : KPS) : { st with nodemap := st.nodemap } = st := by
  cases st
  rfl

/-- C3, as the claim states it, fails: `demo_norev` is sound, gives its basin node an
out-degree equal to its number of live outgoing edges, has pairwise distinct values
of `edge_pos` and no live edge between basin nodes at all; its only edge leads to a
boundary node and has no reverse edge.  `setup_basin_sets` returns, and
`get_subnetwork` then reads through the null `rev_edge` instead of returning. -/
theorem C3_counterexample :
    demo_norev.sound ∧ demo_norev.udeg_ok 0 ∧ demo_norev.pos_distinct ∧ demo_norev.rev_live_ok 0 ∧
    ((({ demo_kps 5 with basin_ids := [0, 0] } : KPS).setup_basin_sets demo_norev (some 0)).toOption.map
      fun st' => st'.get_subnetwork demo_norev) = some (Except.error Fault.null_deref) := by
  decide

/-- C3, amended: for every sound network in which each node of the basin has an
out-degree equal to its number of live outgoing edges, the values of `edge_pos` are
pairwise distinct and every live outgoing edge of a basin node has its `rev_edge`
set, and every cap `nelim ≥ 0` (for which `setup_basin_sets` returns), `get_subnetwork`
called after `setup_basin_sets` visits exactly `N_B+N_c` nodes
and copies exactly `N_e` edges into a sub-network of `N_B+N_c` nodes whose edge store
has `N_e` places, and returns (a write outside the store or a failed count check would
end the run in a fault). -/
theorem C3_subnetwork_counts (ktn : Network) (st : KPS) (draw : Option Nat) (p : Nat) (c : Int)
    (hs : ktn.sound) (hlen : st.basin_ids.length = ktn.n_nodes) (had : st.adaptivebins = false)
    (heps : st.choose_epsilon draw = some p) (hpc : ktn.comm p = some c)
    (hu : ktn.udeg_ok c) (hd : ktn.pos_distinct) (hr : ktn.rev_ok c)
    (hnelim : 0 ≤ st.nelim) :
    ∃ st' s st2, st.setup_basin_sets ktn draw = Except.ok st' ∧
      st'.extract ktn = Except.ok s ∧ s.n = st'.N_B + st'.N_c ∧ s.k = st'.N_e ∧
      s.ktnptr.nodes.length = st'.N_B + st'.N_c ∧ s.ktnptr.edges.length = st'.N_e ∧
      st'.get_subnetwork ktn = Except.ok (s.ktnptr, st2) := by
  obtain ⟨st', c', hc', hrun, hpost⟩ :=
    setup_basin_sets_spec ktn st draw p hs.1 hs.2.1 hs.2.2.1 hlen had heps (comm_lt hpc) hnelim
  have hcc : c' = c := Option.some.inj (hc'.symm.trans hpc)
  subst hcc
  obtain ⟨s, O, g1, h1, h2, h3, h4, h5, h6, h7, h8, h9, h10, -⟩ :=
    get_subnetwork_spec hs hd hr hu hpost hpc [] (Or.inl rfl)
  have heta : ({ st' with nodemap := [] } : KPS) = st' := by
    rw [← hpost.nodemap]
  rw [heta] at h1 h2
  refine ⟨st', s, _, hrun, h1, h4, by rw [h3.k, h5], ?_, h3.edges_length, h2⟩
  rw [h3.nodes_length, h7, hpost.marked_length]

/-- C3 on `demo_ktn`, for the basin of node 0. -/
theorem C3_subnetwork_counts_witness :
    ∃ st' s st2, (demo_kps 5).setup_basin_sets demo_ktn (some 0) = Except.ok st' ∧
      st'.extract demo_ktn = Except.ok s ∧ s.n = st'.N_B + st'.N_c ∧ s.k = st'.N_e ∧
      s.ktnptr.nodes.length = st'.N_B + st'.N_c ∧ s.ktnptr.edges.length = st'.N_e ∧
      st'.get_subnetwork demo_ktn = Except.ok (s.ktnptr, st2) :=
  C3_subnetwork_counts demo_ktn (demo_kps 5) (some 0) 0 0 (by decide) (by decide) (by decide)
    (by decide) (by decide) (by decide) (by decide) (by decide) (by decide)

theorem mem_marked_iff (st : KPS) (i : Nat) :
    i ∈ st.marked ↔ ∃ lab, st.basin_ids[i]? = some lab ∧ lab ≠ 0 := by
  unfold KPS.marked
  simp only [List.mem_filter, List.mem_range, decide_eq_true_eq]
  constructor
  · rintro ⟨hi, hne⟩
    refine ⟨st.basin_ids[i], List.getElem?_eq_getElem hi, ?_⟩
    intro h0
    apply hne
    rw [List.getElem?_eq_getElem hi, h0]
  · rintro ⟨lab, hl, hne⟩
    refine ⟨(List.getElem?_eq_some.mp hl).1, ?_⟩
    rw [hl]
    simpa using hne

theorem pairs_from_find {F : List Nat} (hF : F.Pairwise (· < ·)) {i v : Nat} :
    map_find (pairs_from F 0) (i : Int) = some v ↔ F[v]? = some i := by
  constructor
  · intro h
    obtain ⟨j, hj, hv⟩ := mem_pairs_from_nat.mp (map_find_mem h)
    have : v = j := by omega
    rw [this]
    exact hj
  · intro h
    exact map_find_of_mem (pairs_from_sorted hF 0) (mem_pairs_from_nat.mpr ⟨v, h, by omega⟩)

theorem sorted_index_lt {F : List Nat} (hF : F.Pairwise (· < ·)) {j j' i i' : Nat}
    (hj : F[j]? = some i) (hj' : F[j']? = some i') (h : i < i') : j < j' := by
  by_contra hcon
  have hle : j' ≤ j := by omega
  obtain ⟨hjl, hji⟩ := List.getElem?_eq_some.mp hj
  obtain ⟨hjl', hji'⟩ := List.getElem?_eq_some.mp hj'
  rcases Nat.lt_or_eq_of_le hle with hlt | heq
  · have := (List.pairwise_iff_getElem.mp hF) j' j hjl' hjl hlt
    omega
  · subst heq
    rw [hj] at hj'
    simp only [Option.some.injEq] at hj'
    omega

theorem assign_fields {m m' : Node} (h : m'.assign = m.assign) :
    m'.node_id = m.node_id ∧ m'.comm_id = m.comm_id ∧ m'.bin_id = m.bin_id ∧ m'.aorb = m.aorb ∧
    m'.pi = m.pi ∧ m'.t = m.t ∧ m'.k_esc = m.k_esc ∧ m'.udeg = m.udeg ∧
    m'.eliminated = m.eliminated ∧ m'.flag = m.flag := by
  cases m; cases m'
  simp only [Node.assign, Node.mk.injEq] at h
  simp [h]

theorem sub_node_of {ktn : Network} {c : Int} {g1 : Network} {N_e : Nat} {s : Extract}
    {O : List Nat} {F : List Nat} (inv : XInv ktn c (pairs_from F 0) g1 N_e s O)
    (hg1 : ∀ a : Nat, g1.nodes[a]? =
      match F[a]? with
      | some i => (ktn.nodes[i]?).map Node.assign
      | none => none)
    {i v : Nat} (hv : F[v]? = some i) (hi : i < ktn.nodes.length) :
    ∃ nd', s.ktnptr.nodes[v]? = some nd' ∧ nd'.assign = (ktn.nodes[i]).assign := by
  have h1 := inv.nodes v
  rw [hg1 v, hv] at h1
  simp only [List.getElem?_eq_getElem hi, Option.map_some'] at h1
  cases hn : s.ktnptr.nodes[v]? with
  | none => simp [hn] at h1
  | some nd' =>
    refine ⟨nd', rfl, ?_⟩
    simp only [hn, Option.map_some', Option.some.injEq] at h1
    rw [h1]
    rfl

/-- C5: for every basin `setup_basin_sets` produces on a network on which
`get_subnetwork` returns (a sound network with out-degrees equal to the number of
live outgoing edges, distinct values of `edge_pos` and `rev_edge` set on the live
outgoing edges of the basin; a cap `nelim ≥ 0`, for which `setup_basin_sets` returns),
`nodemap` afterwards has as keys exactly the positions
with a non-zero label, is strictly increasing, has as values exactly the numbers
below `N_B+N_c`, is the map the node loop alone produces (no key is gained while the
edges are wired), and the sub-network node at `nodemap[i]` has the attributes of the
node at `i` of the full network. -/
theorem C5_nodemap (ktn : Network) (st : KPS) (draw : Option Nat) (p : Nat) (c : Int)
    (hs : ktn.sound) (hlen : st.basin_ids.length = ktn.n_nodes) (had : st.adaptivebins = false)
    (heps : st.choose_epsilon draw = some p) (hpc : ktn.comm p = some c)
    (hu : ktn.udeg_ok c) (hd : ktn.pos_distinct) (hr : ktn.rev_ok c)
    (hnelim : 0 ≤ st.nelim) :
    ∃ st' g st2, st.setup_basin_sets ktn draw = Except.ok st' ∧
      st'.get_subnetwork ktn = Except.ok (g, st2) ∧
      (∀ kv ∈ st2.nodemap, 0 ≤ kv.1) ∧
      (∀ i : Nat, (∃ v, map_find st2.nodemap (i : Int) = some v) ↔
        ∃ lab, st'.basin_ids[i]? = some lab ∧ lab ≠ 0) ∧
      (∀ kv ∈ st2.nodemap, ∀ kv' ∈ st2.nodemap, kv.1 < kv'.1 → kv.2 < kv'.2) ∧
      (∀ v : Nat, (∃ k, (k, v) ∈ st2.nodemap) ↔ v < st'.N_B + st'.N_c) ∧
      (∃ j g1, copy_nodes ktn st'.basin_ids (List.range ktn.n_nodes) 0 st'.nodemap
          { Network.create (st'.N_B + st'.N_c) st'.N_e with
            edges := List.replicate st'.N_e Edge.blank } = Except.ok (j, st2.nodemap, g1)) ∧
      (∀ i v : Nat, map_find st2.nodemap (i : Int) = some v →
        ∃ nd nd', ktn.nodes[i]? = some nd ∧ g.nodes[v]? = some nd' ∧
          nd'.node_id = nd.node_id ∧ nd'.comm_id = nd.comm_id ∧ nd'.bin_id = nd.bin_id ∧
          nd'.aorb = nd.aorb ∧ nd'.pi = nd.pi ∧ nd'.t = nd.t ∧ nd'.k_esc = nd.k_esc ∧
          nd'.udeg = nd.udeg) := by
  obtain ⟨st', c', hc', hrun, hpost⟩ :=
    setup_basin_sets_spec ktn st draw p hs.1 hs.2.1 hs.2.2.1 hlen had heps (comm_lt hpc) hnelim
  have hcc : c' = c := Option.some.inj (hc'.symm.trans hpc)
  subst hcc
  obtain ⟨s, O, g1, h1, h2, h3, h4, h5, h6, h7, h8, h9, h10, h11⟩ :=
    get_subnetwork_spec hs hd hr hu hpost hpc [] (Or.inl rfl)
  have heta : ({ st' with nodemap := [] } : KPS) = st' := by
    rw [← hpost.nodemap]
  rw [heta] at h1 h2
  have hF := marked_sorted st'
  refine ⟨st', s.ktnptr, _, hrun, h2, ?_, ?_, ?_, ?_, ?_, ?_⟩
  · rintro ⟨k, v⟩ hkv
    obtain ⟨j, -, ⟨-, h0⟩, -⟩ := mem_pairs_from.mp hkv
    exact h0
  · intro i
    simp only
    rw [← mem_marked_iff]
    constructor
    · rintro ⟨v, hv⟩
      exact List.getElem?_mem ((pairs_from_find hF).mp hv)
    · intro hi
      obtain ⟨j, hj, hj'⟩ := List.getElem_of_mem hi
      exact ⟨j, (pairs_from_find hF).mpr (by rw [List.getElem?_eq_getElem hj, hj'])⟩
  · rintro ⟨k, v⟩ hkv ⟨k', v'⟩ hkv' hlt
    obtain ⟨j, -, ⟨hj, h0⟩, hv⟩ := mem_pairs_from.mp hkv
    obtain ⟨j', -, ⟨hj', h0'⟩, hv'⟩ := mem_pairs_from.mp hkv'
    simp only at hlt ⊢
    have := sorted_index_lt hF hj hj' (by omega)
    omega
  · intro v
    simp only
    rw [← hpost.marked_length]
    constructor
    · rintro ⟨k, hk⟩
      obtain ⟨j, hj, -, hv⟩ := mem_pairs_from.mp hk
      omega
    · intro hv
      exact ⟨((st'.marked[v] : Nat) : Int),
        mem_pairs_from_nat.mpr ⟨v, List.getElem?_eq_getElem hv, by omega⟩⟩
  · refine ⟨st'.marked.length, g1, ?_⟩
    rw [hpost.nodemap]
    exact h11
  · intro i v hv
    simp only at hv
    have hvi := (pairs_from_find hF).mp hv
    have hi : i < ktn.nodes.length := (hpost.mem_marked.mp (List.getElem?_mem hvi)).2
    obtain ⟨nd', hn', ha⟩ := sub_node_of h3 h10 hvi hi
    obtain ⟨a1, a2, a3, a4, a5, a6, a7, a8, -, -⟩ := assign_fields ha
    exact ⟨ktn.nodes[i], nd', List.getElem?_eq_getElem hi, hn', a1, a2, a3, a4, a5, a6, a7, a8⟩

/-- C5 on `demo_ktn`, for the basin of node 0. -/
theorem C5_nodemap_witness :
    ∃ st' g st2, (demo_kps 5).setup_basin_sets demo_ktn (some 0) = Except.ok st' ∧
      st'.get_subnetwork demo_ktn = Except.ok (g, st2) ∧
      (∀ kv ∈ st2.nodemap, 0 ≤ kv.1) ∧
      (∀ i : Nat, (∃ v, map_find st2.nodemap (i : Int) = some v) ↔
        ∃ lab, st'.basin_ids[i]? = some lab ∧ lab ≠ 0) ∧
      (∀ kv ∈ st2.nodemap, ∀ kv' ∈ st2.nodemap, kv.1 < kv'.1 → kv.2 < kv'.2) ∧
      (∀ v : Nat, (∃ k, (k, v) ∈ st2.nodemap) ↔ v < st'.N_B + st'.N_c) ∧
      (∃ j g1, copy_nodes demo_ktn st'.basin_ids (List.range demo_ktn.n_nodes) 0 st'.nodemap
          { Network.create (st'.N_B + st'.N_c) st'.N_e with
            edges := List.replicate st'.N_e Edge.blank } = Except.ok (j, st2.nodemap, g1)) ∧
      (∀ i v : Nat, map_find st2.nodemap (i : Int) = some v →
        ∃ nd nd', demo_ktn.nodes[i]? = some nd ∧ g.nodes[v]? = some nd' ∧
          nd'.node_id = nd.node_id ∧ nd'.comm_id = nd.comm_id ∧ nd'.bin_id = nd.bin_id ∧
          nd'.aorb = nd.aorb ∧ nd'.pi = nd.pi ∧ nd'.t = nd.t ∧ nd'.k_esc = nd.k_esc ∧
          nd'.udeg = nd.udeg) :=
  C5_nodemap demo_ktn (demo_kps 5) (some 0) 0 0 (by decide) (by decide) (by decide)
    (by decide) (by decide) (by decide) (by decide) (by decide) (by decide)

/-- C4: for every basin `setup_basin_sets` produces (with a cap `nelim ≥ 0`, for which
it returns) on a network on which `get_subnetwork` returns, the edge store of the
sub-network is in one-to-one
correspondence with the live edges on the chains of the basin nodes: the list `O`
names, for each position of the store, the edge of the full network copied there; it
names every such edge exactly once; the copy keeps the rate `k` and the probability
`t`, its `from_node` and `to_node` are the sub-network nodes at `nodemap` of the
source and the target, it is on the chain of that source node, and its `edge_pos` is
its position in the store. -/
theorem C4_edge_copies (ktn : Network) (st : KPS) (draw : Option Nat) (p : Nat) (c : Int)
    (hs : ktn.sound) (hlen : st.basin_ids.length = ktn.n_nodes) (had : st.adaptivebins = false)
    (heps : st.choose_epsilon draw = some p) (hpc : ktn.comm p = some c)
    (hu : ktn.udeg_ok c) (hd : ktn.pos_distinct) (hr : ktn.rev_ok c)
    (hnelim : 0 ≤ st.nelim) :
    ∃ st' g st2, ∃ O : List Nat, st.setup_basin_sets ktn draw = Except.ok st' ∧
      st'.get_subnetwork ktn = Except.ok (g, st2) ∧
      g.edges.length = O.length ∧ O.Nodup ∧
      (∀ x, x ∈ O ↔ ∃ i, st'.basin_ids[i]? = some 3 ∧ x ∈ ktn.chain i ∧ ktn.live x = true) ∧
      (∀ j x, O[j]? = some x →
        ∃ e e' i i' a b, ktn.edges[x]? = some e ∧ g.edges[j]? = some e' ∧
          ktn.source x = some i ∧ ktn.target x = some i' ∧
          map_find st2.nodemap (i : Int) = some a ∧ map_find st2.nodemap (i' : Int) = some b ∧
          a < g.nodes.length ∧ b < g.nodes.length ∧
          e'.k = e.k ∧ e'.t = e.t ∧ e'.from_node = Ref.own a ∧ e'.to_node = Ref.own b ∧
          j ∈ g.chain a ∧ e'.edge_pos = j) := by
  obtain ⟨st', c', hc', hrun, hpost⟩ :=
    setup_basin_sets_spec ktn st draw p hs.1 hs.2.1 hs.2.2.1 hlen had heps (comm_lt hpc) hnelim
  have hcc : c' = c := Option.some.inj (hc'.symm.trans hpc)
  subst hcc
  obtain ⟨s, O, g1, h1, h2, h3, h4, h5, h6, h7, h8, h9, h10, h11⟩ :=
    get_subnetwork_spec hs hd hr hu hpost hpc [] (Or.inl rfl)
  have heta : ({ st' with nodemap := [] } : KPS) = st' := by
    rw [← hpost.nodemap]
  rw [heta] at h1 h2
  have hF := marked_sorted st'
  refine ⟨st', s.ktnptr, _, O, hrun, h2, by rw [h3.edges_length, h5], h3.nodup, fun x => ?_,
    fun j x hj => ?_⟩
  · rw [h6 x, mem_basin_edges]
    constructor
    · rintro ⟨i, hi, hx⟩
      exact ⟨i, (hpost.label_three i).mpr hi, hx⟩
    · rintro ⟨i, hi, hx⟩
      exact ⟨i, (hpost.label_three i).mp hi, hx⟩
  · obtain ⟨e, e', i, i', a, b, c1, c2, c3, c4, c5, c6, c7, c8, c9, c10, c11, c12, c13⟩ :=
      h3.edges j x hj
    have ha : a < s.ktnptr.nodes.length := by
      rw [h3.nodes_length, h7]
      exact (List.getElem?_eq_some.mp ((pairs_from_find hF).mp c5)).1
    have hb : b < s.ktnptr.nodes.length := by
      rw [h3.nodes_length, h7]
      exact (List.getElem?_eq_some.mp ((pairs_from_find hF).mp c6)).1
    refine ⟨e, e', i, i', a, b, c1, c2, c3, c4, c5, c6, ha, hb, c10, c11, c7, c8, ?_, c9⟩
    rw [h3.chain_mem a j]
    exact ⟨(List.getElem?_eq_some.mp hj).1, by rw [c2]; simp [c7]⟩

/-- C4 on `demo_ktn`, for the basin of node 0. -/
theorem C4_edge_copies_witness :
    ∃ st' g st2, ∃ O : List Nat, (demo_kps 5).setup_basin_sets demo_ktn (some 0) = Except.ok st' ∧
      st'.get_subnetwork demo_ktn = Except.ok (g, st2) ∧
      g.edges.length = O.length ∧ O.Nodup ∧
      (∀ x, x ∈ O ↔
        ∃ i, st'.basin_ids[i]? = some 3 ∧ x ∈ demo_ktn.chain i ∧ demo_ktn.live x = true) ∧
      (∀ j x, O[j]? = some x →
        ∃ e e' i i' a b, demo_ktn.edges[x]? = some e ∧ g.edges[j]? = some e' ∧
          demo_ktn.source x = some i ∧ demo_ktn.target x = some i' ∧
          map_find st2.nodemap (i : Int) = some a ∧ map_find st2.nodemap (i' : Int) = some b ∧
          a < g.nodes.length ∧ b < g.nodes.length ∧
          e'.k = e.k ∧ e'.t = e.t ∧ e'.from_node = Ref.own a ∧ e'.to_node = Ref.own b ∧
          j ∈ g.chain a ∧ e'.edge_pos = j) :=
  C4_edge_copies demo_ktn (demo_kps 5) (some 0) 0 0 (by decide) (by decide) (by decide)
    (by decide) (by decide) (by decide) (by decide) (by decide) (by decide)

theorem pq_top_contract : pq_contract pq_top := by
  intro g q
  induction q with
  | nil => intro h; exact absurd rfl h
  | cons a q ih =>
    intro _
    cases q with
    | nil =>
      refine ⟨by simp [pq_top], fun b hb => ?_⟩
      simp only [List.mem_singleton] at hb
      subst hb
      exact Nat.le_refl _
    | cons j q =>
      obtain ⟨hm, hmin⟩ := ih (by simp)
      by_cases hlt : udeg_at g a < udeg_at g (pq_top g (j :: q))
      · have ht : pq_top g (a :: j :: q) = a := by simp [pq_top, hlt]
        rw [ht]
        refine ⟨List.mem_cons_self _ _, fun b hb => ?_⟩
        rcases List.mem_cons.mp hb with rfl | hb
        · exact Nat.le_refl _
        · exact Nat.le_trans (Nat.le_of_lt hlt) (hmin b hb)
      · have ht : pq_top g (a :: j :: q) = pq_top g (j :: q) := by simp [pq_top, hlt]
        rw [ht]
        refine ⟨List.mem_cons_of_mem _ hm, fun b hb => ?_⟩
        rcases List.mem_cons.mp hb with rfl | hb
        · omega
        · exact hmin b hb

theorem sub_ready_congr {g g' ktn : Network} {c : Int} (h : g.same_shape g')
    (hr : g.sub_ready ktn c) : g'.sub_ready ktn c := by
  intro a ha hc
  rw [h.nodes_length] at ha
  rw [same_shape_comm h] at hc
  obtain ⟨h1, h2, h3⟩ := hr a ha hc
  rw [same_shape_chain h]
  refine ⟨h1, h2, fun j hj => ?_⟩
  rw [same_shape_edge_ready h]
  exact h3 j hj

theorem gt_loop_spec (top : Network → List Nat → Nat) (htop : pq_contract top) (ktn : Network)
    (c : Int) (nelim : Int) :
    ∀ (fuel : Nat) (q : List Nat) (g : Network) (elim : List Nat) (N : Nat),
      fuel = q.length → q.Nodup → (∀ a ∈ q, a < g.nodes.length ∧ g.comm a = some c) →
      g.sub_ready ktn c →
      ∃ g' E, gt_loop top ktn c nelim fuel q g elim N = Except.ok (g', elim ++ E, N + E.length) ∧
        E.length = min q.length (nelim - N).toNat ∧ E.Nodup ∧ (∀ a ∈ E, a ∈ q) ∧
        g.same_shape g' ∧ (∀ j, g'.elim j = (g.elim j || decide (j ∈ E))) ∧
        (∀ k a, E[k]? = some a → ∀ b ∈ q, b ∉ E.take k → udeg_at g a ≤ udeg_at g b) := by
  intro fuel
  induction fuel with
  | zero =>
    intro q g elim N hf _ _ _
    have hq : q = [] := List.eq_nil_of_length_eq_zero hf.symm
    subst hq
    exact ⟨g, [], by simp [gt_loop], by simp, List.nodup_nil, fun a ha => by simp at ha,
      same_shape_refl g, fun j => by simp, fun k a hk => by simp at hk⟩
  | succ f ih =>
    intro q g elim N hf hnd hq hr
    have hne : q ≠ [] := by
      intro h
      rw [h] at hf
      simp at hf
    obtain ⟨hiq, himin⟩ := htop g q hne
    unfold gt_loop
    by_cases hN : (N : Int) < nelim
    · rw [if_pos ⟨hne, hN⟩]
      obtain ⟨hil, hic⟩ := hq (top g q) hiq
      obtain ⟨r1, r2, r3⟩ := hr (top g q) hil hic
      obtain ⟨g1, p1, s1, e1, -, -⟩ := gt_iteration_spec ktn c g (top g q) hil r1 r2 r3
      have hnd' : (q.erase (top g q)).Nodup := hnd.erase _
      have hlen' : f = (q.erase (top g q)).length := by
        rw [List.length_erase_of_mem hiq]
        omega
      obtain ⟨g', E, p2, l2, n2, m2, s2, e2, u2⟩ := ih (q.erase (top g q)) g1 (elim ++ [top g q])
        (N + 1) hlen' hnd' (fun a ha => by
          have := hq a (List.mem_of_mem_erase ha)
          rw [s1.nodes_length, same_shape_comm s1]
          exact this) (sub_ready_congr s1 hr)
      have hiE : top g q ∉ E := fun h => by
        have := m2 _ h
        exact (List.Nodup.mem_erase_iff hnd).mp this |>.1 rfl
      refine ⟨g', top g q :: E, ?_, ?_, List.nodup_cons.mpr ⟨hiE, n2⟩, ?_, same_shape_trans s1 s2,
        ?_, ?_⟩
      · rw [p1]
        simp only
        rw [p2]
        simp only [List.append_assoc, List.singleton_append, List.length_cons]
        have : N + 1 + E.length = N + (E.length + 1) := by omega
        rw [this]
      · simp only [List.length_cons]
        rw [l2, ← hlen', ← hf]
        omega
      · intro a ha
        rcases List.mem_cons.mp ha with rfl | ha
        · exact hiq
        · exact List.mem_of_mem_erase (m2 a ha)
      · intro j
        rw [e2 j, e1 j]
        by_cases hji : j = top g q
        · rw [hji]
          simp
        · simp [hji]
      · intro k a hk b hb hnot
        cases k with
        | zero =>
          simp only [List.getElem?_cons_zero, Option.some.injEq] at hk
          rw [← hk]
          exact himin b hb
        | succ k =>
          simp only [List.getElem?_cons_succ] at hk
          simp only [List.take_succ_cons, List.mem_cons, not_or] at hnot
          have hb' : b ∈ q.erase (top g q) := (List.Nodup.mem_erase_iff hnd).mpr ⟨hnot.1, hb⟩
          have := u2 k a hk b hb' hnot.2
          rw [same_shape_udeg s1, same_shape_udeg s1] at this
          exact this
    · rw [if_neg (fun h => hN h.2)]
      refine ⟨g, [], by simp, ?_, List.nodup_nil, fun a ha => by simp at ha, same_shape_refl g,
        fun j => by simp, fun k a hk => by simp at hk⟩
      simp only [List.length_nil]
      omega

theorem pq_fill_eq (g : Network) (c : Int) (is : List Nat) :
    pq_fill g c is = is.filter (fun i => decide (g.comm i = some c)) := by
  induction is with
  | nil => rfl
  | cons i is ih =>
    unfold pq_fill
    unfold Network.comm
    cases hn : g.nodes[i]? with
    | none => simp [List.filter_cons, ih, Network.comm, hn]
    | some nd =>
      by_cases hc : nd.comm_id = c
      · simp [List.filter_cons, ih, Network.comm, hn, hc]
      · simp [List.filter_cons, ih, Network.comm, hn, hc]

theorem undo_nodes_ok (g : Network) :
    ∀ (is : List Nat) (l u : Network),
      (∀ i ∈ is, i < g.nodes.length ∧ i < l.nodes.length ∧ i < u.nodes.length) →
      ∃ l' u', undo_nodes g is l u = Except.ok (l', u') := by
  intro is
  induction is with
  | nil => intro l u _; exact ⟨l, u, rfl⟩
  | cons i is ih =>
    intro l u h
    obtain ⟨h1, h2, h3⟩ := h i (List.mem_cons_self _ _)
    unfold undo_nodes
    simp only [List.getElem?_eq_getElem h1, h2, h3, and_self, if_true]
    apply ih
    intro j hj
    have := h j (List.mem_cons_of_mem _ hj)
    simpa using this

theorem sub_node_views {ktn : Network} {g : Network} {a i : Nat} {nd' : Node}
    (hi : i < ktn.nodes.length) (h1 : g.nodes[a]? = some nd')
    (h2 : nd'.assign = (ktn.nodes[i]).assign) :
    g.comm a = ktn.comm i ∧ udeg_at g a = udeg_at ktn i ∧ g.elim a = ktn.elim i := by
  obtain ⟨-, a2, -, -, -, -, -, a8, a9, -⟩ := assign_fields h2
  unfold Network.comm udeg_at Network.elim
  simp only [h1, List.getElem?_eq_getElem hi, a2, a8, a9, and_self]

theorem marked_basin {ktn : Network} {c : Int} {p : Nat} {st st' : KPS}
    (h : SetupPost ktn c p st st') :
    st'.marked.filter (fun i => decide (ktn.comm i = some c)) = ktn.basin_nodes c := by
  unfold KPS.marked Network.basin_nodes
  rw [List.filter_filter, h.length]
  apply List.filter_congr
  intro i hi
  by_cases hc : ktn.comm i = some c
  · have hm : i ∈ st'.marked := h.mem_marked.mpr ⟨Or.inl hc, List.mem_range.mp hi⟩
    unfold KPS.marked at hm
    have := (List.mem_filter.mp hm).2
    simp only [hc, decide_True, Bool.true_and]
    exact this
  · simp [hc]

theorem nodup_take_not_mem {E : List Nat} (hE : E.Nodup) {k k' a : Nat} (hk : k ≤ k')
    (ha : E[k']? = some a) : a ∉ E.take k := by
  intro hmem
  obtain ⟨m, hm, hma⟩ := List.getElem_of_mem hmem
  rw [List.length_take] at hm
  rw [List.getElem_take] at hma
  obtain ⟨hk', hka⟩ := List.getElem?_eq_some.mp ha
  have : m = k' := (List.Nodup.getElem_inj_iff hE).mp (hma.trans hka.symm)
  omega

theorem sub_facts {ktn : Network} {c : Int} {p : Nat} {st0 st' : KPS} (hs : ktn.sound)
    (hpost : SetupPost ktn c p st0 st') {s : Extract} {O : List Nat} {g1 : Network}
    (inv : XInv ktn c (pairs_from st'.marked 0) g1 st'.N_e s O)
    (hO : ∀ x, x ∈ O ↔ x ∈ ktn.basin_edges c)
    (hlen : g1.nodes.length = st'.marked.length)
    (hg1 : ∀ a : Nat, g1.nodes[a]? =
      match st'.marked[a]? with
      | some i => (ktn.nodes[i]?).map Node.assign
      | none => none)
    (hout : ktn.out_ok c) (hp : ktn.rev_pairs_ok c) :
    s.ktnptr.nodes.length = st'.N_B + st'.N_c ∧
    (∀ a, a < s.ktnptr.nodes.length → ∃ i, st'.marked[a]? = some i ∧ i < ktn.nodes.length ∧
      s.ktnptr.comm a = ktn.comm i ∧ udeg_at s.ktnptr a = udeg_at ktn i ∧
      s.ktnptr.elim a = ktn.elim i) ∧
    s.ktnptr.sub_ready ktn c ∧
    (pq_fill s.ktnptr c (List.range s.ktnptr.nodes.length)).length = st'.N_B := by
  have hF := marked_sorted st'
  have hL : s.ktnptr.nodes.length = st'.marked.length := inv.nodes_length.trans hlen
  have hview : ∀ a, a < s.ktnptr.nodes.length → ∃ i, st'.marked[a]? = some i ∧
      i < ktn.nodes.length ∧ s.ktnptr.comm a = ktn.comm i ∧
      udeg_at s.ktnptr a = udeg_at ktn i ∧ s.ktnptr.elim a = ktn.elim i := by
    intro a ha
    have ha' : a < st'.marked.length := hL ▸ ha
    have hvi : st'.marked[a]? = some st'.marked[a] := List.getElem?_eq_getElem ha'
    have hi : st'.marked[a] < ktn.nodes.length := (hpost.mem_marked.mp (List.getElem?_mem hvi)).2
    obtain ⟨nd', hn', hasg⟩ := sub_node_of inv hg1 hvi hi
    exact ⟨_, hvi, hi, sub_node_views hi hn' hasg⟩
  refine ⟨by rw [hL, hpost.marked_length], hview, ?_, ?_⟩
  · intro a ha hc
    obtain ⟨i, hvi, hi, hci, -, -⟩ := hview a ha
    rw [hci] at hc
    obtain ⟨x, hx, hxl⟩ := hout i hi hc
    have hxO : x ∈ O := (hO x).mpr (mem_basin_edges.mpr ⟨i, hc, hx, hxl⟩)
    obtain ⟨j, hj, hjx⟩ := List.getElem_of_mem hxO
    have hjO : O[j]? = some x := by rw [List.getElem?_eq_getElem hj, hjx]
    obtain ⟨e, e', i0, i', a0, b, he, he', hsrc, htg, hfa, hfb, hfrom, hto, -⟩ := inv.edges j x hjO
    have hsi : ktn.source x = some i := hs.2.2.2.1 i hi x hx
    have h0 : i0 = i := Option.some.inj (hsrc.symm.trans hsi)
    subst h0
    have h1 : a0 = a := Option.some.inj (hfa.symm.trans ((pairs_from_find hF).mpr hvi))
    subst h1
    have hmem : j ∈ s.ktnptr.chain a0 :=
      (inv.chain_mem a0 j).mpr ⟨hj, by rw [he']; simp [hfrom]⟩
    refine ⟨List.ne_nil_of_mem hmem, inv.chain_nodup a0, ?_⟩
    intro j' hj'
    obtain ⟨hjl, -⟩ := (inv.chain_mem a0 j').mp hj'
    obtain ⟨e1, e1', i1, i1', a1, b1, -, he1', -, htg1, -, hfb1, -, hto1, -, -, -, -, hrv1⟩ :=
      inv.edges j' O[j'] (List.getElem?_eq_getElem hjl)
    have hvb := (pairs_from_find hF).mp hfb1
    have hb : b1 < s.ktnptr.nodes.length := by
      rw [hL]
      exact (List.getElem?_eq_some.mp hvb).1
    obtain ⟨i2, hvi2, -, hci2, -, -⟩ := hview b1 hb
    have hii : i2 = i1' := Option.some.inj (hvi2.symm.trans hvb)
    subst hii
    have hcb : s.ktnptr.comm b1 = some (s.ktnptr.nodes[b1]).comm_id := by
      simp [Network.comm, List.getElem?_eq_getElem hb]
    unfold Network.edge_ready
    simp only [he1', hto1, List.getElem?_eq_getElem hb]
    by_cases hcc : (s.ktnptr.nodes[b1]).comm_id = c
    · have hci : ktn.comm i2 = some c := by rw [← hci2, hcb, hcc]
      obtain ⟨k, hk⟩ := inv.paired hp j' O[j'] i2 (List.getElem?_eq_getElem hjl) htg1 hci
      simp only [he1', Option.map_some', Option.some.injEq] at hk
      rcases hrv1 with h | ⟨y, hy, hyl⟩
      · rw [h] at hk
        cases hk
      · simp [hy, touchable, hyl]
    · simp [hcc]
  · rw [pq_fill_eq, hL]
    have hcongr : (List.range st'.marked.length).filter
          (fun a => decide (s.ktnptr.comm a = some c))
        = (List.range st'.marked.length).filter (fun a =>
            match st'.marked[a]? with
            | some v => decide (ktn.comm v = some c)
            | none => false) := by
      apply List.filter_congr
      intro a ha
      obtain ⟨i, hvi, -, hci, -, -⟩ := hview a (by rw [hL]; exact List.mem_range.mp ha)
      rw [hvi, hci]
    rw [hcongr]
    refine (index_filter_length st'.marked (fun v => decide (ktn.comm v = some c))).trans ?_
    rw [List.countP_eq_length_filter, marked_basin hpost, hpost.count_B]

theorem rev_pairs_rev_ok {g : Network} {c : Int} (h : g.rev_pairs_ok c) : g.rev_ok c := by
  intro i hi hc x hx hl
  obtain ⟨y, -, hr, -⟩ := h i hi hc x hx hl
  rw [hr]
  rfl

theorem eps_comm_id_ok {ktn : Network} {p : Nat} {c : Int} (hpc : ktn.comm p = some c)
    (b : Bool) (hb : b = true) : eps_comm_id ktn (some p) b = Except.ok c := by
  subst hb
  unfold Network.comm at hpc
  cases hn : ktn.nodes[p]? with
  | none => simp [hn] at hpc
  | some nd =>
    simp only [hn, Option.some.injEq] at hpc
    simp only [eps_comm_id, if_true, vec_get_some _ _ _ hn, hpc]

theorem graph_transformation_spec {top : Network → List Nat → Nat} (htop : pq_contract top)
    {ktn : Network} {c : Int} {p : Nat} {st0 st' : KPS}
    (hs : ktn.sound) (hd : ktn.pos_distinct) (hp : ktn.rev_pairs_ok c) (hu : ktn.udeg_ok c)
    (hpost : SetupPost ktn c p st0 st') (hpc : ktn.comm p = some c) (hout : ktn.out_ok c)
    (hnelim : 0 ≤ st'.nelim) :
    ∃ st'' g E, st'.graph_transformation top ktn = Except.ok st'' ∧ st''.ktn_kps = some g ∧
      st''.eliminated_nodes = E ∧ st''.N = E.length ∧
      (E.length : Int) = min (st'.N_B : Int) st'.nelim ∧ E.Nodup ∧
      (∀ a ∈ E, a < g.nodes.length ∧ g.comm a = some c) ∧
      (∀ a, a < g.nodes.length → ∃ i, st'.marked[a]? = some i ∧ i < ktn.nodes.length ∧
        g.comm a = ktn.comm i ∧ udeg_at g a = udeg_at ktn i ∧
        g.elim a = (ktn.elim i || decide (a ∈ E))) ∧
      (∀ k a, E[k]? = some a → ∀ b, b < g.nodes.length → g.comm b = some c → b ∉ E.take k →
        udeg_at g a ≤ udeg_at g b) := by
  have hr := rev_pairs_rev_ok hp
  obtain ⟨s, O, g1, -, h2, h3, -, -, h6, h7, h8, -, h10, -⟩ :=
    get_subnetwork_spec hs hd hr hu hpost hpc [] (Or.inl rfl)
  obtain ⟨s', O', g1', -, h2', -⟩ :=
    get_subnetwork_spec hs hd hr hu hpost hpc (pairs_from st'.marked 0) (Or.inr rfl)
  have heta : ({ st' with nodemap := [] } : KPS) = st' := by
    rw [← hpost.nodemap]
  rw [heta] at h2
  obtain ⟨hL, hview, hready, hcnt⟩ := sub_facts hs hpost h3 h6 h7 h10 hout hp
  have hnn : s.ktnptr.n_nodes = st'.N_B + st'.N_c := h3.n_nodes.trans h8
  obtain ⟨l, u, hundo⟩ := undo_nodes_ok s.ktnptr (List.range s.ktnptr.n_nodes)
    (Network.create (st'.N_B + st'.N_c) 0) (Network.create (st'.N_B + st'.N_c) 0) (by
      intro i hi
      have := List.mem_range.mp hi
      simp only [Network.create, List.length_replicate]
      omega)
  have hpl : p < s.ktnptr.nodes.length + ktn.nodes.length := by
    have := comm_lt hpc
    omega
  have hNB : 0 < st'.N_B := by
    rw [hpost.count_B]
    exact List.length_pos_of_mem (mem_basin_nodes.mpr hpc)
  have hne : s.ktnptr.nodes ≠ [] := by
    intro h
    rw [h] at hL
    simp at hL
    omega
  have heps := eps_comm_id_ok hpc (decide (s.ktnptr.nodes ≠ [])) (by simpa using hne)
  have hq : pq_fill s.ktnptr c (List.range s.ktnptr.nodes.length)
      = (List.range s.ktnptr.nodes.length).filter (fun i => decide (s.ktnptr.comm i = some c)) :=
    pq_fill_eq _ _ _
  have hqmem : ∀ a, a ∈ pq_fill s.ktnptr c (List.range s.ktnptr.nodes.length) ↔
      a < s.ktnptr.nodes.length ∧ s.ktnptr.comm a = some c := by
    intro a
    rw [hq]
    simp only [List.mem_filter, List.mem_range, decide_eq_true_eq]
  obtain ⟨g', E, hloop, hlenE, hndE, hsubE, hshape, helim, hmin⟩ :=
    gt_loop_spec top htop ktn c st'.nelim _ (pq_fill s.ktnptr c (List.range s.ktnptr.nodes.length))
      s.ktnptr [] 0 rfl (by rw [hq]; exact (List.nodup_range _).filter _)
      (fun a ha => (hqmem a).mp ha) hready
  rw [hcnt] at hlenE
  simp only [List.nil_append, Nat.zero_add] at hloop
  have hEN : (E.length : Int) = min (st'.N_B : Int) st'.nelim := by
    rw [hlenE]
    simp only [Nat.cast_zero, sub_zero]
    omega
  have hcheck : ¬ ((E.length : Int) ≠
      (if ¬ ((st'.N_B : Int) > st'.nelim) then (st'.N_B : Int) else st'.nelim)) := by
    rw [hEN]
    by_cases h : (st'.N_B : Int) > st'.nelim
    · simp only [h, not_true_eq_false, if_false, ne_eq, not_not]
      omega
    · simp only [h, not_false_eq_true, if_true, ne_eq, not_not]
      omega
  have hrun : ∃ st'', st'.graph_transformation top ktn = Except.ok st'' ∧ st''.ktn_kps = some g' ∧
      st''.eliminated_nodes = E ∧ st''.N = E.length := by
    unfold KPS.graph_transformation
    rw [h2]
    dsimp only
    rw [h2']
    dsimp only
    rw [hundo]
    dsimp only
    rw [hpost.eps, heps]
    dsimp only
    rw [hpost.eliminated, hpost.count_N, hloop]
    dsimp only
    rw [if_neg hcheck]
    exact ⟨_, rfl, rfl, rfl, rfl⟩
  obtain ⟨st'', r1, r2, r3, r4⟩ := hrun
  refine ⟨st'', g', E, r1, r2, r3, r4, hEN, hndE, ?_, ?_, ?_⟩
  · intro a ha
    have := (hqmem a).mp (hsubE a ha)
    rw [hshape.nodes_length, same_shape_comm hshape]
    exact this
  · intro a ha
    rw [hshape.nodes_length] at ha
    obtain ⟨i, h1, h2, h3, h4, h5⟩ := hview a ha
    refine ⟨i, h1, h2, ?_, ?_, ?_⟩
    · rw [same_shape_comm hshape]
      exact h3
    · rw [same_shape_udeg hshape]
      exact h4
    · rw [helim a, h5]
  · intro k a hk b hb hbc hnot
    rw [hshape.nodes_length] at hb
    rw [same_shape_comm hshape] at hbc
    have := hmin k a hk b ((hqmem b).mpr ⟨hb, hbc⟩) hnot
    rw [same_shape_udeg hshape, same_shape_udeg hshape]
    exact this

/-- C1, amended: for every basin `setup_basin_sets` produces and every cap `nelim ≥ 0`,
on a network on which `get_subnetwork` returns and each elimination step completes (a
sound network whose nodes are not flagged eliminated, with out-degrees equal to the
number of live outgoing edges, distinct values of `edge_pos`, a live outgoing edge at
every basin node, and reverse edges in pairs:
each live outgoing edge of a basin node has as `rev_edge` an edge from its target
back to that node which, when the target is a basin node, is live and has the edge as
its own `rev_edge`), and whichever queued node of least
out-degree `top()` of the priority queue returns, `graph_transformation` returns, so
the check of the number of eliminated nodes does
not end the run; afterwards `N` is the least of
`N_B` and `nelim`, `eliminated_nodes` holds `N` pairwise distinct nodes of `ktn_kps`,
each of the community of the basin and flagged eliminated, and the nodes of `ktn_kps`
flagged eliminated are exactly those of `eliminated_nodes`, so none of them is a
boundary node. -/
theorem C1_elimination_count (top : Network → List Nat → Nat) (htop : pq_contract top)
    (ktn : Network) (st : KPS) (draw : Option Nat) (p : Nat) (c : Int)
    (hs : ktn.sound) (hlen : st.basin_ids.length = ktn.n_nodes) (had : st.adaptivebins = false)
    (heps : st.choose_epsilon draw = some p) (hpc : ktn.comm p = some c)
    (hu : ktn.udeg_ok c) (hd : ktn.pos_distinct) (hp : ktn.rev_pairs_ok c) (hout : ktn.out_ok c)
    (hfresh : ktn.fresh) (hnelim : 0 ≤ st.nelim) :
    ∃ st' st'' g, st.setup_basin_sets ktn draw = Except.ok st' ∧
      st'.graph_transformation top ktn = Except.ok st'' ∧ st''.ktn_kps = some g ∧
      (st''.N : Int) = min (st'.N_B : Int) st.nelim ∧
      st''.eliminated_nodes.length = st''.N ∧ st''.eliminated_nodes.Nodup ∧
      (∀ a ∈ st''.eliminated_nodes, a < g.nodes.length ∧ g.comm a = some c ∧ g.elim a = true) ∧
      (∀ a, a < g.nodes.length → g.comm a ≠ some c → g.elim a = false) ∧
      (∀ a, g.elim a = true ↔ a ∈ st''.eliminated_nodes) := by
  obtain ⟨st', c', hc', hrun, hpost⟩ :=
    setup_basin_sets_spec ktn st draw p hs.1 hs.2.1 hs.2.2.1 hlen had heps (comm_lt hpc) hnelim
  have hcc : c' = c := Option.some.inj (hc'.symm.trans hpc)
  subst hcc
  obtain ⟨st'', g, E, h1, h2, h3, h4, h5, h6, h7, h8, -⟩ :=
    graph_transformation_spec htop hs hd hp hu hpost hpc hout (by rw [hpost.nelim]; exact hnelim)
  subst h3
  have hflag : ∀ a, g.elim a = true ↔ a ∈ st''.eliminated_nodes := by
    intro a
    by_cases ha : a < g.nodes.length
    · obtain ⟨i, -, hi, -, -, he⟩ := h8 a ha
      rw [he, hfresh i hi]
      simp
    · constructor
      · intro h
        unfold Network.elim at h
        rw [List.getElem?_eq_none (by omega)] at h
        simp at h
      · intro h
        exact absurd (h7 a h).1 ha
  refine ⟨st', st'', g, hrun, h1, h2, ?_, h4.symm, h6, ?_, ?_, hflag⟩
  · rw [h4, h5, hpost.nelim]
  · intro a ha
    exact ⟨(h7 a ha).1, (h7 a ha).2, (hflag a).mpr ha⟩
  · intro a _ hc
    cases he : g.elim a with
    | false => rfl
    | true => exact absurd (h7 a ((hflag a).mp he)).2 hc

/-- C1 on `demo_ktn`, for the basin of node 0 and the cap 5. -/
theorem C1_elimination_count_witness :
    ∃ st' st'' g, (demo_kps 5).setup_basin_sets demo_ktn (some 0) = Except.ok st' ∧
      st'.graph_transformation pq_top demo_ktn = Except.ok st'' ∧ st''.ktn_kps = some g ∧
      (st''.N : Int) = min (st'.N_B : Int) (demo_kps 5).nelim ∧
      st''.eliminated_nodes.length = st''.N ∧ st''.eliminated_nodes.Nodup ∧
      (∀ a ∈ st''.eliminated_nodes, a < g.nodes.length ∧ g.comm a = some 0 ∧ g.elim a = true) ∧
      (∀ a, a < g.nodes.length → g.comm a ≠ some 0 → g.elim a = false) ∧
      (∀ a, g.elim a = true ↔ a ∈ st''.eliminated_nodes) :=
  C1_elimination_count pq_top pq_top_contract demo_ktn (demo_kps 5) (some 0) 0 0 (by decide) (by decide) (by decide)
    (by decide) (by decide) (by decide) (by decide) (by decide) (by decide) (by decide) (by decide)

/-- C9: for every basin `setup_basin_sets` produces on a network on which
`graph_transformation` returns (a sound network with out-degrees equal to the number of
live outgoing edges, distinct values of `edge_pos`, a live outgoing edge at every basin
node, a cap `nelim ≥ 0`, and reverse edges in pairs:
each live outgoing edge of a basin node has as `rev_edge` an edge from its target
back to that node which, when the target is a basin node, is live and has the edge as
its own `rev_edge`), and whichever queued node of least
out-degree `top()` of the priority queue returns,
the out-degrees along `eliminated_nodes` are non-decreasing, and the node at each place
of the sequence is a basin node of `ktn_kps` not among those before it whose out-degree
is the least of the out-degrees of the basin nodes of `ktn_kps` not among those before
it; the out-degree of a node of `ktn_kps` is the one of the node of the full network it
was copied from. -/
theorem C9_elimination_order (top : Network → List Nat → Nat) (htop : pq_contract top)
    (ktn : Network) (st : KPS) (draw : Option Nat) (p : Nat) (c : Int)
    (hs : ktn.sound) (hlen : st.basin_ids.length = ktn.n_nodes) (had : st.adaptivebins = false)
    (heps : st.choose_epsilon draw = some p) (hpc : ktn.comm p = some c)
    (hu : ktn.udeg_ok c) (hd : ktn.pos_distinct) (hp : ktn.rev_pairs_ok c) (hout : ktn.out_ok c)
    (hnelim : 0 ≤ st.nelim) :
    ∃ st' st'' g, st.setup_basin_sets ktn draw = Except.ok st' ∧
      st'.graph_transformation top ktn = Except.ok st'' ∧ st''.ktn_kps = some g ∧
      (∀ k k' a a' : Nat, k ≤ k' → st''.eliminated_nodes[k]? = some a →
        st''.eliminated_nodes[k']? = some a' → udeg_at g a ≤ udeg_at g a') ∧
      (∀ k a : Nat, st''.eliminated_nodes[k]? = some a →
        g.comm a = some c ∧ a ∉ st''.eliminated_nodes.take k ∧
        ∀ b, b < g.nodes.length → g.comm b = some c → b ∉ st''.eliminated_nodes.take k →
          udeg_at g a ≤ udeg_at g b) ∧
      (∀ a, a < g.nodes.length →
        ∃ i, st'.marked[a]? = some i ∧ udeg_at g a = udeg_at ktn i) := by
  obtain ⟨st', c', hc', hrun, hpost⟩ :=
    setup_basin_sets_spec ktn st draw p hs.1 hs.2.1 hs.2.2.1 hlen had heps (comm_lt hpc) hnelim
  have hcc : c' = c := Option.some.inj (hc'.symm.trans hpc)
  subst hcc
  obtain ⟨st'', g, E, h1, h2, h3, -, -, h6, h7, h8, h9⟩ :=
    graph_transformation_spec htop hs hd hp hu hpost hpc hout (by rw [hpost.nelim]; exact hnelim)
  subst h3
  refine ⟨st', st'', g, hrun, h1, h2, ?_, ?_, ?_⟩
  · intro k k' a a' hk ha ha'
    have hm := h7 a' (List.getElem?_mem ha')
    exact h9 k a ha a' hm.1 hm.2 (nodup_take_not_mem h6 hk ha')
  · intro k a ha
    exact ⟨(h7 a (List.getElem?_mem ha)).2, nodup_take_not_mem h6 (Nat.le_refl k) ha,
      h9 k a ha⟩
  · intro a ha
    obtain ⟨i, hi, -, -, hu', -⟩ := h8 a ha
    exact ⟨i, hi, hu'⟩

/-- C9 on `demo_ktn`, for the basin of node 0 and the cap 5. -/
theorem C9_elimination_order_witness :
    ∃ st' st'' g, (demo_kps 5).setup_basin_sets demo_ktn (some 0) = Except.ok st' ∧
      st'.graph_transformation pq_top demo_ktn = Except.ok st'' ∧ st''.ktn_kps = some g ∧
      (∀ k k' a a' : Nat, k ≤ k' → st''.eliminated_nodes[k]? = some a →
        st''.eliminated_nodes[k']? = some a' → udeg_at g a ≤ udeg_at g a') ∧
      (∀ k a : Nat, st''.eliminated_nodes[k]? = some a →
        g.comm a = some 0 ∧ a ∉ st''.eliminated_nodes.take k ∧
        ∀ b, b < g.nodes.length → g.comm b = some 0 → b ∉ st''.eliminated_nodes.take k →
          udeg_at g a ≤ udeg_at g b) ∧
      (∀ a, a < g.nodes.length →
        ∃ i, st'.marked[a]? = some i ∧ udeg_at g a = udeg_at demo_ktn i) :=
  C9_elimination_order pq_top pq_top_contract demo_ktn (demo_kps 5) (some 0) 0 0 (by decide) (by decide) (by decide)
    (by decide) (by decide) (by decide) (by decide) (by decide) (by decide) (by decide)

/-- C1, as the claim states it, fails: `demo_dead` is sound, has no node flagged
eliminated, pairwise distinct values of `edge_pos`, every edge paired with its reverse
edge, a live outgoing edge at its basin node and a cap `nelim = 5`, but the out-degree
of the basin node counts a dead edge.  `setup_basin_sets` returns with `N_e = 2`, `get_subnetwork` copies one edge
and ends the run at its check of the counts, so `graph_transformation` does not
finish although no elimination step was started. -/
theorem C1_counterexample :
    demo_dead.sound ∧ demo_dead.fresh ∧ demo_dead.pos_distinct ∧ demo_dead.rev_ok 0 ∧
    demo_dead.rev_pairs_ok 0 ∧ demo_dead.out_ok 0 ∧ (0 : Int) ≤ (demo_kps 5).nelim ∧
    ((({ demo_kps 5 with basin_ids := [0, 0] } : KPS).setup_basin_sets demo_dead (some 0)).toOption.map
      fun st' => (st'.N_e, st'.graph_transformation pq_top demo_dead))
      = some (2, Except.error Fault.subnetwork_mismatch) := by
  decide

theorem labelled_length (st : KPS) (v : Nat) : (st.labelled v).length = st.basin_ids.count v := by
  unfold KPS.labelled
  have h := index_filter_length st.basin_ids (fun w => w == v)
  rw [List.count_eq_countP, ← h]
  congr 1
  apply List.filter_congr
  intro i hi
  have hi' := List.mem_range.mp hi
  by_cases hv : st.basin_ids[i] = v <;> simp [List.getElem?_eq_getElem hi', hv]

theorem SetupPost.labelled_three {ktn : Network} {c : Int} {p : Nat} {st st' : KPS}
    (h : SetupPost ktn c p st st') : st'.labelled 3 = ktn.basin_nodes c := by
  unfold KPS.labelled Network.basin_nodes
  rw [h.length]
  apply List.filter_congr
  intro i _
  have := h.label_three i
  unfold KPS.label at this
  simp only [this]

/-- C15: for every network whose node at position `i` has id `i+1` (and whose chains
hold edges of the network with live edges pointing at nodes of the network), every
occupied node, every cap `nelim ≥ 0` (line 109 reserves `min(N_B, nelim)` places, which
throws for a negative number) and whatever the counts, `basin_ids`, `eliminated_nodes`
and `nodemap` held before, `setup_basin_sets` in non-adaptive mode returns with `N_B`
the number of
entries of `basin_ids` equal to 3, `N_c` the number of entries equal to 1, `N_e` the
sum of `udeg` over the nodes labelled 3, `N = 0`, and `eliminated_nodes` and `nodemap`
empty. -/
theorem C15_counts_reset (ktn : Network) (st : KPS) (draw : Option Nat) (p : Nat)
    (hsize : ktn.n_nodes = ktn.nodes.length) (hids : ktn.ids_ok) (hch : ktn.chains_ok)
    (hlen : st.basin_ids.length = ktn.n_nodes) (had : st.adaptivebins = false)
    (heps : st.choose_epsilon draw = some p) (hp : p < ktn.nodes.length)
    (hnelim : 0 ≤ st.nelim) :
    ∃ st', st.setup_basin_sets ktn draw = Except.ok st' ∧
      st'.N_B = st'.basin_ids.count 3 ∧ st'.N_c = st'.basin_ids.count 1 ∧
      st'.N_e = ((st'.labelled 3).map (udeg_at ktn)).sum ∧ st'.N = 0 ∧
      st'.eliminated_nodes = [] ∧ st'.nodemap = [] := by
  obtain ⟨st', c, -, hrun, hpost⟩ :=
    setup_basin_sets_spec ktn st draw p hsize hids hch hlen had heps hp hnelim
  refine ⟨st', hrun, ?_, hpost.count_c, ?_, hpost.count_N, hpost.eliminated, hpost.nodemap⟩
  · rw [← labelled_length, hpost.labelled_three, hpost.count_B]
  · rw [hpost.labelled_three, hpost.count_e]

/-- C15 on `demo_ktn`, for the basin of node 0 and a state left by an earlier cycle. -/
theorem C15_counts_reset_witness :
    ∃ st', demo_stale.setup_basin_sets demo_ktn (some 0) = Except.ok st' ∧
      st'.N_B = st'.basin_ids.count 3 ∧ st'.N_c = st'.basin_ids.count 1 ∧
      st'.N_e = ((st'.labelled 3).map (udeg_at demo_ktn)).sum ∧ st'.N = 0 ∧
      st'.eliminated_nodes = [] ∧ st'.nodemap = [] :=
  C15_counts_reset demo_ktn demo_stale (some 0) 0 (by decide) (by decide) (by decide) (by decide)
    (by decide) (by decide) (by decide) (by decide)

theorem copy_nodes_indep (ktn : Network) (ids : List Nat) :
    ∀ (is : List Nat) (j : Nat) (nm nm' : List (Int × Nat)) (g : Network)
      (r : Nat × List (Int × Nat) × Network),
      copy_nodes ktn ids is j nm g = Except.ok r →
      ∃ m', copy_nodes ktn ids is j nm' g = Except.ok (r.1, m', r.2.2) := by
  intro is
  induction is with
  | nil =>
    intro j nm nm' g r h
    simp only [copy_nodes, Except.ok.injEq] at h
    subst h
    exact ⟨nm', rfl⟩
  | cons i is ih =>
    intro j nm nm' g r h
    unfold copy_nodes at h ⊢
    cases hv : vec_get ids i with
    | error f => simp [hv] at h
    | ok lab =>
      simp only [hv] at h ⊢
      by_cases hl : lab = 0
      · simp only [hl, if_true] at h ⊢
        exact ih j nm nm' g r h
      · simp only [hl, if_false] at h ⊢
        cases hn : vec_get ktn.nodes i with
        | error f => simp [hn] at h
        | ok nd =>
          simp only [hn] at h ⊢
          by_cases hj : j < g.nodes.length
          · simp only [hj, if_true] at h ⊢
            exact ih _ _ _ _ r h
          · simp [hj] at h

theorem extract_twice {ktn : Network} {st' : KPS} {P : List (Int × Nat)} {j : Nat} {g1 : Network}
    (h : copy_nodes ktn st'.basin_ids (List.range ktn.n_nodes) 0 []
          { Network.create (st'.N_B + st'.N_c) st'.N_e with
            edges := List.replicate st'.N_e Edge.blank } = Except.ok (j, P, g1))
    {j' : Nat} {g1' : Network}
    (h' : copy_nodes ktn st'.basin_ids (List.range ktn.n_nodes) 0 P
          { Network.create (st'.N_B + st'.N_c) st'.N_e with
            edges := List.replicate st'.N_e Edge.blank } = Except.ok (j', P, g1')) :
    KPS.extract ktn { st' with nodemap := P } = KPS.extract ktn { st' with nodemap := [] } := by
  obtain ⟨m', hm⟩ := copy_nodes_indep ktn st'.basin_ids _ 0 [] P _ _ h
  rw [h'] at hm
  simp only [Except.ok.injEq, Prod.mk.injEq] at hm
  obtain ⟨hj, -, hg⟩ := hm
  subst hj
  subst hg
  unfold KPS.extract
  simp only
  rw [h, h']

theorem sub_edges {ktn : Network} {c : Int} {st' : KPS} (hs : ktn.sound) {s : Extract} {O : List Nat} {g1 : Network}
    (inv : XInv ktn c (pairs_from st'.marked 0) g1 st'.N_e s O)
    (hOlen : O.length = st'.N_e)
    (hlen : g1.nodes.length = st'.marked.length)
    (hg1 : ∀ a : Nat, g1.nodes[a]? =
      match st'.marked[a]? with
      | some i => (ktn.nodes[i]?).map Node.assign
      | none => none)
    (j : Nat) (e : Edge) (he : s.ktnptr.edges[j]? = some e) :
    ∃ a b, e.from_node = Ref.own a ∧ e.to_node = Ref.own b ∧ a < s.ktnptr.nodes.length ∧
      b < s.ktnptr.nodes.length ∧ s.ktnptr.comm a = some c ∧ e.deadts = false := by
  have hF := marked_sorted st'
  have hL : s.ktnptr.nodes.length = st'.marked.length := inv.nodes_length.trans hlen
  have hj : j < O.length := by
    rw [hOlen, ← inv.edges_length]
    exact (List.getElem?_eq_some.mp he).1
  obtain ⟨e0, e', i, i', a, b, he0, he', hsrc, -, hfa, hfb, hfrom, hto, -, -, -, hdead, -⟩ :=
    inv.edges j O[j] (List.getElem?_eq_getElem hj)
  rw [he] at he'
  cases he'
  have hva := (pairs_from_find hF).mp hfa
  have hvb := (pairs_from_find hF).mp hfb
  have ha : a < s.ktnptr.nodes.length := by
    rw [hL]
    exact (List.getElem?_eq_some.mp hva).1
  have hb : b < s.ktnptr.nodes.length := by
    rw [hL]
    exact (List.getElem?_eq_some.mp hvb).1
  refine ⟨a, b, hfrom, hto, ha, hb, ?_, hdead⟩
  obtain ⟨i0, hc0, hx0, -⟩ := mem_basin_edges.mp (inv.sub _ (List.getElem_mem hj))
  have hs0 : ktn.source O[j] = some i0 := hs.2.2.2.1 i0 (comm_lt hc0) _ hx0
  have hii : i0 = i := Option.some.inj (hs0.symm.trans hsrc)
  subst hii
  obtain ⟨nd', hn', hasg⟩ := sub_node_of inv hg1 hva (comm_lt hc0)
  rw [(sub_node_views (comm_lt hc0) hn' hasg).1]
  exact hc0

theorem graph_transformation_full {top : Network → List Nat → Nat} (htop : pq_contract top)
    {ktn : Network} {c : Int} {p : Nat} {st0 st' : KPS}
    (hs : ktn.sound) (hd : ktn.pos_distinct) (hp : ktn.rev_pairs_ok c) (hu : ktn.udeg_ok c)
    (hpost : SetupPost ktn c p st0 st') (hpc : ktn.comm p = some c) (hout : ktn.out_ok c)
    (hnelim : 0 ≤ st'.nelim) :
    ∃ st'' kps0 g E, GTPost top ktn c st' st'' kps0 g E := by
  have hr := rev_pairs_rev_ok hp
  obtain ⟨s, O, g1, x1, h2, h3, -, h5, h6, h7, h8, -, h10, h11⟩ :=
    get_subnetwork_spec hs hd hr hu hpost hpc [] (Or.inl rfl)
  obtain ⟨s', O', g1', x1', h2', -, -, -, -, -, -, -, -, h11'⟩ :=
    get_subnetwork_spec hs hd hr hu hpost hpc (pairs_from st'.marked 0) (Or.inr rfl)
  have hsame : s' = s := by
    have := extract_twice h11 h11'
    rw [x1, x1'] at this
    exact Except.ok.inj this
  subst hsame
  have heta : ({ st' with nodemap := [] } : KPS) = st' := by
    rw [← hpost.nodemap]
  rw [heta] at h2
  obtain ⟨hL, hview, hready, hcnt⟩ := sub_facts hs hpost h3 h6 h7 h10 hout hp
  have hnn : s'.ktnptr.n_nodes = st'.N_B + st'.N_c := h3.n_nodes.trans h8
  obtain ⟨l, u, hundo⟩ := undo_nodes_ok s'.ktnptr (List.range s'.ktnptr.n_nodes)
    (Network.create (st'.N_B + st'.N_c) 0) (Network.create (st'.N_B + st'.N_c) 0) (by
      intro i hi
      have := List.mem_range.mp hi
      simp only [Network.create, List.length_replicate]
      omega)
  have hNB : 0 < st'.N_B := by
    rw [hpost.count_B]
    exact List.length_pos_of_mem (mem_basin_nodes.mpr hpc)
  have hne : s'.ktnptr.nodes ≠ [] := by
    intro h
    rw [h] at hL
    simp at hL
    omega
  have heps := eps_comm_id_ok hpc (decide (s'.ktnptr.nodes ≠ [])) (by simpa using hne)
  have hq : pq_fill s'.ktnptr c (List.range s'.ktnptr.nodes.length)
      = (List.range s'.ktnptr.nodes.length).filter
          (fun i => decide (s'.ktnptr.comm i = some c)) :=
    pq_fill_eq _ _ _
  have hqmem : ∀ a, a ∈ pq_fill s'.ktnptr c (List.range s'.ktnptr.nodes.length) ↔
      a < s'.ktnptr.nodes.length ∧ s'.ktnptr.comm a = some c := by
    intro a
    rw [hq]
    simp only [List.mem_filter, List.mem_range, decide_eq_true_eq]
  obtain ⟨g', E, hloop, hlenE, hndE, hsubE, hshape, helim, hmin⟩ :=
    gt_loop_spec top htop ktn c st'.nelim _ (pq_fill s'.ktnptr c (List.range s'.ktnptr.nodes.length))
      s'.ktnptr [] 0 rfl (by rw [hq]; exact (List.nodup_range _).filter _)
      (fun a ha => (hqmem a).mp ha) hready
  rw [hcnt] at hlenE
  simp only [List.nil_append, Nat.zero_add] at hloop
  have hEN : (E.length : Int) = min (st'.N_B : Int) st'.nelim := by
    rw [hlenE]
    simp only [Nat.cast_zero, sub_zero]
    omega
  have hcheck : ¬ ((E.length : Int) ≠
      (if ¬ ((st'.N_B : Int) > st'.nelim) then (st'.N_B : Int) else st'.nelim)) := by
    rw [hEN]
    by_cases h : (st'.N_B : Int) > st'.nelim
    · simp only [h, not_true_eq_false, if_false, ne_eq, not_not]
      omega
    · simp only [h, not_false_eq_true, if_true, ne_eq, not_not]
      omega
  have hrun : ∃ st'', st'.graph_transformation top ktn = Except.ok st'' ∧ st''.ktn_kps = some g' ∧
      st''.ktn_kps_orig = some s'.ktnptr ∧ st''.ktn_l = some l ∧ st''.ktn_u = some u ∧
      st''.eliminated_nodes = E ∧ st''.N = E.length := by
    unfold KPS.graph_transformation
    rw [h2]
    dsimp only
    rw [h2']
    dsimp only
    rw [hundo]
    dsimp only
    rw [hpost.eps, heps]
    dsimp only
    rw [hpost.eliminated, hpost.count_N, hloop]
    dsimp only
    rw [if_neg hcheck]
    exact ⟨_, rfl, rfl, rfl, rfl, rfl, rfl, rfl⟩
  obtain ⟨st'', r1, r2, r3, r4, r5, r6, r7⟩ := hrun
  refine ⟨st'', s'.ktnptr, g', E, ?_⟩
  exact
    { first := h2, second := h2', run := r1, kps := r2, orig := r3,
      undo := ⟨l, u, hundo, r4, r5⟩, elim_nodes := r6, count := r7, shape := hshape,
      ready := hready, nodes_length := hL, n_nodes := hnn, edges_length := h3.edges_length,
      view := hview, edges := sub_edges hs h3 h5 h7 h10, len := hEN, nodup := hndE,
      mem := fun a ha => (hqmem a).mp (hsubE a ha), flags := helim,
      basin_count := by rw [← hq, hcnt],
      order := fun k a hk b hb hbc hnot => hmin k a hk b ((hqmem b).mpr ⟨hb, hbc⟩) hnot }

theorem nodup_full {E Q : List Nat} (hE : E.Nodup) (hsub : ∀ a ∈ E, a ∈ Q)
    (hlen : Q.length ≤ E.length) : ∀ a ∈ Q, a ∈ E := by
  have hp : E.Perm Q := (List.subperm_of_subset hE hsub).perm_of_length_le hlen
  intro a ha
  exact hp.mem_iff.mpr ha

/-- C11: for every basin `setup_basin_sets` produces on a network on which
`graph_transformation` returns (a sound network with out-degrees equal to the number of
live outgoing edges, distinct values of `edge_pos`, a live outgoing edge at every basin
node, and reverse edges in pairs:
each live outgoing edge of a basin node has as `rev_edge` an edge from its target
back to that node which, when the target is a basin node, is live and has the edge as
its own `rev_edge`), every cap `nelim ≥ N_B`, and whichever queued node
of least out-degree `top()` of the priority queue returns, afterwards every node of `ktn_kps` of the community of the basin is
flagged eliminated, and every edge of `ktn_kps` leads to a node of `ktn_kps` that is
flagged eliminated or is a boundary node: a node of another community, labelled 1 in
`basin_ids`. -/
theorem C11_all_basin_eliminated (top : Network → List Nat → Nat) (htop : pq_contract top)
    (ktn : Network) (st : KPS) (draw : Option Nat) (p : Nat) (c : Int)
    (hs : ktn.sound) (hlen : st.basin_ids.length = ktn.n_nodes) (had : st.adaptivebins = false)
    (heps : st.choose_epsilon draw = some p) (hpc : ktn.comm p = some c)
    (hu : ktn.udeg_ok c) (hd : ktn.pos_distinct) (hp : ktn.rev_pairs_ok c) (hout : ktn.out_ok c)
    (hcap : ((ktn.basin_nodes c).length : Int) ≤ st.nelim) :
    ∃ st' st'' g, st.setup_basin_sets ktn draw = Except.ok st' ∧ (st'.N_B : Int) ≤ st'.nelim ∧
      st'.graph_transformation top ktn = Except.ok st'' ∧ st''.ktn_kps = some g ∧
      (∀ a, a < g.nodes.length → g.comm a = some c → g.elim a = true) ∧
      (∀ (j : Nat) (e : Edge), g.edges[j]? = some e →
        ∃ b i, e.to_node = Ref.own b ∧ g.target j = some b ∧
          (g.elim b = true ∨
            (g.comm b ≠ some c ∧ st'.marked[b]? = some i ∧ st'.basin_ids[i]? = some 1))) := by
  obtain ⟨st', c', hc', hrun, hpost⟩ :=
    setup_basin_sets_spec ktn st draw p hs.1 hs.2.1 hs.2.2.1 hlen had heps (comm_lt hpc) (by omega)
  have hcc : c = c' := Option.some.inj (hpc.symm.trans hc')
  subst hcc
  have hcap' : (st'.N_B : Int) ≤ st'.nelim := by
    rw [hpost.count_B, hpost.nelim]
    exact hcap
  obtain ⟨st'', kps0, g, E, P⟩ :=
    graph_transformation_full htop hs hd hp hu hpost hpc hout (by omega)
  have hall : ∀ a, a < kps0.nodes.length → kps0.comm a = some c → a ∈ E := by
    intro a ha hca
    refine nodup_full (Q := (List.range kps0.nodes.length).filter
      (fun a => decide (kps0.comm a = some c))) P.nodup (fun b hb => ?_) ?_ a ?_
    · exact List.mem_filter.mpr ⟨List.mem_range.mpr (P.mem b hb).1, by simpa using (P.mem b hb).2⟩
    · rw [P.basin_count]
      have := P.len
      omega
    · exact List.mem_filter.mpr ⟨List.mem_range.mpr ha, by simpa using hca⟩
  refine ⟨st', st'', g, hrun, hcap', P.run, P.kps, ?_, ?_⟩
  · intro a ha hca
    rw [P.shape.nodes_length] at ha
    rw [same_shape_comm P.shape] at hca
    rw [P.flags a]
    simp [hall a ha hca]
  · intro j e he
    obtain ⟨e0, he0, hfr⟩ := same_shape_edge (same_shape_symm P.shape) j e he
    obtain ⟨a, b, -, hto, -, hb, -, -⟩ := P.edges j e0 he0
    have hto' : e.to_node = Ref.own b := by
      rw [← (edge_frame_fields hfr).2.2.2.1]
      exact hto
    have hbg : b < g.nodes.length := by
      rw [P.shape.nodes_length]
      exact hb
    obtain ⟨i, hi, hil, hci, -, -⟩ := P.view b hb
    refine ⟨b, i, hto', by simp [Network.target, he, hto', hbg], ?_⟩
    by_cases hcb : kps0.comm b = some c
    · left
      rw [P.flags b]
      simp [hall b hb hcb]
    · right
      refine ⟨by rw [same_shape_comm P.shape]; exact hcb, hi, ?_⟩
      have hm := (hpost.mem_marked.mp (List.getElem?_mem hi)).1
      rw [hci] at hcb
      have hlab := hpost.labels i hil
      unfold KPS.label at hlab
      rw [hlab]
      rcases hm with hm | hm
      · exact absurd hm hcb
      · simp [Network.basin_label, hcb, hm]

/-- C11 on `demo_ktn`, for the basin of node 0 and the cap 5. -/
theorem C11_all_basin_eliminated_witness :
    ∃ st' st'' g, (demo_kps 5).setup_basin_sets demo_ktn (some 0) = Except.ok st' ∧
      (st'.N_B : Int) ≤ st'.nelim ∧
      st'.graph_transformation pq_top demo_ktn = Except.ok st'' ∧ st''.ktn_kps = some g ∧
      (∀ a, a < g.nodes.length → g.comm a = some 0 → g.elim a = true) ∧
      (∀ (j : Nat) (e : Edge), g.edges[j]? = some e →
        ∃ b i, e.to_node = Ref.own b ∧ g.target j = some b ∧
          (g.elim b = true ∨
            (g.comm b ≠ some 0 ∧ st'.marked[b]? = some i ∧ st'.basin_ids[i]? = some 1))) :=
  C11_all_basin_eliminated pq_top pq_top_contract demo_ktn (demo_kps 5) (some 0) 0 0 (by decide) (by decide) (by decide)
    (by decide) (by decide) (by decide) (by decide) (by decide) (by decide) (by decide)

theorem gt_steps_spec (ktn : Network) (c : Int) :
    ∀ (ns : List Nat) (g : Network), g.sub_ready ktn c →
      (∀ n ∈ ns, n < g.nodes.length ∧ g.comm n = some c) →
      ∃ g', gt_steps ktn c ns g = Except.ok g' ∧ g.same_shape g' := by
  intro ns
  induction ns with
  | nil => intro g _ _; exact ⟨g, rfl, same_shape_refl g⟩
  | cons n ns ih =>
    intro g hr hns
    obtain ⟨hn, hc⟩ := hns n (List.mem_cons_self _ _)
    obtain ⟨r1, r2, r3⟩ := hr n hn hc
    obtain ⟨g1, p1, s1, -⟩ := gt_iteration_spec ktn c g n hn r1 r2 r3
    obtain ⟨g', p2, s2⟩ := ih g1 (sub_ready_congr s1 hr) (fun m hm => by
      have := hns m (List.mem_cons_of_mem _ hm)
      rw [s1.nodes_length, same_shape_comm s1]
      exact this)
    refine ⟨g', ?_, same_shape_trans s1 s2⟩
    unfold gt_steps
    rw [p1]
    exact p2

/-- C18: for every basin `setup_basin_sets` produces on a network on which
`get_subnetwork` returns (a sound network with out-degrees equal to the number of live
outgoing edges, distinct values of `edge_pos`, a cap `nelim ≥ 0`, and reverse edges in
pairs:
each live outgoing edge of a basin node has as `rev_edge` an edge from its target
back to that node which, when the target is a basin node, is live and has the edge as
its own `rev_edge`) and whose basin nodes each have a live outgoing edge,
every edge of the sub-network `get_subnetwork` returns has as `from_node` a node of the
sub-network of the community of the basin, and so has every edge of the network that
calls of `gt_iteration` for basin nodes of the sub-network, in any number and order,
make of it; each such sequence of calls returns. -/
theorem C18_boundary_sinks (ktn : Network) (st : KPS) (draw : Option Nat) (p : Nat) (c : Int)
    (hs : ktn.sound) (hlen : st.basin_ids.length = ktn.n_nodes) (had : st.adaptivebins = false)
    (heps : st.choose_epsilon draw = some p) (hpc : ktn.comm p = some c)
    (hu : ktn.udeg_ok c) (hd : ktn.pos_distinct) (hp : ktn.rev_pairs_ok c) (hout : ktn.out_ok c)
    (hnelim : 0 ≤ st.nelim) :
    ∃ st' kps0 st1, st.setup_basin_sets ktn draw = Except.ok st' ∧
      st'.get_subnetwork ktn = Except.ok (kps0, st1) ∧
      (∀ (j : Nat) (e : Edge), kps0.edges[j]? = some e →
        ∃ a, e.from_node = Ref.own a ∧ a < kps0.nodes.length ∧ kps0.comm a = some c) ∧
      ∀ ns : List Nat, (∀ n ∈ ns, n < kps0.nodes.length ∧ kps0.comm n = some c) →
        ∃ g, gt_steps ktn c ns kps0 = Except.ok g ∧
          ∀ (j : Nat) (e : Edge), g.edges[j]? = some e →
            ∃ a, e.from_node = Ref.own a ∧ a < g.nodes.length ∧ g.comm a = some c := by
  obtain ⟨st', c', hc', hrun, hpost⟩ :=
    setup_basin_sets_spec ktn st draw p hs.1 hs.2.1 hs.2.2.1 hlen had heps (comm_lt hpc) hnelim
  have hcc : c = c' := Option.some.inj (hpc.symm.trans hc')
  subst hcc
  obtain ⟨s, O, g1, -, h2, h3, -, h5, h6, h7, -, -, h10, -⟩ :=
    get_subnetwork_spec hs hd (rev_pairs_rev_ok hp) hu hpost hpc [] (Or.inl rfl)
  have heta : ({ st' with nodemap := [] } : KPS) = st' := by
    rw [← hpost.nodemap]
  rw [heta] at h2
  obtain ⟨-, -, hready, -⟩ := sub_facts hs hpost h3 h6 h7 h10 hout hp
  have hed := sub_edges hs h3 h5 h7 h10
  refine ⟨st', s.ktnptr, _, hrun, h2, ?_, ?_⟩
  · intro j e he
    obtain ⟨a, b, hfrom, -, ha, -, hca, -⟩ := hed j e he
    exact ⟨a, hfrom, ha, hca⟩
  · intro ns hns
    obtain ⟨g, hg, hshape⟩ := gt_steps_spec ktn c ns s.ktnptr hready hns
    refine ⟨g, hg, ?_⟩
    intro j e he
    obtain ⟨e0, he0, hfr⟩ := same_shape_edge (same_shape_symm hshape) j e he
    obtain ⟨a, b, hfrom, -, ha, -, hca, -⟩ := hed j e0 he0
    refine ⟨a, ?_, ?_, ?_⟩
    · rw [← (edge_frame_fields hfr).2.2.2.2.1]
      exact hfrom
    · rw [hshape.nodes_length]
      exact ha
    · rw [same_shape_comm hshape]
      exact hca

/-- C18 on `demo_ktn`, for the basin of node 0. -/
theorem C18_boundary_sinks_witness :
    ∃ st' kps0 st1, (demo_kps 5).setup_basin_sets demo_ktn (some 0) = Except.ok st' ∧
      st'.get_subnetwork demo_ktn = Except.ok (kps0, st1) ∧
      (∀ (j : Nat) (e : Edge), kps0.edges[j]? = some e →
        ∃ a, e.from_node = Ref.own a ∧ a < kps0.nodes.length ∧ kps0.comm a = some 0) ∧
      ∀ ns : List Nat, (∀ n ∈ ns, n < kps0.nodes.length ∧ kps0.comm n = some 0) →
        ∃ g, gt_steps demo_ktn 0 ns kps0 = Except.ok g ∧
          ∀ (j : Nat) (e : Edge), g.edges[j]? = some e →
            ∃ a, e.from_node = Ref.own a ∧ a < g.nodes.length ∧ g.comm a = some 0 :=
  C18_boundary_sinks demo_ktn (demo_kps 5) (some 0) 0 0 (by decide) (by decide) (by decide)
    (by decide) (by decide) (by decide) (by decide) (by decide) (by decide) (by decide)

/-- C19: for every basin `setup_basin_sets` produces on a network on which
`graph_transformation` returns (a sound network with out-degrees equal to the number of
live outgoing edges, distinct values of `edge_pos`, a live outgoing edge at every basin
node, a cap `nelim ≥ 0`, and reverse edges in pairs:
each live outgoing edge of a basin node has as `rev_edge` an edge from its target
back to that node which, when the target is a basin node, is live and has the edge as
its own `rev_edge`), and whichever queued node of least
out-degree `top()` of the priority queue returns,
the two calls of `get_subnetwork` return the same sub-network, node for node and edge
for edge; `ktn_kps_orig` is that sub-network when `graph_transformation` has returned;
`ktn_kps` differs from it at most in the probabilities `t` of edges and the flags
`flag` and `eliminated` of nodes; and the `from_node` and `to_node` of every edge of
`ktn_kps` are nodes of `ktn_kps`, so that the writes of the elimination steps, made
through these pointers, reach no object of the full network. -/
theorem C19_only_ktn_kps_modified (top : Network → List Nat → Nat) (htop : pq_contract top)
    (ktn : Network) (st : KPS) (draw : Option Nat) (p : Nat) (c : Int)
    (hs : ktn.sound) (hlen : st.basin_ids.length = ktn.n_nodes) (had : st.adaptivebins = false)
    (heps : st.choose_epsilon draw = some p) (hpc : ktn.comm p = some c)
    (hu : ktn.udeg_ok c) (hd : ktn.pos_distinct) (hp : ktn.rev_pairs_ok c) (hout : ktn.out_ok c)
    (hnelim : 0 ≤ st.nelim) :
    ∃ st' st1 st'' kps0 g, st.setup_basin_sets ktn draw = Except.ok st' ∧
      st'.get_subnetwork ktn = Except.ok (kps0, st1) ∧
      st1.get_subnetwork ktn = Except.ok (kps0, st1) ∧
      st'.graph_transformation top ktn = Except.ok st'' ∧
      st''.ktn_kps_orig = some kps0 ∧ st''.ktn_kps = some g ∧ kps0.same_shape g ∧
      (∀ (j : Nat) (e : Edge), g.edges[j]? = some e →
        ∃ a b, e.from_node = Ref.own a ∧ e.to_node = Ref.own b ∧ a < g.nodes.length ∧
          b < g.nodes.length) := by
  obtain ⟨st', c', hc', hrun, hpost⟩ :=
    setup_basin_sets_spec ktn st draw p hs.1 hs.2.1 hs.2.2.1 hlen had heps (comm_lt hpc) hnelim
  have hcc : c = c' := Option.some.inj (hpc.symm.trans hc')
  subst hcc
  obtain ⟨st'', kps0, g, E, P⟩ :=
    graph_transformation_full htop hs hd hp hu hpost hpc hout (by rw [hpost.nelim]; exact hnelim)
  refine ⟨st', _, st'', kps0, g, hrun, P.first, P.second, P.run, P.orig, P.kps, P.shape, ?_⟩
  intro j e he
  obtain ⟨e0, he0, hfr⟩ := same_shape_edge (same_shape_symm P.shape) j e he
  obtain ⟨a, b, hfrom, hto, ha, hb, -, -⟩ := P.edges j e0 he0
  refine ⟨a, b, ?_, ?_, ?_, ?_⟩
  · rw [← (edge_frame_fields hfr).2.2.2.2.1]
    exact hfrom
  · rw [← (edge_frame_fields hfr).2.2.2.1]
    exact hto
  · rw [P.shape.nodes_length]
    exact ha
  · rw [P.shape.nodes_length]
    exact hb

/-- C19 on `demo_ktn`, for the basin of node 0 and the cap 5. -/
theorem C19_only_ktn_kps_modified_witness :
    ∃ st' st1 st'' kps0 g, (demo_kps 5).setup_basin_sets demo_ktn (some 0) = Except.ok st' ∧
      st'.get_subnetwork demo_ktn = Except.ok (kps0, st1) ∧
      st1.get_subnetwork demo_ktn = Except.ok (kps0, st1) ∧
      st'.graph_transformation pq_top demo_ktn = Except.ok st'' ∧
      st''.ktn_kps_orig = some kps0 ∧ st''.ktn_kps = some g ∧ kps0.same_shape g ∧
      (∀ (j : Nat) (e : Edge), g.edges[j]? = some e →
        ∃ a b, e.from_node = Ref.own a ∧ e.to_node = Ref.own b ∧ a < g.nodes.length ∧
          b < g.nodes.length) :=
  C19_only_ktn_kps_modified pq_top pq_top_contract demo_ktn (demo_kps 5) (some 0) 0 0 (by decide) (by decide) (by decide)
    (by decide) (by decide) (by decide) (by decide) (by decide) (by decide) (by decide)

theorem sample_absorbing_node_null (ktn : Network) (st : KPS) (a : Option Nat)
    (h : st.sample_absorbing_node ktn = Except.ok a) : a = none := by
  unfold KPS.sample_absorbing_node at h
  cases he : st.epsilon with
  | none => simp [he] at h
  | some p =>
    simp only [he] at h
    cases hv : vec_get ktn.nodes p with
    | error f => simp [hv] at h
    | ok nd =>
      simp only [hv, Except.ok.injEq] at h
      exact h.symm

/-- C12 fails on the code: `sample_absorbing_node` returns the null pointer whenever it
returns, for every network and every state.  For the basin of node 0 of `demo_ktn`,
which has one boundary node (`N_c = 1`), the call made after `graph_transformation`
returns the null pointer. -/
theorem C12_sampler_returns_null :
    (∀ (ktn : Network) (st : KPS) (r : Nat),
      st.sample_absorbing_node ktn ≠ Except.ok (some r)) ∧
    (((demo_kps 5).setup_basin_sets demo_ktn (some 0)).toOption.bind fun st' =>
      (st'.graph_transformation pq_top demo_ktn).toOption.map fun st'' =>
        (st''.N_c, st''.sample_absorbing_node demo_ktn)) = some (1, Except.ok none) := by
  refine ⟨?_, by decide!⟩
  intro ktn st r h
  have := sample_absorbing_node_null ktn st _ h
  simp at this

/-- C13 fails on the code: whatever the network, the draw and the state, a pass of the
loop of `run_enhanced_kmc` that completes leaves `alpha` null, because
`sample_absorbing_node` returns the null pointer.  On `demo_ktn` with two passes, the
second pass finds `alpha` null and `setup_basin_sets` takes the outcome of a fresh draw
(node 2) as `epsilon`.  Had `alpha` been set, lines 49-79 would have chosen it. -/
theorem C13_start_node_redrawn :
    (∀ (top : Network → List Nat → Nat) (ktn : Network) (draw : Option Nat) (st : KPS),
      (st.cycle top ktn draw).toOption.bind KPS.alpha = none) ∧
    (∀ (st : KPS) (a : Nat) (draw : Option Nat),
      KPS.choose_epsilon { st with alpha := some a } draw = some a) ∧
    (((demo_kps 5).cycle pq_top demo_ktn (some 0)).toOption.map fun s => (s.epsilon, s.alpha))
      = some (some 0, none) ∧
    ((KPS.run_enhanced_kmc pq_top demo_ktn (fun i => if i = 0 then some 0 else some 2)
        { demo_kps 5 with n_kpsmaxit := 2 }).toOption.map fun s => (s.epsilon, s.alpha))
      = some (some 2, none) := by
  refine ⟨?_, fun _ _ _ => rfl, by decide!, by decide!⟩
  intro top ktn draw st
  unfold KPS.cycle
  cases h1 : st.setup_basin_sets ktn draw with
  | error f => rfl
  | ok st1 =>
    simp only
    cases h2 : st1.graph_transformation top ktn with
    | error f => rfl
    | ok st2 =>
      simp only
      cases h3 : st2.sample_absorbing_node ktn with
      | error f => rfl
      | ok a =>
        have := sample_absorbing_node_null ktn st2 a h3
        subst this
        rfl

theorem eps_scan_concat (u : ℚ) (e : Option Nat × ℚ) :
    ∀ (es : List (Option Nat × ℚ)) (r : Option (Option Nat)),
      eps_scan u (es ++ [e]) r = if e.2 ≥ u then some e.1 else eps_scan u es r := by
  intro es
  induction es with
  | nil => intro r; rfl
  | cons a es ih =>
    intro r
    simp only [List.cons_append, eps_scan]
    exact ih _

theorem eps_cum_concat (ktn : Network) (ex : ℚ → ℚ) (W : ℚ) (i : Nat) :
    ∀ (is : List Nat) (cum : ℚ),
      eps_cum ktn ex W (is ++ [i]) cum = eps_cum ktn ex W is cum ++
        [(some i, cum + (is.map (weight_at ktn ex)).sum / W + weight_at ktn ex i / W)] := by
  intro is
  induction is with
  | nil => intro cum; simp [eps_cum]
  | cons j is ih =>
    intro cum
    have e : cum + weight_at ktn ex j / W + (is.map (weight_at ktn ex)).sum / W
          + weight_at ktn ex i / W
        = cum + ((j :: is).map (weight_at ktn ex)).sum / W + weight_at ktn ex i / W := by
      rw [List.map_cons, List.sum_cons, add_div]
      ring
    rw [List.cons_append, eps_cum, eps_cum, ih, e, List.cons_append]

/-- C14 fails on the code: for every set B that is not empty (and not of 1000 nodes),
whose nodes all have a positive weight, and every `u ≤ 1`, the draw of lines 56-72
assigns to `epsilon` the last node of B in the order of iteration, whatever `u` is:
the scan of `eps_probs` does not stop at the first entry that reaches `u`, and the
cumulative weight of the last entry is 1. -/
theorem C14_last_node_drawn (ktn : Network) (ex : ℚ → ℚ) (nodesB : List Nat) (u : ℚ)
    (hne : nodesB ≠ []) (hsize : nodesB.length ≠ 1000)
    (hpos : ∀ i ∈ nodesB, 0 < weight_at ktn ex i) (hu : u ≤ 1) :
    start_draw ktn ex nodesB u = some nodesB.getLast? := by
  obtain ⟨is, l, rfl⟩ : ∃ is l, nodesB = is ++ [l] :=
    ⟨nodesB.dropLast, nodesB.getLast hne, (List.dropLast_append_getLast hne).symm⟩
  have hW : 0 < weight_B ktn ex (is ++ [l]) := by
    unfold weight_B
    apply List.sum_pos
    · intro x hx
      obtain ⟨i, hi, rfl⟩ := List.mem_map.mp hx
      exact hpos i hi
    · simp
  have hone : (0 : ℚ) + (is.map (weight_at ktn ex)).sum / weight_B ktn ex (is ++ [l])
      + weight_at ktn ex l / weight_B ktn ex (is ++ [l]) = 1 := by
    rw [zero_add, ← add_div]
    have : (is.map (weight_at ktn ex)).sum + weight_at ktn ex l = weight_B ktn ex (is ++ [l]) := by
      simp [weight_B]
    rw [this]
    exact div_self (ne_of_gt hW)
  unfold start_draw eps_probs
  rw [if_neg hsize, eps_cum_concat, ← List.append_assoc, eps_scan_concat, hone]
  simp [hu]

/-- C14 on `demo_ktn` with B the nodes 0 and 1, both of weight 1, and `u = 1/4`: the
first node whose cumulative weight reaches `u` is node 0, with cumulative weight 1/2;
`epsilon` becomes node 1. -/
theorem C14_last_node_drawn_witness :
    first_reaching demo_ktn (fun _ => 1) [0, 1] (1 / 4) = some 0 ∧
    start_draw demo_ktn (fun _ => 1) [0, 1] (1 / 4) = some ([0, 1] : List Nat).getLast? :=
  ⟨by decide!, C14_last_node_drawn demo_ktn (fun _ => 1) [0, 1] (1 / 4) (by decide) (by decide)
    (by decide!) (by decide!)⟩

theorem add_from_edge_edges {g g' : Network} {i j : Nat}
    (h : g.add_from_edge i j = Except.ok g') : g'.edges = g.edges := by
  unfold Network.add_from_edge at h
  split at h
  · cases h
  · simp only [Except.ok.injEq] at h
    rw [← h]

theorem add_to_edge_edges {g g' : Network} {i j : Nat}
    (h : g.add_to_edge i j = Except.ok g') : g'.edges = g.edges := by
  unfold Network.add_to_edge at h
  split at h
  · cases h
  · simp only [Except.ok.injEq] at h
    rw [← h]

theorem place_edge_ok (ktn : Network) (e : Edge) (s s1 : Extract)
    (h : place_edge ktn e s = Except.ok s1) :
    s1.k = s.k + 1 ∧ s1.edgemask = s.edgemask.set e.edge_pos true ∧
    ∃ copy : Edge, s1.ktnptr.edges = s.ktnptr.edges.set s.k copy ∧ copy.k = e.k ∧
      copy.t = e.t ∧ copy.deadts = e.deadts ∧ copy.edge_pos = s.k ∧ copy.rev_edge = Ref.null := by
  unfold place_edge at h
  split at h
  · split at h
    · cases h
    · split at h
      · cases h
      · simp only at h
        split at h
        · cases h
        · rename_i g2 hg2
          split at h
          · cases h
          · rename_i g3 hg3
            split at h
            · simp only [Except.ok.injEq] at h
              subst h
              have e2 := add_from_edge_edges hg2
              have e3 := add_to_edge_edges hg3
              exact ⟨rfl, rfl, _, e3.trans e2, rfl, rfl, rfl, rfl, rfl⟩
            · cases h
  · cases h

/-- C16, as the claim states it, fails: on `demo_norev` the only edge, a live edge on
the chain of the basin node 0 that leads to the boundary node 1, has no reverse edge.
The node loop of `get_subnetwork` leaves the local variables as in `demo_norev_start`;
the pass of the edge loop for this edge ends in the read through the null pointer
(line 206), and so do the loops as a whole. -/
theorem C16_counterexample :
    demo_norev.comm 0 = some 0 ∧ demo_norev.chain 0 = [0] ∧ demo_norev.live 0 = true ∧
    demo_norev.edges.map Edge.rev_edge = [Ref.null] ∧
    copy_nodes demo_norev [3, 1] (List.range demo_norev.n_nodes) 0 []
        { Network.create 2 1 with edges := List.replicate 1 Edge.blank }
      = Except.ok (2, demo_norev_start.nodemap, demo_norev_start.ktnptr) ∧
    copy_edge demo_norev 0 demo_norev_start 0 = Except.error Fault.null_deref ∧
    KPS.extract demo_norev { demo_kps 5 with basin_ids := [3, 1], N_B := 1, N_c := 1, N_e := 1,
                                             epsilon := some 0 }
      = Except.error Fault.null_deref := by
  decide

/-- C16, amended: when the loop of `get_subnetwork` reaches a live edge not yet copied
whose reverse edge is there and is dead, or leaves a node of another community than
the basin, or has been copied already, the pass copies the edge (the state is the one
the forward copy of lines 198-204 leaves: one more edge in the store, with the rate
and probability of the edge and a null `rev_edge`), copies no reverse edge, and the
loop goes on with the next edge of the chain. -/
theorem C16_forward_copy_only (ktn : Network) (c : Int) (s s1 : Extract) (x : Nat) (e r : Edge)
    (he : vec_get ktn.edges x = Except.ok e) (hlive : e.deadts = false)
    (hmask : vec_get s.edgemask e.edge_pos = Except.ok false)
    (hplace : place_edge ktn e s = Except.ok s1)
    (hrev : ktn.edge_of e.rev_edge = Except.ok r)
    (hskip : r.deadts = true ∨ ∃ rf, ktn.node_of r.from_node = Except.ok rf ∧
      (rf.comm_id ≠ c ∨ vec_get s1.edgemask r.edge_pos = Except.ok true)) :
    copy_edge ktn c s x = Except.ok s1 ∧ s1.k = s.k + 1 ∧
    (∃ copy : Edge, s1.ktnptr.edges = s.ktnptr.edges.set s.k copy ∧ copy.k = e.k ∧
      copy.t = e.t ∧ copy.rev_edge = Ref.null) ∧
    ∀ xs, copy_edges ktn c (x :: xs) s = copy_edges ktn c xs s1 := by
  have hrun : copy_edge ktn c s x = Except.ok s1 := by
    unfold copy_edge
    rw [he]
    simp only [hlive, Bool.false_eq_true, if_false, hmask, hplace, hrev]
    rcases hskip with hd | ⟨rf, hrf, hc | hm⟩
    · simp [hd]
    · by_cases hd : r.deadts = true
      · simp [hd]
      · simp [hd, hrf, hc]
    · by_cases hd : r.deadts = true
      · simp [hd]
      · by_cases hc : rf.comm_id = c
        · simp [hd, hrf, hc, hm]
        · simp [hd, hrf, hc]
  obtain ⟨hk, -, copy, h1, h2, h3, -, -, h6⟩ := place_edge_ok ktn e s s1 hplace
  refine ⟨hrun, hk, ⟨copy, h1, h2, h3, h6⟩, fun xs => ?_⟩
  show (match copy_edge ktn c s x with
    | Except.error f => Except.error f
    | Except.ok s1 => copy_edges ktn c xs s1) = _
  rw [hrun]

/-- C16 on `demo_ktn`, for the basin of node 2: its edge to node 0, at position 3, has
as reverse edge the edge at position 2, which leaves node 0, a node of another
community. -/
theorem C16_forward_copy_only_witness :
    copy_edge demo_ktn 1 demo_mid 3 = Except.ok demo_mid_placed ∧
    demo_mid_placed.k = demo_mid.k + 1 ∧
    (∃ copy : Edge, demo_mid_placed.ktnptr.edges = demo_mid.ktnptr.edges.set demo_mid.k copy ∧
      copy.k = (mk_edge 3 (1/2) 2 0 (Ref.own 2)).k ∧
      copy.t = (mk_edge 3 (1/2) 2 0 (Ref.own 2)).t ∧ copy.rev_edge = Ref.null) ∧
    ∀ xs, copy_edges demo_ktn 1 (3 :: xs) demo_mid = copy_edges demo_ktn 1 xs demo_mid_placed :=
  C16_forward_copy_only demo_ktn 1 demo_mid demo_mid_placed 3 (mk_edge 3 (1/2) 2 0 (Ref.own 2))
    (mk_edge 2 (1/2) 0 2 (Ref.own 3)) (by decide!) (by decide) (by decide) (by decide!) (by decide!)
    (Or.inr ⟨mk_node 1 0 2 0 [0, 2], by decide!, Or.inl (by decide)⟩)

/-- C17: for every basin `setup_basin_sets` produces on a network on which
`get_subnetwork` returns (a sound network with out-degrees equal to the number of live
outgoing edges and distinct values of `edge_pos`) and in which the live outgoing edges
of the basin nodes come in pairs (each has a reverse edge that runs the opposite way),
every edge of the sub-network returned has as `from_node` and `to_node` nodes of the
sub-network, and its `rev_edge` is null or an edge `r` of the sub-network with
`r.rev_edge` the edge itself, `r.from_node` its `to_node` and `r.to_node` its
`from_node`: no pointer of an edge leads into the full network. -/
theorem C17_rev_edges_paired (ktn : Network) (st : KPS) (draw : Option Nat) (p : Nat) (c : Int)
    (hs : ktn.sound) (hlen : st.basin_ids.length = ktn.n_nodes) (had : st.adaptivebins = false)
    (heps : st.choose_epsilon draw = some p) (hpc : ktn.comm p = some c)
    (hu : ktn.udeg_ok c) (hd : ktn.pos_distinct) (hp : ktn.rev_pairs_ok c)
    (hnelim : 0 ≤ st.nelim) :
    ∃ st' g st2, st.setup_basin_sets ktn draw = Except.ok st' ∧
      st'.get_subnetwork ktn = Except.ok (g, st2) ∧
      ∀ (j : Nat) (e : Edge), g.edges[j]? = some e →
        (∃ a b, e.from_node = Ref.own a ∧ e.to_node = Ref.own b ∧ a < g.nodes.length ∧
          b < g.nodes.length) ∧
        (e.rev_edge = Ref.null ∨
          ∃ k r, e.rev_edge = Ref.own k ∧ g.edges[k]? = some r ∧ r.rev_edge = Ref.own j ∧
            r.from_node = e.to_node ∧ r.to_node = e.from_node) := by
  obtain ⟨st', c', hc', hrun, hpost⟩ :=
    setup_basin_sets_spec ktn st draw p hs.1 hs.2.1 hs.2.2.1 hlen had heps (comm_lt hpc) hnelim
  have hcc : c' = c := Option.some.inj (hc'.symm.trans hpc)
  subst hcc
  obtain ⟨s, O, g1, h1, h2, h3, h4, h5, h6, h7, h8, h9, h10, h11⟩ :=
    get_subnetwork_spec hs hd (rev_pairs_rev_ok hp) hu hpost hpc [] (Or.inl rfl)
  have heta : ({ st' with nodemap := [] } : KPS) = st' := by
    rw [← hpost.nodemap]
  rw [heta] at h1 h2
  have hF := marked_sorted st'
  refine ⟨st', s.ktnptr, _, hrun, h2, fun j e he => ?_⟩
  have hj : j < O.length := by
    rw [h5, ← h3.edges_length]
    exact (List.getElem?_eq_some.mp he).1
  have hOj : O[j]? = some O[j] := List.getElem?_eq_getElem hj
  obtain ⟨e0, e', i, i', a, b, c1, c2, c3, c4, c5, c6, c7, c8, -⟩ := h3.edges j O[j] hOj
  rw [he] at c2
  cases c2
  have ha : a < s.ktnptr.nodes.length := by
    rw [h3.nodes_length, h7]
    exact (List.getElem?_eq_some.mp ((pairs_from_find hF).mp c5)).1
  have hb : b < s.ktnptr.nodes.length := by
    rw [h3.nodes_length, h7]
    exact (List.getElem?_eq_some.mp ((pairs_from_find hF).mp c6)).1
  refine ⟨⟨a, b, c7, c8, ha, hb⟩, ?_⟩
  rcases h3.revs j e hj he with h | ⟨k, x, y, hk, hr, hm, hx, hy, hxy⟩
  · exact Or.inl h
  · have hxx : x = O[j] := Option.some.inj (hx.symm.trans hOj)
    subst hxx
    obtain ⟨f0, f', m, m', a', b', d1, d2, d3, d4, d5, d6, d7, d8, -⟩ := h3.edges k y hy
    have hrr : f'.rev_edge = Ref.own j := by
      simpa [d2] using hm
    have hends : ktn.source y = ktn.target O[j] ∧ ktn.target y = ktn.source O[j] := by
      rcases hxy with h | h
      · obtain ⟨i0, hc0, hx0, hl0⟩ := mem_basin_edges.mp (h3.sub _ (List.getElem?_mem hOj))
        obtain ⟨w, -, hw, -, hsw, htw, -⟩ := hp i0 (comm_lt hc0) hc0 _ hx0 hl0
        have : w = y := Option.some.inj (hw.symm.trans h)
        subst this
        exact ⟨hsw, htw.trans (hs.2.2.2.1 i0 (comm_lt hc0) _ hx0).symm⟩
      · obtain ⟨i0, hc0, hx0, hl0⟩ := mem_basin_edges.mp (h3.sub _ (List.getElem?_mem hy))
        obtain ⟨w, -, hw, -, hsw, htw, -⟩ := hp i0 (comm_lt hc0) hc0 _ hx0 hl0
        have : w = O[j] := Option.some.inj (hw.symm.trans h)
        rw [this] at hsw htw
        exact ⟨(hs.2.2.2.1 i0 (comm_lt hc0) _ hx0).trans htw.symm, hsw.symm⟩
    have hm1 : m = i' := Option.some.inj (d3.symm.trans (hends.1.trans c4))
    have hm2 : m' = i := Option.some.inj (d4.symm.trans (hends.2.trans c3))
    subst hm1
    subst hm2
    have hab : a' = b := Option.some.inj (d5.symm.trans c6)
    have hba : b' = a := Option.some.inj (d6.symm.trans c5)
    exact Or.inr ⟨k, f', hr, d2, hrr, by rw [d7, c8, hab], by rw [d8, c7, hba]⟩

/-- C17 on `demo_ktn`, for the basin of node 0. -/
theorem C17_rev_edges_paired_witness :
    ∃ st' g st2, (demo_kps 5).setup_basin_sets demo_ktn (some 0) = Except.ok st' ∧
      st'.get_subnetwork demo_ktn = Except.ok (g, st2) ∧
      ∀ (j : Nat) (e : Edge), g.edges[j]? = some e →
        (∃ a b, e.from_node = Ref.own a ∧ e.to_node = Ref.own b ∧ a < g.nodes.length ∧
          b < g.nodes.length) ∧
        (e.rev_edge = Ref.null ∨
          ∃ k r, e.rev_edge = Ref.own k ∧ g.edges[k]? = some r ∧ r.rev_edge = Ref.own j ∧
            r.from_node = e.to_node ∧ r.to_node = e.from_node) :=
  C17_rev_edges_paired demo_ktn (demo_kps 5) (some 0) 0 0 (by decide) (by decide) (by decide)
    (by decide) (by decide) (by decide) (by decide) (by decide) (by decide)

/-- C20 fails on the code: after `graph_transformation` for the basin of node 0 of
`demo_ktn`, `ktn_kps` has 3 nodes and 3 edges, and `ktn_l` and `ktn_u` have 3 nodes
each, no edge, an edge count of 0, and no edge on the chain of any node. -/
theorem C20_undo_networks_without_edges :
    (((demo_kps 5).setup_basin_sets demo_ktn (some 0)).toOption.bind fun st' =>
      (st'.graph_transformation pq_top demo_ktn).toOption.bind fun st'' =>
        st''.ktn_kps.map fun g => (g.nodes.length, g.edges.length, g.n_edges))
      = some (3, 3, 3) ∧
    (((demo_kps 5).setup_basin_sets demo_ktn (some 0)).toOption.bind fun st' =>
      (st'.graph_transformation pq_top demo_ktn).toOption.bind fun st'' =>
        st''.ktn_l.map fun g =>
          (g.nodes.length, g.edges.length, g.n_edges, g.nodes.map Node.top_from))
      = some (3, 0, 0, [[], [], []]) ∧
    (((demo_kps 5).setup_basin_sets demo_ktn (some 0)).toOption.bind fun st' =>
      (st'.graph_transformation pq_top demo_ktn).toOption.bind fun st'' =>
        st''.ktn_u.map fun g =>
          (g.nodes.length, g.edges.length, g.n_edges, g.nodes.map Node.top_from))
      = some (3, 0, 0, [[], [], []]) := by
  refine ⟨by decide!, by decide!, by decide!⟩

/-- C24 fails on the code: `binomial_distribn` throws exactly when `h < 0` and `p` is
outside `[0, 1]` at once, because its test joins the two conditions of the domain by
`||`.  With `h = -1` and `p = 1/2` it returns 1, and with `h = 3` and `p = 2` it
returns 1, where the claim has it throw. -/
theorem C24_binomial_guard :
    (∀ (h : Int) (p : ℚ),
      binomial_distribn h p = Except.error Fault.thrown ↔ (h < 0 ∧ (p < 0 ∨ 1 < p))) ∧
    binomial_distribn (-1) (1 / 2) = Except.ok 1 ∧ binomial_distribn 3 2 = Except.ok 1 := by
  refine ⟨?_, by decide!, by decide!⟩
  intro h p
  unfold binomial_distribn
  by_cases hh : h ≥ 0
  · have : ¬ h < 0 := by omega
    simp only [hh, true_or, not_true_eq_false, if_false, this, false_and, iff_false]
    split_ifs <;> simp
  · have hlt : h < 0 := by omega
    have h0 : h ≠ 0 := by omega
    by_cases hp : p ≥ 0 ∧ p ≤ 1
    · have : ¬ (p < 0 ∨ 1 < p) := by
        rintro (h1 | h1)
        · exact absurd hp.1 (not_le.mpr h1)
        · exact absurd hp.2 (not_le.mpr h1)
      simp only [hh, hp, and_self, or_true, not_true_eq_false, if_false, h0, hlt, true_and,
        this, iff_false]
      split_ifs <;> simp
    · have : p < 0 ∨ 1 < p := by
        by_contra hcon
        push_neg at hcon
        exact hp ⟨hcon.1, hcon.2⟩
      simp [hh, hp, hlt, this]

/-- C25 fails on the code: `negbinomial_distribn` throws exactly when `r < 0` and `p`
is outside `(0, 1]` at once, because its test joins the two conditions of the domain
by `||`.  With `r = -1` and `p = 1/2` it returns 1, and with `r = 3` and `p = 0` it
returns 1, where the claim has it throw. -/
theorem C25_negbinomial_guard :
    (∀ (r : Int) (p : ℚ),
      negbinomial_distribn r p = Except.error Fault.thrown ↔ (r < 0 ∧ (p ≤ 0 ∨ 1 < p))) ∧
    negbinomial_distribn (-1) (1 / 2) = Except.ok 1 ∧
    negbinomial_distribn 3 0 = Except.ok 1 := by
  refine ⟨?_, by decide!, by decide!⟩
  intro r p
  unfold negbinomial_distribn
  by_cases hh : r ≥ 0
  · have : ¬ r < 0 := by omega
    simp only [hh, true_or, not_true_eq_false, if_false, this, false_and, iff_false]
    split_ifs <;> simp
  · have hlt : r < 0 := by omega
    have h0 : r ≠ 0 := by omega
    by_cases hp : p > 0 ∧ p ≤ 1
    · have : ¬ (p ≤ 0 ∨ 1 < p) := by
        rintro (h1 | h1)
        · exact absurd hp.1 (not_lt.mpr h1)
        · exact absurd hp.2 (not_le.mpr h1)
      simp only [hh, hp, and_self, or_true, not_true_eq_false, if_false, hlt, true_and,
        this, iff_false]
      split_ifs <;> simp
    · have : p ≤ 0 ∨ 1 < p := by
        by_contra hcon
        push_neg at hcon
        exact hp ⟨hcon.1, hcon.2⟩
      simp [hh, hp, hlt, this]
theorem bump_cons (b : Bool) (bs : List Bool) (i j : Nat) (sel : Bool) :
    bump (b :: bs) i j sel
      = (if j = i ∧ b = true ∧ sel = true then 1 else 0) + bump bs (i + 1) j sel := by
  unfold bump
  by_cases hji : j = i
  · subst hji
    have h1 : ¬ (j + 1 ≤ j) := by omega
    simp [h1]
  · by_cases hle : i ≤ j
    · have h1 : i + 1 ≤ j := by omega
      have h2 : j - i = (j - (i + 1)) + 1 := by omega
      simp only [hji, false_and, if_false, zero_add, hle, h1, true_and]
      rw [h2, List.getElem?_cons_succ]
    · have h1 : ¬ (i + 1 ≤ j) := by omega
      simp [hji, hle, h1]

theorem wrap_id (bits : Nat) (x : Int) (h0 : 0 ≤ x) (h1 : x < 2 ^ (bits - 1)) (hb : 1 ≤ bits) :
    wrap bits x = x := by
  unfold wrap
  have hp : (2 : Int) ^ bits = 2 * 2 ^ (bits - 1) := by
    have : bits = (bits - 1) + 1 := by omega
    conv_lhs => rw [this, pow_succ]
    ring
  rw [Int.emod_eq_of_lt (by omega) (by omega)]
  omega

theorem pow_pred_bits (bits : Nat) (x : Int) (h0 : 0 ≤ x) (h1 : x + 1 < 2 ^ (bits - 1)) :
    1 ≤ bits := by
  rcases Nat.eq_zero_or_pos bits with h | h
  · subst h
    simp at h1
    omega
  · exact h

theorem tally_spec (bits : Nat) (abpath : Bool) :
    ∀ (bs : List Bool) (i : Nat) (wm : Wrapper_Method),
      i + bs.length ≤ wm.ab_successes.length → i + bs.length ≤ wm.ab_failures.length →
      (∀ (j : Nat) (a : Int), i ≤ j → wm.ab_successes[j]? = some a →
        0 ≤ a ∧ a + 1 < 2 ^ (bits - 1)) →
      (∀ (j : Nat) (a : Int), i ≤ j → wm.ab_failures[j]? = some a →
        0 ≤ a ∧ a + 1 < 2 ^ (bits - 1)) →
      ∃ wm', tally bits abpath bs i wm = Except.ok wm' ∧ wm'.n_traj = wm.n_traj ∧
        wm'.n_ab = wm.n_ab ∧ wm'.committors = wm.committors ∧
        wm'.tp_densities = wm.tp_densities ∧
        wm'.ab_successes.length = wm.ab_successes.length ∧
        wm'.ab_failures.length = wm.ab_failures.length ∧
        (∀ j : Nat, wm'.ab_successes[j]?
          = (wm.ab_successes[j]?).map (fun a => a + bump bs i j abpath)) ∧
        (∀ j : Nat, wm'.ab_failures[j]?
          = (wm.ab_failures[j]?).map (fun a => a + bump bs i j (!abpath))) := by
  intro bs
  induction bs with
  | nil =>
    intro i wm _ _ _ _
    refine ⟨wm, rfl, rfl, rfl, rfl, rfl, rfl, rfl, ?_, ?_⟩ <;>
    · intro j
      cases wm.ab_successes[j]? <;> cases wm.ab_failures[j]? <;> simp [bump]
  | cons b bs ih =>
    intro i wm h1 h2 b1 b2
    simp only [List.length_cons] at h1 h2
    cases b with
    | false =>
      obtain ⟨wm', r, e1, e2, e3, e4, e5, e6, e7, e8⟩ := ih (i + 1) wm (by omega) (by omega)
        (fun j a hj => b1 j a (by omega)) (fun j a hj => b2 j a (by omega))
      refine ⟨wm', ?_, e1, e2, e3, e4, e5, e6, ?_, ?_⟩
      · unfold tally
        simpa using r
      · intro j
        rw [e7 j, bump_cons]
        simp
      · intro j
        rw [e8 j, bump_cons]
        simp
    | true =>
      cases abpath with
      | true =>
        have hi : i < wm.ab_successes.length := by omega
        obtain ⟨a0, a1⟩ := b1 i _ (Nat.le_refl i) (List.getElem?_eq_getElem hi)
        have hw : wrap bits (wm.ab_successes[i] + 1) = wm.ab_successes[i] + 1 :=
          wrap_id bits _ (by omega) a1 (pow_pred_bits bits _ a0 a1)
        obtain ⟨wm', r, e1, e2, e3, e4, e5, e6, e7, e8⟩ :=
          ih (i + 1) { wm with ab_successes := wm.ab_successes.set i (wm.ab_successes[i] + 1) }
            (by simp; omega) (by simp; omega)
            (fun j a hj ha => b1 j a (by omega) (by
              have hij : ¬ i = j := by omega
              simpa [List.getElem?_set_ne hij] using ha))
            (fun j a hj => b2 j a (by omega))
        refine ⟨wm', ?_, e1, e2, e3, e4, by simpa using e5, e6, ?_, ?_⟩
        · unfold tally
          simp only [if_true, vec_get_some _ _ _ (List.getElem?_eq_getElem hi), hw,
            vec_set_nat _ _ _ hi]
          exact r
        · intro j
          rw [e7 j, bump_cons]
          by_cases hji : j = i
          · subst hji
            simp [List.getElem?_set, hi, List.getElem?_eq_getElem hi]
            ring
          · have hij : ¬ i = j := fun h => hji h.symm
            simp [List.getElem?_set_ne hij, hji]
        · intro j
          rw [e8 j, bump_cons]
          simp
      | false =>
        have hi : i < wm.ab_failures.length := by omega
        obtain ⟨a0, a1⟩ := b2 i _ (Nat.le_refl i) (List.getElem?_eq_getElem hi)
        have hw : wrap bits (wm.ab_failures[i] + 1) = wm.ab_failures[i] + 1 :=
          wrap_id bits _ (by omega) a1 (pow_pred_bits bits _ a0 a1)
        obtain ⟨wm', r, e1, e2, e3, e4, e5, e6, e7, e8⟩ :=
          ih (i + 1) { wm with ab_failures := wm.ab_failures.set i (wm.ab_failures[i] + 1) }
            (by simp; omega) (by simp; omega)
            (fun j a hj => b1 j a (by omega))
            (fun j a hj ha => b2 j a (by omega) (by
              have hij : ¬ i = j := by omega
              simpa [List.getElem?_set_ne hij] using ha))
        refine ⟨wm', ?_, e1, e2, e3, e4, e5, by simpa using e6, ?_, ?_⟩
        · unfold tally
          simp only [if_true, Bool.false_eq_true, if_false,
            vec_get_some _ _ _ (List.getElem?_eq_getElem hi), hw, vec_set_nat _ _ _ hi]
          exact r
        · intro j
          rw [e7 j, bump_cons]
          simp
        · intro j
          rw [e8 j, bump_cons]
          by_cases hji : j = i
          · subst hji
            simp [List.getElem?_set, hi, List.getElem?_eq_getElem hi]
            ring
          · have hij : ¬ i = j := fun h => hji h.symm
            simp [List.getElem?_set_ne hij, hji]

theorem bump_nonneg (bs : List Bool) (i j : Nat) (sel : Bool) : 0 ≤ bump bs i j sel := by
  unfold bump
  split_ifs <;> omega

theorem bump_le (bs : List Bool) (i j : Nat) (sel : Bool) :
    bump bs i j sel ≤ (if sel = true then 1 else 0) := by
  unfold bump
  cases sel <;> simp
  split_ifs <;> omega

theorem bump_pair (bs : List Bool) (i j : Nat) (sel : Bool) :
    bump bs i j sel + bump bs i j (!sel) ≤ 1 := by
  unfold bump
  cases sel <;> simp <;> split_ifs <;> omega

theorem update_tp_stats_spec (bits nbins : Nat) (wm : Wrapper_Method) (w : Walker)
    (abpath : Bool) (hok : wm.tp_ok nbins) (hv : w.visited.length = nbins)
    (hbits : wm.n_traj + 1 < 2 ^ (bits - 1)) :
    ∃ wm', wm.update_tp_stats bits w abpath true
        = Except.ok (wm', { w with visited := List.replicate nbins false }) ∧
      wm'.tp_ok nbins ∧ wm'.n_traj = wm.n_traj + 1 ∧
      wm'.n_ab = wm.n_ab + (if abpath = true then 1 else 0) ∧
      (∀ j : Nat, wm'.ab_successes[j]?
        = (wm.ab_successes[j]?).map (fun a => a + bump w.visited 0 j abpath)) ∧
      (∀ j : Nat, wm'.ab_failures[j]?
        = (wm.ab_failures[j]?).map (fun a => a + bump w.visited 0 j (!abpath))) := by
  obtain ⟨l1, l2, l3, l4, h0, h1, hb⟩ := hok
  have hb1 : 1 ≤ bits := pow_pred_bits bits wm.n_traj (by omega) hbits
  have ht : wrap bits (wm.n_traj + 1) = wm.n_traj + 1 := wrap_id bits _ (by omega) hbits hb1
  have ha : wrap bits (wm.n_ab + 1) = wm.n_ab + 1 := wrap_id bits _ (by omega) (by omega) hb1
  obtain ⟨wm', r, e1, e2, e3, e4, e5, e6, e7, e8⟩ :=
    tally_spec bits abpath w.visited 0
      { wm with n_traj := wm.n_traj + 1, n_ab := if abpath then wm.n_ab + 1 else wm.n_ab }
      (by simp [l1, hv]) (by simp [l2, hv])
      (fun j a _ hj => by
        have hjn : j < nbins := by
          rw [← l1]
          exact (List.getElem?_eq_some.mp hj).1
        obtain ⟨x, y, hx, hy, x0, y0, x1, x2⟩ := hb j hjn
        simp only at hj
        rw [hx] at hj
        cases hj
        exact ⟨x0, by omega⟩)
      (fun j a _ hj => by
        have hjn : j < nbins := by
          rw [← l2]
          exact (List.getElem?_eq_some.mp hj).1
        obtain ⟨x, y, hx, hy, x0, y0, x1, x2⟩ := hb j hjn
        simp only at hj
        rw [hy] at hj
        cases hj
        exact ⟨y0, by omega⟩)
  simp only at e1 e2 e3 e4 e5 e6 e7 e8
  have hab : wm'.n_ab = wm.n_ab + (if abpath = true then 1 else 0) := by
    rw [e2]
    cases abpath <;> simp
  refine ⟨wm', ?_, ⟨by rw [e5, l1], by rw [e6, l2], by rw [e3, l3], by rw [e4, l4], ?_, ?_, ?_⟩,
    e1, hab, e7, e8⟩
  · unfold Wrapper_Method.update_tp_stats
    simp only [Bool.not_true, Bool.false_eq_true, if_false, ht, ha, r, hv]
  · rw [hab]
    split_ifs <;> omega
  · rw [hab, e1]
    split_ifs <;> omega
  · intro i hi
    obtain ⟨a, b, ha, hb', a0, b0, a1, a2⟩ := hb i hi
    refine ⟨a + bump w.visited 0 i abpath, b + bump w.visited 0 i (!abpath), ?_, ?_, ?_, ?_, ?_, ?_⟩
    · rw [e7 i, ha]
      rfl
    · rw [e8 i, hb']
      rfl
    · have := bump_nonneg w.visited 0 i abpath
      omega
    · have := bump_nonneg w.visited 0 i (!abpath)
      omega
    · rw [hab]
      have := bump_le w.visited 0 i abpath
      omega
    · rw [e1]
      have := bump_pair w.visited 0 i abpath
      omega

theorem tp_calls_spec (bits nbins : Nat) :
    ∀ (calls : List (List Bool × Bool)) (wm : Wrapper_Method) (w : Walker),
      (∀ c ∈ calls, c.1.length = nbins) → wm.tp_ok nbins →
      wm.n_traj + calls.length < 2 ^ (bits - 1) →
      ∃ wm' w', tp_calls bits calls wm w = Except.ok (wm', w') ∧ wm'.tp_ok nbins ∧
        wm'.n_traj = wm.n_traj + calls.length ∧
        wm'.n_ab = wm.n_ab + (calls.filter (fun c => c.2)).length ∧
        (calls ≠ [] → w'.visited = List.replicate nbins false) := by
  intro calls
  induction calls with
  | nil =>
    intro wm w _ hok _
    exact ⟨wm, w, rfl, hok, by simp, by simp, fun h => absurd rfl h⟩
  | cons c cs ih =>
    intro wm w hc hok hbits
    simp only [List.length_cons, Nat.cast_add, Nat.cast_one] at hbits
    obtain ⟨wm1, r1, ok1, t1, a1, -, -⟩ :=
      update_tp_stats_spec bits nbins wm { w with visited := c.1 } c.2 hok
        (hc c (List.mem_cons_self _ _)) (by omega)
    obtain ⟨wm', w', r2, ok2, t2, a2, v2⟩ :=
      ih wm1 _ (fun d hd => hc d (List.mem_cons_of_mem _ hd)) ok1 (by rw [t1]; omega)
    refine ⟨wm', w', ?_, ok2, ?_, ?_, ?_⟩
    · unfold tp_calls
      rw [r1]
      exact r2
    · rw [t2, t1, List.length_cons]
      push_cast
      ring
    · rw [a2, a1, List.filter_cons]
      cases c.2 <;> simp
      ring
    · intro _
      by_cases hcs : cs = []
      · subst hcs
        simp only [tp_calls, Except.ok.injEq, Prod.mk.injEq] at r2
        rw [← r2.2]
      · exact v2 hcs

theorem calc_loop_spec (bits nbins : Nat) :
    ∀ (is : List Nat) (wm : Wrapper_Method), (∀ i ∈ is, i < nbins) →
      wm.ab_successes.length = nbins → wm.ab_failures.length = nbins →
      wm.committors.length = nbins → wm.tp_densities.length = nbins →
      ∃ wm', calc_loop bits is wm = Except.ok wm' ∧
        (∀ j : Nat, wm'.committors[j]?
          = if j ∈ is then some (wm.committor_of bits j) else wm.committors[j]?) ∧
        (∀ j : Nat, wm'.tp_densities[j]?
          = if j ∈ is then some (wm.density_of j) else wm.tp_densities[j]?) := by
  intro is
  induction is with
  | nil =>
    intro wm _ _ _ _ _
    exact ⟨wm, rfl, fun j => by simp, fun j => by simp⟩
  | cons i is ih =>
    intro wm hi l1 l2 l3 l4
    have hin := hi i (List.mem_cons_self _ _)
    have h1 : i < wm.ab_successes.length := by omega
    have h2 : i < wm.ab_failures.length := by omega
    have h3 : i < wm.committors.length := by omega
    have h4 : i < wm.tp_densities.length := by omega
    obtain ⟨wm', r, c1, c2⟩ := ih
      { wm with
        committors := wm.committors.set i
          ((wm.ab_successes[i] : ℚ) / (wrap bits (wm.ab_successes[i] + wm.ab_failures[i]) : ℚ)),
        tp_densities := wm.tp_densities.set i ((wm.ab_successes[i] : ℚ) / (wm.n_ab : ℚ)) }
      (fun j hj => hi j (List.mem_cons_of_mem _ hj)) l1 l2 (by simp [l3]) (by simp [l4])
    refine ⟨wm', ?_, ?_, ?_⟩
    · unfold calc_loop
      simp only [vec_get_some _ _ _ (List.getElem?_eq_getElem h1),
        vec_get_some _ _ _ (List.getElem?_eq_getElem h2), vec_set_nat _ _ _ h3,
        vec_set_nat _ _ _ h4]
      exact r
    · intro j
      rw [c1 j]
      by_cases hj : j ∈ is
      · simp only [hj, if_true, List.mem_cons, or_true]
        rfl
      · by_cases hji : j = i
        · subst hji
          simp [hj, List.getElem?_set, h3, Wrapper_Method.committor_of,
            List.getElem?_eq_getElem h1, List.getElem?_eq_getElem h2]
        · have hij : ¬ i = j := fun h => hji h.symm
          simp [hj, hji, List.getElem?_set_ne hij]
    · intro j
      rw [c2 j]
      by_cases hj : j ∈ is
      · simp only [hj, if_true, List.mem_cons, or_true]
        rfl
      · by_cases hji : j = i
        · subst hji
          simp [hj, List.getElem?_set, h4, Wrapper_Method.density_of,
            List.getElem?_eq_getElem h1]
        · have hij : ¬ i = j := fun h => hji h.symm
          simp [hj, hji, List.getElem?_set_ne hij]

theorem fresh_tp_ok (nbins : Nat) : (Wrapper_Method.fresh nbins).tp_ok nbins := by
  refine ⟨by simp [Wrapper_Method.fresh], by simp [Wrapper_Method.fresh],
    by simp [Wrapper_Method.fresh], by simp [Wrapper_Method.fresh], le_refl _, le_refl _, ?_⟩
  intro i hi
  refine ⟨0, 0, ?_, ?_, le_refl _, le_refl _, le_refl _, le_refl _⟩ <;>
    simp [Wrapper_Method.fresh, List.getElem?_replicate, hi]

theorem wrap_succ (bits : Nat) (y : Int) : wrap bits (wrap bits y + 1) = wrap bits (y + 1) := by
  unfold wrap
  have e : (y + 2 ^ (bits - 1)) % 2 ^ bits - 2 ^ (bits - 1) + 1 + 2 ^ (bits - 1)
      = (y + 2 ^ (bits - 1)) % 2 ^ bits + 1 := by ring
  rw [e, Int.emod_add_emod]
  have e' : y + 2 ^ (bits - 1) + 1 = y + 1 + 2 ^ (bits - 1) := by ring
  rw [e']

theorem tp_calls_idle (bits : Nat) :
    ∀ (n : Nat) (wm : Wrapper_Method) (w : Walker) (y : Int), wm.n_traj = wrap bits y →
      ∃ wm' w', tp_calls bits (List.replicate n ([], false)) wm w = Except.ok (wm', w') ∧
        wm'.n_ab = wm.n_ab ∧ wm'.n_traj = wrap bits (y + n) := by
  intro n
  induction n with
  | zero =>
    intro wm w y hy
    exact ⟨wm, w, rfl, rfl, by simpa using hy⟩
  | succ n ih =>
    intro wm w y hy
    obtain ⟨wm', w', r, a, t⟩ := ih
      { wm with n_traj := wrap bits (wm.n_traj + 1) }
      { w with visited := [] } (y + 1) (by simp only; rw [hy, wrap_succ])
    refine ⟨wm', w', ?_, a, ?_⟩
    · rw [List.replicate_succ]
      unfold tp_calls
      simpa [Wrapper_Method.update_tp_stats, tally] using r
    · rw [t]
      push_cast
      congr 1
      ring

theorem tp_calls_overflow (bits n : Nat) :
    ∃ wm w', tp_calls bits (([], true) :: List.replicate n ([], false))
        (Wrapper_Method.fresh 0) (demo_walker 0) = Except.ok (wm, w') ∧
      wm.n_ab = wrap bits 1 ∧ wm.n_traj = wrap bits (1 + n) := by
  obtain ⟨wm', w', r, a, t⟩ := tp_calls_idle bits n
    { Wrapper_Method.fresh 0 with n_traj := wrap bits 1, n_ab := wrap bits 1 }
    { demo_walker 0 with visited := [] } 1 rfl
  refine ⟨wm', w', ?_, a, t⟩
  unfold tp_calls
  simpa [Wrapper_Method.update_tp_stats, tally, Wrapper_Method.fresh, demo_walker] using r

theorem wrap_top (bits : Nat) (hb : 2 ≤ bits) :
    wrap bits 1 = 1 ∧ wrap bits (1 + ((2 ^ (bits - 1) - 1 : Nat) : Int)) = -2 ^ (bits - 1) ∧
      (1 : Int) < 2 ^ (bits - 1) := by
  have hp : (2 : Int) ^ bits = 2 * 2 ^ (bits - 1) := by
    have : bits = (bits - 1) + 1 := by omega
    conv_lhs => rw [this, pow_succ]
    ring
  have h2 : (1 : Int) < 2 ^ (bits - 1) := by
    have : bits - 1 = (bits - 2) + 1 := by omega
    rw [this, pow_succ]
    have : (0 : Int) < 2 ^ (bits - 2) := by positivity
    omega
  have hn : (1 : Nat) ≤ 2 ^ (bits - 1) := Nat.one_le_two_pow
  refine ⟨wrap_id bits 1 (by omega) h2 (by omega), ?_, h2⟩
  have e : (1 : Int) + ((2 ^ (bits - 1) - 1 : Nat) : Int) = 2 ^ (bits - 1) := by
    rw [Nat.cast_sub hn]
    push_cast
    ring
  rw [e]
  unfold wrap
  have e2 : (2 : Int) ^ (bits - 1) + 2 ^ (bits - 1) = 2 ^ bits := by
    rw [hp]
    ring
  rw [e2, Int.emod_self]
  ring

/-- C28, as the claim states it, fails: with counters of 32 bits, a call with `abpath`
true followed by `2^31 - 1` calls with `abpath` false leaves `n_ab = 1` and
`n_traj = -2^31`: the last call does not increase `n_traj` by 1, and `n_ab ≤ n_traj`
does not hold.  The same happens with counters of any number of bits from 2 on, after
`2^(bits-1)` calls. -/
theorem C28_counterexample :
    (∃ wm w', tp_calls 32 (([], true) :: List.replicate (2 ^ 31 - 1) ([], false))
        (Wrapper_Method.fresh 0) (demo_walker 0) = Except.ok (wm, w') ∧
      wm.n_ab = 1 ∧ wm.n_traj = -2 ^ 31 ∧ ¬ wm.n_ab ≤ wm.n_traj) ∧
    (∀ bits : Nat, 2 ≤ bits →
      ∃ wm w', tp_calls bits (([], true) :: List.replicate (2 ^ (bits - 1) - 1) ([], false))
          (Wrapper_Method.fresh 0) (demo_walker 0) = Except.ok (wm, w') ∧
        wm.n_ab = 1 ∧ wm.n_traj = -2 ^ (bits - 1) ∧ ¬ wm.n_ab ≤ wm.n_traj) := by
  have gen : ∀ bits : Nat, 2 ≤ bits →
      ∃ wm w', tp_calls bits (([], true) :: List.replicate (2 ^ (bits - 1) - 1) ([], false))
          (Wrapper_Method.fresh 0) (demo_walker 0) = Except.ok (wm, w') ∧
        wm.n_ab = 1 ∧ wm.n_traj = -2 ^ (bits - 1) ∧ ¬ wm.n_ab ≤ wm.n_traj := by
    intro bits hb
    obtain ⟨wm, w', r, a, t⟩ := tp_calls_overflow bits (2 ^ (bits - 1) - 1)
    obtain ⟨w1, w2, h2⟩ := wrap_top bits hb
    rw [w1] at a
    rw [w2] at t
    refine ⟨wm, w', r, a, t, ?_⟩
    rw [a, t]
    omega
  exact ⟨gen 32 (by omega), gen⟩

/-- C28, amended: starting from `n_traj = n_ab = 0` and vectors of `nbins` zeros, every
sequence of calls of `update_tp_stats` with `update = true`, each made with `nbins`
flags in `walker.visited`, that with one more call stays below `2^(bits-1)` calls, the
range of the counters, returns; afterwards `n_traj` is the number of calls, `n_ab`
the number of calls with `abpath` true, `n_ab ≤ n_traj`, in every bin the successes are
at most `n_ab` and successes and failures together at most `n_traj`, and no flag of
`walker.visited` is set.  One more call adds 1 to `n_traj`, adds 1 to `n_ab` exactly
when `abpath` is true, adds 1 to `ab_successes[i]` exactly when bin `i` is flagged and
`abpath` is true, adds 1 to `ab_failures[i]` exactly when bin `i` is flagged and
`abpath` is false, and clears the flags.  `calc_tp_stats` then returns, and each quotient
it stores lies between 0 and 1 when its divisor is not zero. -/
theorem C28_tp_counts (bits nbins : Nat) (calls : List (List Bool × Bool)) (w : Walker)
    (hc : ∀ c ∈ calls, c.1.length = nbins)
    (hbits : (calls.length : Int) + 1 < 2 ^ (bits - 1)) :
    ∃ wm w', tp_calls bits calls (Wrapper_Method.fresh nbins) w = Except.ok (wm, w') ∧
      wm.n_traj = calls.length ∧ wm.n_ab = (calls.filter (fun c => c.2)).length ∧
      wm.n_ab ≤ wm.n_traj ∧ (calls ≠ [] → w'.visited = List.replicate nbins false) ∧
      (∀ i, i < nbins → ∃ a b, wm.ab_successes[i]? = some a ∧ wm.ab_failures[i]? = some b ∧
        0 ≤ a ∧ 0 ≤ b ∧ a ≤ wm.n_ab ∧ a + b ≤ wm.n_traj) ∧
      (∀ (v : List Bool) (abpath : Bool), v.length = nbins →
        ∃ wm1, wm.update_tp_stats bits { w' with visited := v } abpath true
            = Except.ok (wm1, { w' with visited := List.replicate nbins false }) ∧
          wm1.n_traj = wm.n_traj + 1 ∧
          wm1.n_ab = wm.n_ab + (if abpath = true then 1 else 0) ∧
          ∀ i, i < nbins → ∃ a b, wm.ab_successes[i]? = some a ∧ wm.ab_failures[i]? = some b ∧
            wm1.ab_successes[i]?
              = some (a + if v[i]? = some true ∧ abpath = true then 1 else 0) ∧
            wm1.ab_failures[i]?
              = some (b + if v[i]? = some true ∧ abpath = false then 1 else 0)) ∧
      ∃ wm2, wm.calc_tp_stats bits nbins = Except.ok wm2 ∧
        ∀ i, i < nbins → ∃ a b cm d, wm.ab_successes[i]? = some a ∧
          wm.ab_failures[i]? = some b ∧ wm2.committors[i]? = some cm ∧
          wm2.tp_densities[i]? = some d ∧
          (a + b ≠ 0 → cm = (a : ℚ) / ((a + b : Int) : ℚ) ∧ 0 ≤ cm ∧ cm ≤ 1) ∧
          (wm.n_ab ≠ 0 → d = (a : ℚ) / (wm.n_ab : ℚ) ∧ 0 ≤ d ∧ d ≤ 1) := by
  obtain ⟨wm, w', r, hok, t, a, v⟩ :=
    tp_calls_spec bits nbins calls (Wrapper_Method.fresh nbins) w hc (fresh_tp_ok nbins)
      (by simp only [Wrapper_Method.fresh]; omega)
  have ht : wm.n_traj = calls.length := by simpa [Wrapper_Method.fresh] using t
  have hok' := hok
  obtain ⟨l1, l2, l3, l4, h0, h1, hb⟩ := hok
  refine ⟨wm, w', r, by simpa [Wrapper_Method.fresh] using t,
    by simpa [Wrapper_Method.fresh] using a, h1, v, hb, ?_, ?_⟩
  · intro vis abpath hv
    obtain ⟨wm1, r1, -, t1, a1, s1, f1⟩ :=
      update_tp_stats_spec bits nbins wm { w' with visited := vis } abpath hok' hv
        (by rw [ht]; exact hbits)
    refine ⟨wm1, r1, t1, a1, ?_⟩
    intro i hi
    obtain ⟨x, y, hx, hy, -⟩ := hb i hi
    refine ⟨x, y, hx, hy, ?_, ?_⟩
    · rw [s1 i, hx]
      simp [bump]
    · rw [f1 i, hy]
      cases abpath <;> simp [bump]
  · obtain ⟨wm2, r2, c1, c2⟩ := calc_loop_spec bits nbins (List.range nbins) wm
      (fun i hi => List.mem_range.mp hi) l1 l2 l3 l4
    refine ⟨wm2, r2, ?_⟩
    intro i hi
    obtain ⟨x, y, hx, hy, x0, y0, x1, x2⟩ := hb i hi
    have hwr : wrap bits (x + y) = x + y :=
      wrap_id bits _ (by omega) (by omega) (pow_pred_bits bits _ (by omega) hbits)
    refine ⟨x, y, wm.committor_of bits i, wm.density_of i, hx, hy, ?_, ?_, ?_, ?_⟩
    · rw [c1 i]
      simp [hi]
    · rw [c2 i]
      simp [hi]
    · intro hne
      have hpos : (0 : ℚ) < ((x + y : Int) : ℚ) := by
        have : 0 < x + y := by omega
        exact_mod_cast this
      have hx0 : (0 : ℚ) ≤ (x : ℚ) := by exact_mod_cast x0
      have hle : (x : ℚ) ≤ ((x + y : Int) : ℚ) := by
        have : x ≤ x + y := by omega
        exact_mod_cast this
      refine ⟨by simp [Wrapper_Method.committor_of, hx, hy, hwr], ?_, ?_⟩
      · simp only [Wrapper_Method.committor_of, hx, hy, Option.getD_some, hwr]
        exact div_nonneg hx0 (le_of_lt hpos)
      · simp only [Wrapper_Method.committor_of, hx, hy, Option.getD_some, hwr]
        exact (div_le_one hpos).mpr hle
    · intro hne
      have hpos : (0 : ℚ) < (wm.n_ab : ℚ) := by
        have : 0 < wm.n_ab := by omega
        exact_mod_cast this
      have hx0 : (0 : ℚ) ≤ (x : ℚ) := by exact_mod_cast x0
      have hle : (x : ℚ) ≤ (wm.n_ab : ℚ) := by exact_mod_cast x1
      refine ⟨by simp [Wrapper_Method.density_of, hx], ?_, ?_⟩
      · simp only [Wrapper_Method.density_of, hx, Option.getD_some]
        exact div_nonneg hx0 (le_of_lt hpos)
      · simp only [Wrapper_Method.density_of, hx, Option.getD_some]
        exact (div_le_one hpos).mpr hle

/-- C28 for counters of 32 bits, two bins and the two calls of `demo_calls`. -/
theorem C28_tp_counts_witness :
    ∃ wm w', tp_calls 32 demo_calls (Wrapper_Method.fresh 2) (demo_walker 2)
        = Except.ok (wm, w') ∧
      wm.n_traj = demo_calls.length ∧ wm.n_ab = (demo_calls.filter (fun c => c.2)).length ∧
      wm.n_ab ≤ wm.n_traj ∧ (demo_calls ≠ [] → w'.visited = List.replicate 2 false) ∧
      (∀ i : Nat, i < 2 → ∃ a b, wm.ab_successes[i]? = some a ∧ wm.ab_failures[i]? = some b ∧
        0 ≤ a ∧ 0 ≤ b ∧ a ≤ wm.n_ab ∧ a + b ≤ wm.n_traj) ∧
      (∀ (v : List Bool) (abpath : Bool), v.length = 2 →
        ∃ wm1, wm.update_tp_stats 32 { w' with visited := v } abpath true
            = Except.ok (wm1, { w' with visited := List.replicate 2 false }) ∧
          wm1.n_traj = wm.n_traj + 1 ∧
          wm1.n_ab = wm.n_ab + (if abpath = true then 1 else 0) ∧
          ∀ i : Nat, i < 2 → ∃ a b, wm.ab_successes[i]? = some a ∧ wm.ab_failures[i]? = some b ∧
            wm1.ab_successes[i]?
              = some (a + if v[i]? = some true ∧ abpath = true then 1 else 0) ∧
            wm1.ab_failures[i]?
              = some (b + if v[i]? = some true ∧ abpath = false then 1 else 0)) ∧
      ∃ wm2, wm.calc_tp_stats 32 2 = Except.ok wm2 ∧
        ∀ i : Nat, i < 2 → ∃ a b cm d, wm.ab_successes[i]? = some a ∧
          wm.ab_failures[i]? = some b ∧ wm2.committors[i]? = some cm ∧
          wm2.tp_densities[i]? = some d ∧
          (a + b ≠ 0 → cm = (a : ℚ) / ((a + b : Int) : ℚ) ∧ 0 ≤ cm ∧ cm ≤ 1) ∧
          (wm.n_ab ≠ 0 → d = (a : ℚ) / (wm.n_ab : ℚ) ∧ 0 ≤ d ∧ d ≤ 1) :=
  C28_tp_counts 32 2 demo_calls (demo_walker 2) (by decide) (by decide)

theorem prob_of_edge {g : Network} {x : Nat} {e : Edge} (h : g.edges[x]? = some e) :
    g.prob x = e.t := by
  simp [Network.prob, h]

theorem bkl_scan_first (g : Network) (u : ℚ) :
    ∀ (xs : List Nat) (prev : ℚ), (∀ x ∈ xs, x < g.edges.length) → prev ≤ u →
      u < prev + (xs.map g.prob).sum →
      ∃ pre x post, xs = pre ++ x :: post ∧
        (∀ k, k < pre.length → prev + ((pre.take (k + 1)).map g.prob).sum ≤ u) ∧
        u < prev + (pre.map g.prob).sum + g.prob x ∧
        bkl_scan g false u xs prev = Except.ok (some (x, g.prob x)) := by
  intro xs
  induction xs with
  | nil =>
    intro prev _ h1 h2
    simp at h2
    exact absurd h2 (not_lt.mpr h1)
  | cons x xs ih =>
    intro prev hx h1 h2
    have hxl := hx x (List.mem_cons_self _ _)
    have he : g.edges[x]? = some g.edges[x] := List.getElem?_eq_getElem hxl
    have hp := prob_of_edge he
    by_cases hgt : g.edges[x].t + prev > u
    · refine ⟨[], x, xs, rfl, fun k hk => by simp at hk, ?_, ?_⟩
      · simp only [List.map_nil, List.sum_nil, add_zero, hp]
        rw [add_comm]
        exact hgt
      · unfold bkl_scan
        simp only [vec_get_some _ _ _ he, Bool.false_eq_true, if_false, hgt, if_true, hp]
    · have hle : prev + g.prob x ≤ u := by
        rw [hp, add_comm]
        exact not_lt.mp hgt
      obtain ⟨pre, y, post, e1, e2, e3, e4⟩ := ih (prev + g.prob x)
        (fun z hz => hx z (List.mem_cons_of_mem _ hz)) hle (by
          simp only [List.map_cons, List.sum_cons] at h2
          rw [add_assoc]
          exact h2)
      refine ⟨x :: pre, y, post, by rw [e1]; rfl, ?_, ?_, ?_⟩
      · intro k hk
        cases k with
        | zero => simpa using hle
        | succ k =>
          have := e2 k (by simpa using hk)
          simp only [List.take_succ_cons, List.map_cons, List.sum_cons]
          rw [← add_assoc]
          exact this
      · simp only [List.map_cons, List.sum_cons]
        rw [← add_assoc]
        exact e3
      · unfold bkl_scan
        simp only [vec_get_some _ _ _ he, Bool.false_eq_true, if_false, hgt]
        rw [← hp]
        exact e4

theorem bkl_scan_modes (gc gi : Network) (u : ℚ) :
    ∀ (xs : List Nat) (prev : ℚ),
      (∀ x ∈ xs, x < gc.edges.length ∧ x < gi.edges.length) →
      (∀ k x, xs[k]? = some x → gc.prob x = prev + ((xs.take (k + 1)).map gi.prob).sum) →
      bkl_scan gc true u xs prev = bkl_scan gi false u xs prev := by
  intro xs
  induction xs with
  | nil => intro prev _ _; rfl
  | cons x xs ih =>
    intro prev hx hc
    obtain ⟨h1, h2⟩ := hx x (List.mem_cons_self _ _)
    have he1 : gc.edges[x]? = some gc.edges[x] := List.getElem?_eq_getElem h1
    have he2 : gi.edges[x]? = some gi.edges[x] := List.getElem?_eq_getElem h2
    have hp1 := prob_of_edge he1
    have hp2 := prob_of_edge he2
    have h0 := hc 0 x (by simp)
    simp only [zero_add, List.take_succ_cons, List.take_zero, List.map_cons, List.map_nil,
      List.sum_cons, List.sum_nil, add_zero] at h0
    rw [hp1, hp2] at h0
    unfold bkl_scan
    simp only [vec_get_some _ _ _ he1, vec_get_some _ _ _ he2, if_true, Bool.false_eq_true,
      if_false]
    have hcond : (gc.edges[x].t > u) ↔ (gi.edges[x].t + prev > u) := by
      rw [h0, add_comm]
    by_cases hgt : gi.edges[x].t + prev > u
    · rw [if_pos (hcond.mpr hgt), if_pos hgt, h0, add_sub_cancel_left]
    · have hng : ¬ gc.edges[x].t > u := fun h => hgt (hcond.mp h)
      rw [if_neg hng, if_neg hgt, h0]
      apply ih
      · exact fun z hz => hx z (List.mem_cons_of_mem _ hz)
      · intro k y hy
        have := hc (k + 1) y (by simpa using hy)
        simp only [List.take_succ_cons, List.map_cons, List.sum_cons] at this
        rw [this, hp2, add_assoc]
/-- C26: for every walker at a node of the network whose chain of outgoing edges holds
edges of the network with probabilities that sum to 1, in the mode of probabilities
that are not cumulative, and every `0 ≤ u < 1`, the loop of `bkl` breaks at an edge of
the chain before its end: the first edge at which the running sum of the probabilities
exceeds `u`.  The walker is moved to the `to_node` of that edge, `k` grows by 1 and `p`
by the logarithm of the probability of the edge; `bkl` returns this walker, with the
entropy flow added, once `rev_edge` of the edge has been read. -/
theorem C26_bkl_selects (g : Network) (lg ex : ℚ → ℚ) (u rand_t : ℚ) (w : Walker) (n : Nat)
    (hcur : w.curr_node = some n) (hn : n < g.nodes.length) (hmode : w.accumprobs = false)
    (hch : ∀ x ∈ g.chain n, x < g.edges.length)
    (hsum : ((g.chain n).map g.prob).sum = 1) (hu0 : 0 ≤ u) (hu1 : u < 1) :
    ∃ pre x post e w1, g.chain n = pre ++ x :: post ∧ g.edges[x]? = some e ∧
      (∀ k, k < pre.length → ((pre.take (k + 1)).map g.prob).sum ≤ u) ∧
      u < (pre.map g.prob).sum + e.t ∧
      bkl_scan g false u (g.chain n) 0 = Except.ok (some (x, e.t)) ∧
      bkl_advance g lg ex u rand_t w = Except.ok (w1, e) ∧
      w1.curr_node = e.to_node.node ∧ w1.k = w.k + 1 ∧ w1.p = w.p + lg e.t ∧
      ∀ r, g.edge_of e.rev_edge = Except.ok r →
        bkl g lg ex u rand_t w = Except.ok { w1 with s := w1.s + (r.k - e.k) } := by
  obtain ⟨pre, x, post, e1, e2, e3, e4⟩ :=
    bkl_scan_first g u (g.chain n) 0 hch hu0 (by rw [hsum, zero_add]; exact hu1)
  have hxm : x ∈ g.chain n := by
    rw [e1]
    simp
  have hxl := hch x hxm
  have he : g.edges[x]? = some g.edges[x] := List.getElem?_eq_getElem hxl
  have hp := prob_of_edge he
  have hnd : g.nodes[n]? = some g.nodes[n] := List.getElem?_eq_getElem hn
  have hchain : g.chain n = (g.nodes[n]).top_from := by simp [Network.chain, hnd]
  rw [hp] at e3 e4
  simp only [zero_add] at e2 e3
  have hadv : bkl_advance g lg ex u rand_t w
      = Except.ok ({ w with curr_node := (g.edges[x]).to_node.node, k := w.k + 1,
                            p := w.p + lg (g.edges[x]).t,
                            t := w.t + -(1 / ex (g.nodes[n]).k_esc) * lg rand_t }, g.edges[x]) := by
    unfold bkl_advance
    simp only [hcur, vec_get_some _ _ _ hnd, hmode, ← hchain, e4, vec_get_some _ _ _ he]
  refine ⟨pre, x, post, g.edges[x], _, e1, he, e2, e3, e4, hadv, rfl, rfl, rfl, ?_⟩
  intro r hr
  unfold bkl
  rw [hadv]
  simp only [hr]

/-- C26 for a walker at node 0 of `demo_ktn`, whose edges have the probabilities 1/2
and 1/2, and `u = 3/4`. -/
theorem C26_bkl_selects_witness :
    ∃ pre x post e w1, demo_ktn.chain 0 = pre ++ x :: post ∧ demo_ktn.edges[x]? = some e ∧
      (∀ k, k < pre.length → ((pre.take (k + 1)).map demo_ktn.prob).sum ≤ 3 / 4) ∧
      3 / 4 < (pre.map demo_ktn.prob).sum + e.t ∧
      bkl_scan demo_ktn false (3 / 4) (demo_ktn.chain 0) 0 = Except.ok (some (x, e.t)) ∧
      bkl_advance demo_ktn id id (3 / 4) (1 / 2) demo_walker_at = Except.ok (w1, e) ∧
      w1.curr_node = e.to_node.node ∧ w1.k = demo_walker_at.k + 1 ∧ w1.p = demo_walker_at.p + id e.t ∧
      ∀ r, demo_ktn.edge_of e.rev_edge = Except.ok r →
        bkl demo_ktn id id (3 / 4) (1 / 2) demo_walker_at = Except.ok { w1 with s := w1.s + (r.k - e.k) } :=
  C26_bkl_selects demo_ktn id id (3 / 4) (1 / 2) demo_walker_at 0 (by decide) (by decide)
    (by decide) (by decide) (by decide!) (by decide!) (by decide!)

/-- C27: for every chain of edges and every `u`, when the edges of the network `gc`
store the cumulative sums of the probabilities that the edges of the network `gi`
store, the loop of `bkl` run with `accumprobs = true` on `gc` and the loop run with
`accumprobs = false` on `gi` break at the same edge with the same value of `p`, or
both reach the end of the chain. -/
theorem C27_bkl_modes_agree (gc gi : Network) (u : ℚ) (xs : List Nat)
    (hx : ∀ x ∈ xs, x < gc.edges.length ∧ x < gi.edges.length)
    (hc : ∀ k, k < xs.length →
      (xs[k]?).map gc.prob = some (((xs.take (k + 1)).map gi.prob).sum)) :
    bkl_scan gc true u xs 0 = bkl_scan gi false u xs 0 := by
  apply bkl_scan_modes gc gi u xs 0 hx
  intro k x hk
  have := hc k (List.getElem?_eq_some.mp hk).1
  rw [hk] at this
  simp only [Option.map_some', Option.some.injEq] at this
  rw [this, zero_add]

/-- C27 on the edges of node 0 of `demo_ktn`, with probabilities 1/2 and 1/2, and of
`demo_cum`, with the cumulative sums 1/2 and 1, for `u = 3/4`: both loops break at the
edge at position 2 with `p = 1/2`. -/
theorem C27_bkl_modes_agree_witness :
    bkl_scan demo_cum true (3 / 4) [0, 2] 0 = bkl_scan demo_ktn false (3 / 4) [0, 2] 0 ∧
    bkl_scan demo_ktn false (3 / 4) [0, 2] 0 = Except.ok (some (2, 1 / 2)) :=
  ⟨C27_bkl_modes_agree demo_cum demo_ktn (3 / 4) [0, 2] (by decide) (by decide!), by decide!⟩

/-- With a draw `u ≤ 0` and a set B of more than one node, without a configured initial
condition, the scan of `b_probs` breaks at its first entry, one of the entries
`(nullptr, 0.)` the vector was created with, and line 102 of `get_initial_node` throws. -/
theorem initial_node_zero_draw (ktn : Network) (ex lg : ℚ → ℚ) (nodesB : List Nat)
    (init_probs : List ℚ) (nbins : Int) (u : ℚ) (walker : Walker)
    (hB : 2 ≤ nodesB.length) (hu : u ≤ 0) :
    get_initial_node ktn ex lg nodesB false init_probs nbins u walker
      = Except.error Fault.thrown := by
  match nodesB, hB with
  | b :: c :: bs, _ =>
    simp only [get_initial_node, Bool.not_false, if_true, List.length_cons,
      List.replicate_succ, List.cons_append, b_scan, ge_iff_le, hu]

theorem b_scan_blank (u : ℚ) (hu : 0 < u) (es : List (Option Nat × ℚ)) :
    ∀ n : Nat, b_scan u (List.replicate n (none, 0) ++ es) = b_scan u es := by
  intro n
  induction n with
  | zero => simp
  | succ n ih =>
    have h0 : ¬ ((0 : ℚ) ≥ u) := not_le.mpr hu
    rw [List.replicate_succ, List.cons_append]
    show (if (0 : ℚ) ≥ u then _ else b_scan u (List.replicate n (none, 0) ++ es)) = _
    rw [if_neg h0, ih]

theorem b_scan_spec (u : ℚ) :
    ∀ es : List (Option Nat × ℚ), (∃ e ∈ es, u ≤ e.2) →
      ∃ (k : Nat) (e : Option Nat × ℚ), es[k]? = some e ∧ u ≤ e.2 ∧
        (∀ (j : Nat) (e' : Option Nat × ℚ), j < k → es[j]? = some e' → e'.2 < u) ∧
        b_scan u es = some e.1 := by
  intro es
  induction es with
  | nil => rintro ⟨e, he, _⟩; cases he
  | cons a es ih =>
    intro h
    by_cases ha : u ≤ a.2
    · refine ⟨0, a, List.getElem?_cons_zero, ha, ?_, ?_⟩
      · intro j e' hj; omega
      · simp only [b_scan, ge_iff_le, ha, if_true]
    · have h' : ∃ e ∈ es, u ≤ e.2 := by
        obtain ⟨e, he, hu⟩ := h
        rcases List.mem_cons.mp he with rfl | he
        · exact absurd hu ha
        · exact ⟨e, he, hu⟩
      obtain ⟨k, e, hk, hu, hlt, hs⟩ := ih h'
      refine ⟨k + 1, e, by rw [List.getElem?_cons_succ]; exact hk, hu, ?_, ?_⟩
      · intro j e' hj hje
        cases j with
        | zero =>
          simp only [List.getElem?_cons_zero, Option.some.injEq] at hje
          subst hje
          exact not_le.mp ha
        | succ j =>
          simp only [List.getElem?_cons_succ] at hje
          exact hlt j e' (by omega) hje
      · simp only [b_scan, ge_iff_le, ha, if_false, hs]

theorem eps_cum_fst (ktn : Network) (ex : ℚ → ℚ) (W : ℚ) :
    ∀ (is : List Nat) (cum : ℚ) (k : Nat) (e : Option Nat × ℚ),
      (eps_cum ktn ex W is cum)[k]? = some e → ∃ b, is[k]? = some b ∧ e.1 = some b := by
  intro is
  induction is with
  | nil => intro cum k e h; simp [eps_cum] at h
  | cons i is ih =>
    intro cum k e h
    cases k with
    | zero =>
      simp only [eps_cum, List.getElem?_cons_zero, Option.some.injEq] at h
      subst h
      exact ⟨i, List.getElem?_cons_zero, rfl⟩
    | succ k =>
      simp only [eps_cum, List.getElem?_cons_succ] at h
      simpa using ih _ k e h

theorem init_cum_fst (init_probs : List ℚ) :
    ∀ (bs : List Nat) (i : Nat) (cum : ℚ) (es : List (Option Nat × ℚ)),
      init_cum init_probs bs i cum = Except.ok es →
      ∀ (k : Nat) (e : Option Nat × ℚ), es[k]? = some e → ∃ b, bs[k]? = some b ∧ e.1 = some b := by
  intro bs
  induction bs with
  | nil =>
    intro i cum es h k e hk
    simp only [init_cum, Except.ok.injEq] at h
    subst h
    simp at hk
  | cons b bs ih =>
    intro i cum es h k e hk
    simp only [init_cum] at h
    cases hq : vec_get init_probs (i : Int) with
    | error f => simp [hq] at h
    | ok q =>
      simp only [hq] at h
      cases hr : init_cum init_probs bs (i + 1) (cum + q) with
      | error f => simp [hr] at h
      | ok es' =>
        simp only [hr, Except.ok.injEq] at h
        subst h
        cases k with
        | zero =>
          simp only [List.getElem?_cons_zero, Option.some.injEq] at hk
          subst hk
          exact ⟨b, List.getElem?_cons_zero, rfl⟩
        | succ k =>
          simp only [List.getElem?_cons_succ] at hk
          simpa using ih _ _ _ hr k e hk

/-- The end of `get_initial_node` (lines 102-106) for a node `b` of the network whose
bin is a position of `walker.visited`. -/
theorem initial_node_set (ktn : Network) (nbins : Int) (walker : Walker) (b : Nat) (pi_B : ℚ)
    (hv : b < ktn.nodes.length ∧ (0 < nbins → ∃ j, j < walker.visited.length ∧
      (ktn.nodes[b]?).map Node.bin_id = some (j : Int))) :
    ∃ w', (match vec_get ktn.nodes (b : Int) with
      | Except.error f => (Except.error f : Except Fault (Nat × Walker))
      | Except.ok nd =>
        let w1 : Walker := { walker with curr_node := some b, p := nd.pi - pi_B }
        if nbins > 0 then
          match vec_set w1.visited nd.bin_id true with
          | Except.error f => Except.error f
          | Except.ok v => Except.ok (b, { w1 with visited := v })
        else Except.ok (b, w1)) = Except.ok (b, w') ∧ w'.curr_node = some b := by
  obtain ⟨hb, hbin⟩ := hv
  have hnd : ktn.nodes[b]? = some ktn.nodes[b] := List.getElem?_eq_getElem hb
  rw [vec_get_some _ _ _ hnd]
  by_cases hn : nbins > 0
  · obtain ⟨j, hj, hjb⟩ := hbin hn
    rw [hnd] at hjb
    simp only [Option.map_some', Option.some.injEq] at hjb
    simp only [hn, if_true, hjb, vec_set_nat _ _ _ hj]
    exact ⟨_, rfl, rfl⟩
  · simp only [hn, if_false]
    exact ⟨_, rfl, rfl⟩

/-- C23: for every non-empty set B of nodes of the network whose bins are positions of
`walker.visited`, and every draw `u > 0` (a draw of `rand_unif_met` is never 0) that does
not exceed the final cumulative probability, that of the last entry of `es`, the entries
the loop of lines 80-83, or of lines 88-92 with a configured initial condition, appends
to `b_probs`: `get_initial_node` returns a node `b` of B and sets `walker.curr_node` to
it; `b` is the only node when B has one element, otherwise the first node, in the order
of iteration, whose cumulative probability is at least `u`. -/
theorem C23_initial_node (ktn : Network) (ex lg : ℚ → ℚ) (nodesB : List Nat) (initcond : Bool)
    (init_probs : List ℚ) (nbins : Int) (u : ℚ) (walker : Walker)
    (es : List (Option Nat × ℚ))
    (hB : nodesB ≠ [])
    (hv : ∀ b ∈ nodesB, b < ktn.nodes.length ∧ (0 < nbins → ∃ j, j < walker.visited.length ∧
      (ktn.nodes[b]?).map Node.bin_id = some (j : Int)))
    (hes : 2 ≤ nodesB.length →
      if initcond = true then init_cum init_probs nodesB 0 0 = Except.ok es
      else es = eps_cum ktn ex (weight_B ktn ex nodesB) nodesB 0)
    (hu : 0 < u)
    (hfin : 2 ≤ nodesB.length → ∃ e, es.getLast? = some e ∧ u ≤ e.2) :
    ∃ b w', get_initial_node ktn ex lg nodesB initcond init_probs nbins u walker
        = Except.ok (b, w') ∧
      b ∈ nodesB ∧ w'.curr_node = some b ∧ (∀ b0, nodesB = [b0] → b = b0) ∧
      (2 ≤ nodesB.length → ∃ k c, nodesB[k]? = some b ∧ es[k]? = some (some b, c) ∧ u ≤ c ∧
        ∀ (j : Nat) (e : Option Nat × ℚ), j < k → es[j]? = some e → e.2 < u) := by
  match nodesB, hB with
  | [b0], _ =>
    have hb := (hv b0 (List.mem_singleton.mpr rfl)).1
    have hnd : ktn.nodes[b0]? = some ktn.nodes[b0] := List.getElem?_eq_getElem hb
    obtain ⟨w', hw, hc⟩ := initial_node_set ktn nbins walker b0 (ktn.nodes[b0]).pi
      (hv b0 (List.mem_singleton.mpr rfl))
    refine ⟨b0, w', ?_, List.mem_singleton.mpr rfl, hc, ?_, ?_⟩
    · rw [vec_get_some _ _ _ hnd] at hw
      simp only [get_initial_node, vec_get_some _ _ _ hnd]
      exact hw
    · intro b1 h1
      simp only [List.cons.injEq, and_true] at h1
      exact h1
    · intro h2
      simp at h2
  | b0 :: b1 :: bs, _ =>
    have h2 : 2 ≤ (b0 :: b1 :: bs).length := by simp
    obtain ⟨el, hel, hul⟩ := hfin h2
    obtain ⟨k, e, hk, hue, hlt, hs⟩ := b_scan_spec u es ⟨el, List.mem_of_mem_getLast? hel, hul⟩
    have hfst : ∃ b, (b0 :: b1 :: bs)[k]? = some b ∧ e.1 = some b := by
      have := hes h2
      by_cases hi : initcond = true
      · rw [if_pos hi] at this
        exact init_cum_fst _ _ _ _ _ this k e hk
      · rw [if_neg hi] at this
        subst this
        exact eps_cum_fst _ _ _ _ _ k e hk
    obtain ⟨b, hbk, heb⟩ := hfst
    have hmem : b ∈ b0 :: b1 :: bs := List.getElem?_mem hbk
    have hblank := b_scan_blank u hu es (b0 :: b1 :: bs).length
    rw [hs, heb] at hblank
    simp only [List.length_cons] at hblank
    have hbp : ∃ pi_B, get_initial_node ktn ex lg (b0 :: b1 :: bs) initcond init_probs nbins u walker
        = (match vec_get ktn.nodes (b : Int) with
          | Except.error f => (Except.error f : Except Fault (Nat × Walker))
          | Except.ok nd =>
            let w1 : Walker := { walker with curr_node := some b, p := nd.pi - pi_B }
            if nbins > 0 then
              match vec_set w1.visited nd.bin_id true with
              | Except.error f => Except.error f
              | Except.ok v => Except.ok (b, { w1 with visited := v })
            else Except.ok (b, w1)) := by
      have := hes h2
      by_cases hi : initcond = true
      · rw [if_pos hi] at this
        refine ⟨0, ?_⟩
        simp only [get_initial_node, hi, Bool.not_true, this, List.length_cons]
        simp
        rw [hblank]
      · rw [if_neg hi] at this
        have hi' : initcond = false := by simpa using hi
        refine ⟨lg (weight_B ktn ex (b0 :: b1 :: bs)), ?_⟩
        simp only [get_initial_node, hi', Bool.not_false, if_true, ← this, List.length_cons, hblank]
    obtain ⟨pi_B, hg⟩ := hbp
    obtain ⟨w', hw, hc⟩ := initial_node_set ktn nbins walker b pi_B (hv b hmem)
    refine ⟨b, w', hg.trans hw, hmem, hc, ?_, ?_⟩
    · intro b2 hb2
      simp at hb2
    · intro _
      refine ⟨k, e.2, hbk, ?_, hue, hlt⟩
      rw [hk, ← heb]

/-- C23 on `demo_ktn` with B the nodes 0 and 1, both of weight 1, one bin, and `u = 3/4`:
the cumulative probabilities are 1/2 and 1, and the call returns node 1. -/
theorem C23_initial_node_witness :
    ∃ b w', get_initial_node demo_ktn (fun _ => 1) (fun _ => 0) [0, 1] false [] 1 (3 / 4)
        (demo_walker 1) = Except.ok (b, w') ∧
      b ∈ [0, 1] ∧ w'.curr_node = some b ∧ (∀ b0, [0, 1] = [b0] → b = b0) ∧
      (2 ≤ [0, 1].length → ∃ k c, [0, 1][k]? = some b ∧
        [((some 0 : Option Nat), (1 / 2 : ℚ)), (some 1, 1)][k]? = some (some b, c) ∧ 3 / 4 ≤ c ∧
        ∀ (j : Nat) (e : Option Nat × ℚ), j < k →
          [((some 0 : Option Nat), (1 / 2 : ℚ)), (some 1, 1)][j]? = some e → e.2 < 3 / 4) :=
  C23_initial_node demo_ktn (fun _ => 1) (fun _ => 0) [0, 1] false [] 1 (3 / 4) (demo_walker 1)
    [(some 0, 1 / 2), (some 1, 1)] (by decide) (by decide) (by decide!) (by decide!)
    (by decide!)

theorem basin_loop_caps (ktn : Network) (c : Int) :
    ∀ (is : List Nat) (st st' : KPS), basin_loop ktn c is st = Except.ok st' →
      st'.caps = st.caps := by
  intro is
  induction is with
  | nil =>
    intro st st' h
    simp only [basin_loop, Except.ok.injEq] at h
    rw [h]
  | cons i is ih =>
    intro st st' h
    unfold basin_loop at h
    split at h
    · simp at h
    · split at h
      · split at h
        · simp at h
        · exact (ih _ _ h).trans rfl
      · exact ih _ _ h

theorem boundary_mark_caps (ktn : Network) (c : Int) (st st' : KPS) (x : Nat)
    (h : boundary_mark ktn c st x = Except.ok st') : st'.caps = st.caps := by
  unfold boundary_mark at h
  split at h
  · simp at h
  · split at h
    · simp only [Except.ok.injEq] at h
      rw [h]
    · split at h
      · simp at h
      · split at h
        · split at h
          · simp at h
          · split at h
            · split at h
              · simp at h
              · simp only [Except.ok.injEq] at h
                rw [← h]
                rfl
            · simp only [Except.ok.injEq] at h
              rw [h]
        · simp only [Except.ok.injEq] at h
          rw [h]

theorem boundary_walk_caps (ktn : Network) (c : Int) :
    ∀ (xs : List Nat) (st st' : KPS), boundary_walk ktn c xs st = Except.ok st' →
      st'.caps = st.caps := by
  intro xs
  induction xs with
  | nil =>
    intro st st' h
    simp only [boundary_walk, Except.ok.injEq] at h
    rw [h]
  | cons x xs ih =>
    intro st st' h
    unfold boundary_walk at h
    split at h
    · simp at h
    · rename_i st1 h1
      rw [ih _ _ h, boundary_mark_caps ktn c st st1 x h1]

theorem boundary_loop_caps (ktn : Network) (c : Int) :
    ∀ (is : List Nat) (st st' : KPS), boundary_loop ktn c is st = Except.ok st' →
      st'.caps = st.caps := by
  intro is
  induction is with
  | nil =>
    intro st st' h
    simp only [boundary_loop, Except.ok.injEq] at h
    rw [h]
  | cons i is ih =>
    intro st st' h
    unfold boundary_loop at h
    split at h
    · simp at h
    · split at h
      · exact ih _ _ h
      · split at h
        · simp at h
        · split at h
          · simp at h
          · rename_i st1 h1
            rw [ih _ _ h, boundary_walk_caps ktn c _ st st1 h1]

theorem reset_caps (ktn : Network) (st st' : KPS)
    (h : st.reset_eliminated ktn = Except.ok st') : st'.caps = st.caps := by
  unfold KPS.reset_eliminated at h
  by_cases hc : (if ¬ ((st.N_B : Int) > st.nelim) then (st.N_B : Int) else st.nelim) < 0
  · rw [if_pos hc] at h
    cases h
  · rw [if_neg hc] at h
    cases he : eps_comm_id ktn st.epsilon st.debug with
    | error f =>
      rw [he] at h
      cases h
    | ok c =>
      rw [he] at h
      simp only [Except.ok.injEq] at h
      rw [← h]
      rfl

theorem setup_caps (ktn : Network) (draw : Option Nat) (st st' : KPS)
    (h : st.setup_basin_sets ktn draw = Except.ok st') : st'.caps = st.caps := by
  unfold KPS.setup_basin_sets at h
  simp only at h
  split at h
  · exact (reset_caps ktn _ _ h).trans rfl
  · split at h
    · simp at h
    · split at h
      · simp at h
      · rename_i st1 h1
        split at h
        · simp at h
        · rename_i st2 h2
          have e1 := basin_loop_caps ktn _ _ _ _ h1
          have e2 := boundary_loop_caps ktn _ _ _ _ h2
          rw [reset_caps ktn _ _ h, e2, e1]
          rfl

theorem get_subnetwork_caps (ktn : Network) (st st' : KPS) (g : Network)
    (h : st.get_subnetwork ktn = Except.ok (g, st')) : st'.caps = st.caps := by
  unfold KPS.get_subnetwork at h
  split at h
  · simp at h
  · split at h
    · simp at h
    · simp only [Except.ok.injEq, Prod.mk.injEq] at h
      rw [← h.2]
      rfl

theorem graph_transformation_caps (top : Network → List Nat → Nat) (ktn : Network) (st st' : KPS)
    (h : st.graph_transformation top ktn = Except.ok st') : st'.caps = st.caps := by
  unfold KPS.graph_transformation at h
  split at h
  · simp at h
  · rename_i kps st1 h1
    split at h
    · simp at h
    · rename_i orig st2 h2
      split at h
      · simp at h
      · split at h
        · simp at h
        · have e1 := get_subnetwork_caps ktn _ _ _ h1
          have e2 := get_subnetwork_caps ktn _ _ _ h2
          simp only at h
          split at h
          · simp at h
          · split_ifs at h <;>
            · simp only [Except.ok.injEq] at h
              rw [← h]
              show st2.caps = st.caps
              rw [e2, e1]

theorem cycle_caps (top : Network → List Nat → Nat) (ktn : Network) (draw : Option Nat)
    (st st' : KPS)
    (h : st.cycle top ktn draw = Except.ok st') : st'.caps = st.caps := by
  unfold KPS.cycle at h
  split at h
  · simp at h
  · rename_i st1 h1
    split at h
    · simp at h
    · rename_i st2 h2
      split at h
      · simp at h
      · simp only [Except.ok.injEq] at h
        rw [← h]
        show st2.caps = st.caps
        rw [graph_transformation_caps top ktn _ _ h2, setup_caps ktn _ _ _ h1]

theorem run_loop_cycles (top : Network → List Nat → Nat) (ktn : Network)
    (draws : Nat → Option Nat) (A K : Int) (hA : 0 < A) :
    ∀ (fuel i : Nat) (st : KPS), st.caps = (A, K) → (K - i).toNat = fuel →
      run_loop top ktn draws fuel 0 (i : Int) st = cycles top ktn draws fuel i st := by
  intro fuel
  induction fuel with
  | zero =>
    intro i st hc hf
    simp only [KPS.caps, Prod.mk.injEq] at hc
    have hK : ¬ ((i : Int) < st.n_kpsmaxit) := by
      rw [hc.2]
      omega
    simp [run_loop, cycles, hK]
  | succ fuel ih =>
    intro i st hc hf
    have hc' := hc
    simp only [KPS.caps, Prod.mk.injEq] at hc
    have hcond : (0 : Int) < st.n_abpaths ∧ (i : Int) < st.n_kpsmaxit := by
      rw [hc.1, hc.2]
      exact ⟨hA, by omega⟩
    unfold run_loop cycles
    rw [if_pos hcond]
    simp only [Int.toNat_ofNat]
    cases h : st.cycle top ktn (draws i) with
    | error f => rfl
    | ok st1 =>
      simp only
      have := ih (i + 1) st1 ((cycle_caps top ktn _ _ _ h).trans hc') (by omega)
      rw [← this]
      rfl

/-- C21 fails on the code: the loop of `run_enhanced_kmc` never leaves on the count of
paths that ended in macrostate A.  Whatever the network, the draws and the state, the
passes made are `n_kpsmaxit` (none when `n_kpsmaxit` is negative, none when
`n_abpaths ≤ 0`), and no pass that completes leaves in `alpha` a node of A: the
increment of `n_ab` on line 36 is commented out and `sample_absorbing_node` returns the
null pointer.  On `demo_A` with `n_abpaths = 1` and `n_kpsmaxit = 2`, the first pass
ends with the basin of nodes 0 and 1, whose only boundary node, node 2, is in A; the
loop still makes the second pass. -/
theorem C21_abpaths_not_counted :
    (∀ (top : Network → List Nat → Nat) (ktn : Network) (draws : Nat → Option Nat) (st : KPS),
      st.run_enhanced_kmc top ktn draws
        = cycles top ktn draws (if 0 < st.n_abpaths then st.n_kpsmaxit.toNat else 0) 0 st) ∧
    (∀ (top : Network → List Nat → Nat) (ktn : Network) (draw : Option Nat) (st1 : KPS),
      (st1.cycle top ktn draw).toOption.map (fun s => in_A ktn s.alpha) ≠ some true) ∧
    (((KPS.cycle pq_top demo_A (some 1) { demo_kps 5 with n_abpaths := 1, n_kpsmaxit := 2 }).toOption.map
        fun s => (s.basin_ids, s.alpha)) = some ([3, 3, 1, 0], none)) ∧
    in_A demo_A (some 2) = true ∧
    (KPS.run_enhanced_kmc pq_top demo_A (fun _ => some 1)
        { demo_kps 5 with n_abpaths := 1, n_kpsmaxit := 2 })
      = (KPS.cycle pq_top demo_A (some 1) { demo_kps 5 with n_abpaths := 1, n_kpsmaxit := 2 }).bind
          (KPS.cycle pq_top demo_A (some 1)) ∧
    ((KPS.run_enhanced_kmc pq_top demo_A (fun _ => some 1)
        { demo_kps 5 with n_abpaths := 1, n_kpsmaxit := 2 }).toOption.map
      fun s => (s.basin_ids, s.alpha)) = some ([3, 3, 1, 0], none) := by
  refine ⟨?_, ?_, by decide!, by decide, by decide!, by decide!⟩
  · intro top ktn draws st
    unfold KPS.run_enhanced_kmc
    by_cases hA : 0 < st.n_abpaths
    · rw [if_pos hA]
      have := run_loop_cycles top ktn draws st.n_abpaths st.n_kpsmaxit hA st.n_kpsmaxit.toNat 0 st
        rfl (by simp)
      simpa using this
    · rw [if_neg hA]
      cases hf : st.n_kpsmaxit.toNat <;> simp [run_loop, cycles, hA]
  · intro top ktn draw st1
    unfold KPS.cycle
    cases h1 : st1.setup_basin_sets ktn draw with
    | error f => simp [Except.toOption]
    | ok st2 =>
      simp only
      cases h2 : st2.graph_transformation top ktn with
      | error f => simp [Except.toOption]
      | ok st3 =>
        simp only
        cases h3 : st3.sample_absorbing_node ktn with
        | error f => simp [Except.toOption]
        | ok a =>
          have := sample_absorbing_node_null ktn st3 a h3
          subst this
          simp [Except.toOption, in_A]

theorem comm_mark_spec (ktn : Network) (ex : ℚ → ℚ) (rate : ℚ) (hids : ktn.ids_ok)
    (s : CommState) (x : Nat) (hlen : s.labels.length = ktn.nodes.length)
    (hx : x < ktn.edges.length ∧ (ktn.live x = true → (ktn.target x).isSome)) :
    ∃ s', comm_mark ktn ex rate s x = Except.ok s' ∧ Grown ktn [x] s s' := by
  obtain ⟨hx1, hx2⟩ := hx
  have he : ktn.edges[x]? = some ktn.edges[x] := List.getElem?_eq_getElem hx1
  have hrefl : Grown ktn [x] s s →
      ∃ s', (Except.ok s : Except Fault CommState) = Except.ok s' ∧ Grown ktn [x] s s' :=
    fun h => ⟨s, rfl, h⟩
  unfold comm_mark
  rw [vec_get_some _ _ _ he]
  by_cases hd : (ktn.edges[x]).deadts = true
  · have hl : ktn.live x = false := by simp [Network.live, he, hd]
    simp only [hd, if_true]
    refine hrefl ⟨rfl, fun id h => Or.inl h, fun k => Or.inl rfl, ?_⟩
    intro y hy hly
    simp only [List.mem_singleton] at hy
    subst hy
    rw [hl] at hly
    exact absurd hly (by simp)
  · have hl : ktn.live x = true := by simp [Network.live, he, hd]
    have ht := hx2 hl
    cases htg : ktn.target x with
    | none => simp [htg] at ht
    | some j =>
      obtain ⟨e, he', hto, hj⟩ := target_some htg
      rw [he] at he'
      have hee : ktn.edges[x] = e := by simpa using he'
      subst hee
      have hns : ktn.nodes[j]? = some ktn.nodes[j] := List.getElem?_eq_getElem hj
      have hkey : (ktn.nodes[j]).node_id - 1 = (j : Int) := (node_key hids hj).2
      have hjl : j < s.labels.length := by omega
      have hls : s.labels[j]? = some s.labels[j] := List.getElem?_eq_getElem hjl
      simp only [hd, hto, Network.node_of, vec_get_some _ _ _ hns, hkey,
        vec_get_some _ _ _ hls, vec_set_nat _ _ _ hjl]
      by_cases h2 : s.labels[j] = 2
      · simp only [h2, if_true]
        refine hrefl ⟨rfl, fun id h => Or.inl h, fun k => Or.inl rfl, ?_⟩
        intro y hy _
        simp only [List.mem_singleton] at hy
        subst hy
        exact ⟨j, htg, Or.inl (by rw [hls, h2])⟩
      · simp only [h2, if_false, Bool.false_eq_true]
        refine ⟨_, rfl, ⟨by simp, ?_, ?_, ?_⟩⟩
        · intro id hid
          simp only at hid
          split_ifs at hid
          · rcases List.mem_append.mp hid with h | h
            · exact Or.inl h
            · simp only [List.mem_singleton] at h
              exact Or.inr ⟨j, hj, by omega⟩
          · exact Or.inl hid
          · exact Or.inl hid
        · intro k
          by_cases hkj : k = j
          · subst hkj
            right
            refine ⟨by rw [hls]; simpa using h2, by simp [List.getElem?_set, hjl],
              x, List.mem_singleton.mpr rfl, hl, htg⟩
          · left
            have : ¬ j = k := fun h => hkj h.symm
            simp [List.getElem?_set_ne this]
        · intro y hy _
          simp only [List.mem_singleton] at hy
          subst hy
          exact ⟨j, htg, Or.inr (by simp [List.getElem?_set, hjl])⟩

theorem comm_walk_spec (ktn : Network) (ex : ℚ → ℚ) (rate : ℚ) (hids : ktn.ids_ok) :
    ∀ (xs : List Nat) (s : CommState), s.labels.length = ktn.nodes.length →
      (∀ x ∈ xs, x < ktn.edges.length ∧ (ktn.live x = true → (ktn.target x).isSome)) →
      ∃ s', comm_walk ktn ex rate xs s = Except.ok s' ∧ Grown ktn xs s s' := by
  intro xs
  induction xs with
  | nil =>
    intro s _ _
    exact ⟨s, rfl, rfl, fun id h => Or.inl h, fun k => Or.inl rfl,
      fun x hx => by simp at hx⟩
  | cons x xs ih =>
    intro s hlen hx
    obtain ⟨s1, r1, g1⟩ := comm_mark_spec ktn ex rate hids s x hlen (hx x (List.mem_cons_self _ _))
    obtain ⟨s', r2, g2⟩ := ih s1 (g1.length.trans hlen)
      (fun y hy => hx y (List.mem_cons_of_mem _ hy))
    refine ⟨s', ?_, g2.length.trans g1.length, ?_, ?_, ?_⟩
    · unfold comm_walk
      rw [r1]
      exact r2
    · intro id hid
      rcases g2.queue id hid with h | h
      · exact g1.queue id h
      · exact Or.inr h
    · intro k
      rcases g2.labels k with h | ⟨h1, h2, y, hy, hy1, hy2⟩
      · rcases g1.labels k with h' | ⟨h1', h2', y, hy, hy1, hy2⟩
        · exact Or.inl (h.trans h')
        · refine Or.inr ⟨h1', h.trans h2', y, ?_, hy1, hy2⟩
          simp only [List.mem_singleton] at hy
          rw [hy]
          exact List.mem_cons_self _ _
      · refine Or.inr ⟨?_, h2, y, List.mem_cons_of_mem _ hy, hy1, hy2⟩
        rcases g1.labels k with h' | ⟨h1', -, -⟩
        · rw [← h']
          exact h1
        · exact h1'
    · intro y hy hl
      rcases List.mem_cons.mp hy with rfl | hy
      · obtain ⟨j, hj, hlab⟩ := g1.done y (List.mem_singleton.mpr rfl) hl
        refine ⟨j, hj, ?_⟩
        rcases g2.labels j with h | ⟨-, h2, -⟩
        · rw [h]
          exact hlab
        · exact Or.inr h2
      · exact g2.done y hy hl

theorem comm_pop_inv {ktn : Network} {s : CommState} {q : List Int} {j0 : Nat} {s2 : CommState}
    (inv : CInv ktn s) (hq : ∀ id ∈ q, id ∈ s.queue) (hj0 : j0 < ktn.nodes.length)
    (g : Grown ktn (ktn.chain j0) { labels := s.labels.set j0 2, queue := q } s2) :
    CInv ktn s2 ∧ (∀ k : Nat, s.labels[k]? = some 2 → s2.labels[k]? = some 2) ∧
      s2.labels[j0]? = some 2 := by
  have hjl : j0 < s.labels.length := by rw [inv.length]; exact hj0
  have h1 : ∀ k : Nat, (s.labels.set j0 2)[k]? = if k = j0 then some 2 else s.labels[k]? := by
    intro k
    by_cases hk : k = j0
    · subst hk
      simp [List.getElem?_set, hjl]
    · have : ¬ j0 = k := fun h => hk h.symm
      simp [List.getElem?_set_ne this, hk]
  have keep : ∀ k : Nat, (s.labels.set j0 2)[k]? = some 2 → s2.labels[k]? = some 2 := by
    intro k hk
    rcases g.labels k with h | ⟨h, -, -⟩
    · rw [h]
      exact hk
    · exact absurd hk h
  have keep0 : ∀ k : Nat, s.labels[k]? = some 2 → (s.labels.set j0 2)[k]? = some 2 := by
    intro k hk
    rw [h1 k]
    split_ifs
    · rfl
    · exact hk
  have up : ∀ k : Nat, (s.labels[k]? = some 2 ∨ s.labels[k]? = some 3) →
      (s2.labels[k]? = some 2 ∨ s2.labels[k]? = some 3) := by
    intro k hk
    rcases g.labels k with h | ⟨-, h, -⟩
    · rw [h, h1 k]
      split_ifs
      · exact Or.inl rfl
      · exact hk
    · exact Or.inr h
  have hj2 : s2.labels[j0]? = some 2 := keep j0 (by rw [h1 j0]; simp)
  refine ⟨⟨?_, ?_, ?_, ?_, ?_⟩, fun k hk => keep k (keep0 k hk), hj2⟩
  · rw [g.length]
    simp [inv.length]
  · intro k v hv
    rcases g.labels k with h | ⟨-, h, -⟩
    · rw [h, h1 k] at hv
      split_ifs at hv
      · simp only [Option.some.injEq] at hv
        omega
      · exact inv.vals k v hv
    · rw [h] at hv
      simp only [Option.some.injEq] at hv
      omega
  · intro id hid
    rcases g.queue id hid with h | h
    · exact inv.queue id (hq id h)
    · exact h
  · intro i hi x hx hl
    have hi1 : (s.labels.set j0 2)[i]? = some 2 := by
      rcases g.labels i with h | ⟨-, h, -⟩
      · rw [← h]
        exact hi
      · rw [h] at hi
        simp at hi
    by_cases hij : i = j0
    · subst hij
      exact g.done x hx hl
    · rw [h1 i, if_neg hij] at hi1
      obtain ⟨j, hj, hlab⟩ := inv.closed i hi1 x hx hl
      exact ⟨j, hj, up j hlab⟩
  · intro j hj
    rcases g.labels j with h | ⟨-, -, x, hx, hl, ht⟩
    · rw [h, h1 j] at hj
      split_ifs at hj
      · simp at hj
      · obtain ⟨i, hi, hx⟩ := inv.edge j hj
        exact ⟨i, keep i (keep0 i hi), hx⟩
    · exact ⟨j0, hj2, x, hx, hl, ht⟩

theorem comm_loop_spec (ktn : Network) (ex : ℚ → ℚ) (rate : ℚ) (maxsz : Int)
    (hids : ktn.ids_ok) (hch : ktn.chains_ok) :
    ∀ (fuel : Nat) (s : CommState) (nv : Int), CInv ktn s → (maxsz - nv).toNat ≤ fuel →
      ∃ labels q, comm_loop ktn ex rate maxsz fuel s nv = Except.ok labels ∧
        CInv ktn { labels := labels, queue := q } ∧
        (∀ k : Nat, s.labels[k]? = some 2 → labels[k]? = some 2) ∧
        (∀ j : Nat, s.queue.head? = some ((j : Int) + 1) → nv < maxsz →
          labels[j]? = some 2) := by
  intro fuel
  induction fuel with
  | zero =>
    intro s nv inv hf
    have hnv : ¬ nv < maxsz := by omega
    refine ⟨s.labels, s.queue, ?_, inv, fun k h => h, fun j _ h => absurd h hnv⟩
    unfold comm_loop
    cases s.queue <;> simp [hnv]
  | succ fuel ih =>
    intro s nv inv hf
    unfold comm_loop
    cases hq : s.queue with
    | nil => exact ⟨s.labels, s.queue, rfl, inv, fun k h => h, fun j h => by simp [hq] at h⟩
    | cons id q =>
      simp only
      by_cases hnv : nv < maxsz
      · rw [if_pos hnv]
        obtain ⟨j0, hj0, hid⟩ := inv.queue id (by rw [hq]; exact List.mem_cons_self _ _)
        have hjl : j0 < s.labels.length := by rw [inv.length]; exact hj0
        have hkey : id - 1 = (j0 : Int) := by omega
        have hns : ktn.nodes[j0]? = some ktn.nodes[j0] := List.getElem?_eq_getElem hj0
        have hchain : ktn.chain j0 = (ktn.nodes[j0]).top_from := by simp [Network.chain, hns]
        rw [hkey, vec_set_nat _ _ _ hjl, vec_get_some _ _ _ hns]
        simp only
        obtain ⟨s2, r2, g2⟩ := comm_walk_spec ktn ex rate hids (ktn.chain j0)
          { labels := s.labels.set j0 2, queue := q } (by simp [inv.length])
          (fun x hx => hch j0 hj0 x hx)
        rw [← hchain, r2]
        simp only
        obtain ⟨inv2, k2, hj2⟩ := comm_pop_inv inv
          (fun i hi => by rw [hq]; exact List.mem_cons_of_mem _ hi) hj0 g2
        obtain ⟨labels, q', r3, inv3, k3, -⟩ := ih s2 (nv + 1) inv2 (by omega)
        refine ⟨labels, q', r3, inv3, fun k hk => k3 k (k2 k hk), ?_⟩
        intro j hj _
        simp only [List.head?_cons, Option.some.injEq] at hj
        have : j = j0 := by omega
        subst this
        exact k3 j hj2
      · rw [if_neg hnv]
        exact ⟨s.labels, s.queue, rfl, inv, fun k h => h, fun j _ h => absurd h hnv⟩

theorem comm_loop_taken (ktn : Network) (ex : ℚ → ℚ) (rate : ℚ) (maxsz : Int)
    (hids : ktn.ids_ok) (hch : ktn.chains_ok) :
    ∀ (fuel : Nat) (s : CommState) (nv : Int), CInv ktn s → (maxsz - nv).toNat ≤ fuel →
      ∃ labels, comm_loop ktn ex rate maxsz fuel s nv = Except.ok labels ∧
        (∀ k : Nat, labels[k]? = some 2 ↔
          (s.labels[k]? = some 2 ∨ ((k : Int) + 1) ∈ comm_taken ktn ex rate maxsz fuel s nv)) ∧
        ((comm_taken ktn ex rate maxsz fuel s nv).length : Int) ≤ max (maxsz - nv) 0 ∧
        (nv < maxsz → (comm_taken ktn ex rate maxsz fuel s nv).head? = s.queue.head?) := by
  intro fuel
  induction fuel with
  | zero =>
    intro s nv inv hf
    have hnv : ¬ nv < maxsz := by omega
    refine ⟨s.labels, ?_, ?_, ?_, fun h => absurd h hnv⟩
    · unfold comm_loop
      cases s.queue <;> simp [hnv]
    · intro k
      simp [comm_taken]
    · simp [comm_taken]
  | succ fuel ih =>
    intro s nv inv hf
    unfold comm_loop comm_taken
    cases hq : s.queue with
    | nil =>
      refine ⟨s.labels, rfl, ?_, ?_, fun _ => rfl⟩
      · intro k
        simp
      · simp
    | cons id q =>
      simp only
      by_cases hnv : nv < maxsz
      · rw [if_pos hnv, if_pos hnv]
        obtain ⟨j0, hj0, hid⟩ := inv.queue id (by rw [hq]; exact List.mem_cons_self _ _)
        have hjl : j0 < s.labels.length := by rw [inv.length]; exact hj0
        have hkey : id - 1 = (j0 : Int) := by omega
        have hns : ktn.nodes[j0]? = some ktn.nodes[j0] := List.getElem?_eq_getElem hj0
        have hchain : ktn.chain j0 = (ktn.nodes[j0]).top_from := by simp [Network.chain, hns]
        rw [hkey, vec_set_nat _ _ _ hjl, vec_get_some _ _ _ hns]
        simp only
        obtain ⟨s2, r2, g2⟩ := comm_walk_spec ktn ex rate hids (ktn.chain j0)
          { labels := s.labels.set j0 2, queue := q } (by simp [inv.length])
          (fun x hx => hch j0 hj0 x hx)
        rw [← hchain, r2]
        simp only
        obtain ⟨inv2, k2, hj2⟩ := comm_pop_inv inv
          (fun i hi => by rw [hq]; exact List.mem_cons_of_mem _ hi) hj0 g2
        obtain ⟨labels, r3, iff3, len3, -⟩ := ih s2 (nv + 1) inv2 (by omega)
        have h1 : ∀ k : Nat,
            (s.labels.set j0 2)[k]? = if k = j0 then some 2 else s.labels[k]? := by
          intro k
          by_cases hk : k = j0
          · subst hk
            simp [List.getElem?_set, hjl]
          · have : ¬ j0 = k := fun h => hk h.symm
            simp [List.getElem?_set_ne this, hk]
        have h2 : ∀ k : Nat, s2.labels[k]? = some 2 ↔ (s.labels[k]? = some 2 ∨ k = j0) := by
          intro k
          constructor
          · intro hk
            rcases g2.labels k with h | ⟨-, h, -⟩
            · rw [h, h1 k] at hk
              split_ifs at hk with hkj
              · exact Or.inr hkj
              · exact Or.inl hk
            · rw [h] at hk
              simp at hk
          · rintro (hk | hk)
            · exact k2 k hk
            · rw [hk]
              exact hj2
        refine ⟨labels, r3, ?_, ?_, fun _ => rfl⟩
        · intro k
          rw [iff3 k, h2 k, List.mem_cons]
          have : ((k : Int) + 1 = id) ↔ k = j0 := by omega
          rw [this]
          tauto
        · simp only [List.length_cons, Nat.cast_add, Nat.cast_one]
          omega
      · rw [if_neg hnv, if_neg hnv]
        refine ⟨s.labels, rfl, ?_, ?_, fun h => absurd h hnv⟩
        · intro k
          simp
        · simp

/-- C22, as the claim states it, fails: on `demo_ktn`, started at node 0 with every
rate above the threshold and at most two nodes, `find_comm_onthefly` labels the two
nodes grown into the community (nodes 0 and 1) with 2 and the node on its boundary
(node 2) with 3; no label is 1. -/
theorem C22_counterexample :
    find_comm_onthefly demo_ktn (fun _ => 1) (some 0) (1 / 2) 2 = Except.ok [2, 2, 3, 0] := by
  decide!

/-- C22, amended: for every network whose node at position `i` has id `i+1` (and whose
chains hold edges of the network with live edges pointing at nodes of the network),
every start node, rate threshold and size bound, `find_comm_onthefly` returns a vector
with one label per node, each 0, 2 or 3; the nodes labelled 2 are exactly the nodes
taken from the queue, the nodes grown into the community: at most `maxsz` of them, the
first of which, when the size bound is positive, is the start node; the target of every
live edge of a node labelled 2 is labelled 2 or 3; and every node labelled 3 is the
target of a live edge of a node labelled 2. -/
theorem C22_comm_labels (ktn : Network) (ex : ℚ → ℚ) (p : Nat) (rate : ℚ) (maxsz : Int)
    (hsize : ktn.n_nodes = ktn.nodes.length) (hids : ktn.ids_ok) (hch : ktn.chains_ok)
    (hp : p < ktn.nodes.length) :
    ∃ labels, find_comm_onthefly ktn ex (some p) rate maxsz = Except.ok labels ∧
      labels.length = ktn.n_nodes ∧ (∀ v ∈ labels, v = 0 ∨ v = 2 ∨ v = 3) ∧
      (∀ j : Nat, labels[j]? = some 2 ↔
        ((j : Int) + 1) ∈ find_comm_taken ktn ex (some p) rate maxsz) ∧
      ((find_comm_taken ktn ex (some p) rate maxsz).length : Int) ≤ max maxsz 0 ∧
      (0 < maxsz → (find_comm_taken ktn ex (some p) rate maxsz).head? = some ((p : Int) + 1) ∧
        labels[p]? = some 2) ∧
      (∀ i, labels[i]? = some 2 → ∀ x ∈ ktn.chain i, ktn.live x = true →
        ∃ j, ktn.target x = some j ∧ (labels[j]? = some 2 ∨ labels[j]? = some 3)) ∧
      (∀ j, labels[j]? = some 3 →
        ∃ i, labels[i]? = some 2 ∧
          ∃ x ∈ ktn.chain i, ktn.live x = true ∧ ktn.target x = some j) := by
  have hns : ktn.nodes[p]? = some ktn.nodes[p] := List.getElem?_eq_getElem hp
  have hid : (ktn.nodes[p]).node_id = (p : Int) + 1 := by
    have := (node_key hids hp).2
    omega
  have inv0 : CInv ktn { labels := List.replicate ktn.n_nodes 0,
                         queue := [(ktn.nodes[p]).node_id] } := by
    refine ⟨by simp [hsize], ?_, ?_, ?_, ?_⟩
    · intro k v hv
      simp only [List.getElem?_replicate] at hv
      split_ifs at hv
      simp only [Option.some.injEq] at hv
      omega
    · intro id h
      simp only [List.mem_singleton] at h
      exact ⟨p, hp, by omega⟩
    · intro i hi
      simp only [List.getElem?_replicate] at hi
      split_ifs at hi
      simp at hi
    · intro j hj
      simp only [List.getElem?_replicate] at hj
      split_ifs at hj
      simp at hj
  obtain ⟨labels, q, r, inv, -, hhead⟩ :=
    comm_loop_spec ktn ex rate maxsz hids hch maxsz.toNat _ 0 inv0 (by omega)
  obtain ⟨labels', r', hiff, hlen, hfirst⟩ :=
    comm_loop_taken ktn ex rate maxsz hids hch maxsz.toNat _ 0 inv0 (by omega)
  have hl : labels' = labels := by
    rw [r] at r'
    exact (Except.ok.inj r').symm
  subst hl
  have htk : find_comm_taken ktn ex (some p) rate maxsz
      = comm_taken ktn ex rate maxsz maxsz.toNat
          { labels := List.replicate ktn.n_nodes 0, queue := [(ktn.nodes[p]).node_id] } 0 := by
    unfold find_comm_taken
    simp only [vec_get_some _ _ _ hns]
  rw [htk]
  refine ⟨labels', ?_, by rw [inv.length, hsize], ?_, ?_, ?_, ?_, inv.closed, inv.edge⟩
  · unfold find_comm_onthefly
    simp only [vec_get_some _ _ _ hns]
    exact r
  · intro v hv
    obtain ⟨k, hk, hkv⟩ := List.getElem_of_mem hv
    exact inv.vals k v (by rw [List.getElem?_eq_getElem hk, hkv])
  · intro j
    rw [hiff j]
    constructor
    · rintro (h | h)
      · simp only [List.getElem?_replicate] at h
        split_ifs at h
        simp at h
      · exact h
    · exact Or.inr
  · simpa using hlen
  · intro hm
    refine ⟨?_, hhead p (by simp [hid]) hm⟩
    rw [hfirst hm]
    simp [hid]

/-- C22, amended, on `demo_ktn`, started at node 0 with the threshold 1/2 and at most
two nodes: the ids taken from the queue are 1 and 2. -/
theorem C22_comm_labels_witness :
    find_comm_taken demo_ktn (fun _ => 1) (some 0) (1 / 2) 2 = [1, 2] ∧
    ∃ labels, find_comm_onthefly demo_ktn (fun _ => 1) (some 0) (1 / 2) 2 = Except.ok labels ∧
      labels.length = demo_ktn.n_nodes ∧ (∀ v ∈ labels, v = 0 ∨ v = 2 ∨ v = 3) ∧
      (∀ j : Nat, labels[j]? = some 2 ↔
        ((j : Int) + 1) ∈ find_comm_taken demo_ktn (fun _ => 1) (some 0) (1 / 2) 2) ∧
      ((find_comm_taken demo_ktn (fun _ => 1) (some 0) (1 / 2) 2).length : Int) ≤ max 2 0 ∧
      ((0 : Int) < 2 →
        (find_comm_taken demo_ktn (fun _ => 1) (some 0) (1 / 2) 2).head?
          = some (((0 : Nat) : Int) + 1) ∧ labels[0]? = some 2) ∧
      (∀ i, labels[i]? = some 2 → ∀ x ∈ demo_ktn.chain i, demo_ktn.live x = true →
        ∃ j, demo_ktn.target x = some j ∧ (labels[j]? = some 2 ∨ labels[j]? = some 3)) ∧
      (∀ j, labels[j]? = some 3 →
        ∃ i, labels[i]? = some 2 ∧
          ∃ x ∈ demo_ktn.chain i, demo_ktn.live x = true ∧ demo_ktn.target x = some j) :=
  ⟨by decide!, C22_comm_labels demo_ktn (fun _ => 1) 0 (1 / 2) 2 (by decide) (by decide)
    (by decide) (by decide)⟩

end Discotress
